import Mathlib

/-!
# Shorten decoder (libavcodec/shorten.c): a shallow embedding

The definitions follow `src/libavcodec/shorten.c` function by function.  The
decoder state `ShortenContext` is passed explicitly; the bit reader
`GetBitContext`, which the C code keeps inside the context, is threaded as a
separate value because every decode pass re-initialises it.

Conventions
* `int32_t` / `int` sample arithmetic is carried out in `Int` and reduced with
  `wrap32` after every operation (two's complement wrap-around).
* `unsigned` results of the Rice reader are reduced modulo `2^32` where the C
  code stores them in an `unsigned int`, and converted with `to_int` where it
  stores them in an `int`.
* Memory allocation (`av_realloc`, `av_fast_realloc`, `get_buffer`) always
  succeeds; freshly allocated cells read as `0`.
* The pending input `bitstream` is the logical content
  `bitstream[bitstream_index ..< bitstream_index + bitstream_size]` of the C
  buffer, so `bitstream_size` is its length.
* A result of `none` stands for a call that does not return.
-/

namespace Shorten

/-! ## Machine integers -/

/-- Two's complement reduction of an integer to the signed 32-bit range. -/
def wrap32 (x : Int) : Int := (x + 2147483648) % 4294967296 - 2147483648

/-- Conversion of an unsigned value to a C `int` (implementation-defined
wrap): the value modulo `2^32`, read as a two's complement number. -/
def to_int (u : Nat) : Int :=
  if u % 4294967296 < 2147483648 then ((u % 4294967296 : Nat) : Int)
  else ((u % 4294967296 : Nat) : Int) - 4294967296

/-- Conversion of a value to a C `short` (used for `wave_format`): the value
modulo `2^16`, read as a two's complement number. -/
def to_short (u : Nat) : Int :=
  if u % 65536 < 32768 then ((u % 65536 : Nat) : Int) else ((u % 65536 : Nat) : Int) - 65536

/-- Arithmetic right shift of a C `int` (`>>` on a signed operand rounds to minus infinity). -/
def asr (x : Int) (n : Nat) : Int := x / (2 : Int) ^ n

/-- Left shift of a 32-bit value with wrap-around (`<<=` on `int32_t`). -/
def shl32 (x : Int) (n : Nat) : Int := wrap32 (x * (2 : Int) ^ n)

/-! ## Constants of shorten.c -/

def MAX_CHANNELS : Nat := 8
def MAX_BLOCKSIZE : Nat := 65535
def OUT_BUFFER_SIZE : Int := 16384
def ULONGSIZE : Nat := 2
def WAVE_FORMAT_PCM : Int := 1
def DEFAULT_BLOCK_SIZE : Nat := 256
def TYPESIZE : Nat := 4
def CHANSIZE : Nat := 0
def LPCQSIZE : Nat := 2
def ENERGYSIZE : Nat := 3
def BITSHIFTSIZE : Nat := 2
def TYPE_S16HL : Int := 3
def TYPE_S16LH : Int := 5
def NWRAP : Int := 3
def NSKIPSIZE : Nat := 1
def LPCQUANT : Nat := 5
def V2LPCQOFFSET : Int := 32
def FNSIZE : Nat := 2
def FN_DIFF0 : Int := 0
def FN_DIFF1 : Int := 1
def FN_DIFF2 : Int := 2
def FN_DIFF3 : Int := 3
def FN_QUIT : Int := 4
def FN_BLOCKSIZE : Int := 5
def FN_BITSHIFT : Int := 6
def FN_QLPC : Int := 7
def FN_ZERO : Int := 8
def FN_VERBATIM : Int := 9
def VERBATIM_CKSIZE_SIZE : Nat := 5
def VERBATIM_BYTE_SIZE : Nat := 8
def CANONICAL_HEADER_SIZE : Int := 44

/-- The table `is_audio_command[10]`. -/
def is_audio_command : List Nat := [1, 1, 1, 1, 0, 0, 0, 1, 1, 0]

/-- The table `fixed_coeffs[3][3]`. -/
def fixed_coeffs : List (List Int) := [[1, 0, 0], [2, -1, 0], [3, -3, 1]]

/-- Modelled from the spec: the error codes of libavutil/error.h, which are
"distinguished negative values"; the numeric values are those of the
`AVERROR` tags on a POSIX system. -/
def AVERROR_INVALIDDATA : Int := -1094995529

/-- Modelled from the spec: the "unsupported" error code (libavutil/error.h). -/
def AVERROR_PATCHWELCOME : Int := -1163346256

/-- Modelled from the spec: `AVERROR(EINVAL)`, the invalid-argument error code. -/
def AVERROR_EINVAL : Int := -22

/-- Modelled from the spec: `AVERROR(ENOSYS)`, the unsupported-format error code. -/
def AVERROR_ENOSYS : Int := -38

/-! ## Bit cursor (get_bits.h) -/

/-- The bit reader: a byte buffer, the read position in bits and the buffer
length in bits. -/
structure GetBitContext where
  buffer : List Nat
  index : Nat
  size_in_bits : Nat
deriving DecidableEq, Repr

/-- Modelled from the spec: `init_get_bits` of get_bits.h, which positions a
Bit Cursor at the start of a byte buffer of the given length in bits. -/
def init_get_bits (buffer : List Nat) (bit_size : Nat) : GetBitContext :=
  { buffer := buffer, index := 0, size_in_bits := bit_size }

/-- Bit `i` of a byte buffer, most significant bit of each byte first; bits
beyond the buffer read as `0`. -/
def bit_at (buffer : List Nat) (i : Nat) : Nat :=
  (buffer.getD (i / 8) 0 >>> (7 - i % 8)) % 2

/-- The value of the `n` bits starting at bit `i`, most significant first. -/
def bits_value (buffer : List Nat) (i : Nat) : Nat → Nat
  | 0 => 0
  | n + 1 => bits_value buffer i n * 2 + bit_at buffer (i + n)

/-- Modelled from the spec: `get_bits` / `get_bits_long` of get_bits.h
(`read_bits(n)`: "returns the next n bits as an unsigned integer, advancing
position").  The position advances even past the end of the buffer, which is
what the overread check of `shorten_decode_frame` observes. -/
def get_bits (gb : GetBitContext) (n : Nat) : Nat × GetBitContext :=
  (bits_value gb.buffer gb.index n, { gb with index := gb.index + n })

/-- Modelled from the spec: `skip_bits` of get_bits.h (`skip_bits(n)`). -/
def skip_bits (gb : GetBitContext) (n : Nat) : GetBitContext :=
  { gb with index := gb.index + n }

/-- Modelled from the spec: `get_bits_count` of get_bits.h ("report bits consumed"). -/
def get_bits_count (gb : GetBitContext) : Nat := gb.index

/-- Modelled from the spec: `get_bits_left` of get_bits.h (`bits_remaining()`),
negative once the cursor is past the end. -/
def get_bits_left (gb : GetBitContext) : Int := (gb.size_in_bits : Int) - (gb.index : Int)

/-! ## Rice/Golomb codec (golomb.h) -/

/-- Number of zero bits from bit `i` up to the first one bit, scanning at most
`fuel` bits (the scan stops at the end of the buffer). -/
def count_zeros (buffer : List Nat) (i : Nat) : Nat → Nat
  | 0 => 0
  | fuel + 1 => if bit_at buffer i = 1 then 0 else count_zeros buffer (i + 1) fuel + 1

/-- Modelled from the spec: `get_ur_golomb_shorten` of golomb.h
(`read_unsigned(k)`: "counts leading zero bits up to (and consuming) the first
one bit, call that count q, then reads k more bits as r; result = q·2^k + r"). -/
def get_ur_golomb_shorten (gb : GetBitContext) (k : Nat) : Nat × GetBitContext :=
  let q := count_zeros gb.buffer gb.index (gb.size_in_bits - gb.index)
  (q * 2 ^ k + bits_value gb.buffer (gb.index + q + 1) k,
   { gb with index := gb.index + q + 1 + k })

/-- The even/odd split of the spec: "even → value/2 positive, odd → −(value+1)/2 negative". -/
def fold_signed (u : Nat) : Int :=
  if u % 2 = 0 then ((u / 2 : Nat) : Int) else -(((u + 1) / 2 : Nat) : Int)

/-- Modelled from the spec: `get_sr_golomb_shorten` of golomb.h
(`read_signed(k)`: "read an unsigned value with parameter k then fold it to
signed via even/odd split").  The parameter is a C `int`; a negative one reads
no remainder bits. -/
def get_sr_golomb_shorten (gb : GetBitContext) (k : Int) : Int × GetBitContext :=
  let r := get_ur_golomb_shorten gb k.toNat
  (fold_signed r.1, r.2)

/-- Modelled from the spec: `av_log2` of libavutil (position of the highest set
bit), used as the bit-width hint for block sizes. -/
def av_log2 (v : Nat) : Nat := Nat.log2 v

/-- Modelled from the spec: `av_clip_int16` of libavutil/common.h ("clipping
must saturate to the signed 16-bit range, not wrap"). -/
def av_clip_int16 (a : Int) : Int :=
  if a < -32768 then -32768 else if a > 32767 then 32767 else a

/-! ## Byte reader (bytestream.h) -/

/-- The byte reader used on the embedded header blob. -/
structure GetByteContext where
  buffer : List Nat
  pos : Nat
deriving DecidableEq, Repr

/-- Modelled from the spec: `bytestream2_init` of bytestream.h. -/
def bytestream2_init (buf : List Nat) (buf_size : Nat) : GetByteContext :=
  { buffer := buf.take buf_size, pos := 0 }

/-- Little-endian value of the `n` bytes at position `p`. -/
def le_value (buffer : List Nat) (p : Nat) : Nat → Nat
  | 0 => 0
  | n + 1 => buffer.getD p 0 % 256 + 256 * le_value buffer (p + 1) n

/-- Modelled from the spec: `bytestream2_get_le32` of bytestream.h ("4-byte
little-endian"); a read with fewer than four bytes left yields `0` and does
not move. -/
def bytestream2_get_le32 (g : GetByteContext) : Nat × GetByteContext :=
  if g.buffer.length - g.pos < 4 then (0, g)
  else (le_value g.buffer g.pos 4, { g with pos := g.pos + 4 })

/-- Modelled from the spec: `bytestream2_get_le16` of bytestream.h ("2-byte
little-endian"); a read with fewer than two bytes left yields `0` and does
not move. -/
def bytestream2_get_le16 (g : GetByteContext) : Nat × GetByteContext :=
  if g.buffer.length - g.pos < 2 then (0, g)
  else (le_value g.buffer g.pos 2, { g with pos := g.pos + 2 })

/-- Modelled from the spec: `bytestream2_skip` of bytestream.h ("skipped"); the
skip stops at the end of the buffer. -/
def bytestream2_skip (g : GetByteContext) (size : Nat) : GetByteContext :=
  { g with pos := g.pos + min (g.buffer.length - g.pos) size }

/-- Modelled from the spec: `MKTAG(a, b, c, d)`, the little-endian tag of four characters. -/
def MKTAG (a b c d : Char) : Nat :=
  a.toNat + 256 * b.toNat + 65536 * c.toNat + 16777216 * d.toNat

/-! ## Decoder state -/

/-- The fields of `AVCodecContext` written by the decoder. -/
structure AVCodecContext where
  channels : Nat
  sample_rate : Int
  bits_per_coded_sample : Int
deriving DecidableEq, Repr

/-- The decoder context `ShortenContext`.  `decoded[chan]` is
`decoded_base[chan] + nwrap`, so `decoded[chan][i]` is element `nwrap + i` of
`decoded_base[chan]`. -/
structure ShortenContext where
  avctx : AVCodecContext
  max_framesize : Nat
  channels : Nat
  decoded_base : List (List Int)
  offset : List (List Int)
  coeffs : List Int
  bitstream : List Nat
  bitstream_index : Nat
  allocated_bitstream_size : Nat
  header_size : Int
  header : List Nat
  version : Nat
  cur_chan : Nat
  bitshift : Int
  nmean : Int
  internal_ftype : Int
  nwrap : Nat
  blocksize : Nat
  bitindex : Nat
  lpcqoffset : Int
  got_header : Bool
  got_quit_command : Bool
deriving DecidableEq, Repr

/-- The length of the pending input (`s->bitstream_size`). -/
def ShortenContext.bitstream_size (s : ShortenContext) : Nat := s.bitstream.length

/-- The context after `shorten_decode_init`: the private data is zero-filled. -/
def shorten_decode_init : ShortenContext :=
  { avctx := { channels := 0, sample_rate := 0, bits_per_coded_sample := 0 },
    max_framesize := 0, channels := 0,
    decoded_base := List.replicate MAX_CHANNELS [],
    offset := List.replicate MAX_CHANNELS [],
    coeffs := [], bitstream := [], bitstream_index := 0,
    allocated_bitstream_size := 0, header_size := 0, header := [],
    version := 0, cur_chan := 0, bitshift := 0, nmean := 0,
    internal_ftype := 0, nwrap := 0, blocksize := 0, bitindex := 0,
    lpcqoffset := 0, got_header := false, got_quit_command := false }

/-- Resize of an array by `av_realloc`: the old content is kept up to the new
length, new cells read as `0`. -/
def realloc (old : List Int) (n : Nat) : List Int :=
  old.take n ++ List.replicate (n - old.length) 0

/-- Overwrite the first `n` cells of an array with `v`. -/
def fill_first (l : List Int) (n : Nat) (v : Int) : List Int :=
  List.replicate (min n l.length) v ++ l.drop n

/-- The channel loop of `allocate_buffers`, from channel `chan` on, for `n`
more channels. -/
def allocate_buffers_loop : Nat → Nat → ShortenContext → Int × ShortenContext
  | 0, _, s => (0, s)
  | n + 1, chan, s =>
    if max 1 s.nmean ≥ 1073741823 then (AVERROR_INVALIDDATA, s)
    else if (s.blocksize : Int) + s.nwrap ≥ 1073741823 ∨ s.blocksize + s.nwrap ≤ s.nwrap then
      (AVERROR_INVALIDDATA, s)
    else
      let off := realloc (s.offset.getD chan []) (max 1 s.nmean).toNat
      let base := fill_first (realloc (s.decoded_base.getD chan []) (s.blocksize + s.nwrap)) s.nwrap 0
      allocate_buffers_loop n (chan + 1)
        { s with offset := s.offset.set chan off, decoded_base := s.decoded_base.set chan base }

/-- The function `allocate_buffers`. -/
def allocate_buffers (s : ShortenContext) : Int × ShortenContext :=
  let r := allocate_buffers_loop s.channels 0 s
  if r.1 < 0 then r
  else (0, { r.2 with coeffs := realloc r.2.coeffs r.2.nwrap })

/-- The function `get_uint`: the adaptive unsigned read, an `unsigned int`. -/
def get_uint (s : ShortenContext) (gb : GetBitContext) (k : Nat) : Nat × GetBitContext :=
  if s.version ≠ 0 then
    let r := get_ur_golomb_shorten gb ULONGSIZE
    let v := get_ur_golomb_shorten r.2 (to_int r.1).toNat
    (v.1 % 4294967296, v.2)
  else
    let v := get_ur_golomb_shorten gb k
    (v.1 % 4294967296, v.2)

/-- The function `fix_bitshift`, applied to the block of `decoded[chan]` held
in `buffer` (a `decoded_base` array). -/
def fix_bitshift (s : ShortenContext) (buffer : List Int) : List Int :=
  if s.bitshift ≠ 0 then
    (List.range s.blocksize).foldl
      (fun b i => b.set (s.nwrap + i) (shl32 (b.getD (s.nwrap + i) 0) s.bitshift.toNat)) buffer
  else buffer

/-- The function `init_offset`. -/
def init_offset (s : ShortenContext) : Int × ShortenContext :=
  let nblock := (max 1 s.nmean).toNat
  if s.internal_ftype = TYPE_S16HL ∨ s.internal_ftype = TYPE_S16LH then
    let o := (List.range s.channels).foldl
      (fun o chan => o.set chan (fill_first (o.getD chan []) nblock 0)) s.offset
    (0, { s with offset := o })
  else (AVERROR_INVALIDDATA, s)

/-- The sub-chunk scan `while (bytestream2_get_le32(&gb) != MKTAG('f','m','t',' '))`
of `decode_wave_header`, run for at most `fuel` iterations; `none` when the
tag was not found within them. -/
def find_fmt : Nat → GetByteContext → Option GetByteContext
  | 0, _ => none
  | fuel + 1, g =>
    let t := bytestream2_get_le32 g
    if t.1 ≠ MKTAG 'f' 'm' 't' ' ' then
      let l := bytestream2_get_le32 t.2
      find_fmt fuel (bytestream2_skip l.2 l.1)
    else some t.2

/-- The function `decode_wave_header`.  An iteration of the scan that does not
find the tag either moves the reader by at least four bytes or leaves it
where it is for good, so `header_size / 4 + 1` iterations without the tag mean
that the loop of the C code never ends: the result is then `none`. -/
def decode_wave_header (avctx : AVCodecContext) (header : List Nat) (header_size : Nat) :
    Option (Int × AVCodecContext) :=
  let gb := bytestream2_init header header_size
  let riff := bytestream2_get_le32 gb
  if riff.1 ≠ MKTAG 'R' 'I' 'F' 'F' then some (AVERROR_INVALIDDATA, avctx)
  else
    let gb := bytestream2_skip riff.2 4
    let wave := bytestream2_get_le32 gb
    if wave.1 ≠ MKTAG 'W' 'A' 'V' 'E' then some (AVERROR_INVALIDDATA, avctx)
    else
      match find_fmt (header_size / 4 + 1) wave.2 with
      | none => none
      | some gb =>
        let len := bytestream2_get_le32 gb
        if to_int len.1 < 16 then some (AVERROR_INVALIDDATA, avctx)
        else
          let wave_format := bytestream2_get_le16 len.2
          if to_short wave_format.1 ≠ WAVE_FORMAT_PCM then some (AVERROR_ENOSYS, avctx)
          else
            let gb := bytestream2_skip wave_format.2 2
            let rate := bytestream2_get_le32 gb
            let gb := bytestream2_skip (bytestream2_skip rate.2 4) 2
            let bits := bytestream2_get_le16 gb
            let avctx := { avctx with sample_rate := to_int rate.1,
                                      bits_per_coded_sample := (bits.1 : Int) }
            if avctx.bits_per_coded_sample ≠ 16 then some (AVERROR_ENOSYS, avctx)
            else some (0, avctx)

/-- The function `interleave_buffer`; the samples written through `*samples++`
are returned in order.  `buffer[chan]` is the block of channel `chan`. -/
def interleave_buffer (nchan blocksize : Nat) (buffer : List (List Int)) : List Int :=
  (List.range blocksize).foldl
    (fun samples i =>
      (List.range nchan).foldl
        (fun samples chan => samples ++ [av_clip_int16 ((buffer.getD chan []).getD i 0)])
        samples)
    []

/-- The coefficient loop of `decode_subframe_lpc`: `n` more coefficients from index `i`. -/
def read_coeffs : Nat → Nat → List Int → GetBitContext → List Int × GetBitContext
  | 0, _, c, gb => (c, gb)
  | n + 1, i, c, gb =>
    let r := get_sr_golomb_shorten gb LPCQUANT
    read_coeffs n (i + 1) (c.set i (wrap32 r.1)) r.2

/-- The inner loop `sum += coeffs[j] * s->decoded[channel][i - j - 1]`, where
`p` is the position of sample `i` in the `decoded_base` array `d`. -/
def predict (coeffs d : List Int) (p pred_order : Nat) (init_sum : Int) : Int :=
  (List.range pred_order).foldl
    (fun sum j => wrap32 (sum + wrap32 (coeffs.getD j 0 * d.getD (p - j - 1) 0))) init_sum

/-- The sample loop of `decode_subframe_lpc`: `n` more samples from sample `i`. -/
def decode_samples (coeffs : List Int) (pred_order : Nat) (init_sum : Int) (qshift : Nat)
    (residual_size : Int) (nwrap : Nat) :
    Nat → Nat → List Int → GetBitContext → List Int × GetBitContext
  | 0, _, d, gb => (d, gb)
  | n + 1, i, d, gb =>
    let sum := predict coeffs d (nwrap + i) pred_order init_sum
    let r := get_sr_golomb_shorten gb residual_size
    decode_samples coeffs pred_order init_sum qshift residual_size nwrap n (i + 1)
      (d.set (nwrap + i) (wrap32 (r.1 + asr sum qshift))) r.2

/-- Add `v` (with wrap-around) to the `n` cells of `d` from position `p` on. -/
def add_range (d : List Int) (p n : Nat) (v : Int) : List Int :=
  (List.range n).foldl (fun d t => d.set (p + t) (wrap32 (d.getD (p + t) 0 + v))) d

/-- The function `decode_subframe_lpc`. -/
def decode_subframe_lpc (s : ShortenContext) (gb : GetBitContext) (command : Int)
    (channel : Nat) (residual_size : Int) (coffset : Int) :
    Int × ShortenContext × GetBitContext :=
  if command = FN_QLPC then
    let o := get_ur_golomb_shorten gb LPCQSIZE
    let pred_order := to_int o.1
    if pred_order > s.nwrap then (AVERROR_EINVAL, s, o.2)
    else
      let c := read_coeffs pred_order.toNat 0 s.coeffs o.2
      let d := s.decoded_base.getD channel []
      let d := if coffset ≠ 0 then
          add_range d (s.nwrap - pred_order.toNat) pred_order.toNat (-coffset) else d
      let init_sum := if pred_order ≠ 0 then s.lpcqoffset else coffset
      let r := decode_samples c.1 pred_order.toNat init_sum LPCQUANT residual_size s.nwrap
        s.blocksize 0 d c.2
      let d := if coffset ≠ 0 then add_range r.1 s.nwrap s.blocksize coffset else r.1
      (0, { s with coeffs := c.1, decoded_base := s.decoded_base.set channel d }, r.2)
  else
    let pred_order := command
    let coeffs := fixed_coeffs.getD (pred_order.toNat - 1) []
    let d := s.decoded_base.getD channel []
    let init_sum := if pred_order ≠ 0 then 0 else coffset
    let r := decode_samples coeffs pred_order.toNat init_sum 0 residual_size s.nwrap
      s.blocksize 0 d gb
    (0, { s with decoded_base := s.decoded_base.set channel r.1 }, r.2)

/-- The loop `s->header[i] = (char)get_ur_golomb_shorten(&s->gb, VERBATIM_BYTE_SIZE)`:
`n` more bytes appended to the bytes read so far. -/
def read_verbatim_header : Nat → List Nat → GetBitContext → List Nat × GetBitContext
  | 0, h, gb => (h, gb)
  | n + 1, h, gb =>
    let r := get_ur_golomb_shorten gb VERBATIM_BYTE_SIZE
    read_verbatim_header n (h ++ [r.1 % 256]) r.2

/-- The part "get blocksize if version > 0" of `read_header` (the block
`if (s->version > 0)`): the context, the reader and `maxnlpc` after it, or the
reader at the `return AVERROR(EINVAL)` for a bad block size. -/
def read_header_blocksize (s : ShortenContext) (gb : GetBitContext) :
    Except GetBitContext (ShortenContext × GetBitContext × Int) :=
  if s.version > 0 then
    let blocksize := get_uint s gb (av_log2 DEFAULT_BLOCK_SIZE)
    if blocksize.1 = 0 ∨ blocksize.1 > MAX_BLOCKSIZE then .error blocksize.2
    else
      let s := { s with blocksize := blocksize.1 }
      let maxnlpc := get_uint s blocksize.2 LPCQSIZE
      let nmean := get_uint s maxnlpc.2 0
      let s := { s with nmean := to_int nmean.1 }
      let skip_bytes := get_uint s nmean.2 NSKIPSIZE
      .ok (s, skip_bits skip_bytes.2 (8 * (to_int skip_bytes.1).toNat), to_int maxnlpc.1)
  else .ok (s, gb, 0)

/-- The end of `read_header`, from the check of the verbatim section on:
the header blob, `decode_wave_header` and the final assignments.  The field
`header` holds the `header_size` bytes that were stored in the array
`s->header`; the rest of that array is never read. -/
def read_header_verbatim (s : ShortenContext) (gb : GetBitContext) :
    Option (Int × ShortenContext × GetBitContext) :=
  let cmd := get_ur_golomb_shorten gb FNSIZE
  if cmd.1 % 4294967296 ≠ 9 then some (AVERROR_INVALIDDATA, s, cmd.2)
  else
    let size := get_ur_golomb_shorten cmd.2 VERBATIM_CKSIZE_SIZE
    let s := { s with header_size := to_int size.1 }
    if s.header_size ≥ OUT_BUFFER_SIZE ∨ s.header_size < CANONICAL_HEADER_SIZE then
      some (AVERROR_INVALIDDATA, s, size.2)
    else
      let h := read_verbatim_header s.header_size.toNat [] size.2
      let s := { s with header := h.1 }
      match decode_wave_header s.avctx s.header s.header_size.toNat with
      | none => none
      | some w =>
        if w.1 < 0 then some (w.1, { s with avctx := w.2 }, h.2)
        else some (0, { s with avctx := w.2, cur_chan := 0, bitshift := 0, got_header := true }, h.2)

/-- The middle of `read_header`: `nwrap`, `allocate_buffers`, `init_offset`
and `lpcqoffset`, followed by the verbatim section. -/
def read_header_buffers (s : ShortenContext) (gb : GetBitContext) (maxnlpc : Int) :
    Option (Int × ShortenContext × GetBitContext) :=
  let a := allocate_buffers { s with nwrap := (max NWRAP maxnlpc).toNat }
  if a.1 < 0 then some (a.1, a.2, gb)
  else
    let o := init_offset a.2
    if o.1 < 0 then some (o.1, o.2, gb)
    else if o.2.version > 1 then read_header_verbatim { o.2 with lpcqoffset := V2LPCQOFFSET } gb
    else read_header_verbatim o.2 gb

/-- The start of `read_header`, up to the channel count: the context and the
reader after it, or the state at the `return AVERROR_INVALIDDATA`. -/
def read_header_channels (s : ShortenContext) (gb : GetBitContext) :
    Except (ShortenContext × GetBitContext) (ShortenContext × GetBitContext) :=
  let magic := get_bits gb 32
  if magic.1 ≠ 0x616A6B67 then .error (s, magic.2)
  else
    let version := get_bits magic.2 8
    let s := { s with lpcqoffset := 0, blocksize := DEFAULT_BLOCK_SIZE, nmean := -1,
                      version := version.1 }
    let ftype := get_uint s version.2 TYPESIZE
    let s := { s with internal_ftype := to_int ftype.1 }
    let chans := get_uint s ftype.2 CHANSIZE
    if chans.1 = 0 then .error ({ s with channels := 0 }, chans.2)
    else if chans.1 > MAX_CHANNELS then .error ({ s with channels := 0 }, chans.2)
    else .ok ({ s with channels := chans.1, avctx := { s.avctx with channels := chans.1 } }, chans.2)

/-- The function `read_header`. -/
def read_header (s : ShortenContext) (gb : GetBitContext) :
    Option (Int × ShortenContext × GetBitContext) :=
  match read_header_channels s gb with
  | .error e => some (AVERROR_INVALIDDATA, e.1, e.2)
  | .ok c =>
    match read_header_blocksize c.1 c.2 with
    | .error gb => some (AVERROR_EINVAL, c.1, gb)
    | .ok p => read_header_buffers p.1 p.2.1 p.2.2

/-! ## shorten_decode_frame -/

/-- The packet handed to the decoder: `data` is `none` for the flush packet
(`avpkt->data == NULL`). -/
structure AVPacket where
  data : Option (List Nat)
deriving DecidableEq, Repr

/-- The field `avpkt->size`. -/
def AVPacket.size (avpkt : AVPacket) : Nat :=
  match avpkt.data with
  | none => 0
  | some d => d.length

/-- How a decode pass leaves the body of `shorten_decode_frame`: by a `return`
inside the pass, or by reaching the label `finish_frame` with the value of
`*got_frame_ptr` and the samples of the frame. -/
inductive PassExit where
  | ret (code : Int)
  | finish (got_frame : Bool) (frame : List Int)
deriving DecidableEq, Repr

/-- The result of a call: the returned value, `*got_frame_ptr` (which the
caller clears before the call), the samples of the output frame, and the
context after the call. -/
structure DecodeResult where
  ret : Int
  got_frame : Bool
  frame : List Int
  ctx : ShortenContext
deriving DecidableEq, Repr

/-- Modelled from the spec: `av_fast_realloc` of libavutil, which grows an
allocation on demand and never shrinks it; the result is the new allocated
size, `17 * min_size / 16 + 32` when the buffer has to grow. -/
def av_fast_realloc (size min_size : Nat) : Nat :=
  if min_size < size then size else max (17 * min_size / 16 + 32) min_size

/-- The offset `coffset` computed from the means of the previous blocks
("calculate sample offset using means from previous blocks"). -/
def sample_offset (s : ShortenContext) (channel : Nat) : Int :=
  let off := s.offset.getD channel []
  if s.nmean = 0 then off.getD 0 0
  else
    let sum0 : Int := if s.version < 2 then 0 else s.nmean.tdiv 2
    let sum := (List.range s.nmean.toNat).foldl (fun sum i => wrap32 (sum + off.getD i 0)) sum0
    let coffset := wrap32 (sum.tdiv s.nmean)
    if s.version ≥ 2 then asr coffset (min 1 s.bitshift).toNat else coffset

/-- The update of the means of channel `channel` from the block just decoded
("update means with info from the current block"). -/
def update_means (s : ShortenContext) (channel : Nat) : ShortenContext :=
  if s.nmean > 0 then
    let d := s.decoded_base.getD channel []
    let sum0 : Int := if s.version < 2 then 0 else ((s.blocksize / 2 : Nat) : Int)
    let sum := (List.range s.blocksize).foldl
      (fun sum i => wrap32 (sum + d.getD (s.nwrap + i) 0)) sum0
    let off := (List.range (s.nmean.toNat - 1)).foldl
      (fun o t => o.set t (o.getD (t + 1) 0)) (s.offset.getD channel [])
    let mean := wrap32 (sum.tdiv s.blocksize)
    let off := if s.version < 2 then off.set (s.nmean.toNat - 1) mean
      else off.set (s.nmean.toNat - 1) (shl32 mean s.bitshift.toNat)
    { s with offset := s.offset.set channel off }
  else s

/-- The loop `for (i = -s->nwrap; i < 0; i++) decoded[i] = decoded[i + blocksize]`
on a `decoded_base` array ("copy wrap samples for use with next block"). -/
def copy_wrap (s : ShortenContext) (d : List Int) : List Int :=
  (List.range s.nwrap).foldl (fun d t => d.set t (d.getD (t + s.blocksize) 0)) d

/-- The blocks `decoded[chan]` (each `decoded_base[chan] + nwrap`) passed to
`interleave_buffer`. -/
def decoded (s : ShortenContext) : List (List Int) :=
  s.decoded_base.map (fun d => d.drop s.nwrap)

/-- The part "get Rice code for residual decoding" of the audio branch:
`residual_size` and the reader after it. -/
def read_residual_size (s : ShortenContext) (gb : GetBitContext) (cmd : Int) :
    Int × GetBitContext :=
  if cmd ≠ FN_ZERO then
    let r := get_ur_golomb_shorten gb ENERGYSIZE
    (if s.version = 0 then wrap32 (to_int r.1 - 1) else to_int r.1, r.2)
  else (0, gb)

/-- The part "decode samples for this channel" of the audio branch: the zero
fill for `FN_ZERO`, `decode_subframe_lpc` otherwise; the first component is the
value returned by `decode_subframe_lpc` (`0` for `FN_ZERO`). -/
def decode_channel (s : ShortenContext) (gb : GetBitContext) (cmd : Int) (channel : Nat)
    (residual_size coffset : Int) : Int × ShortenContext × GetBitContext :=
  if cmd = FN_ZERO then
    let d := (List.range s.blocksize).foldl (fun d i => d.set (s.nwrap + i) 0)
      (s.decoded_base.getD channel [])
    (0, { s with decoded_base := s.decoded_base.set channel d }, gb)
  else decode_subframe_lpc s gb cmd channel residual_size coffset

/-- The end of the audio branch: the means are updated, the wrap samples are
copied, `fix_bitshift` is applied and `s->cur_chan` is incremented. -/
def finish_channel (s : ShortenContext) (channel : Nat) : ShortenContext :=
  let s := update_means s channel
  let d := fix_bitshift s (copy_wrap s (s.decoded_base.getD channel []))
  { s with decoded_base := s.decoded_base.set channel d, cur_chan := s.cur_chan + 1 }

/-- The branch "process audio command" of the command loop, up to and
including `s->cur_chan++`; the first component is the value returned by
`decode_subframe_lpc` (negative on error). -/
def audio_command (s : ShortenContext) (gb : GetBitContext) (cmd : Int) :
    Int × ShortenContext × GetBitContext :=
  let rs := read_residual_size s gb cmd
  let r := decode_channel s rs.2 cmd s.cur_chan rs.1 (sample_offset s s.cur_chan)
  if r.1 < 0 then r
  else (0, finish_channel r.2.1 s.cur_chan, r.2.2)

/-- The loop `while (len--) get_ur_golomb_shorten(&s->gb, VERBATIM_BYTE_SIZE)`. -/
def skip_verbatim : Nat → GetBitContext → GetBitContext
  | 0, gb => gb
  | n + 1, gb => skip_verbatim n (get_ur_golomb_shorten gb VERBATIM_BYTE_SIZE).2

/-- How one iteration of the command loop ends: the loop is left (by `break`,
by `return`, or because its condition is false), or it goes round again. -/
inductive LoopStep where
  | exit (e : PassExit) (s : ShortenContext) (gb : GetBitContext)
  | next (s : ShortenContext) (gb : GetBitContext)
deriving DecidableEq, Repr

/-- The branch "process non-audio command" of the command loop (the `switch`
and the `break` for `FN_BLOCKSIZE` and `FN_QUIT` that follows it). -/
def non_audio_command (s : ShortenContext) (gb : GetBitContext) (cmd : Int) : LoopStep :=
  if cmd = FN_VERBATIM then
    let len := get_ur_golomb_shorten gb VERBATIM_CKSIZE_SIZE
    .next s (skip_verbatim (len.1 % 4294967296) len.2)
  else if cmd = FN_BITSHIFT then
    let b := get_ur_golomb_shorten gb BITSHIFTSIZE
    .next { s with bitshift := to_int b.1 } b.2
  else if cmd = FN_BLOCKSIZE then
    let blocksize := get_uint s gb (av_log2 s.blocksize)
    if blocksize.1 > s.blocksize then .exit (.ret AVERROR_PATCHWELCOME) s blocksize.2
    else if blocksize.1 = 0 ∨ blocksize.1 > MAX_BLOCKSIZE then
      .exit (.ret AVERROR_EINVAL) s blocksize.2
    else .exit (.finish false []) { s with blocksize := blocksize.1 } blocksize.2
  else if cmd = FN_QUIT then .exit (.finish false []) { s with got_quit_command := true } gb
  else .next s gb

/-- The branch "process audio command" of the command loop with the output
of the frame: the iteration that completes the last channel produces the
frame and leaves the loop, since `cur_chan < channels` is then false. -/
def audio_step (s : ShortenContext) (gb : GetBitContext) (cmd : Int) : LoopStep :=
  let r := audio_command s gb cmd
  if r.1 < 0 then .exit (.ret r.1) r.2.1 r.2.2
  else if r.2.1.cur_chan = r.2.1.channels then
    .exit (.finish true (interleave_buffer r.2.1.channels r.2.1.blocksize (decoded r.2.1)))
      r.2.1 r.2.2
  else .next r.2.1 r.2.2

/-- The lookup `is_audio_command[cmd]`; an index below `0` reads as `0`. -/
def is_audio (cmd : Int) : Nat :=
  if cmd < 0 then 0 else is_audio_command.getD cmd.toNat 0

/-- One iteration of the command loop `while (s->cur_chan < s->channels)`,
together with the statement `if (s->cur_chan < s->channels) *got_frame_ptr = 0`
that follows the loop. -/
def command_step (s : ShortenContext) (gb : GetBitContext) : LoopStep :=
  if s.cur_chan < s.channels then
    if get_bits_left gb < 3 + FNSIZE then .exit (.finish false []) s gb
    else
      let c := get_ur_golomb_shorten gb FNSIZE
      let cmd := to_int c.1
      if cmd > FN_VERBATIM then .exit (.finish false []) s c.2
      else if is_audio cmd = 0 then non_audio_command s c.2 cmd
      else audio_step s c.2 cmd
  else .exit (.finish false []) s gb

/-- The command loop of `shorten_decode_frame`.  Every iteration that goes
round again has read a command, so the loop is run with one unit of `fuel`
per bit of the buffer; `none` only when the fuel is used up. -/
def command_loop : Nat → ShortenContext → GetBitContext →
    Option (PassExit × ShortenContext × GetBitContext)
  | 0, _, _ => none
  | fuel + 1, s, gb =>
    match command_step s gb with
    | .exit e s gb => some (e, s, gb)
    | .next s gb => command_loop fuel s gb

/-- The part of `shorten_decode_frame` between "init and position bitstream
reader" and the label `finish_frame`: header or next block. -/
def decode_pass (s : ShortenContext) (gb : GetBitContext) (avpkt_size : Nat) :
    Option (PassExit × ShortenContext × GetBitContext) :=
  if ¬ s.got_header then
    match read_header s gb with
    | none => none
    | some r => if r.1 < 0 then some (.ret r.1, r.2.1, r.2.2) else some (.finish false [], r.2.1, r.2.2)
  else if s.got_quit_command then some (.ret avpkt_size, s, gb)
  else command_loop (gb.size_in_bits + 1) { s with cur_chan := 0 } gb

/-- The code after the label `finish_frame`. -/
def finish_frame (s : ShortenContext) (gb : GetBitContext) (buf_size input_buf_size : Nat)
    (got_frame : Bool) (frame : List Int) : DecodeResult :=
  let s := { s with bitindex := get_bits_count gb - 8 * (get_bits_count gb / 8) }
  let i := get_bits_count gb / 8
  if i > buf_size then
    { ret := AVERROR_INVALIDDATA, got_frame := got_frame, frame := frame,
      ctx := { s with bitstream := [], bitstream_index := 0 } }
  else if s.bitstream_size ≠ 0 then
    { ret := input_buf_size, got_frame := got_frame, frame := frame,
      ctx := { s with bitstream_index := s.bitstream_index + i, bitstream := s.bitstream.drop i } }
  else { ret := i, got_frame := got_frame, frame := frame, ctx := s }

/-- The part "allocate internal bitstream buffer" of `shorten_decode_frame`. -/
def alloc_bitstream (s : ShortenContext) : ShortenContext :=
  if s.max_framesize = 0 then
    { s with max_framesize := 1024,
             allocated_bitstream_size := av_fast_realloc s.allocated_bitstream_size 1024 }
  else s

/-- The working frame-size cap of a call: the value of `s->max_framesize` after
the part "allocate internal bitstream buffer", which sets it to 1024 when it
is still 0. -/
def frame_cap (s : ShortenContext) : Nat :=
  if s.max_framesize = 0 then 1024 else s.max_framesize

/-- The value of `input_buf_size`, the number of packet bytes taken by the
call: `FFMIN(buf_size, s->max_framesize - s->bitstream_size)`. -/
def input_buf_size (s : ShortenContext) (avpkt : AVPacket) : Nat :=
  min avpkt.size (frame_cap s - s.bitstream_size)

/-- The `memmove` of the pending bytes to the start of the buffer when the
`buf_size` new bytes would not fit behind them. -/
def move_bitstream (s : ShortenContext) (buf_size : Nat) : ShortenContext :=
  if s.bitstream_index + s.bitstream_size + buf_size > s.allocated_bitstream_size then
    { s with bitstream_index := 0 }
  else s

/-- The `memcpy` of `buf_size` packet bytes behind the pending bytes (`if (buf)`)
and the assignment `s->bitstream_size = buf_size`. -/
def copy_packet (s : ShortenContext) (avpkt : AVPacket) (buf_size : Nat) : ShortenContext :=
  match avpkt.data with
  | some d => { s with bitstream := s.bitstream ++ d.take buf_size }
  | none => s

/-- The parts "allocate internal bitstream buffer" and "append current packet
data to bitstream buffer" of `shorten_decode_frame`, up to the assignment
`s->bitstream_size = buf_size`.  The guard `if (1 && s->max_framesize)` holds
in every call because of the allocation that precedes it. -/
def append_packet (s : ShortenContext) (avpkt : AVPacket) : ShortenContext :=
  copy_packet (move_bitstream (alloc_bitstream s) (input_buf_size s avpkt)) avpkt
    (input_buf_size s avpkt)

/-- The part "init and position bitstream reader": the reader over the pending
bytes, positioned at the bit offset saved by the previous pass. -/
def pass_reader (s : ShortenContext) : GetBitContext :=
  skip_bits (init_get_bits s.bitstream (s.bitstream_size * 8)) s.bitindex

/-- The decode pass of a call and the code after `finish_frame`, on the
context `s` that holds the appended packet bytes; `n` is `input_buf_size`. -/
def run_pass (s : ShortenContext) (avpkt_size n : Nat) : Option DecodeResult :=
  match decode_pass s (pass_reader s) avpkt_size with
  | none => none
  | some (.ret code, t, _) => some { ret := code, got_frame := false, frame := [], ctx := t }
  | some (.finish got_frame frame, t, gb) =>
    some (finish_frame t gb s.bitstream_size n got_frame frame)

/-- The function `shorten_decode_frame`: the packet bytes are appended; with
fewer bytes than `max_framesize` and a packet that is not the flush packet the
call returns at once ("do not decode until buffer has at least max_framesize
bytes or the end of the file has been reached"), otherwise a decode pass
runs. -/
def shorten_decode_frame (s : ShortenContext) (avpkt : AVPacket) : Option DecodeResult :=
  if (append_packet s avpkt).bitstream_size < (append_packet s avpkt).max_framesize ∧
      avpkt.data.isSome then
    some { ret := input_buf_size s avpkt, got_frame := false, frame := [],
           ctx := append_packet s avpkt }
  else run_pass (append_packet s avpkt) avpkt.size (input_buf_size s avpkt)
/-! ## Field groups used in the statements -/

/-- The buffer bookkeeping of the context, which no decode pass writes. -/
def buffer_fields (s : ShortenContext) : Nat × List Nat × Nat × Nat × Nat :=
  (s.max_framesize, s.bitstream, s.bitstream_index, s.allocated_bitstream_size, s.bitindex)

/-- The stream parameters set by `read_header`, which the command loop never writes. -/
def stream_fields (s : ShortenContext) :
    AVCodecContext × Nat × Int × List Nat × Nat × Int × Int × Nat × Int × Bool :=
  (s.avctx, s.channels, s.header_size, s.header, s.version, s.nmean, s.internal_ftype, s.nwrap,
   s.lpcqoffset, s.got_header)

/-- The fields that the audio branch of the command loop never writes. -/
def audio_fields (s : ShortenContext) :=
  (buffer_fields s, stream_fields s, s.blocksize, s.bitshift, s.got_quit_command)

/-- The fields of the context that the allocation of the channel buffers and
the end of `read_header` never write, `got_header` apart. -/
def header_fields (s : ShortenContext) :=
  (buffer_fields s, s.got_quit_command, s.blocksize, s.version)

/-- The frame condition of the command loop: the buffer bookkeeping and the
stream parameters are unchanged, the block size does not grow and stays
positive. -/
def LoopFrame (s t : ShortenContext) : Prop :=
  buffer_fields t = buffer_fields s ∧ stream_fields t = stream_fields s ∧
  t.blocksize ≤ s.blocksize ∧ (1 ≤ s.blocksize → 1 ≤ t.blocksize)

/-- The state of a loop step. -/
def LoopStep.state : LoopStep → ShortenContext
  | .exit _ s _ => s
  | .next s _ => s


/-- Successive calls of `shorten_decode_frame`, one per packet, each on the
context left by the call before it; the results in order, `none` when a call
does not return. -/
def decode_calls : ShortenContext → List AVPacket → Option (List DecodeResult)
  | _, [] => some []
  | s, p :: ps =>
    match shorten_decode_frame s p with
    | none => none
    | some r => (decode_calls r.ctx ps).map (fun rs => r :: rs)

/-! ## Concrete streams

All streams start with the magic "ajkg", version 2, type `TYPE_S16HL`, then the
channel count, the block size, `maxnlpc = 0`, `nmean = 0`, no skip bytes, and a
verbatim section holding the canonical 44-byte WAVE header (sample rate 44100,
16 bits per sample). -/

/-- Scenario A: one channel, block size 256; the header ends after 486 bits,
the last two bits are padding. -/
def scenario_a_stream : List Nat :=
  [97, 106, 107, 103, 2, 222, 229, 192, 38, 100, 171, 42, 84, 154, 53, 26, 73, 0, 128, 64, 42,
   244, 26, 181, 22, 205, 109, 186, 72, 34, 16, 8, 4, 2, 3, 0, 128, 192, 40, 154, 200, 4, 3, 17,
   88, 128, 192, 32, 80, 8, 132, 2, 201, 97, 186, 88, 96, 16, 8, 4, 0]

/-- The header of Scenario A followed by the command `FN_QUIT` (bits `0100`). -/
def quit_stream : List Nat := scenario_a_stream.take 60 ++ [1, 0]

/-- The header of Scenario A followed by the command id 12 (bits `000100`). -/
def unknown_command_stream : List Nat := scenario_a_stream.take 60 ++ [0, 64]

/-- The header of Scenario A followed by the command `FN_BITSHIFT` (bits `0110`)
and the bits `000001`, where the stream ends: the two remainder bits of the
shift value lie past the end. -/
def short_bitshift_stream : List Nat := scenario_a_stream.take 60 ++ [1, 129]

/-- Two channels, block size 4; the header ends after 479 bits and is followed by
a `FN_DIFF0` command with the residuals 1, 2, 3, 4, which ends with byte 63. -/
def stereo_stream_first : List Nat :=
  [97, 106, 107, 103, 2, 223, 111, 147, 50, 85, 149, 42, 77, 26, 141, 36, 128, 64, 32, 21, 122,
   13, 90, 139, 102, 182, 221, 36, 17, 8, 4, 2, 1, 1, 128, 64, 160, 20, 77, 100, 2, 1, 16, 216,
   192, 160, 16, 72, 4, 66, 1, 100, 176, 221, 44, 48, 8, 4, 2, 1, 37, 16, 130]

/-- The continuation of `stereo_stream_first`: a `FN_DIFF0` command with the
residuals 5, 6, 7, 8 (meant for the second channel) and `FN_QUIT`. -/
def stereo_stream_second : List Nat := [146, 8, 8, 4, 1, 32]

/-- The context left by feeding the packets, one call each, to a freshly
initialised decoder (the initial context when a call does not return). -/
def state_after (pkts : List AVPacket) : ShortenContext :=
  match (decode_calls shorten_decode_init pkts).bind List.getLast? with
  | some r => r.ctx
  | none => shorten_decode_init

/-- The context after the header of `unknown_command_stream` has been parsed: a
call with the data and a flush call. -/
def unknown_command_state : ShortenContext :=
  state_after [{ data := some unknown_command_stream }, { data := none }]

/-- The context after the header of `short_bitshift_stream` has been parsed: a
call with the data and a flush call; two bytes are still pending and the
reader stands at bit 6 of them. -/
def short_bitshift_state : ShortenContext :=
  state_after [{ data := some short_bitshift_stream }, { data := none }]

/-- The header of Scenario A followed by the command `FN_VERBATIM` (bits
`00101`) and the byte count 2 (bits `100010`), where the stream ends: both
bytes of the verbatim block lie past the end. -/
def short_verbatim_stream : List Nat := scenario_a_stream.take 60 ++ [0, 177, 0]

/-- The context after the header of `short_verbatim_stream` has been parsed. -/
def short_verbatim_state : ShortenContext :=
  state_after [{ data := some short_verbatim_stream }, { data := none }]

/-- The context after `stereo_stream_first` has been read: a call with the data,
a flush call that parses the header and a flush call that decodes the command
of the first channel, after which no bits are left. -/
def stereo_state : ShortenContext :=
  state_after [{ data := some stereo_stream_first }, { data := none }, { data := none }]

/-- The context and the reader at the end of the decode pass over the pending
bytes of `s` (those of `s` itself when the pass does not return). -/
def pass_end (s : ShortenContext) (avpkt_size : Nat) : ShortenContext × GetBitContext :=
  match decode_pass s (pass_reader s) avpkt_size with
  | some r => r.2
  | none => (s, pass_reader s)

/-- The result of a call (a result with the context unchanged when the call
does not return). -/
def call_result (s : ShortenContext) (avpkt : AVPacket) : DecodeResult :=
  match shorten_decode_frame s avpkt with
  | some r => r
  | none => { ret := 0, got_frame := false, frame := [], ctx := s }

/-- The context after both parts of the stereo stream have been given to the
decoder: `stereo_state` followed by a call with `stereo_stream_second`, whose
bytes are pending. -/
def stereo_state_second : ShortenContext :=
  state_after [{ data := some stereo_stream_first }, { data := none }, { data := none },
    { data := some stereo_stream_second }]

/-- The contexts that a decoder can be in: the initial context, and every
context left by a call of `shorten_decode_frame` on such a context. -/
inductive Reachable : ShortenContext → Prop
  | init : Reachable shorten_decode_init
  | call (s : ShortenContext) (avpkt : AVPacket) (r : DecodeResult) :
      Reachable s → shorten_decode_frame s avpkt = some r → Reachable r.ctx

/-- The header of Scenario A followed by the command `FN_BLOCKSIZE` (bits
`0101`) with the size 4 (bits `111` for the parameter 3, then `1100`). -/
def blocksize_stream : List Nat := scenario_a_stream.take 60 ++ [1, 126, 0]

/-- The context after the header of `blocksize_stream` has been parsed. -/
def blocksize_state : ShortenContext :=
  state_after [{ data := some blocksize_stream }, { data := none }]

/-- The sequence of the next `n` residuals in the bit stream: the values that
`n` successive calls of `get_sr_golomb_shorten` with parameter `k` return. -/
def residuals (k : Int) : Nat → GetBitContext → List Int
  | 0, _ => []
  | n + 1, gb => (get_sr_golomb_shorten gb k).1 :: residuals k n (get_sr_golomb_shorten gb k).2

/-- The sample `s->decoded[channel][i]`; `i` may be negative, down to `-nwrap`,
for the history carried over from the previous block. -/
def sample (s : ShortenContext) (channel : Nat) (i : Int) : Int :=
  (s.decoded_base.getD channel []).getD ((s.nwrap : Int) + i).toNat 0

/-- A state with one channel, a history of three samples `5, 7, 12` and room
for a block of four samples. -/
def fixed_state : ShortenContext :=
  { shorten_decode_init with
    channels := 1, nwrap := 3, blocksize := 4,
    decoded_base := [[5, 7, 12, 0, 0, 0, 0]] }

/-- A reader over three bytes of residual codes. -/
def fixed_reader : GetBitContext := init_get_bits [0xB5, 0x4C, 0xE3] 24

/-- The reader `g` is the reader `gb` moved forward by at least `n` bits: same
buffer, same length. -/
def Advanced (n : Nat) (gb g : GetBitContext) : Prop :=
  g.buffer = gb.buffer ∧ g.size_in_bits = gb.size_in_bits ∧ gb.index + n ≤ g.index

/-- The context and the reader after `n` iterations of the command loop that
all went round again; `none` when one of them left the loop. -/
def loop_iter : Nat → ShortenContext → GetBitContext → Option (ShortenContext × GetBitContext)
  | 0, s, gb => some (s, gb)
  | n + 1, s, gb =>
    match command_step s gb with
    | .exit _ _ _ => none
    | .next s gb => loop_iter n s gb

/-- The header of Scenario A followed by the command `FN_BITSHIFT` with the
shift 0 (bits `0110 100`) and the command `FN_BLOCKSIZE` (bits `0101`) with the
size 512, which is larger than the block size 256 of the header. -/
def growing_blocksize_stream : List Nat := scenario_a_stream.take 60 ++ [1, 162, 155, 0, 0]

/-- The context after the header of `growing_blocksize_stream` has been parsed. -/
def growing_blocksize_state : ShortenContext :=
  state_after [{ data := some growing_blocksize_stream }, { data := none }]

/-- The context and the reader after the first `n` commands of the flush pass
over the pending bytes of `s` (those at the start of the pass when one of the
commands leaves the loop). -/
def pass_end_iter (s : ShortenContext) (n : Nat) : ShortenContext × GetBitContext :=
  match loop_iter n { append_packet s { data := none } with cur_chan := 0 }
      (pass_reader (append_packet s { data := none })) with
  | some r => r
  | none => ({ append_packet s { data := none } with cur_chan := 0 },
      pass_reader (append_packet s { data := none }))

/-- The channel count that `read_header` decodes, and the reader after it: the
magic and the version byte are read, then the file type and the channel count
with `get_uint` (whose result depends on the context only through the version
just read). -/
def read_channel_count (s : ShortenContext) (gb : GetBitContext) : Nat × GetBitContext :=
  let version := get_bits (get_bits gb 32).2 8
  let s := { s with lpcqoffset := 0, blocksize := DEFAULT_BLOCK_SIZE, nmean := -1,
                    version := version.1 }
  let ftype := get_uint s version.2 TYPESIZE
  get_uint { s with internal_ftype := to_int ftype.1 } ftype.2 CHANSIZE

/-- The context and the reader with which `read_header` reaches the check of
the verbatim section, after the stream parameters have been read and the
buffers allocated; `none` when it returns before. -/
def verbatim_entry (s : ShortenContext) (gb : GetBitContext) :
    Option (ShortenContext × GetBitContext) :=
  match read_header_channels s gb with
  | .error _ => none
  | .ok c =>
    match read_header_blocksize c.1 c.2 with
    | .error _ => none
    | .ok p =>
      let a := allocate_buffers { p.1 with nwrap := (max NWRAP p.2.2).toNat }
      if a.1 < 0 then none
      else
        let o := init_offset a.2
        if o.1 < 0 then none
        else if o.2.version > 1 then some ({ o.2 with lpcqoffset := V2LPCQOFFSET }, p.2.1)
        else some (o.2, p.2.1)

/-- A stream of one channel whose header declares nine channels: magic,
version 2, type `TYPE_S16HL`, channel count 9. -/
def nine_channel_stream : List Nat := [97, 106, 107, 103, 2, 221, 50]

/-- The command id that `read_header` compares with `FN_VERBATIM`, as the
`unsigned` value returned by `get_ur_golomb_shorten`. -/
def verbatim_command (gb : GetBitContext) : Nat :=
  (get_ur_golomb_shorten gb FNSIZE).1 % 4294967296

/-- The byte count of the verbatim section as stored in `s->header_size` (an
`int`), read behind the command id. -/
def verbatim_size (gb : GetBitContext) : Int :=
  to_int (get_ur_golomb_shorten (get_ur_golomb_shorten gb FNSIZE).2 VERBATIM_CKSIZE_SIZE).1

/-- The stream parameters of Scenario A followed by the command `FN_VERBATIM`
and the byte count 43, one less than the canonical header size. -/
def short_header_stream : List Nat := [97, 106, 107, 103, 2, 222, 229, 192, 38, 100, 170, 192]

/-- The context with which `read_header`, run on a fresh decoder over the bytes
`stream`, reaches the verbatim check (the initial context when it returns
before). -/
def entry_state (stream : List Nat) : ShortenContext :=
  match verbatim_entry shorten_decode_init (init_get_bits stream (8 * stream.length)) with
  | some e => e.1
  | none => shorten_decode_init

/-- The reader with which `read_header`, run on a fresh decoder over the bytes
`stream`, reaches the verbatim check. -/
def entry_reader (stream : List Nat) : GetBitContext :=
  match verbatim_entry shorten_decode_init (init_get_bits stream (8 * stream.length)) with
  | some e => e.2
  | none => init_get_bits stream (8 * stream.length)

/-- The canonical 44-byte WAVE header of the concrete streams: sample rate
44100, one channel, 16 bits per sample. -/
def canonical_header : List Nat :=
  [82, 73, 70, 70, 36, 0, 0, 0, 87, 65, 86, 69, 102, 109, 116, 32, 16, 0, 0, 0, 1, 0, 1, 0,
   68, 172, 0, 0, 136, 88, 1, 0, 2, 0, 16, 0, 100, 97, 116, 97, 0, 0, 0, 0]

/-- The canonical header with the length of the `fmt ` sub-chunk changed to
`0x80000000` (bytes 16 to 19). -/
def long_fmt_header : List Nat :=
  [82, 73, 70, 70, 36, 0, 0, 0, 87, 65, 86, 69, 102, 109, 116, 32, 0, 0, 0, 128, 1, 0, 1, 0,
   68, 172, 0, 0, 136, 88, 1, 0, 2, 0, 16, 0, 100, 97, 116, 97, 0, 0, 0, 0]

/-- The codec context fields before a header has been parsed. -/
def avctx_init : AVCodecContext := { channels := 1, sample_rate := 0, bits_per_coded_sample := 0 }

/-- The reader at the `fmt ` sub-chunk, right behind its tag, as found by the
sub-chunk scan of `decode_wave_header`, which starts behind the "WAVE" tag;
`none` when the scan does not end. -/
def fmt_chunk (header : List Nat) (header_size : Nat) : Option GetByteContext :=
  find_fmt (header_size / 4 + 1)
    (bytestream2_get_le32
      (bytestream2_skip (bytestream2_get_le32 (bytestream2_init header header_size)).2 4)).2

/-- The length of the `fmt ` sub-chunk as `decode_wave_header` reads it into
the `int len`, with the reader `g` right behind the tag. -/
def fmt_length (g : GetByteContext) : Int := to_int (bytestream2_get_le32 g).1

/-- The format code of the `fmt ` sub-chunk as read into the `short wave_format`. -/
def fmt_format (g : GetByteContext) : Int :=
  to_short (bytestream2_get_le16 (bytestream2_get_le32 g).2).1

/-- The reader of `decode_wave_header` behind the format code and the two
skipped bytes of the channel count, where the sample rate is read. -/
def fmt_rate_reader (g : GetByteContext) : GetByteContext :=
  bytestream2_skip (bytestream2_get_le16 (bytestream2_get_le32 g).2).2 2

/-- The bits-per-sample field of the `fmt ` sub-chunk as read by
`decode_wave_header`. -/
def fmt_bits (g : GetByteContext) : Nat :=
  (bytestream2_get_le16
    (bytestream2_skip (bytestream2_skip (bytestream2_get_le32 (fmt_rate_reader g)).2 4) 2)).1

/-- The canonical header with the RIFF tag damaged (`RIFX`). -/
def bad_riff_header : List Nat :=
  [82, 73, 70, 88, 36, 0, 0, 0, 87, 65, 86, 69, 102, 109, 116, 32, 16, 0, 0, 0, 1, 0, 1, 0,
   68, 172, 0, 0, 136, 88, 1, 0, 2, 0, 16, 0, 100, 97, 116, 97, 0, 0, 0, 0]

/-- The canonical header with 8 bits per sample. -/
def eight_bit_header : List Nat :=
  [82, 73, 70, 70, 36, 0, 0, 0, 87, 65, 86, 69, 102, 109, 116, 32, 16, 0, 0, 0, 1, 0, 1, 0,
   68, 172, 0, 0, 136, 88, 1, 0, 2, 0, 8, 0, 100, 97, 116, 97, 0, 0, 0, 0]

/-- A reader over one byte that starts with the prediction order 5 (bits `0101`). -/
def order_five_reader : GetBitContext := init_get_bits [0x50] 8

/-- The context after the zero fill of the `FN_ZERO` branch for the current
channel (`decoded[channel][i] = 0` for the samples of the block). -/
def zero_filled (s : ShortenContext) : ShortenContext :=
  let d := (List.range s.blocksize).foldl (fun d i => d.set (s.nwrap + i) 0)
    (s.decoded_base.getD s.cur_chan [])
  { s with decoded_base := s.decoded_base.set s.cur_chan d }

/-- Scenario B: one channel, block size 4; the header ends after 478 bits and is
followed by one `FN_ZERO` command (bits `00100`). -/
def scenario_b_stream : List Nat :=
  [97, 106, 107, 103, 2, 222, 255, 38, 100, 171, 42, 84, 154, 53, 26, 73, 0, 128, 64, 42, 244,
   26, 181, 22, 205, 109, 186, 72, 34, 16, 8, 4, 2, 3, 0, 128, 192, 40, 154, 200, 4, 3, 17, 88,
   128, 192, 32, 80, 8, 132, 2, 201, 97, 186, 88, 96, 16, 8, 4, 0, 128]

/-- The context after the header of `scenario_b_stream` has been parsed: a call
with the data and a flush call. -/
def scenario_b_state : ShortenContext :=
  state_after [{ data := some scenario_b_stream }, { data := none }]

/-- A stream of 1096 bytes: the header of Scenario B (one channel, block size
4) followed by 436 `FN_DIFF1` blocks with the Rice parameter 0 and the
residuals 1, 1, 1, 1 (19 bits each, so the bytes repeat with period 19), and
`FN_QUIT`.  The decoded samples are 1, 2, 3, ... -/
def ramp_stream : List Nat :=
  scenario_b_stream.take 59 ++ [2] ++
  (List.replicate 54
    [193, 36, 216, 36, 155, 4, 147, 96, 146, 108, 18, 77, 130, 73, 176, 73, 54, 9, 38]).flatten ++
  [193, 36, 216, 36, 155, 4, 147, 96, 146, 80]

/-- A stream of 1096 bytes that ends in an error: the header of Scenario B
(one channel, block size 4), three `FN_DIFF1` blocks as in `ramp_stream`, the
command `FN_BLOCKSIZE` with the size 8, which is larger than the block size of
the header, and zero bytes. -/
def growing_ramp_stream : List Nat :=
  scenario_b_stream.take 59 ++ [2, 193, 36, 216, 36, 155, 4, 146, 169, 128] ++
  List.replicate 1027 0

/-- The frames reported by a list of results, in order. -/
def frames_of (rs : List DecodeResult) : List (List Int) :=
  (rs.filter (fun r => r.got_frame)).map (fun r => r.frame)

/-- The sum of the values returned by a list of calls (the consumed-byte
counts). -/
def consumed_of (rs : List DecodeResult) : Int :=
  (rs.map (fun r => r.ret)).sum

/-- The outcome of a caller's run over some input.  `ok`: the input is used
up; the frames reported in order, the number of bytes consumed (the sum of the
values returned) and the context left behind.  `error`: a call returned a
negative value; the frames reported by the calls before it in order, the
number `taken` of bytes that the decoder has taken from the input (the sum of
the values returned before, and the bytes that the failed call appended to the
input buffer before its decode pass failed), and the whole result of the failed
call, which holds the error code and the context that call left behind. -/
inductive FeedResult where
  | error (frames : List (List Int)) (taken : Nat) (failed : DecodeResult)
  | ok (frames : List (List Int)) (consumed : Nat) (ctx : ShortenContext)
deriving DecidableEq, Repr

/-- The caller's loop over a list of chunks of input: the first chunk is
offered to `shorten_decode_frame`, which returns the number of bytes it has
taken; the rest of the chunk is offered again until the chunk is used up, then
the next chunk follows.  A negative return value ends the run; the frames of
the calls before it are kept in the outcome, with the result of the failed
call and the number of bytes taken so far, to which the failed call has added
`input_buf_size` bytes of its packet (`buf_size = FFMIN(buf_size, ...)` and the
`memcpy` precede the decode pass).  `frames` and `consumed` accumulate the
frames reported and the bytes taken.  One unit of `fuel` is used per call and
per finished chunk; `none` when it is used up or a call does not return. -/
def feed : Nat → ShortenContext → List (List Nat) → List (List Int) → Nat → Option FeedResult
  | 0, _, _, _, _ => none
  | _ + 1, s, [], frames, consumed => some (.ok frames consumed s)
  | fuel + 1, s, [] :: chunks, frames, consumed => feed fuel s chunks frames consumed
  | fuel + 1, s, (b :: c) :: chunks, frames, consumed =>
    match shorten_decode_frame s { data := some (b :: c) } with
    | none => none
    | some r =>
      if r.ret < 0 then
        some (.error frames (consumed + input_buf_size s { data := some (b :: c) }) r)
      else feed fuel r.ctx ((b :: c).drop r.ret.toNat :: chunks)
        (if r.got_frame then frames ++ [r.frame] else frames) (consumed + r.ret.toNat)

/-- The bookkeeping of the input buffer that every call keeps: the pending
bytes do not exceed the frame-size cap, and the cap, once set, does not exceed
the allocated size. -/
def BufferOk (s : ShortenContext) : Prop :=
  s.bitstream_size ≤ frame_cap s ∧
  (s.max_framesize ≠ 0 → s.max_framesize ≤ s.allocated_bitstream_size)

/-- The result of a call as far as it depends on the context `s` left by the
buffer stage alone: the return "need more input" of a buffer that is not yet
full, or the decode pass, with `0` in place of `input_buf_size`. -/
def call_core (s : ShortenContext) : Option DecodeResult :=
  if s.bitstream_size < s.max_framesize then
    some { ret := 0, got_frame := false, frame := [], ctx := s }
  else run_pass s 0 0

/-- The result `r` with the count `n` as return value, unless `r` is a failure. -/
def with_count (n : Nat) (r : DecodeResult) : DecodeResult :=
  { r with ret := if r.ret < 0 then r.ret else (n : Int) }

/-- The outcome of the caller's loop over `chunks`, started on `s` with `fuel`
(an error outcome with code 0 when the fuel is used up). -/
def feed_result (fuel : Nat) (s : ShortenContext) (chunks : List (List Nat)) : FeedResult :=
  match feed fuel s chunks [] 0 with
  | some r => r
  | none => .error [] 0 { ret := 0, got_frame := false, frame := [], ctx := s }

/-- The frames and the consumed-byte count of an outcome without error. -/
def FeedResult.summary : FeedResult → Option (List (List Int) × Nat)
  | .error _ _ _ => none
  | .ok frames consumed _ => some (frames, consumed)

/-- The frames, the number of bytes taken and the error code of an outcome that
ends with a failed call. -/
def FeedResult.failure : FeedResult → Option (List (List Int) × Nat × Int)
  | .error frames taken failed => some (frames, taken, failed.ret)
  | .ok _ _ _ => none

/-! ## Definitions for the statements about `FN_QLPC` -/

/-- The prediction order that `decode_subframe_lpc` reads for `FN_QLPC`. -/
def qlpc_order (gb : GetBitContext) : Int := to_int (get_ur_golomb_shorten gb LPCQSIZE).1

/-- The reader after the prediction order of `FN_QLPC` has been read. -/
def qlpc_coeff_reader (gb : GetBitContext) : GetBitContext :=
  (get_ur_golomb_shorten gb LPCQSIZE).2

/-- The reader after the prediction order and the coefficients of `FN_QLPC`
have been read: the residuals of the block follow. -/
def qlpc_sample_reader (s : ShortenContext) (gb : GetBitContext) : GetBitContext :=
  (read_coeffs (qlpc_order gb).toNat 0 s.coeffs (qlpc_coeff_reader gb)).2

/-- The sum `Σ_{j<p} c_j · x[i−j−1]` over the integers, for the coefficients
`s->coeffs` and the samples `s->decoded[channel]` of the context `s`. -/
def lpc_sum (s : ShortenContext) (channel p : Nat) (i : Int) : Int :=
  ((List.range p).map (fun j => s.coeffs.getD j 0 * sample s channel (i - (j : Int) - 1))).sum

/-- The channel buffer on which the sample loop of `FN_QLPC` starts: the
buffer of the channel, with `coffset` subtracted from the `pred_order` samples
before the block when `coffset` is not zero. -/
def qlpc_history (s : ShortenContext) (gb : GetBitContext) (channel : Nat) (coffset : Int) :
    List Int :=
  if coffset ≠ 0 then
    add_range (s.decoded_base.getD channel []) (s.nwrap - (qlpc_order gb).toNat)
      (qlpc_order gb).toNat (-coffset)
  else s.decoded_base.getD channel []

/-- The channel buffer and the reader after the sample loop of `FN_QLPC`. -/
def qlpc_block (s : ShortenContext) (gb : GetBitContext) (channel : Nat)
    (residual_size coffset : Int) : List Int × GetBitContext :=
  decode_samples (read_coeffs (qlpc_order gb).toNat 0 s.coeffs (qlpc_coeff_reader gb)).1
    (qlpc_order gb).toNat (if qlpc_order gb ≠ 0 then s.lpcqoffset else coffset) LPCQUANT
    residual_size s.nwrap s.blocksize 0 (qlpc_history s gb channel coffset)
    (qlpc_sample_reader s gb)

/-- A state of a version-2 stream with one channel, a history of three samples
`5, 7, 12`, room for a block of four samples and for three coefficients. -/
def qlpc_state : ShortenContext :=
  { shorten_decode_init with
    version := 2, lpcqoffset := V2LPCQOFFSET, channels := 1, nwrap := 3, blocksize := 4,
    coeffs := [0, 0, 0], decoded_base := [[5, 7, 12, 0, 0, 0, 0]] }

/-- A reader over the body of an `FN_QLPC` command: the order 2 (bits `110`),
the coefficients 64 and -32 (bits `0000100000` and `0111111`) and the residuals
`0, -1, 1, 0` of parameter 1 (bits `10`, `11`, `010`, `10`). -/
def qlpc_reader : GetBitContext := init_get_bits [0xC1, 0x03, 0xFB, 0x50] 32

/-- The context `s` with `c` subtracted, with wrap-around, from the `p` samples
of the channel that precede the block, all else unchanged. -/
def offset_history (s : ShortenContext) (channel p : Nat) (c : Int) : ShortenContext :=
  let d := s.decoded_base.getD channel []
  let h := (List.range d.length).map (fun k =>
    if s.nwrap - p ≤ k ∧ k < s.nwrap then wrap32 (d.getD k 0 - c) else d.getD k 0)
  { s with decoded_base := s.decoded_base.set channel h }

/-- A reader over the body of an `FN_QLPC` command of order 0 (bits `100`)
with four residuals `0` of parameter 1 (bits `10` each). -/
def order_zero_reader : GetBitContext := init_get_bits [0x95, 0x40] 16

/-! ## Definitions for the statements about the audio branch -/

/-- A context of a version-2 stream, as far as the reads of the audio branch
depend on it. -/
def version_two_state : ShortenContext := { shorten_decode_init with version := 2 }

/-- A reader over the byte `0x90` (bits `1001 0000`). -/
def energy_reader : GetBitContext := init_get_bits [0x90] 8

/-- A context of a version-2 stream with one channel, `nmean = 4`, the means
`10, 20, 30, 41`, `bitshift = 2`, a history of three samples `5, 7, 12` and a
block of four samples `16, 20, 24, 30`. -/
def means_state : ShortenContext :=
  { shorten_decode_init with
    version := 2, lpcqoffset := V2LPCQOFFSET, channels := 1, nwrap := 3, blocksize := 4,
    nmean := 4, bitshift := 2, offset := [[10, 20, 30, 41]], coeffs := [0, 0, 0],
    decoded_base := [[5, 7, 12, 16, 20, 24, 30]] }

/-- The context after the part "decode samples for this channel" of the audio
branch, before the means are updated and the wrap samples are copied. -/
def decoded_state (s : ShortenContext) (gb : GetBitContext) (cmd : Int) : ShortenContext :=
  (decode_channel s (read_residual_size s gb cmd).2 cmd s.cur_chan
    (read_residual_size s gb cmd).1 (sample_offset s s.cur_chan)).2.1

/-- A reader over the body of an audio command: the residual parameter 1 (bits
`1001`) and the residuals `0, -1, 1, 0` (bits `10`, `11`, `010`, `10`). -/
def means_reader : GetBitContext := init_get_bits [0x9B, 0x50] 16

/-- A stream of version 2 with one channel, block size 1, `maxnlpc = 1` (so
`nwrap = 3`) and `nmean = 1`, with two blocks: `FN_DIFF0` with the residual 64,
then `FN_QLPC` with the order 1, the coefficient 32 and the residual 0. -/
def wrap_stream : List Nat :=
  [97, 106, 107, 103, 2, 222, 247, 189, 228, 171, 42, 84, 154, 53, 26, 73, 0, 128, 64, 42, 244,
   26, 181, 22, 205, 109, 186, 72, 34, 16, 8, 4, 2, 3, 0, 128, 192, 40, 154, 200, 4, 3, 17, 88,
   128, 192, 32, 80, 8, 132, 2, 201, 97, 186, 88, 96, 16, 8, 4, 2, 96, 4, 30, 105, 4, 0, 0]

/-- The context after the first block of `wrap_stream` has been decoded: a
call with the data and two flush calls. -/
def wrap_decoded : ShortenContext :=
  state_after [{ data := some wrap_stream }, { data := none }, { data := none }]

/-- The context in which the command loop of the next flush call starts. -/
def wrap_state : ShortenContext :=
  { append_packet wrap_decoded { data := none } with cur_chan := 0 }

/-- The reader of that flush call after the command code has been read. -/
def wrap_reader : GetBitContext :=
  (get_ur_golomb_shorten (pass_reader (append_packet wrap_decoded { data := none })) FNSIZE).2

/-- The context after the header of `wrap_stream` has been parsed: a call with
the data and a flush call; eight bytes are pending and the reader stands at
bit 6 of them. -/
def wrap_parsed : ShortenContext :=
  state_after [{ data := some wrap_stream }, { data := none }]

/-- How the decode pass over the pending bytes of `s` ends (a `return 0` when
the pass does not return). -/
def pass_exit (s : ShortenContext) (avpkt_size : Nat) : PassExit :=
  match decode_pass s (pass_reader s) avpkt_size with
  | some r => r.1
  | none => .ret 0

/-! ## Definitions for the statements about the command loop and the buffers -/

/-- A reader over the command `FN_BITSHIFT` (bits `0110`) with the value 3
(bits `111`). -/
def bitshift_reader : GetBitContext := init_get_bits [0x6E, 0x00] 16

/-- A context of a version-2 stream with `nmean = 2`, both means of the
channel equal to `-1`, and `bitshift = 0`. -/
def negative_means_state : ShortenContext :=
  { shorten_decode_init with
    version := 2, lpcqoffset := V2LPCQOFFSET, channels := 1, nwrap := 3, blocksize := 4,
    nmean := 2, bitshift := 0, offset := [[-1, -1]], coeffs := [0, 0, 0],
    decoded_base := [[0, 0, 0, 0, 0, 0, 0]] }

/-- A context of a version-2 stream with `nmean = 3`, the three means of the
channel equal to `7`, and `bitshift = 0`. -/
def constant_means_state : ShortenContext :=
  { shorten_decode_init with
    version := 2, lpcqoffset := V2LPCQOFFSET, channels := 1, nwrap := 3, blocksize := 4,
    nmean := 3, bitshift := 0, offset := [[7, 7, 7]], coeffs := [0, 0, 0],
    decoded_base := [[0, 0, 0, 0, 0, 0, 0]] }

/-- A reader over four residuals `0` of parameter 1 (bits `10` each). -/
def zero_residuals_reader : GetBitContext := init_get_bits [0xAA, 0x00] 16

/-- The reader after an iteration of the sub-chunk scan of `decode_wave_header`
that did not find the tag: the tag and the length have been read and the
sub-chunk has been skipped. -/
def scan_step (g : GetByteContext) : GetByteContext :=
  bytestream2_skip (bytestream2_get_le32 (bytestream2_get_le32 g).2).2
    (bytestream2_get_le32 (bytestream2_get_le32 g).2).1

/-- A 44-byte header blob with the tags "RIFF" and "WAVE" and no `fmt `
sub-chunk: the rest is zero. -/
def no_fmt_header : List Nat :=
  [82, 73, 70, 70, 36, 0, 0, 0, 87, 65, 86, 69, 0, 0, 0, 0, 0, 0, 0, 0, 0, 0, 0, 0,
   0, 0, 0, 0, 0, 0, 0, 0, 0, 0, 0, 0, 0, 0, 0, 0, 0, 0, 0, 0]

/-- The reader with which the sub-chunk scan of `decode_wave_header` starts:
behind the "WAVE" tag. -/
def scan_start (header : List Nat) (header_size : Nat) : GetByteContext :=
  (bytestream2_get_le32
    (bytestream2_skip (bytestream2_get_le32 (bytestream2_init header header_size)).2 4)).2

/-- A stream of version 2 with one channel and block size 4 whose verbatim
section holds `no_fmt_header`. -/
def no_fmt_stream : List Nat :=
  [97, 106, 107, 103, 2, 222, 255, 38, 100, 171, 42, 84, 154, 53, 26, 73, 0, 128, 64, 42, 244,
   26, 181, 22, 1, 0, 128, 64, 32, 16, 8, 4, 2, 1, 0, 128, 64, 32, 16, 8, 4, 2, 1, 0, 128, 64,
   32, 16, 8, 4, 2, 1, 0, 128, 64, 32, 16, 8, 4, 0, 0, 0]

/-- The pending-buffer invariant: the bookkeeping of `BufferOk`, the pending
bytes lie inside the allocation behind the read index, the frame-size cap is
1024 once it is set, and the resume offset is below 8. -/
def PendingOk (s : ShortenContext) : Prop :=
  BufferOk s ∧ s.bitstream_index + s.bitstream_size ≤ s.allocated_bitstream_size ∧
  (s.max_framesize = 0 ∨ s.max_framesize = 1024) ∧ s.bitindex < 8

/-- A stream of version 2 with one channel, block size 4 and `nmean = 0`, with
the command `FN_BITSHIFT` carrying the shift 32 (bits `011`, then eight zeros
and `100`), followed by an `FN_DIFF0` block with the samples `-1, 1, 1, 1`. -/
def wide_shift_stream : List Nat :=
  [97, 106, 107, 103, 2, 222, 255, 38, 100, 171, 42, 84, 154, 53, 26, 73, 0, 128, 64, 42, 244,
   26, 181, 22, 205, 109, 186, 72, 34, 16, 8, 4, 2, 3, 0, 128, 192, 40, 154, 200, 4, 3, 17, 88,
   128, 192, 32, 80, 8, 132, 2, 201, 97, 186, 88, 96, 16, 8, 4, 1, 128, 36, 132, 146, 0, 0]

/-- The context after the header of `wide_shift_stream` has been parsed: a call
with the data and a flush call. -/
def wide_shift_parsed : ShortenContext :=
  state_after [{ data := some wide_shift_stream }, { data := none }]

/-- The context after the next flush call, which runs the command
`FN_BITSHIFT` and decodes the block. -/
def wide_shift_decoded : ShortenContext :=
  state_after [{ data := some wide_shift_stream }, { data := none }, { data := none }]

/-- The channel buffers as `allocate_buffers` leaves them for a block size
`b`: the history is at least `NWRAP` long, `coeffs` holds `nwrap` entries, the
block size is positive and at most `b`, and every channel in use has a
`decoded_base` array of `b + nwrap` entries (so `decoded[channel][k]` exists
for `-nwrap ≤ k < b`). -/
def Allocated (s : ShortenContext) (b : Nat) : Prop :=
  3 ≤ s.nwrap ∧ s.coeffs.length = s.nwrap ∧ 1 ≤ s.blocksize ∧ s.blocksize ≤ b ∧
  s.channels ≤ s.decoded_base.length ∧
  ∀ ch, ch < s.channels → (s.decoded_base.getD ch []).length = b + s.nwrap

/-- The means of every channel in use are the single entry 0 that
`init_offset` writes for `nmean ≤ 0`. -/
def MeansClear (s : ShortenContext) : Prop :=
  ∀ ch, ch < s.channels → s.offset.getD ch [] = [0]

/-- The channel arrays and the parameters that give their sizes. -/
def alloc_fields (s : ShortenContext) :=
  (s.decoded_base, s.offset, s.coeffs, s.nwrap, s.blocksize, s.nmean, s.channels)

/-- What the command loop keeps of the channel arrays: the lengths of all of
them, `nmean`, and the means themselves when `nmean ≤ 0`. -/
def SameArrays (s t : ShortenContext) : Prop :=
  t.coeffs.length = s.coeffs.length ∧ t.decoded_base.length = s.decoded_base.length ∧
  t.offset.length = s.offset.length ∧ t.nmean = s.nmean ∧
  (s.nmean ≤ 0 → t.offset = s.offset) ∧
  ∀ ch, (t.decoded_base.getD ch []).length = (s.decoded_base.getD ch []).length

/-! ## The indices of the buffer accesses -/

/-- The `n` indices `a, a + 1, ...` of a loop `for (i = a; i < a + n; i++)`. -/
def int_range (a : Int) (n : Nat) : List Int :=
  (List.range n).map (fun t : Nat => a + (t : Int))

/-- The prediction order of `decode_subframe_lpc`: the order read from the
stream for `FN_QLPC`, the command itself for a fixed predictor. -/
def lpc_pred_order (gb : GetBitContext) (command : Int) : Int :=
  if command = FN_QLPC then to_int (get_ur_golomb_shorten gb LPCQSIZE).1 else command

/-- The indices `k` of the accesses `s->decoded[channel][k]` of
`decode_subframe_lpc`, in the order of the source: the loop that subtracts the
offset (`i` from `-pred_order` up to `-1`), the sample loop (the reads at
`i - j - 1` for `j < pred_order`, then the write at `i`), and the loop that
adds the offset; none when the order is rejected. -/
def lpc_accesses (s : ShortenContext) (gb : GetBitContext) (command coffset : Int) : List Int :=
  if command = FN_QLPC ∧ lpc_pred_order gb command > s.nwrap then []
  else
    (if command = FN_QLPC ∧ coffset ≠ 0 then
      int_range (-(lpc_pred_order gb command)) (lpc_pred_order gb command).toNat else []) ++
    (List.range s.blocksize).flatMap (fun i : Nat =>
      (List.range (lpc_pred_order gb command).toNat).map
        (fun j : Nat => (i : Int) - (j : Int) - 1) ++ [(i : Int)]) ++
    (if command = FN_QLPC ∧ coffset ≠ 0 then int_range 0 s.blocksize else [])

/-- The indices `j` of the accesses `s->coeffs[i]` and `coeffs[j]` of
`decode_subframe_lpc`: those below the prediction order. -/
def coeff_accesses (s : ShortenContext) (gb : GetBitContext) (command : Int) : List Int :=
  if command = FN_QLPC ∧ lpc_pred_order gb command > s.nwrap then []
  else int_range 0 (lpc_pred_order gb command).toNat

/-- The indices `k` of the accesses `s->decoded[channel][k]` of the part
"decode samples for this channel": the zero fill of `FN_ZERO`, or
`decode_subframe_lpc`, whose reader stands behind the residual size. -/
def decode_accesses (s : ShortenContext) (gb : GetBitContext) (cmd : Int) : List Int :=
  if cmd = FN_ZERO then int_range 0 s.blocksize
  else lpc_accesses s (read_residual_size s gb cmd).2 cmd (sample_offset s s.cur_chan)

/-- The indices `k` of the accesses `s->decoded[channel][k]` of the rest of
the audio branch: the sum of the mean update (for `nmean > 0`), the wrap copy
(the write at `i` and the read at `i + blocksize` for `i` from `-nwrap` up to
`-1`), `fix_bitshift` (for `bitshift ≠ 0`) and `interleave_buffer`. -/
def branch_accesses (s : ShortenContext) : List Int :=
  (if s.nmean > 0 then int_range 0 s.blocksize else []) ++
  (List.range s.nwrap).flatMap (fun t : Nat =>
    [-(s.nwrap : Int) + (t : Int), -(s.nwrap : Int) + (t : Int) + (s.blocksize : Int)]) ++
  (if s.bitshift ≠ 0 then int_range 0 s.blocksize else []) ++
  int_range 0 s.blocksize

/-- A stream of version 0 (so `nmean` stays `-1` and the block size is
`DEFAULT_BLOCK_SIZE`) with one channel, followed by the commands `FN_ZERO` and
`FN_QUIT`. -/
def version_zero_stream : List Nat :=
  [97, 106, 107, 103, 0, 154, 85, 149, 42, 77, 26, 141, 36, 128, 64, 32, 21, 122, 13, 90, 139,
   102, 182, 221, 36, 17, 8, 4, 2, 1, 1, 128, 64, 96, 20, 77, 100, 2, 1, 136, 172, 64, 96, 16,
   40, 4, 66, 1, 100, 176, 221, 44, 48, 8, 4, 2, 0, 68, 0]

/-- The context after the header of `version_zero_stream` has been parsed: a
call with the data and a flush call. -/
def version_zero_parsed : ShortenContext :=
  state_after [{ data := some version_zero_stream }, { data := none }]

/-- Division of C `int` values with the division by zero made explicit:
`none` stands for the undefined `a / 0`. -/
def checked_div (a b : Int) : Option Int :=
  if b = 0 then none else some (a.tdiv b)

/-- The offset `coffset` with the division of the source checked: the same
statements as in `sample_offset`, `none` when `sum / s->nmean` would divide by
zero. -/
def sample_offset_checked (s : ShortenContext) (channel : Nat) : Option Int :=
  let off := s.offset.getD channel []
  if s.nmean = 0 then some (off.getD 0 0)
  else
    let sum0 : Int := if s.version < 2 then 0 else s.nmean.tdiv 2
    let sum := (List.range s.nmean.toNat).foldl (fun sum i => wrap32 (sum + off.getD i 0)) sum0
    match checked_div sum s.nmean with
    | none => none
    | some q =>
      let coffset := wrap32 q
      some (if s.version ≥ 2 then asr coffset (min 1 s.bitshift).toNat else coffset)

/-- The update of the means with the division of the source checked: the same
statements as in `update_means`, `none` when `sum / s->blocksize` would divide
by zero. -/
def update_means_checked (s : ShortenContext) (channel : Nat) : Option ShortenContext :=
  if s.nmean > 0 then
    let d := s.decoded_base.getD channel []
    let sum0 : Int := if s.version < 2 then 0 else ((s.blocksize / 2 : Nat) : Int)
    let sum := (List.range s.blocksize).foldl
      (fun sum i => wrap32 (sum + d.getD (s.nwrap + i) 0)) sum0
    let off := (List.range (s.nmean.toNat - 1)).foldl
      (fun o t => o.set t (o.getD (t + 1) 0)) (s.offset.getD channel [])
    match checked_div sum s.blocksize with
    | none => none
    | some q =>
      let mean := wrap32 q
      let off := if s.version < 2 then off.set (s.nmean.toNat - 1) mean
        else off.set (s.nmean.toNat - 1) (shl32 mean s.bitshift.toNat)
      some { s with offset := s.offset.set channel off }
  else some s

end Shorten

/-!
# Channel layouts (libavutil/channel_layout.c): a shallow embedding

The definitions follow `src/libavutil/channel_layout.c`.  A layout is passed
and returned by value.  The union `u` of `AVChannelLayout` is modelled by the
two fields `mask` and `map`, of which the code reads the one that belongs to
the channel order; `map` is `none` for a null pointer.  An `enum AVChannel`
value is an `Int`, since the functions return negative error codes in it.
-/

namespace ChannelLayout

/-- The value `AV_CHANNEL_ORDER_NATIVE` of `enum AVChannelOrder`. -/
def AV_CHANNEL_ORDER_NATIVE : Nat := 0

/-- The value `AV_CHANNEL_ORDER_CUSTOM` of `enum AVChannelOrder`. -/
def AV_CHANNEL_ORDER_CUSTOM : Nat := 1

/-- The value `AV_CHANNEL_ORDER_UNSPEC` of `enum AVChannelOrder`. -/
def AV_CHANNEL_ORDER_UNSPEC : Nat := 2

/-- Modelled from the spec: `AVERROR(EINVAL)`, the invalid-argument error code. -/
def AVERROR_EINVAL : Int := -22

/-- The structure `AVChannelLayout`. -/
structure AVChannelLayout where
  order : Nat
  nb_channels : Int
  mask : Nat
  map : Option (List Nat)
deriving DecidableEq, Repr

/-- The number of set bits of `x` among the `n` bit positions from `i` on. -/
def count_bits (x : Nat) : Nat → Nat → Nat
  | _, 0 => 0
  | i, n + 1 => (if x.testBit i then 1 else 0) + count_bits x (i + 1) n

/-- Modelled from the spec: `av_popcount64` of libavutil/common.h, the number
of set bits of a 64-bit value (popcount). -/
def av_popcount64 (x : Nat) : Nat := count_bits x 0 64

/-- The value of `1ULL << c` for an `enum AVChannel` value `c`; the shift is
undefined in C for a count outside `0..63`, for which the model yields `0`. -/
def channel_bit (c : Int) : Nat :=
  if 0 ≤ c ∧ c < 64 then 2 ^ c.toNat else 0

/-- The function `av_channel_layout_from_mask`: the layout is cleared by
`av_channel_layout_uninit` and then filled in. -/
def av_channel_layout_from_mask (mask : Nat) : AVChannelLayout :=
  { order := AV_CHANNEL_ORDER_NATIVE, nb_channels := (av_popcount64 mask : Nat),
    mask := mask, map := none }

/-- The loop `for (i = 0; i < 64; i++) if ((1ULL << i) & mask && !idx--) return i;`
of `av_channel_layout_get_channel`, from bit `i` on for `n` more iterations;
when the loop ends, control falls through to `default: return AVERROR(EINVAL)`. -/
def native_channel (mask : Nat) : Nat → Nat → Int → Int
  | 0, _, _ => AVERROR_EINVAL
  | n + 1, i, idx =>
    if mask.testBit i then
      if idx = 0 then (i : Int) else native_channel mask n (i + 1) (idx - 1)
    else native_channel mask n (i + 1) idx

/-- The function `av_channel_layout_get_channel`. -/
def av_channel_layout_get_channel (channel_layout : AVChannelLayout) (idx : Int) : Int :=
  if idx < 0 ∨ idx ≥ channel_layout.nb_channels then AVERROR_EINVAL
  else if channel_layout.order = AV_CHANNEL_ORDER_CUSTOM then
    (((channel_layout.map.getD []).getD idx.toNat 0 : Nat) : Int)
  else if channel_layout.order = AV_CHANNEL_ORDER_NATIVE then
    native_channel channel_layout.mask 64 0 idx
  else AVERROR_EINVAL

/-- The loop `for (i = 0; i < nb_channels; i++) if (map[i] == channel) return i;`
of `av_channel_layout_channel_index`, from index `i` on for `n` more
iterations. -/
def custom_index (map : List Nat) (channel : Int) : Nat → Nat → Int
  | 0, _ => AVERROR_EINVAL
  | n + 1, i =>
    if ((map.getD i 0 : Nat) : Int) = channel then (i : Int)
    else custom_index map channel n (i + 1)

/-- The function `av_channel_layout_channel_index`. -/
def av_channel_layout_channel_index (channel_layout : AVChannelLayout) (channel : Int) : Int :=
  if channel_layout.order = AV_CHANNEL_ORDER_CUSTOM then
    custom_index (channel_layout.map.getD []) channel channel_layout.nb_channels.toNat 0
  else if channel_layout.order = AV_CHANNEL_ORDER_NATIVE then
    if channel_layout.mask &&& channel_bit channel = 0 then AVERROR_EINVAL
    else (av_popcount64 (channel_layout.mask &&& (channel_bit channel - 1)) : Nat)
  else AVERROR_EINVAL

/-! ## The channels, channel masks and predefined layouts of channel_layout.h -/

/-- The value `AV_CHAN_FRONT_LEFT` of `enum AVChannel`. -/
def AV_CHAN_FRONT_LEFT : Nat := 0

/-- The value `AV_CHAN_FRONT_RIGHT` of `enum AVChannel`. -/
def AV_CHAN_FRONT_RIGHT : Nat := 1

/-- The value `AV_CHAN_FRONT_CENTER` of `enum AVChannel`. -/
def AV_CHAN_FRONT_CENTER : Nat := 2

/-- The value `AV_CHAN_LOW_FREQUENCY` of `enum AVChannel`. -/
def AV_CHAN_LOW_FREQUENCY : Nat := 3

/-- The value `AV_CHAN_BACK_LEFT` of `enum AVChannel`. -/
def AV_CHAN_BACK_LEFT : Nat := 4

/-- The value `AV_CHAN_BACK_RIGHT` of `enum AVChannel`. -/
def AV_CHAN_BACK_RIGHT : Nat := 5

/-- The value `AV_CHAN_FRONT_LEFT_OF_CENTER` of `enum AVChannel`. -/
def AV_CHAN_FRONT_LEFT_OF_CENTER : Nat := 6

/-- The value `AV_CHAN_FRONT_RIGHT_OF_CENTER` of `enum AVChannel`. -/
def AV_CHAN_FRONT_RIGHT_OF_CENTER : Nat := 7

/-- The value `AV_CHAN_BACK_CENTER` of `enum AVChannel`. -/
def AV_CHAN_BACK_CENTER : Nat := 8

/-- The value `AV_CHAN_SIDE_LEFT` of `enum AVChannel`. -/
def AV_CHAN_SIDE_LEFT : Nat := 9

/-- The value `AV_CHAN_SIDE_RIGHT` of `enum AVChannel`. -/
def AV_CHAN_SIDE_RIGHT : Nat := 10

/-- The value `AV_CHAN_TOP_CENTER` of `enum AVChannel`. -/
def AV_CHAN_TOP_CENTER : Nat := 11

/-- The value `AV_CHAN_TOP_FRONT_LEFT` of `enum AVChannel`. -/
def AV_CHAN_TOP_FRONT_LEFT : Nat := 12

/-- The value `AV_CHAN_TOP_FRONT_CENTER` of `enum AVChannel`. -/
def AV_CHAN_TOP_FRONT_CENTER : Nat := 13

/-- The value `AV_CHAN_TOP_FRONT_RIGHT` of `enum AVChannel`. -/
def AV_CHAN_TOP_FRONT_RIGHT : Nat := 14

/-- The value `AV_CHAN_TOP_BACK_LEFT` of `enum AVChannel`. -/
def AV_CHAN_TOP_BACK_LEFT : Nat := 15

/-- The value `AV_CHAN_TOP_BACK_CENTER` of `enum AVChannel`. -/
def AV_CHAN_TOP_BACK_CENTER : Nat := 16

/-- The value `AV_CHAN_TOP_BACK_RIGHT` of `enum AVChannel`. -/
def AV_CHAN_TOP_BACK_RIGHT : Nat := 17

/-- The value `AV_CHAN_STEREO_LEFT` of `enum AVChannel`. -/
def AV_CHAN_STEREO_LEFT : Nat := 29

/-- The value `AV_CHAN_STEREO_RIGHT` of `enum AVChannel`. -/
def AV_CHAN_STEREO_RIGHT : Nat := 30

/-- The value `AV_CHAN_WIDE_LEFT` of `enum AVChannel`. -/
def AV_CHAN_WIDE_LEFT : Nat := 31

/-- The value `AV_CHAN_WIDE_RIGHT` of `enum AVChannel`. -/
def AV_CHAN_WIDE_RIGHT : Nat := 32

/-- The value `AV_CHAN_SURROUND_DIRECT_LEFT` of `enum AVChannel`. -/
def AV_CHAN_SURROUND_DIRECT_LEFT : Nat := 33

/-- The value `AV_CHAN_SURROUND_DIRECT_RIGHT` of `enum AVChannel`. -/
def AV_CHAN_SURROUND_DIRECT_RIGHT : Nat := 34

/-- The value `AV_CHAN_LOW_FREQUENCY_2` of `enum AVChannel`. -/
def AV_CHAN_LOW_FREQUENCY_2 : Nat := 35

/-- The channel mask `AV_CH_FRONT_LEFT`, `1ULL << AV_CHAN_FRONT_LEFT`. -/
def AV_CH_FRONT_LEFT : Nat := 2 ^ AV_CHAN_FRONT_LEFT

/-- The channel mask `AV_CH_FRONT_RIGHT`, `1ULL << AV_CHAN_FRONT_RIGHT`. -/
def AV_CH_FRONT_RIGHT : Nat := 2 ^ AV_CHAN_FRONT_RIGHT

/-- The channel mask `AV_CH_FRONT_CENTER`, `1ULL << AV_CHAN_FRONT_CENTER`. -/
def AV_CH_FRONT_CENTER : Nat := 2 ^ AV_CHAN_FRONT_CENTER

/-- The channel mask `AV_CH_LOW_FREQUENCY`, `1ULL << AV_CHAN_LOW_FREQUENCY`. -/
def AV_CH_LOW_FREQUENCY : Nat := 2 ^ AV_CHAN_LOW_FREQUENCY

/-- The channel mask `AV_CH_BACK_LEFT`, `1ULL << AV_CHAN_BACK_LEFT`. -/
def AV_CH_BACK_LEFT : Nat := 2 ^ AV_CHAN_BACK_LEFT

/-- The channel mask `AV_CH_BACK_RIGHT`, `1ULL << AV_CHAN_BACK_RIGHT`. -/
def AV_CH_BACK_RIGHT : Nat := 2 ^ AV_CHAN_BACK_RIGHT

/-- The channel mask `AV_CH_FRONT_LEFT_OF_CENTER`, `1ULL << AV_CHAN_FRONT_LEFT_OF_CENTER`. -/
def AV_CH_FRONT_LEFT_OF_CENTER : Nat := 2 ^ AV_CHAN_FRONT_LEFT_OF_CENTER

/-- The channel mask `AV_CH_FRONT_RIGHT_OF_CENTER`, `1ULL << AV_CHAN_FRONT_RIGHT_OF_CENTER`. -/
def AV_CH_FRONT_RIGHT_OF_CENTER : Nat := 2 ^ AV_CHAN_FRONT_RIGHT_OF_CENTER

/-- The channel mask `AV_CH_BACK_CENTER`, `1ULL << AV_CHAN_BACK_CENTER`. -/
def AV_CH_BACK_CENTER : Nat := 2 ^ AV_CHAN_BACK_CENTER

/-- The channel mask `AV_CH_SIDE_LEFT`, `1ULL << AV_CHAN_SIDE_LEFT`. -/
def AV_CH_SIDE_LEFT : Nat := 2 ^ AV_CHAN_SIDE_LEFT

/-- The channel mask `AV_CH_SIDE_RIGHT`, `1ULL << AV_CHAN_SIDE_RIGHT`. -/
def AV_CH_SIDE_RIGHT : Nat := 2 ^ AV_CHAN_SIDE_RIGHT

/-- The channel mask `AV_CH_TOP_CENTER`, `1ULL << AV_CHAN_TOP_CENTER`. -/
def AV_CH_TOP_CENTER : Nat := 2 ^ AV_CHAN_TOP_CENTER

/-- The channel mask `AV_CH_TOP_FRONT_LEFT`, `1ULL << AV_CHAN_TOP_FRONT_LEFT`. -/
def AV_CH_TOP_FRONT_LEFT : Nat := 2 ^ AV_CHAN_TOP_FRONT_LEFT

/-- The channel mask `AV_CH_TOP_FRONT_CENTER`, `1ULL << AV_CHAN_TOP_FRONT_CENTER`. -/
def AV_CH_TOP_FRONT_CENTER : Nat := 2 ^ AV_CHAN_TOP_FRONT_CENTER

/-- The channel mask `AV_CH_TOP_FRONT_RIGHT`, `1ULL << AV_CHAN_TOP_FRONT_RIGHT`. -/
def AV_CH_TOP_FRONT_RIGHT : Nat := 2 ^ AV_CHAN_TOP_FRONT_RIGHT

/-- The channel mask `AV_CH_TOP_BACK_LEFT`, `1ULL << AV_CHAN_TOP_BACK_LEFT`. -/
def AV_CH_TOP_BACK_LEFT : Nat := 2 ^ AV_CHAN_TOP_BACK_LEFT

/-- The channel mask `AV_CH_TOP_BACK_CENTER`, `1ULL << AV_CHAN_TOP_BACK_CENTER`. -/
def AV_CH_TOP_BACK_CENTER : Nat := 2 ^ AV_CHAN_TOP_BACK_CENTER

/-- The channel mask `AV_CH_TOP_BACK_RIGHT`, `1ULL << AV_CHAN_TOP_BACK_RIGHT`. -/
def AV_CH_TOP_BACK_RIGHT : Nat := 2 ^ AV_CHAN_TOP_BACK_RIGHT

/-- The channel mask `AV_CH_STEREO_LEFT`, `1ULL << AV_CHAN_STEREO_LEFT`. -/
def AV_CH_STEREO_LEFT : Nat := 2 ^ AV_CHAN_STEREO_LEFT

/-- The channel mask `AV_CH_STEREO_RIGHT`, `1ULL << AV_CHAN_STEREO_RIGHT`. -/
def AV_CH_STEREO_RIGHT : Nat := 2 ^ AV_CHAN_STEREO_RIGHT

/-- The channel mask `AV_CH_WIDE_LEFT`, `1ULL << AV_CHAN_WIDE_LEFT`. -/
def AV_CH_WIDE_LEFT : Nat := 2 ^ AV_CHAN_WIDE_LEFT

/-- The channel mask `AV_CH_WIDE_RIGHT`, `1ULL << AV_CHAN_WIDE_RIGHT`. -/
def AV_CH_WIDE_RIGHT : Nat := 2 ^ AV_CHAN_WIDE_RIGHT

/-- The channel mask `AV_CH_SURROUND_DIRECT_LEFT`, `1ULL << AV_CHAN_SURROUND_DIRECT_LEFT`. -/
def AV_CH_SURROUND_DIRECT_LEFT : Nat := 2 ^ AV_CHAN_SURROUND_DIRECT_LEFT

/-- The channel mask `AV_CH_SURROUND_DIRECT_RIGHT`, `1ULL << AV_CHAN_SURROUND_DIRECT_RIGHT`. -/
def AV_CH_SURROUND_DIRECT_RIGHT : Nat := 2 ^ AV_CHAN_SURROUND_DIRECT_RIGHT

/-- The channel mask `AV_CH_LOW_FREQUENCY_2`, `1ULL << AV_CHAN_LOW_FREQUENCY_2`. -/
def AV_CH_LOW_FREQUENCY_2 : Nat := 2 ^ AV_CHAN_LOW_FREQUENCY_2

/-- The channel mask `AV_CH_LAYOUT_MONO`. -/
def AV_CH_LAYOUT_MONO : Nat := AV_CH_FRONT_CENTER

/-- The channel mask `AV_CH_LAYOUT_STEREO`. -/
def AV_CH_LAYOUT_STEREO : Nat := AV_CH_FRONT_LEFT ||| AV_CH_FRONT_RIGHT

/-- The channel mask `AV_CH_LAYOUT_2POINT1`. -/
def AV_CH_LAYOUT_2POINT1 : Nat := AV_CH_LAYOUT_STEREO ||| AV_CH_LOW_FREQUENCY

/-- The channel mask `AV_CH_LAYOUT_2_1`. -/
def AV_CH_LAYOUT_2_1 : Nat := AV_CH_LAYOUT_STEREO ||| AV_CH_BACK_CENTER

/-- The channel mask `AV_CH_LAYOUT_SURROUND`. -/
def AV_CH_LAYOUT_SURROUND : Nat := AV_CH_LAYOUT_STEREO ||| AV_CH_FRONT_CENTER

/-- The channel mask `AV_CH_LAYOUT_3POINT1`. -/
def AV_CH_LAYOUT_3POINT1 : Nat := AV_CH_LAYOUT_SURROUND ||| AV_CH_LOW_FREQUENCY

/-- The channel mask `AV_CH_LAYOUT_4POINT0`. -/
def AV_CH_LAYOUT_4POINT0 : Nat := AV_CH_LAYOUT_SURROUND ||| AV_CH_BACK_CENTER

/-- The channel mask `AV_CH_LAYOUT_4POINT1`. -/
def AV_CH_LAYOUT_4POINT1 : Nat := AV_CH_LAYOUT_4POINT0 ||| AV_CH_LOW_FREQUENCY

/-- The channel mask `AV_CH_LAYOUT_2_2`. -/
def AV_CH_LAYOUT_2_2 : Nat := AV_CH_LAYOUT_STEREO ||| AV_CH_SIDE_LEFT ||| AV_CH_SIDE_RIGHT

/-- The channel mask `AV_CH_LAYOUT_QUAD`. -/
def AV_CH_LAYOUT_QUAD : Nat := AV_CH_LAYOUT_STEREO ||| AV_CH_BACK_LEFT ||| AV_CH_BACK_RIGHT

/-- The channel mask `AV_CH_LAYOUT_5POINT0`. -/
def AV_CH_LAYOUT_5POINT0 : Nat := AV_CH_LAYOUT_SURROUND ||| AV_CH_SIDE_LEFT ||| AV_CH_SIDE_RIGHT

/-- The channel mask `AV_CH_LAYOUT_5POINT1`. -/
def AV_CH_LAYOUT_5POINT1 : Nat := AV_CH_LAYOUT_5POINT0 ||| AV_CH_LOW_FREQUENCY

/-- The channel mask `AV_CH_LAYOUT_5POINT0_BACK`. -/
def AV_CH_LAYOUT_5POINT0_BACK : Nat := AV_CH_LAYOUT_SURROUND ||| AV_CH_BACK_LEFT ||| AV_CH_BACK_RIGHT

/-- The channel mask `AV_CH_LAYOUT_5POINT1_BACK`. -/
def AV_CH_LAYOUT_5POINT1_BACK : Nat := AV_CH_LAYOUT_5POINT0_BACK ||| AV_CH_LOW_FREQUENCY

/-- The channel mask `AV_CH_LAYOUT_6POINT0`. -/
def AV_CH_LAYOUT_6POINT0 : Nat := AV_CH_LAYOUT_5POINT0 ||| AV_CH_BACK_CENTER

/-- The channel mask `AV_CH_LAYOUT_6POINT0_FRONT`. -/
def AV_CH_LAYOUT_6POINT0_FRONT : Nat := AV_CH_LAYOUT_2_2 ||| AV_CH_FRONT_LEFT_OF_CENTER ||| AV_CH_FRONT_RIGHT_OF_CENTER

/-- The channel mask `AV_CH_LAYOUT_HEXAGONAL`. -/
def AV_CH_LAYOUT_HEXAGONAL : Nat := AV_CH_LAYOUT_5POINT0_BACK ||| AV_CH_BACK_CENTER

/-- The channel mask `AV_CH_LAYOUT_6POINT1`. -/
def AV_CH_LAYOUT_6POINT1 : Nat := AV_CH_LAYOUT_5POINT1 ||| AV_CH_BACK_CENTER

/-- The channel mask `AV_CH_LAYOUT_6POINT1_BACK`. -/
def AV_CH_LAYOUT_6POINT1_BACK : Nat := AV_CH_LAYOUT_5POINT1_BACK ||| AV_CH_BACK_CENTER

/-- The channel mask `AV_CH_LAYOUT_6POINT1_FRONT`. -/
def AV_CH_LAYOUT_6POINT1_FRONT : Nat := AV_CH_LAYOUT_6POINT0_FRONT ||| AV_CH_LOW_FREQUENCY

/-- The channel mask `AV_CH_LAYOUT_7POINT0`. -/
def AV_CH_LAYOUT_7POINT0 : Nat := AV_CH_LAYOUT_5POINT0 ||| AV_CH_BACK_LEFT ||| AV_CH_BACK_RIGHT

/-- The channel mask `AV_CH_LAYOUT_7POINT0_FRONT`. -/
def AV_CH_LAYOUT_7POINT0_FRONT : Nat := AV_CH_LAYOUT_5POINT0 ||| AV_CH_FRONT_LEFT_OF_CENTER ||| AV_CH_FRONT_RIGHT_OF_CENTER

/-- The channel mask `AV_CH_LAYOUT_7POINT1`. -/
def AV_CH_LAYOUT_7POINT1 : Nat := AV_CH_LAYOUT_5POINT1 ||| AV_CH_BACK_LEFT ||| AV_CH_BACK_RIGHT

/-- The channel mask `AV_CH_LAYOUT_7POINT1_WIDE`. -/
def AV_CH_LAYOUT_7POINT1_WIDE : Nat := AV_CH_LAYOUT_5POINT1 ||| AV_CH_FRONT_LEFT_OF_CENTER ||| AV_CH_FRONT_RIGHT_OF_CENTER

/-- The channel mask `AV_CH_LAYOUT_7POINT1_WIDE_BACK`. -/
def AV_CH_LAYOUT_7POINT1_WIDE_BACK : Nat := AV_CH_LAYOUT_5POINT1_BACK ||| AV_CH_FRONT_LEFT_OF_CENTER ||| AV_CH_FRONT_RIGHT_OF_CENTER

/-- The channel mask `AV_CH_LAYOUT_OCTAGONAL`. -/
def AV_CH_LAYOUT_OCTAGONAL : Nat := AV_CH_LAYOUT_5POINT0 ||| AV_CH_BACK_LEFT ||| AV_CH_BACK_CENTER ||| AV_CH_BACK_RIGHT

/-- The channel mask `AV_CH_LAYOUT_HEXADECAGONAL`. -/
def AV_CH_LAYOUT_HEXADECAGONAL : Nat :=
  AV_CH_LAYOUT_OCTAGONAL ||| AV_CH_WIDE_LEFT ||| AV_CH_WIDE_RIGHT ||| AV_CH_TOP_BACK_LEFT |||
  AV_CH_TOP_BACK_RIGHT ||| AV_CH_TOP_BACK_CENTER ||| AV_CH_TOP_FRONT_CENTER |||
  AV_CH_TOP_FRONT_LEFT ||| AV_CH_TOP_FRONT_RIGHT

/-- The channel mask `AV_CH_LAYOUT_STEREO_DOWNMIX`. -/
def AV_CH_LAYOUT_STEREO_DOWNMIX : Nat := AV_CH_STEREO_LEFT ||| AV_CH_STEREO_RIGHT

/-- The initialiser `AV_CHANNEL_LAYOUT_MONO`. -/
def AV_CHANNEL_LAYOUT_MONO : AVChannelLayout :=
  { order := AV_CHANNEL_ORDER_NATIVE, nb_channels := 1, mask := AV_CH_LAYOUT_MONO, map := none }

/-- The initialiser `AV_CHANNEL_LAYOUT_STEREO`. -/
def AV_CHANNEL_LAYOUT_STEREO : AVChannelLayout :=
  { order := AV_CHANNEL_ORDER_NATIVE, nb_channels := 2, mask := AV_CH_LAYOUT_STEREO, map := none }

/-- The initialiser `AV_CHANNEL_LAYOUT_2POINT1`. -/
def AV_CHANNEL_LAYOUT_2POINT1 : AVChannelLayout :=
  { order := AV_CHANNEL_ORDER_NATIVE, nb_channels := 3, mask := AV_CH_LAYOUT_2POINT1, map := none }

/-- The initialiser `AV_CHANNEL_LAYOUT_2_1`. -/
def AV_CHANNEL_LAYOUT_2_1 : AVChannelLayout :=
  { order := AV_CHANNEL_ORDER_NATIVE, nb_channels := 3, mask := AV_CH_LAYOUT_2_1, map := none }

/-- The initialiser `AV_CHANNEL_LAYOUT_SURROUND`. -/
def AV_CHANNEL_LAYOUT_SURROUND : AVChannelLayout :=
  { order := AV_CHANNEL_ORDER_NATIVE, nb_channels := 3, mask := AV_CH_LAYOUT_SURROUND, map := none }

/-- The initialiser `AV_CHANNEL_LAYOUT_3POINT1`. -/
def AV_CHANNEL_LAYOUT_3POINT1 : AVChannelLayout :=
  { order := AV_CHANNEL_ORDER_NATIVE, nb_channels := 4, mask := AV_CH_LAYOUT_3POINT1, map := none }

/-- The initialiser `AV_CHANNEL_LAYOUT_4POINT0`. -/
def AV_CHANNEL_LAYOUT_4POINT0 : AVChannelLayout :=
  { order := AV_CHANNEL_ORDER_NATIVE, nb_channels := 4, mask := AV_CH_LAYOUT_4POINT0, map := none }

/-- The initialiser `AV_CHANNEL_LAYOUT_4POINT1`. -/
def AV_CHANNEL_LAYOUT_4POINT1 : AVChannelLayout :=
  { order := AV_CHANNEL_ORDER_NATIVE, nb_channels := 5, mask := AV_CH_LAYOUT_4POINT1, map := none }

/-- The initialiser `AV_CHANNEL_LAYOUT_2_2`. -/
def AV_CHANNEL_LAYOUT_2_2 : AVChannelLayout :=
  { order := AV_CHANNEL_ORDER_NATIVE, nb_channels := 4, mask := AV_CH_LAYOUT_2_2, map := none }

/-- The initialiser `AV_CHANNEL_LAYOUT_QUAD`. -/
def AV_CHANNEL_LAYOUT_QUAD : AVChannelLayout :=
  { order := AV_CHANNEL_ORDER_NATIVE, nb_channels := 4, mask := AV_CH_LAYOUT_QUAD, map := none }

/-- The initialiser `AV_CHANNEL_LAYOUT_5POINT0`. -/
def AV_CHANNEL_LAYOUT_5POINT0 : AVChannelLayout :=
  { order := AV_CHANNEL_ORDER_NATIVE, nb_channels := 5, mask := AV_CH_LAYOUT_5POINT0, map := none }

/-- The initialiser `AV_CHANNEL_LAYOUT_5POINT1`. -/
def AV_CHANNEL_LAYOUT_5POINT1 : AVChannelLayout :=
  { order := AV_CHANNEL_ORDER_NATIVE, nb_channels := 6, mask := AV_CH_LAYOUT_5POINT1, map := none }

/-- The initialiser `AV_CHANNEL_LAYOUT_5POINT0_BACK`. -/
def AV_CHANNEL_LAYOUT_5POINT0_BACK : AVChannelLayout :=
  { order := AV_CHANNEL_ORDER_NATIVE, nb_channels := 5, mask := AV_CH_LAYOUT_5POINT0_BACK, map := none }

/-- The initialiser `AV_CHANNEL_LAYOUT_5POINT1_BACK`. -/
def AV_CHANNEL_LAYOUT_5POINT1_BACK : AVChannelLayout :=
  { order := AV_CHANNEL_ORDER_NATIVE, nb_channels := 6, mask := AV_CH_LAYOUT_5POINT1_BACK, map := none }

/-- The initialiser `AV_CHANNEL_LAYOUT_6POINT0`. -/
def AV_CHANNEL_LAYOUT_6POINT0 : AVChannelLayout :=
  { order := AV_CHANNEL_ORDER_NATIVE, nb_channels := 6, mask := AV_CH_LAYOUT_6POINT0, map := none }

/-- The initialiser `AV_CHANNEL_LAYOUT_6POINT0_FRONT`. -/
def AV_CHANNEL_LAYOUT_6POINT0_FRONT : AVChannelLayout :=
  { order := AV_CHANNEL_ORDER_NATIVE, nb_channels := 6, mask := AV_CH_LAYOUT_6POINT0_FRONT, map := none }

/-- The initialiser `AV_CHANNEL_LAYOUT_HEXAGONAL`. -/
def AV_CHANNEL_LAYOUT_HEXAGONAL : AVChannelLayout :=
  { order := AV_CHANNEL_ORDER_NATIVE, nb_channels := 6, mask := AV_CH_LAYOUT_HEXAGONAL, map := none }

/-- The initialiser `AV_CHANNEL_LAYOUT_6POINT1`. -/
def AV_CHANNEL_LAYOUT_6POINT1 : AVChannelLayout :=
  { order := AV_CHANNEL_ORDER_NATIVE, nb_channels := 7, mask := AV_CH_LAYOUT_6POINT1, map := none }

/-- The initialiser `AV_CHANNEL_LAYOUT_6POINT1_BACK`. -/
def AV_CHANNEL_LAYOUT_6POINT1_BACK : AVChannelLayout :=
  { order := AV_CHANNEL_ORDER_NATIVE, nb_channels := 7, mask := AV_CH_LAYOUT_6POINT1_BACK, map := none }

/-- The initialiser `AV_CHANNEL_LAYOUT_6POINT1_FRONT`. -/
def AV_CHANNEL_LAYOUT_6POINT1_FRONT : AVChannelLayout :=
  { order := AV_CHANNEL_ORDER_NATIVE, nb_channels := 7, mask := AV_CH_LAYOUT_6POINT1_FRONT, map := none }

/-- The initialiser `AV_CHANNEL_LAYOUT_7POINT0`. -/
def AV_CHANNEL_LAYOUT_7POINT0 : AVChannelLayout :=
  { order := AV_CHANNEL_ORDER_NATIVE, nb_channels := 7, mask := AV_CH_LAYOUT_7POINT0, map := none }

/-- The initialiser `AV_CHANNEL_LAYOUT_7POINT0_FRONT`. -/
def AV_CHANNEL_LAYOUT_7POINT0_FRONT : AVChannelLayout :=
  { order := AV_CHANNEL_ORDER_NATIVE, nb_channels := 7, mask := AV_CH_LAYOUT_7POINT0_FRONT, map := none }

/-- The initialiser `AV_CHANNEL_LAYOUT_7POINT1`. -/
def AV_CHANNEL_LAYOUT_7POINT1 : AVChannelLayout :=
  { order := AV_CHANNEL_ORDER_NATIVE, nb_channels := 8, mask := AV_CH_LAYOUT_7POINT1, map := none }

/-- The initialiser `AV_CHANNEL_LAYOUT_7POINT1_WIDE`. -/
def AV_CHANNEL_LAYOUT_7POINT1_WIDE : AVChannelLayout :=
  { order := AV_CHANNEL_ORDER_NATIVE, nb_channels := 8, mask := AV_CH_LAYOUT_7POINT1_WIDE, map := none }

/-- The initialiser `AV_CHANNEL_LAYOUT_7POINT1_WIDE_BACK`. -/
def AV_CHANNEL_LAYOUT_7POINT1_WIDE_BACK : AVChannelLayout :=
  { order := AV_CHANNEL_ORDER_NATIVE, nb_channels := 8, mask := AV_CH_LAYOUT_7POINT1_WIDE_BACK, map := none }

/-- The initialiser `AV_CHANNEL_LAYOUT_OCTAGONAL`. -/
def AV_CHANNEL_LAYOUT_OCTAGONAL : AVChannelLayout :=
  { order := AV_CHANNEL_ORDER_NATIVE, nb_channels := 8, mask := AV_CH_LAYOUT_OCTAGONAL, map := none }

/-- The initialiser `AV_CHANNEL_LAYOUT_HEXADECAGONAL`. -/
def AV_CHANNEL_LAYOUT_HEXADECAGONAL : AVChannelLayout :=
  { order := AV_CHANNEL_ORDER_NATIVE, nb_channels := 16, mask := AV_CH_LAYOUT_HEXAGONAL, map := none }

/-- The initialiser `AV_CHANNEL_LAYOUT_STEREO_DOWNMIX`. -/
def AV_CHANNEL_LAYOUT_STEREO_DOWNMIX : AVChannelLayout :=
  { order := AV_CHANNEL_ORDER_NATIVE, nb_channels := 2, mask := AV_CH_LAYOUT_STEREO_DOWNMIX, map := none }

/-- The array `channel_names`, indexed by channel; the designated initialisers
leave the entries 18 to 28 null (`none`). -/
def channel_names : List (Option String) :=
  [some "FL", some "FR", some "FC", some "LFE", some "BL", some "BR", some "FLC", some "FRC",
   some "BC", some "SL", some "SR", some "TC", some "TFL", some "TFC", some "TFR", some "TBL",
   some "TBC", some "TBR", none, none, none, none, none, none, none, none, none, none, none,
   some "DL", some "DR", some "WL", some "WR", some "SDL", some "SDR", some "LFE2"]

/-- The function `av_channel_name`; `none` is the null pointer found in the gaps
of `channel_names`. -/
def av_channel_name (channel_id : Int) : Option String :=
  if channel_id < 0 ∨ channel_id ≥ (channel_names.length : Nat) then some "?"
  else channel_names.getD channel_id.toNat none

/-- The table `channel_layout_map`: a name and a layout per entry; the last
entry is the terminator `{ 0 }`, whose name is the null pointer (`none`). -/
def channel_layout_map : List (Option String × AVChannelLayout) :=
  [(some "mono", AV_CHANNEL_LAYOUT_MONO),
   (some "stereo", AV_CHANNEL_LAYOUT_STEREO),
   (some "stereo", AV_CHANNEL_LAYOUT_STEREO_DOWNMIX),
   (some "2.1", AV_CHANNEL_LAYOUT_2POINT1),
   (some "3.0", AV_CHANNEL_LAYOUT_SURROUND),
   (some "3.0(back)", AV_CHANNEL_LAYOUT_2_1),
   (some "3.1", AV_CHANNEL_LAYOUT_3POINT1),
   (some "4.0", AV_CHANNEL_LAYOUT_4POINT0),
   (some "quad", AV_CHANNEL_LAYOUT_QUAD),
   (some "quad(side)", AV_CHANNEL_LAYOUT_2_2),
   (some "4.1", AV_CHANNEL_LAYOUT_4POINT1),
   (some "5.0", AV_CHANNEL_LAYOUT_5POINT0),
   (some "5.0", AV_CHANNEL_LAYOUT_5POINT0_BACK),
   (some "5.1", AV_CHANNEL_LAYOUT_5POINT1),
   (some "5.1", AV_CHANNEL_LAYOUT_5POINT1_BACK),
   (some "6.0", AV_CHANNEL_LAYOUT_6POINT0),
   (some "6.0(front)", AV_CHANNEL_LAYOUT_6POINT0_FRONT),
   (some "hexagonal", AV_CHANNEL_LAYOUT_HEXAGONAL),
   (some "6.1", AV_CHANNEL_LAYOUT_6POINT1),
   (some "6.1", AV_CHANNEL_LAYOUT_6POINT1_BACK),
   (some "6.1(front)", AV_CHANNEL_LAYOUT_6POINT1_FRONT),
   (some "7.0", AV_CHANNEL_LAYOUT_7POINT0),
   (some "7.0(front)", AV_CHANNEL_LAYOUT_7POINT0_FRONT),
   (some "7.1", AV_CHANNEL_LAYOUT_7POINT1),
   (some "7.1(wide)", AV_CHANNEL_LAYOUT_7POINT1_WIDE),
   (some "7.1(wide)", AV_CHANNEL_LAYOUT_7POINT1_WIDE_BACK),
   (some "octagonal", AV_CHANNEL_LAYOUT_OCTAGONAL),
   (some "hexadecagonal", AV_CHANNEL_LAYOUT_HEXADECAGONAL),
   (some "downmix", AV_CHANNEL_LAYOUT_STEREO_DOWNMIX),
   (none, { order := 0, nb_channels := 0, mask := 0, map := none })]

/-! ## Checking, comparing, describing and parsing layouts -/

/-- The function `av_channel_layout_check`; the argument is a pointer, `none`
when null. -/
def av_channel_layout_check (channel_layout : Option AVChannelLayout) : Int :=
  match channel_layout with
  | none => 0
  | some l =>
    if l.nb_channels ≤ 0 then 0
    else if l.order = AV_CHANNEL_ORDER_NATIVE then
      if ((av_popcount64 l.mask : Nat) : Int) = l.nb_channels then 1 else 0
    else if l.order = AV_CHANNEL_ORDER_CUSTOM then
      if l.map.isSome then 1 else 0
    else if l.order = AV_CHANNEL_ORDER_UNSPEC then 1
    else 0

/-- The loop `for (i = 0; i < chl->nb_channels; i++)` of
`av_channel_layout_compare`, from index `i` on for `n` more iterations: `1` at
the first index whose channels differ, `0` when the loop ends. -/
def compare_channels (chl chl1 : AVChannelLayout) : Nat → Nat → Int
  | 0, _ => 0
  | n + 1, i =>
    if av_channel_layout_get_channel chl (i : Int) ≠ av_channel_layout_get_channel chl1 (i : Int)
    then 1
    else compare_channels chl chl1 n (i + 1)

/-- The function `av_channel_layout_compare`. -/
def av_channel_layout_compare (chl chl1 : AVChannelLayout) : Int :=
  if chl.nb_channels ≠ chl1.nb_channels then 1
  else if decide (chl.order = AV_CHANNEL_ORDER_UNSPEC) ≠
      decide (chl1.order = AV_CHANNEL_ORDER_UNSPEC) then 1
  else if chl.order = AV_CHANNEL_ORDER_UNSPEC then 0
  else if chl.order ≠ AV_CHANNEL_ORDER_CUSTOM ∧ chl.order = chl1.order then
    if chl.mask ≠ chl1.mask then 1 else 0
  else compare_channels chl chl1 chl.nb_channels.toNat 0

/-- The loop `for (i = 0; i < 64; i++)` of `av_channel_layout_subset`, from bit
`i` on for `n` more iterations, with the accumulator `ret`. -/
def subset_loop (channel_layout : AVChannelLayout) (mask : Nat) : Nat → Nat → Nat → Nat
  | 0, _, ret => ret
  | n + 1, i, ret =>
    subset_loop channel_layout mask n (i + 1)
      (if mask &&& 2 ^ i ≠ 0 ∧ av_channel_layout_channel_index channel_layout (i : Int) ≥ 0
       then ret ||| 2 ^ i else ret)

/-- The function `av_channel_layout_subset`.  The local `uint64_t ret` is
declared without an initialiser and the loop only ever ORs bits into it; the
value it holds when the loop starts is the parameter `ret` of the model. -/
def av_channel_layout_subset (channel_layout : AVChannelLayout) (mask : Nat) (ret : Nat) : Nat :=
  if channel_layout.order = AV_CHANNEL_ORDER_NATIVE then channel_layout.mask &&& mask
  else subset_loop channel_layout mask 64 0 ret

/-- Modelled from the spec: `av_strlcat` of libavutil/avstring.h, which appends
`src` to `dst` and keeps the result shorter than `size` bytes (the buffer also
holds the terminating zero); nothing is appended when `dst` already fills the
buffer. -/
def av_strlcat (dst src : String) (size : Int) : String :=
  if size ≤ (dst.length : Nat) + 1 then dst
  else dst ++ String.mk (src.data.take (size - (dst.length : Nat) - 1).toNat)

/-- The loop `for (i = 0; channel_layout_map[i].name; i++)` of
`av_channel_layout_describe`: the name of the first entry, before the
terminator, that has the mask `mask`; `none` when the loop ends without one. -/
def describe_native (mask : Nat) : List (Option String × AVChannelLayout) → Option String
  | [] => none
  | (none, _) :: _ => none
  | (some name, l) :: rest => if mask = l.mask then some name else describe_native mask rest

/-- The loop `for (i = 0; i < channel_layout->nb_channels; i++)` of
`av_channel_layout_describe`, from index `i` on for `n` more iterations, with
the string `ret` built so far; `none` when `av_strlcat` is handed the null
pointer that `av_channel_name` returns for a channel without a name, for which
the call has no defined result. -/
def describe_channels (channel_layout : AVChannelLayout) (size : Int) :
    Nat → Nat → String → Option String
  | 0, _, ret => some ret
  | n + 1, i, ret =>
    match av_channel_name (av_channel_layout_get_channel channel_layout (i : Int)) with
    | none => none
    | some ch_name =>
      describe_channels channel_layout size n (i + 1)
        (av_strlcat (if i ≠ 0 then av_strlcat ret "|" size else ret) ch_name size)

/-- The function `av_channel_layout_describe`, the allocations succeeding.  The
outer `none` is a call without a defined result (see `describe_channels`); the
inner `none` is the returned null pointer. -/
def av_channel_layout_describe (channel_layout : AVChannelLayout) : Option (Option String) :=
  if channel_layout.order = AV_CHANNEL_ORDER_NATIVE ∨
      channel_layout.order = AV_CHANNEL_ORDER_CUSTOM then
    match (if channel_layout.order = AV_CHANNEL_ORDER_NATIVE
           then describe_native channel_layout.mask channel_layout_map else none) with
    | some name => some (some name)
    | none =>
      (describe_channels channel_layout (5 * channel_layout.nb_channels + 1)
        channel_layout.nb_channels.toNat 0 "").map some
  else if channel_layout.order = AV_CHANNEL_ORDER_UNSPEC then
    some (some (toString channel_layout.nb_channels ++ " channels"))
  else some none

/-- The loop `for (i = 0; i < FF_ARRAY_ELEMS(channel_layout_map); i++)` of
`av_channel_layout_from_string`: `some (some l)` with the layout of the first
entry named `str`, `some none` when the loop ends without a match.  The loop
also visits the terminating entry, whose name is null: `strcmp` is then handed
a null pointer and the call has no defined result (`none`). -/
def from_string_loop (str : String) :
    List (Option String × AVChannelLayout) → Option (Option AVChannelLayout)
  | [] => some none
  | (none, _) :: _ => none
  | (some name, l) :: rest => if str = name then some (some l) else from_string_loop str rest

/-- The decimal digits at the head of `cs`, as a number, and their count. -/
def scan_digits : List Char → Nat → Nat → Nat × Nat
  | c :: cs, acc, n => if c.isDigit then scan_digits cs (10 * acc + (c.toNat - 48)) (n + 1) else (acc, n)
  | [], acc, n => (acc, n)

/-- Modelled from the spec: `sscanf(str, "%d channels", &n) == 1` of the C
library: white space is skipped, then an optional sign and at least one decimal
digit are converted; `some n` when the conversion succeeds, whatever follows
the number. -/
def scan_channels (str : String) : Option Int :=
  match str.data.dropWhile Char.isWhitespace with
  | '-' :: cs => if (scan_digits cs 0 0).2 = 0 then none else some (-((scan_digits cs 0 0).1 : Int))
  | '+' :: cs => if (scan_digits cs 0 0).2 = 0 then none else some ((scan_digits cs 0 0).1 : Int)
  | cs => if (scan_digits cs 0 0).2 = 0 then none else some ((scan_digits cs 0 0).1 : Int)

/-- The function `av_channel_layout_from_string`: the return value and the
layout left in `*channel_layout`, which holds `channel_layout` on entry; `none`
when the call has no defined result (see `from_string_loop`). -/
def av_channel_layout_from_string (channel_layout : AVChannelLayout) (str : String) :
    Option (Int × AVChannelLayout) :=
  match from_string_loop str channel_layout_map with
  | none => none
  | some (some l) => some (0, l)
  | some none =>
    match scan_channels str with
    | some n => some (0, { channel_layout with nb_channels := n, order := AV_CHANNEL_ORDER_UNSPEC })
    | none => some (0, channel_layout)

/-! ## Layouts used in the statements -/

/-- A custom-order layout with the two channels front left and front right, in
this order. -/
def custom_stereo : AVChannelLayout :=
  { order := AV_CHANNEL_ORDER_CUSTOM, nb_channels := 2, mask := 0,
    map := some [AV_CHAN_FRONT_LEFT, AV_CHAN_FRONT_RIGHT] }

/-- The layout that `av_channel_layout_uninit` leaves behind: all fields zero. -/
def cleared_layout : AVChannelLayout :=
  { order := 0, nb_channels := 0, mask := 0, map := none }

/-- The entry `channel_layout_map[i]`. -/
def map_entry (i : Nat) : Option String × AVChannelLayout :=
  channel_layout_map.getD i (none, cleared_layout)

/-- The layout that `av_channel_layout_from_string` leaves in a cleared
`*channel_layout`, when the call returns. -/
def parsed_layout (str : String) : Option AVChannelLayout :=
  (av_channel_layout_from_string cleared_layout str).map (fun r => r.2)

end ChannelLayout

namespace Shorten

/-! ## Frame lemmas: what the parts of a decode pass leave unchanged -/

theorem decode_subframe_lpc_frame (s : ShortenContext) (gb : GetBitContext) (command : Int)
    (channel : Nat) (residual_size coffset : Int) :
    audio_fields (decode_subframe_lpc s gb command channel residual_size coffset).2.1 =
      audio_fields s ∧
    (decode_subframe_lpc s gb command channel residual_size coffset).2.1.cur_chan = s.cur_chan := by
  unfold decode_subframe_lpc
  dsimp only
  split
  · split <;> exact ⟨rfl, rfl⟩
  · exact ⟨rfl, rfl⟩

theorem decode_channel_frame (s : ShortenContext) (gb : GetBitContext) (cmd : Int)
    (channel : Nat) (residual_size coffset : Int) :
    audio_fields (decode_channel s gb cmd channel residual_size coffset).2.1 = audio_fields s ∧
    (decode_channel s gb cmd channel residual_size coffset).2.1.cur_chan = s.cur_chan := by
  unfold decode_channel
  split
  · exact ⟨rfl, rfl⟩
  · exact decode_subframe_lpc_frame s gb cmd channel residual_size coffset

theorem update_means_frame (s : ShortenContext) (channel : Nat) :
    audio_fields (update_means s channel) = audio_fields s ∧
    (update_means s channel).cur_chan = s.cur_chan := by
  unfold update_means
  split <;> exact ⟨rfl, rfl⟩

theorem finish_channel_frame (s : ShortenContext) (channel : Nat) :
    audio_fields (finish_channel s channel) = audio_fields s ∧
    (finish_channel s channel).cur_chan = s.cur_chan + 1 := by
  have h := update_means_frame s channel
  unfold finish_channel
  exact ⟨h.1, congrArg (· + 1) h.2⟩

theorem audio_command_frame (s : ShortenContext) (gb : GetBitContext) (cmd : Int) :
    audio_fields (audio_command s gb cmd).2.1 = audio_fields s := by
  unfold audio_command
  dsimp only
  split
  · exact (decode_channel_frame _ _ _ _ _ _).1
  · exact (finish_channel_frame _ _).1.trans (decode_channel_frame _ _ _ _ _ _).1

theorem audio_command_cur_chan (s : ShortenContext) (gb : GetBitContext) (cmd : Int)
    (h : ¬ (audio_command s gb cmd).1 < 0) :
    (audio_command s gb cmd).2.1.cur_chan = s.cur_chan + 1 := by
  unfold audio_command at h ⊢
  dsimp only at h ⊢
  split
  · next hneg => rw [if_pos hneg] at h; exact absurd hneg h
  · exact (finish_channel_frame _ _).2.trans
      (congrArg (· + 1) (decode_channel_frame _ _ _ _ _ _).2)

theorem audio_fields_loop {s t : ShortenContext} (h : audio_fields t = audio_fields s) :
    buffer_fields t = buffer_fields s ∧ stream_fields t = stream_fields s ∧
    t.blocksize = s.blocksize ∧ t.bitshift = s.bitshift ∧
    t.got_quit_command = s.got_quit_command := by
  unfold audio_fields at h
  simp only [Prod.mk.injEq] at h
  exact h

theorem LoopFrame.refl (s : ShortenContext) : LoopFrame s s :=
  ⟨rfl, rfl, le_refl _, id⟩

theorem LoopFrame.trans {s t u : ShortenContext} (h1 : LoopFrame s t) (h2 : LoopFrame t u) :
    LoopFrame s u :=
  ⟨h2.1.trans h1.1, h2.2.1.trans h1.2.1, h2.2.2.1.trans h1.2.2.1,
    fun h => h2.2.2.2 (h1.2.2.2 h)⟩

theorem LoopFrame.of_audio {s t : ShortenContext} (h : audio_fields t = audio_fields s) :
    LoopFrame s t := by
  obtain ⟨a1, a2, a3, _, _⟩ := audio_fields_loop h
  exact ⟨a1, a2, le_of_eq a3, fun h => a3 ▸ h⟩

theorem non_audio_command_frame (s : ShortenContext) (gb : GetBitContext) (cmd : Int) :
    LoopFrame s (non_audio_command s gb cmd).state := by
  unfold non_audio_command
  dsimp only
  split
  · exact LoopFrame.refl s
  · split
    · exact ⟨rfl, rfl, le_refl _, id⟩
    · split
      · split
        · exact LoopFrame.refl s
        · split
          · exact LoopFrame.refl s
          · next h1 h2 =>
            refine ⟨rfl, rfl, Nat.le_of_not_lt h1, fun _ => ?_⟩
            simp only [not_or] at h2
            exact Nat.pos_of_ne_zero h2.1
      · split
        · exact ⟨rfl, rfl, le_refl _, id⟩
        · exact LoopFrame.refl s

theorem audio_step_frame (s : ShortenContext) (gb : GetBitContext) (cmd : Int) :
    LoopFrame s (audio_step s gb cmd).state := by
  have h := LoopFrame.of_audio (audio_command_frame s gb cmd)
  unfold audio_step
  dsimp only
  split
  · exact h
  · split <;> exact h

theorem command_step_frame (s : ShortenContext) (gb : GetBitContext) :
    LoopFrame s (command_step s gb).state := by
  unfold command_step
  dsimp only
  by_cases h1 : s.cur_chan < s.channels
  · rw [if_pos h1]
    by_cases h2 : get_bits_left gb < 3 + FNSIZE
    · rw [if_pos h2]; exact LoopFrame.refl s
    · rw [if_neg h2]
      by_cases h3 : to_int (get_ur_golomb_shorten gb FNSIZE).1 > FN_VERBATIM
      · rw [if_pos h3]; exact LoopFrame.refl s
      · rw [if_neg h3]
        by_cases h4 : is_audio (to_int (get_ur_golomb_shorten gb FNSIZE).1) = 0
        · rw [if_pos h4]; exact non_audio_command_frame _ _ _
        · rw [if_neg h4]; exact audio_step_frame _ _ _
  · rw [if_neg h1]; exact LoopFrame.refl s

theorem command_loop_frame (fuel : Nat) (s : ShortenContext) (gb : GetBitContext)
    (r : PassExit × ShortenContext × GetBitContext) (h : command_loop fuel s gb = some r) :
    LoopFrame s r.2.1 := by
  induction fuel generalizing s gb with
  | zero => unfold command_loop at h; cases h
  | succ fuel ih =>
    unfold command_loop at h
    have hs := command_step_frame s gb
    split at h
    · next e t g he =>
      rw [he] at hs
      cases h
      exact hs
    · next t g he =>
      rw [he] at hs
      exact hs.trans (ih _ _ h)

/-! ## What `read_header` establishes -/

theorem allocate_buffers_loop_frame (n chan : Nat) (s : ShortenContext) :
    header_fields (allocate_buffers_loop n chan s).2 = header_fields s ∧
    (allocate_buffers_loop n chan s).2.got_header = s.got_header := by
  induction n generalizing chan s with
  | zero => exact ⟨rfl, rfl⟩
  | succ n ih =>
    unfold allocate_buffers_loop
    dsimp only
    split
    · exact ⟨rfl, rfl⟩
    · split
      · exact ⟨rfl, rfl⟩
      · exact ih _ _

theorem allocate_buffers_frame (s : ShortenContext) :
    header_fields (allocate_buffers s).2 = header_fields s ∧
    (allocate_buffers s).2.got_header = s.got_header := by
  have h := allocate_buffers_loop_frame s.channels 0 s
  unfold allocate_buffers
  dsimp only
  split
  · exact h
  · exact h

theorem init_offset_frame (s : ShortenContext) :
    header_fields (init_offset s).2 = header_fields s ∧
    (init_offset s).2.got_header = s.got_header := by
  unfold init_offset
  dsimp only
  split <;> exact ⟨rfl, rfl⟩

/-- The result of the end of `read_header`: a failure leaves `got_header` as it
was, a success returns `0` and sets it. -/
theorem read_header_verbatim_frame (s : ShortenContext) (gb : GetBitContext)
    (r : Int × ShortenContext × GetBitContext) (h : read_header_verbatim s gb = some r) :
    header_fields r.2.1 = header_fields s ∧
    (r.1 < 0 → r.2.1.got_header = s.got_header) ∧
    (¬ r.1 < 0 → r.1 = 0 ∧ r.2.1.got_header = true) := by
  unfold read_header_verbatim at h
  dsimp only at h
  split at h
  · cases h; exact ⟨rfl, fun _ => rfl, fun h => absurd (by decide : AVERROR_INVALIDDATA < 0) h⟩
  · split at h
    · cases h; exact ⟨rfl, fun _ => rfl, fun h => absurd (by decide : AVERROR_INVALIDDATA < 0) h⟩
    · split at h
      · cases h
      · split at h
        · next hneg => cases h; exact ⟨rfl, fun _ => rfl, fun h => absurd hneg h⟩
        · cases h; exact ⟨rfl, fun h => absurd h (lt_irrefl (0 : Int)), fun _ => ⟨rfl, rfl⟩⟩

theorem read_header_buffers_frame (s : ShortenContext) (gb : GetBitContext) (maxnlpc : Int)
    (r : Int × ShortenContext × GetBitContext) (h : read_header_buffers s gb maxnlpc = some r) :
    header_fields r.2.1 = header_fields s ∧
    (r.1 < 0 → r.2.1.got_header = s.got_header) ∧
    (¬ r.1 < 0 → r.1 = 0 ∧ r.2.1.got_header = true) := by
  unfold read_header_buffers at h
  dsimp only at h
  have ha := allocate_buffers_frame { s with nwrap := (max NWRAP maxnlpc).toNat }
  have ho := init_offset_frame (allocate_buffers { s with nwrap := (max NWRAP maxnlpc).toNat }).2
  have ha1 : header_fields (allocate_buffers { s with nwrap := (max NWRAP maxnlpc).toNat }).2 =
      header_fields s := ha.1
  have ha2 : (allocate_buffers { s with nwrap := (max NWRAP maxnlpc).toNat }).2.got_header =
      s.got_header := ha.2
  split at h
  · next hneg => cases h; exact ⟨ha1, fun _ => ha2, fun h => absurd hneg h⟩
  · split at h
    · next hneg =>
      cases h
      exact ⟨ho.1.trans ha1, fun _ => ho.2.trans ha2, fun h => absurd hneg h⟩
    · split at h
      · obtain ⟨v1, v2, v3⟩ := read_header_verbatim_frame _ _ _ h
        exact ⟨v1.trans (ho.1.trans ha1), fun hn => (v2 hn).trans (ho.2.trans ha2), v3⟩
      · obtain ⟨v1, v2, v3⟩ := read_header_verbatim_frame _ _ _ h
        exact ⟨v1.trans (ho.1.trans ha1), fun hn => (v2 hn).trans (ho.2.trans ha2), v3⟩

theorem read_header_channels_frame (s : ShortenContext) (gb : GetBitContext) :
    (∀ e, read_header_channels s gb = .error e →
      buffer_fields e.1 = buffer_fields s ∧ e.1.got_quit_command = s.got_quit_command ∧
      e.1.got_header = s.got_header) ∧
    (∀ c, read_header_channels s gb = .ok c →
      buffer_fields c.1 = buffer_fields s ∧ c.1.got_quit_command = s.got_quit_command ∧
      c.1.got_header = s.got_header ∧ c.1.blocksize = DEFAULT_BLOCK_SIZE) := by
  unfold read_header_channels
  dsimp only
  split
  · constructor
    · intro e h; cases h; exact ⟨rfl, rfl, rfl⟩
    · intro c h; cases h
  · split
    · constructor
      · intro e h; cases h; exact ⟨rfl, rfl, rfl⟩
      · intro c h; cases h
    · split
      · constructor
        · intro e h; cases h; exact ⟨rfl, rfl, rfl⟩
        · intro c h; cases h
      · constructor
        · intro e h; cases h
        · intro c h; cases h; exact ⟨rfl, rfl, rfl, rfl⟩

theorem read_header_blocksize_frame (s : ShortenContext) (gb : GetBitContext)
    (p : ShortenContext × GetBitContext × Int) (h : read_header_blocksize s gb = .ok p) :
    buffer_fields p.1 = buffer_fields s ∧ p.1.got_quit_command = s.got_quit_command ∧
    p.1.got_header = s.got_header ∧ p.1.version = s.version ∧
    (s.version > 0 → 1 ≤ p.1.blocksize ∧ p.1.blocksize ≤ MAX_BLOCKSIZE) ∧
    (¬ s.version > 0 → p.1.blocksize = s.blocksize) := by
  unfold read_header_blocksize at h
  dsimp only at h
  split at h
  · next hv =>
    split at h
    · cases h
    · next hb =>
      cases h
      simp only [not_or, not_lt] at hb
      exact ⟨rfl, rfl, rfl, rfl, fun _ => ⟨Nat.pos_of_ne_zero hb.1, hb.2⟩, fun h => absurd hv h⟩
  · next hv =>
    cases h
    exact ⟨rfl, rfl, rfl, rfl, fun h => absurd h hv, fun _ => rfl⟩

/-- What `read_header` leaves unchanged and what it establishes: a failure
leaves `got_header` as it was; a success returns `0`, sets `got_header` and
leaves a block size between 1 and `MAX_BLOCKSIZE`, which is
`DEFAULT_BLOCK_SIZE` for a stream of version 0. -/
theorem read_header_spec (s : ShortenContext) (gb : GetBitContext)
    (r : Int × ShortenContext × GetBitContext) (h : read_header s gb = some r) :
    buffer_fields r.2.1 = buffer_fields s ∧ r.2.1.got_quit_command = s.got_quit_command ∧
    (r.1 < 0 → r.2.1.got_header = s.got_header) ∧
    (¬ r.1 < 0 → r.1 = 0 ∧ r.2.1.got_header = true ∧ 1 ≤ r.2.1.blocksize ∧
      r.2.1.blocksize ≤ MAX_BLOCKSIZE ∧
      (r.2.1.version = 0 → r.2.1.blocksize = DEFAULT_BLOCK_SIZE)) := by
  unfold read_header at h
  split at h
  · next e he =>
    obtain ⟨e1, e2, e3⟩ := (read_header_channels_frame s gb).1 e he
    cases h
    exact ⟨e1, e2, fun _ => e3, fun h => absurd (by decide : AVERROR_INVALIDDATA < 0) h⟩
  · next c hc =>
    obtain ⟨c1, c2, c3, c4⟩ := (read_header_channels_frame s gb).2 c hc
    split at h
    · next g hg =>
      cases h
      exact ⟨c1, c2, fun _ => c3, fun h => absurd (by decide : AVERROR_EINVAL < 0) h⟩
    · next p hp =>
      obtain ⟨p1, p2, p3, p4, p5, p6⟩ := read_header_blocksize_frame _ _ _ hp
      obtain ⟨v1, v2, v3⟩ := read_header_buffers_frame _ _ _ _ h
      unfold header_fields at v1
      simp only [Prod.mk.injEq] at v1
      obtain ⟨w1, w2, w3, w4⟩ := v1
      refine ⟨w1.trans (p1.trans c1), w2.trans (p2.trans c2),
        fun hn => (v2 hn).trans (p3.trans c3), fun hn => ?_⟩
      obtain ⟨z1, z2⟩ := v3 hn
      rw [w3, w4]
      refine ⟨z1, z2, ?_⟩
      by_cases hv : c.1.version > 0
      · obtain ⟨q1, q2⟩ := p5 hv
        refine ⟨q1, q2, fun h0 => ?_⟩
        rw [p4] at h0
        exact absurd hv (by rw [h0]; decide)
      · have q := p6 hv
        rw [q, c4]
        exact ⟨by decide, by decide, fun _ => rfl⟩
/-! ## The end of a call -/

/-- The code after `finish_frame` passes on the frame of the pass and fails
exactly when the whole bytes consumed exceed the buffered bytes; otherwise it
returns a non-negative count. -/
theorem finish_frame_spec (s : ShortenContext) (gb : GetBitContext) (buf_size n : Nat)
    (got_frame : Bool) (frame : List Int) :
    (finish_frame s gb buf_size n got_frame frame).got_frame = got_frame ∧
    (finish_frame s gb buf_size n got_frame frame).frame = frame ∧
    (get_bits_count gb / 8 > buf_size →
      (finish_frame s gb buf_size n got_frame frame).ret = AVERROR_INVALIDDATA ∧
      (finish_frame s gb buf_size n got_frame frame).ctx.bitstream_size = 0 ∧
      (finish_frame s gb buf_size n got_frame frame).ctx.bitstream_index = 0) ∧
    (¬ get_bits_count gb / 8 > buf_size →
      0 ≤ (finish_frame s gb buf_size n got_frame frame).ret) := by
  unfold finish_frame
  dsimp only
  by_cases h : get_bits_count gb / 8 > buf_size
  · rw [if_pos h]
    exact ⟨rfl, rfl, fun _ => ⟨rfl, rfl, rfl⟩, fun h2 => absurd h h2⟩
  · rw [if_neg h]
    split
    · exact ⟨rfl, rfl, fun h2 => absurd h2 h, fun _ => Int.natCast_nonneg _⟩
    · exact ⟨rfl, rfl, fun h2 => absurd h2 h, fun _ => Int.natCast_nonneg _⟩

/-- An iteration of the command loop that reads a command id above
`FN_VERBATIM` leaves the loop for `finish_frame` without a frame and without
touching the context. -/
theorem command_step_unknown (s : ShortenContext) (gb : GetBitContext)
    (h1 : s.cur_chan < s.channels) (h2 : ¬ get_bits_left gb < 3 + FNSIZE)
    (h3 : to_int (get_ur_golomb_shorten gb FNSIZE).1 > FN_VERBATIM) :
    command_step s gb = .exit (.finish false []) s (get_ur_golomb_shorten gb FNSIZE).2 := by
  unfold command_step
  dsimp only
  rw [if_pos h1, if_neg h2, if_pos h3]

/-- With the header parsed and no QUIT received, the decode pass is the command
loop started at channel 0. -/
theorem decode_pass_loop (s : ShortenContext) (gb : GetBitContext) (n : Nat)
    (hh : s.got_header = true) (hq : s.got_quit_command = false) :
    decode_pass s gb n = command_loop (gb.size_in_bits + 1) { s with cur_chan := 0 } gb := by
  unfold decode_pass
  rw [if_neg (by rw [hh]; exact fun h => h rfl), if_neg (by rw [hq]; exact Bool.false_ne_true)]

theorem command_loop_exit (fuel : Nat) (s t : ShortenContext) (gb g : GetBitContext)
    (e : PassExit) (h : command_step s gb = .exit e t g) :
    command_loop (fuel + 1) s gb = some (e, t, g) := by
  unfold command_loop
  rw [h]

theorem command_loop_next (fuel : Nat) (s t : ShortenContext) (gb g : GetBitContext)
    (h : command_step s gb = .next t g) :
    command_loop (fuel + 1) s gb = command_loop fuel t g := by
  conv => lhs; unfold command_loop
  rw [h]

theorem run_pass_finish (s t : ShortenContext) (gb : GetBitContext) (size n : Nat)
    (got_frame : Bool) (frame : List Int)
    (h : decode_pass s (pass_reader s) size = some (.finish got_frame frame, t, gb)) :
    run_pass s size n = some (finish_frame t gb s.bitstream_size n got_frame frame) := by
  unfold run_pass
  rw [h]

theorem run_pass_ret (s t : ShortenContext) (gb : GetBitContext) (size n : Nat) (code : Int)
    (h : decode_pass s (pass_reader s) size = some (.ret code, t, gb)) :
    run_pass s size n = some { ret := code, got_frame := false, frame := [], ctx := t } := by
  unfold run_pass
  rw [h]

/-! ## The input buffer -/

theorem alloc_bitstream_max_framesize (s : ShortenContext) :
    (alloc_bitstream s).max_framesize = frame_cap s := by
  unfold alloc_bitstream frame_cap
  split <;> rfl

/-- The buffer stage changes nothing but the four buffer fields. -/
theorem append_packet_eq (s : ShortenContext) (avpkt : AVPacket) :
    append_packet s avpkt =
      { s with max_framesize := frame_cap s,
               allocated_bitstream_size := (append_packet s avpkt).allocated_bitstream_size,
               bitstream_index := (append_packet s avpkt).bitstream_index,
               bitstream := (append_packet s avpkt).bitstream } := by
  unfold append_packet copy_packet move_bitstream alloc_bitstream frame_cap
  split <;> split <;> split <;> rfl

theorem append_packet_bitstream (s : ShortenContext) (avpkt : AVPacket) :
    (append_packet s avpkt).bitstream =
      s.bitstream ++ (avpkt.data.getD []).take (input_buf_size s avpkt) := by
  unfold append_packet copy_packet move_bitstream alloc_bitstream
  cases hd : avpkt.data with
  | none =>
    simp only [Option.getD_none, List.take_nil, List.append_nil]
    split <;> split <;> rfl
  | some d =>
    simp only [Option.getD_some]
    split <;> split <;> rfl

theorem input_buf_size_small (s : ShortenContext) (d : List Nat)
    (h : s.bitstream_size + d.length < frame_cap s) :
    input_buf_size s { data := some d } = d.length := by
  unfold input_buf_size
  show min d.length _ = d.length
  omega


theorem append_packet_size (s : ShortenContext) (avpkt : AVPacket) :
    (append_packet s avpkt).bitstream_size = s.bitstream_size + input_buf_size s avpkt := by
  unfold ShortenContext.bitstream_size
  rw [append_packet_bitstream, List.length_append, List.length_take]
  congr 1
  have : input_buf_size s avpkt ≤ (avpkt.data.getD []).length := by
    unfold input_buf_size AVPacket.size
    cases avpkt.data <;> simp
  omega

/-- One call after QUIT: the whole packet is reported consumed, no frame is
produced and both flags stay set. -/
theorem quit_call (s : ShortenContext) (avpkt : AVPacket) (hh : s.got_header = true)
    (hq : s.got_quit_command = true) :
    ∃ r, shorten_decode_frame s avpkt = some r ∧ r.ret = avpkt.size ∧ r.got_frame = false ∧
      r.frame = [] ∧ r.ctx.got_header = true ∧ r.ctx.got_quit_command = true := by
  have hh2 : (append_packet s avpkt).got_header = true := by rw [append_packet_eq]; exact hh
  have hq2 : (append_packet s avpkt).got_quit_command = true := by rw [append_packet_eq]; exact hq
  have hm : (append_packet s avpkt).max_framesize = frame_cap s := by rw [append_packet_eq]
  have hsz := append_packet_size s avpkt
  unfold shorten_decode_frame
  by_cases hc : (append_packet s avpkt).bitstream_size < (append_packet s avpkt).max_framesize ∧
      avpkt.data.isSome = true
  · rw [if_pos hc]
    refine ⟨_, rfl, ?_, rfl, rfl, hh2, hq2⟩
    dsimp only
    have h1 := hc.1
    rw [hsz, hm] at h1
    unfold input_buf_size at h1 ⊢
    have : min avpkt.size (frame_cap s - s.bitstream_size) = avpkt.size := by omega
    rw [this]
  · rw [if_neg hc]
    unfold run_pass decode_pass
    simp only [hh2, hq2, not_true_eq_false, if_false, if_true]
    exact ⟨_, rfl, rfl, rfl, rfl, hh2, hq2⟩


/-! ## The channel cursor -/

theorem alloc_bitstream_cur_chan (s : ShortenContext) (c : Nat) :
    alloc_bitstream { s with cur_chan := c } = { alloc_bitstream s with cur_chan := c } := by
  unfold alloc_bitstream
  dsimp only
  split <;> rfl

theorem move_bitstream_cur_chan (s : ShortenContext) (c n : Nat) :
    move_bitstream { s with cur_chan := c } n = { move_bitstream s n with cur_chan := c } := by
  unfold move_bitstream ShortenContext.bitstream_size
  dsimp only
  split <;> rfl

theorem copy_packet_cur_chan (s : ShortenContext) (avpkt : AVPacket) (c n : Nat) :
    copy_packet { s with cur_chan := c } avpkt n = { copy_packet s avpkt n with cur_chan := c } := by
  unfold copy_packet
  split <;> rfl

/-- The buffer stage does not look at `cur_chan`. -/
theorem append_packet_cur_chan (s : ShortenContext) (avpkt : AVPacket) (c : Nat) :
    append_packet { s with cur_chan := c } avpkt = { append_packet s avpkt with cur_chan := c } := by
  have hn : input_buf_size { s with cur_chan := c } avpkt = input_buf_size s avpkt := rfl
  unfold append_packet
  rw [hn, alloc_bitstream_cur_chan, move_bitstream_cur_chan, copy_packet_cur_chan]

/-- The command loop reports a frame only when its last iteration completed
the last channel. -/
theorem command_loop_frame_complete (fuel : Nat) (s : ShortenContext) (gb : GetBitContext)
    (got_frame : Bool) (frame : List Int) (t : ShortenContext) (g : GetBitContext)
    (h : command_loop fuel s gb = some (.finish got_frame frame, t, g))
    (hc : t.cur_chan < t.channels) : got_frame = false ∧ frame = [] := by
  induction fuel generalizing s gb with
  | zero => unfold command_loop at h; cases h
  | succ fuel ih =>
    cases hstep : command_step s gb with
    | next u g2 =>
      rw [command_loop_next _ _ _ _ _ hstep] at h
      exact ih _ _ h
    | exit e u g2 =>
      rw [command_loop_exit _ _ _ _ _ _ hstep] at h
      cases h
      unfold command_step at hstep
      dsimp only at hstep
      by_cases h1 : s.cur_chan < s.channels
      · rw [if_pos h1] at hstep
        by_cases h2 : get_bits_left gb < 3 + FNSIZE
        · rw [if_pos h2] at hstep; cases hstep; exact ⟨rfl, rfl⟩
        · rw [if_neg h2] at hstep
          by_cases h3 : to_int (get_ur_golomb_shorten gb FNSIZE).1 > FN_VERBATIM
          · rw [if_pos h3] at hstep; cases hstep; exact ⟨rfl, rfl⟩
          · rw [if_neg h3] at hstep
            by_cases h4 : is_audio (to_int (get_ur_golomb_shorten gb FNSIZE).1) = 0
            · rw [if_pos h4] at hstep
              unfold non_audio_command at hstep
              dsimp only at hstep
              split at hstep
              · cases hstep
              · split at hstep
                · cases hstep
                · split at hstep
                  · split at hstep
                    · cases hstep
                    · split at hstep
                      · cases hstep
                      · cases hstep; exact ⟨rfl, rfl⟩
                  · split at hstep
                    · cases hstep; exact ⟨rfl, rfl⟩
                    · cases hstep
            · rw [if_neg h4] at hstep
              unfold audio_step at hstep
              dsimp only at hstep
              split at hstep
              · cases hstep
              · split at hstep
                · next heq =>
                  cases hstep
                  exact absurd heq (Nat.ne_of_lt hc)
                · cases hstep
      · rw [if_neg h1] at hstep; cases hstep; exact ⟨rfl, rfl⟩

/-- The code after `finish_frame` changes nothing but the resume offset and the
pending bytes. -/
theorem finish_frame_ctx_eq (t : ShortenContext) (gb : GetBitContext) (buf_size n : Nat)
    (got_frame : Bool) (frame : List Int) :
    (finish_frame t gb buf_size n got_frame frame).ctx =
      { t with bitindex := (finish_frame t gb buf_size n got_frame frame).ctx.bitindex,
               bitstream := (finish_frame t gb buf_size n got_frame frame).ctx.bitstream,
               bitstream_index :=
                 (finish_frame t gb buf_size n got_frame frame).ctx.bitstream_index } := by
  unfold finish_frame
  dsimp only
  split
  · rfl
  · split <;> rfl

/-! ## The block size -/

/-- What a decode pass does to the block size and to `got_header`. -/
theorem decode_pass_blocksize (s : ShortenContext) (gb : GetBitContext) (n : Nat)
    (r : PassExit × ShortenContext × GetBitContext) (h : decode_pass s gb n = some r) :
    (s.got_header = true → r.2.1.got_header = true ∧ r.2.1.blocksize ≤ s.blocksize ∧
      (1 ≤ s.blocksize → 1 ≤ r.2.1.blocksize)) ∧
    (s.got_header = false → r.2.1.got_header = true →
      1 ≤ r.2.1.blocksize ∧ r.2.1.blocksize ≤ MAX_BLOCKSIZE) := by
  unfold decode_pass at h
  by_cases hh : s.got_header = true
  · rw [if_neg (by rw [hh]; exact fun h => h rfl)] at h
    refine ⟨fun _ => ?_, fun hf => absurd hh (by rw [hf]; exact Bool.false_ne_true)⟩
    split at h
    · cases h; exact ⟨hh, le_refl _, id⟩
    · obtain ⟨_, h2, h3, h4⟩ := command_loop_frame _ _ _ _ h
      unfold stream_fields at h2
      simp only [Prod.mk.injEq] at h2
      exact ⟨h2.2.2.2.2.2.2.2.2.2.trans hh, h3, h4⟩
  · rw [if_pos hh] at h
    refine ⟨fun h1 => absurd h1 hh, fun _ hg => ?_⟩
    split at h
    · cases h
    · next x hx =>
      obtain ⟨_, _, e1, e2⟩ := read_header_spec _ _ _ hx
      split at h
      · next hneg =>
        cases h
        exact absurd ((e1 hneg).symm.trans hg) hh
      · next hneg =>
        cases h
        obtain ⟨_, _, b1, b2, _⟩ := e2 hneg
        exact ⟨b1, b2⟩

/-- What a call does to the block size and to `got_header`. -/
theorem decode_call_blocksize (s : ShortenContext) (avpkt : AVPacket) (r : DecodeResult)
    (h : shorten_decode_frame s avpkt = some r) :
    (s.got_header = true → r.ctx.got_header = true ∧ r.ctx.blocksize ≤ s.blocksize ∧
      (1 ≤ s.blocksize → 1 ≤ r.ctx.blocksize)) ∧
    (s.got_header = false → r.ctx.got_header = true →
      1 ≤ r.ctx.blocksize ∧ r.ctx.blocksize ≤ MAX_BLOCKSIZE) := by
  have hA := append_packet_eq s avpkt
  have hg : (append_packet s avpkt).got_header = s.got_header := by rw [hA]
  have hb : (append_packet s avpkt).blocksize = s.blocksize := by rw [hA]
  unfold shorten_decode_frame at h
  split at h
  · cases h
    exact ⟨fun h1 => ⟨hg.trans h1, le_of_eq hb, fun h2 => hb ▸ h2⟩,
      fun h1 h2 => absurd (hg.symm.trans h2) (by rw [h1]; exact Bool.false_ne_true)⟩
  · unfold run_pass at h
    split at h
    · cases h
    · next code t g hd =>
      cases h
      have hp := decode_pass_blocksize _ _ _ _ hd
      rw [hg, hb] at hp
      exact hp
    · next gf fr t g hd =>
      cases h
      have hp := decode_pass_blocksize _ _ _ _ hd
      rw [hg, hb] at hp
      rw [finish_frame_ctx_eq]
      exact hp

/-- In every reachable context with the header parsed the block size lies
between 1 and `MAX_BLOCKSIZE`. -/
theorem reachable_blocksize (s : ShortenContext) (hr : Reachable s) :
    s.got_header = true → 1 ≤ s.blocksize ∧ s.blocksize ≤ MAX_BLOCKSIZE := by
  induction hr with
  | init => intro h; exact absurd h (by decide)
  | call s avpkt r _ hcall ih =>
    intro hg
    obtain ⟨c1, c2⟩ := decode_call_blocksize s avpkt r hcall
    by_cases hh : s.got_header = true
    · obtain ⟨_, d2, d3⟩ := c1 hh
      obtain ⟨i1, i2⟩ := ih hh
      exact ⟨d3 i1, d2.trans i2⟩
    · exact c2 (by cases hv : s.got_header <;> simp_all) hg

/-- The command `FN_BLOCKSIZE` in an iteration of the command loop. -/
theorem command_step_blocksize (s : ShortenContext) (gb : GetBitContext)
    (h1 : s.cur_chan < s.channels) (h2 : ¬ get_bits_left gb < 3 + FNSIZE)
    (h3 : to_int (get_ur_golomb_shorten gb FNSIZE).1 = FN_BLOCKSIZE) :
    command_step s gb = non_audio_command s (get_ur_golomb_shorten gb FNSIZE).2 FN_BLOCKSIZE := by
  unfold command_step
  dsimp only
  rw [if_pos h1, if_neg h2, h3, if_neg (by decide), if_pos (by decide)]

/-! ## The output assembler -/

theorem interleave_inner (f : Nat → Int) (n : Nat) (acc : List Int) :
    (List.range n).foldl (fun samples chan => samples ++ [f chan]) acc =
      acc ++ (List.range n).map f := by
  induction n with
  | zero => simp
  | succ n ih => rw [List.range_succ, List.foldl_append, ih]; simp

theorem interleave_buffer_succ (nchan b : Nat) (buffer : List (List Int)) :
    interleave_buffer nchan (b + 1) buffer =
      interleave_buffer nchan b buffer ++
        (List.range nchan).map (fun chan => av_clip_int16 ((buffer.getD chan []).getD b 0)) := by
  unfold interleave_buffer
  rw [List.range_succ, List.foldl_append]
  simp only [List.foldl_cons, List.foldl_nil]
  exact interleave_inner _ _ _

theorem interleave_buffer_length (nchan b : Nat) (buffer : List (List Int)) :
    (interleave_buffer nchan b buffer).length = nchan * b := by
  induction b with
  | zero => simp [interleave_buffer]
  | succ b ih =>
    rw [interleave_buffer_succ, List.length_append, ih, List.length_map, List.length_range]
    ring

theorem interleave_buffer_get (nchan b : Nat) (buffer : List (List Int)) (i c : Nat)
    (hi : i < b) (hc : c < nchan) :
    (interleave_buffer nchan b buffer)[i * nchan + c]? =
      some (av_clip_int16 ((buffer.getD c []).getD i 0)) := by
  induction b with
  | zero => exact absurd hi (Nat.not_lt_zero i)
  | succ b ih =>
    rw [interleave_buffer_succ]
    by_cases hib : i < b
    · have hlt : i * nchan + c < (interleave_buffer nchan b buffer).length := by
        rw [interleave_buffer_length]
        have : (i + 1) * nchan ≤ b * nchan := Nat.mul_le_mul_right _ hib
        nlinarith
      rw [List.getElem?_append_left hlt]
      exact ih hib
    · have hib2 : i = b := by omega
      subst hib2
      have hge : (interleave_buffer nchan i buffer).length ≤ i * nchan + c := by
        rw [interleave_buffer_length]
        nlinarith
      rw [List.getElem?_append_right hge, interleave_buffer_length]
      have : i * nchan + c - nchan * i = c := by
        rw [Nat.mul_comm]; omega
      rw [this, List.getElem?_map, List.getElem?_range hc]
      rfl

/-! ## The predictor -/

theorem wrap32_wrap32_add (a b : Int) : wrap32 (wrap32 a + b) = wrap32 (a + b) := by
  unfold wrap32; omega

theorem wrap32_add_wrap32 (a b : Int) : wrap32 (a + wrap32 b) = wrap32 (a + b) := by
  unfold wrap32; omega

theorem asr_zero (x : Int) : asr x 0 = x := by
  unfold asr; simp

theorem getD_set_eq (d : List Int) (p : Nat) (v : Int) (h : p < d.length) :
    (d.set p v).getD p 0 = v := by
  rw [List.getD_eq_getElem?_getD, List.getElem?_set_self h]
  rfl

theorem getD_set_ne (d : List Int) (p q : Nat) (v : Int) (h : p ≠ q) :
    (d.set p v).getD q 0 = d.getD q 0 := by
  rw [List.getD_eq_getElem?_getD, List.getD_eq_getElem?_getD, List.getElem?_set_ne h]

/-- The prediction for position `p` only reads positions below `p`. -/
theorem predict_congr (coeffs d1 d2 : List Int) (p order : Nat) (init_sum : Int)
    (hp : 0 < p) (h : ∀ q, q < p → d1.getD q 0 = d2.getD q 0) :
    predict coeffs d1 p order init_sum = predict coeffs d2 p order init_sum := by
  unfold predict
  induction order with
  | zero => rfl
  | succ n ih =>
    rw [List.range_succ, List.foldl_append, List.foldl_append, ih]
    simp only [List.foldl_cons, List.foldl_nil]
    rw [h (p - n - 1) (by omega)]

theorem decode_samples_length (coeffs : List Int) (order : Nat) (init_sum : Int) (q : Nat)
    (rs : Int) (nwrap n i : Nat) (d : List Int) (gb : GetBitContext) :
    (decode_samples coeffs order init_sum q rs nwrap n i d gb).1.length = d.length := by
  induction n generalizing i d gb with
  | zero => rfl
  | succ n ih =>
    unfold decode_samples
    dsimp only
    rw [ih, List.length_set]

/-- The sample loop leaves the positions below the first sample as they are. -/
theorem decode_samples_below (coeffs : List Int) (order : Nat) (init_sum : Int) (q : Nat)
    (rs : Int) (nwrap n i : Nat) (d : List Int) (gb : GetBitContext) (p : Nat)
    (hp : p < nwrap + i) :
    (decode_samples coeffs order init_sum q rs nwrap n i d gb).1.getD p 0 = d.getD p 0 := by
  induction n generalizing i d gb with
  | zero => rfl
  | succ n ih =>
    unfold decode_samples
    dsimp only
    rw [ih _ _ _ (by omega), getD_set_ne _ _ _ _ (by omega)]

theorem decode_samples_succ (coeffs : List Int) (order : Nat) (init_sum : Int) (q : Nat)
    (rs : Int) (nwrap n i : Nat) (d : List Int) (gb : GetBitContext) :
    decode_samples coeffs order init_sum q rs nwrap (n + 1) i d gb =
      decode_samples coeffs order init_sum q rs nwrap n (i + 1)
        (d.set (nwrap + i) (wrap32 ((get_sr_golomb_shorten gb rs).1 +
          asr (predict coeffs d (nwrap + i) order init_sum) q)))
        (get_sr_golomb_shorten gb rs).2 := by
  conv => lhs; unfold decode_samples

theorem residuals_succ (k : Int) (n : Nat) (gb : GetBitContext) :
    residuals k (n + 1) gb =
      (get_sr_golomb_shorten gb k).1 :: residuals k n (get_sr_golomb_shorten gb k).2 := by
  conv => lhs; unfold residuals

/-- The sample loop: sample `i + t` is the residual number `t` plus the shifted
prediction from the samples before it. -/
theorem decode_samples_value (coeffs : List Int) (order : Nat) (init_sum : Int) (q : Nat)
    (rs : Int) (nwrap n i : Nat) (d : List Int) (gb : GetBitContext) (t : Nat)
    (ht : t < n) (hlen : nwrap + i + n ≤ d.length) (hw : 0 < nwrap) :
    (decode_samples coeffs order init_sum q rs nwrap n i d gb).1.getD (nwrap + i + t) 0 =
      wrap32 ((residuals rs n gb).getD t 0 +
        asr (predict coeffs (decode_samples coeffs order init_sum q rs nwrap n i d gb).1
          (nwrap + i + t) order init_sum) q) := by
  induction n generalizing i d gb t with
  | zero => exact absurd ht (Nat.not_lt_zero t)
  | succ n ih =>
    rw [decode_samples_succ, residuals_succ]
    have hb := decode_samples_below coeffs order init_sum q rs nwrap n (i + 1)
      (d.set (nwrap + i) (wrap32 ((get_sr_golomb_shorten gb rs).1 +
          asr (predict coeffs d (nwrap + i) order init_sum) q)))
      (get_sr_golomb_shorten gb rs).2
    cases t with
    | zero =>
      have hlt : nwrap + i < d.length := by omega
      simp only [Nat.add_zero, List.getD_cons_zero]
      rw [hb (nwrap + i) (by omega), getD_set_eq d (nwrap + i) _ hlt]
      have hp : predict coeffs (decode_samples coeffs order init_sum q rs nwrap n (i + 1)
          (d.set (nwrap + i) (wrap32 ((get_sr_golomb_shorten gb rs).1 +
            asr (predict coeffs d (nwrap + i) order init_sum) q)))
          (get_sr_golomb_shorten gb rs).2).1 (nwrap + i) order init_sum =
          predict coeffs d (nwrap + i) order init_sum := by
        apply predict_congr
        · omega
        · intro p hp
          rw [hb p (by omega), getD_set_ne d (nwrap + i) p _ (by omega)]
      rw [hp]
    | succ t =>
      have h := ih (i + 1) (d.set (nwrap + i)
        (wrap32 ((get_sr_golomb_shorten gb rs).1 +
          asr (predict coeffs d (nwrap + i) order init_sum) q)))
        (get_sr_golomb_shorten gb rs).2 t (by omega)
        (by rw [List.length_set]; omega)
      rw [show nwrap + i + (t + 1) = nwrap + (i + 1) + t by omega, h]
      simp only [List.getD_cons_succ]

theorem getD_set_self_list (l : List (List Int)) (c : Nat) (v : List Int) (h : c < l.length) :
    (l.set c v).getD c [] = v := by
  rw [List.getD_eq_getElem?_getD, List.getElem?_set_self h]
  rfl

/-- The block decoded by `decode_subframe_lpc` for a fixed predictor: the
result of the sample loop with the fixed coefficients, shift 0 and the bias
`coffset` for order 0. -/
theorem decode_subframe_lpc_fixed (s : ShortenContext) (gb : GetBitContext) (command : Int)
    (channel : Nat) (residual_size coffset : Int) (hq : command ≠ FN_QLPC)
    (hch : channel < s.decoded_base.length) :
    (decode_subframe_lpc s gb command channel residual_size coffset).1 = 0 ∧
    (decode_subframe_lpc s gb command channel residual_size coffset).2.1.nwrap = s.nwrap ∧
    (decode_subframe_lpc s gb command channel residual_size coffset).2.1.decoded_base.getD
        channel [] =
      (decode_samples (fixed_coeffs.getD (command.toNat - 1) []) command.toNat
        (if command ≠ 0 then 0 else coffset) 0 residual_size s.nwrap s.blocksize 0
        (s.decoded_base.getD channel []) gb).1 := by
  unfold decode_subframe_lpc
  rw [if_neg hq]
  dsimp only
  exact ⟨rfl, rfl, getD_set_self_list _ _ _ hch⟩

/-- A sample of a block decoded with a fixed predictor, and the history before
the block. -/
theorem fixed_sample (s : ShortenContext) (gb : GetBitContext) (command : Int)
    (channel : Nat) (residual_size coffset : Int) (hq : command ≠ FN_QLPC)
    (hch : channel < s.decoded_base.length)
    (hlen : s.nwrap + s.blocksize ≤ (s.decoded_base.getD channel []).length)
    (hw : 3 ≤ s.nwrap) :
    (∀ i : Nat, i < s.blocksize →
      sample (decode_subframe_lpc s gb command channel residual_size coffset).2.1 channel i =
        wrap32 ((residuals residual_size s.blocksize gb).getD i 0 +
          predict (fixed_coeffs.getD (command.toNat - 1) [])
            ((decode_subframe_lpc s gb command channel residual_size coffset).2.1.decoded_base.getD
              channel [])
            (s.nwrap + i) command.toNat (if command ≠ 0 then 0 else coffset))) ∧
    (∀ j : Int, -(s.nwrap : Int) ≤ j → j < 0 →
      sample (decode_subframe_lpc s gb command channel residual_size coffset).2.1 channel j =
        sample s channel j) := by
  obtain ⟨_, h2, h3⟩ := decode_subframe_lpc_fixed s gb command channel residual_size coffset hq hch
  constructor
  · intro i hi
    unfold sample
    rw [h2, h3]
    have hv := decode_samples_value (fixed_coeffs.getD (command.toNat - 1) []) command.toNat
      (if command ≠ 0 then 0 else coffset) 0 residual_size s.nwrap s.blocksize 0
      (s.decoded_base.getD channel []) gb i hi (by omega) (by omega)
    rw [asr_zero, Nat.add_zero] at hv
    rw [show ((s.nwrap : Int) + (i : Int)).toNat = s.nwrap + i by omega]
    exact hv
  · intro j hj1 hj2
    unfold sample
    rw [h2, h3]
    exact decode_samples_below _ _ _ _ _ _ _ _ _ _ _ (by omega)

/-! ## Progress of the bit reader -/

theorem Advanced.start (gb : GetBitContext) : Advanced 0 gb gb := ⟨rfl, rfl, Nat.le_refl _⟩

theorem Advanced.step {a b : Nat} {g1 g2 g3 : GetBitContext} (h1 : Advanced a g1 g2)
    (h2 : Advanced b g2 g3) : Advanced (a + b) g1 g3 :=
  ⟨h2.1.trans h1.1, h2.2.1.trans h1.2.1, by have := h1.2.2; have := h2.2.2; omega⟩

theorem Advanced.weaken {a b : Nat} {g1 g2 : GetBitContext} (h : Advanced a g1 g2)
    (hb : b ≤ a) : Advanced b g1 g2 :=
  ⟨h.1, h.2.1, by have := h.2.2; omega⟩

theorem get_bits_advanced (gb : GetBitContext) (n : Nat) : Advanced n gb (get_bits gb n).2 :=
  ⟨rfl, rfl, Nat.le_refl _⟩

theorem skip_bits_advanced (gb : GetBitContext) (n : Nat) : Advanced n gb (skip_bits gb n) :=
  ⟨rfl, rfl, Nat.le_refl _⟩

theorem get_ur_golomb_shorten_advanced (gb : GetBitContext) (k : Nat) :
    Advanced (k + 1) gb (get_ur_golomb_shorten gb k).2 :=
  ⟨rfl, rfl, by unfold get_ur_golomb_shorten; dsimp only; omega⟩

theorem get_sr_golomb_shorten_advanced (gb : GetBitContext) (k : Int) :
    Advanced 1 gb (get_sr_golomb_shorten gb k).2 :=
  (get_ur_golomb_shorten_advanced gb k.toNat).weaken (by omega)

theorem get_uint_advanced (s : ShortenContext) (gb : GetBitContext) (k : Nat) :
    Advanced 1 gb (get_uint s gb k).2 := by
  unfold get_uint
  split
  · exact ((get_ur_golomb_shorten_advanced gb ULONGSIZE).step
      (get_ur_golomb_shorten_advanced _ _)).weaken (by omega)
  · exact (get_ur_golomb_shorten_advanced gb k).weaken (by omega)

theorem read_coeffs_advanced (n i : Nat) (c : List Int) (gb : GetBitContext) :
    Advanced 0 gb (read_coeffs n i c gb).2 := by
  induction n generalizing i c gb with
  | zero => exact Advanced.start gb
  | succ n ih =>
    unfold read_coeffs
    exact ((get_sr_golomb_shorten_advanced gb LPCQUANT).step (ih _ _ _)).weaken (by omega)

theorem decode_samples_advanced (coeffs : List Int) (order : Nat) (init_sum : Int) (q : Nat)
    (rs : Int) (nwrap n i : Nat) (d : List Int) (gb : GetBitContext) :
    Advanced 0 gb (decode_samples coeffs order init_sum q rs nwrap n i d gb).2 := by
  induction n generalizing i d gb with
  | zero => exact Advanced.start gb
  | succ n ih =>
    unfold decode_samples
    exact ((get_sr_golomb_shorten_advanced gb rs).step (ih _ _ _)).weaken (by omega)

theorem skip_verbatim_advanced (n : Nat) (gb : GetBitContext) :
    Advanced 0 gb (skip_verbatim n gb) := by
  induction n generalizing gb with
  | zero => exact Advanced.start gb
  | succ n ih =>
    unfold skip_verbatim
    exact ((get_ur_golomb_shorten_advanced gb VERBATIM_BYTE_SIZE).step (ih _)).weaken (by omega)

theorem read_residual_size_advanced (s : ShortenContext) (gb : GetBitContext) (cmd : Int) :
    Advanced 0 gb (read_residual_size s gb cmd).2 := by
  unfold read_residual_size
  split
  · exact (get_ur_golomb_shorten_advanced gb ENERGYSIZE).weaken (by omega)
  · exact Advanced.start gb

theorem decode_subframe_lpc_advanced (s : ShortenContext) (gb : GetBitContext) (command : Int)
    (channel : Nat) (residual_size coffset : Int) :
    Advanced 0 gb (decode_subframe_lpc s gb command channel residual_size coffset).2.2 := by
  unfold decode_subframe_lpc
  dsimp only
  split
  · split
    · exact (get_ur_golomb_shorten_advanced gb LPCQSIZE).weaken (by omega)
    · exact ((get_ur_golomb_shorten_advanced gb LPCQSIZE).step
        ((read_coeffs_advanced _ _ _ _).step (decode_samples_advanced _ _ _ _ _ _ _ _ _ _))).weaken
        (by omega)
  · exact decode_samples_advanced _ _ _ _ _ _ _ _ _ _

theorem decode_channel_advanced (s : ShortenContext) (gb : GetBitContext) (cmd : Int)
    (channel : Nat) (residual_size coffset : Int) :
    Advanced 0 gb (decode_channel s gb cmd channel residual_size coffset).2.2 := by
  unfold decode_channel
  split
  · exact Advanced.start gb
  · exact decode_subframe_lpc_advanced _ _ _ _ _ _

theorem audio_command_advanced (s : ShortenContext) (gb : GetBitContext) (cmd : Int) :
    Advanced 0 gb (audio_command s gb cmd).2.2 := by
  have h := (read_residual_size_advanced s gb cmd).step
    (decode_channel_advanced s (read_residual_size s gb cmd).2 cmd s.cur_chan
      (read_residual_size s gb cmd).1 (sample_offset s s.cur_chan))
  unfold audio_command
  dsimp only
  split
  · exact h
  · exact h

/-- An iteration of the command loop that goes round again has found at least
five bits left and has read at least three of them. -/
theorem command_step_advanced (s t : ShortenContext) (gb g : GetBitContext)
    (h : command_step s gb = .next t g) :
    Advanced 3 gb g ∧ gb.index + 5 ≤ gb.size_in_bits := by
  unfold command_step at h
  dsimp only at h
  by_cases h1 : s.cur_chan < s.channels
  · rw [if_pos h1] at h
    by_cases h2 : get_bits_left gb < 3 + FNSIZE
    · rw [if_pos h2] at h; exact LoopStep.noConfusion h
    · rw [if_neg h2] at h
      have hl : gb.index + 5 ≤ gb.size_in_bits := by
        unfold get_bits_left FNSIZE at h2; omega
      have hc := get_ur_golomb_shorten_advanced gb FNSIZE
      refine ⟨?_, hl⟩
      by_cases h3 : to_int (get_ur_golomb_shorten gb FNSIZE).1 > FN_VERBATIM
      · rw [if_pos h3] at h; exact LoopStep.noConfusion h
      · rw [if_neg h3] at h
        by_cases h4 : is_audio (to_int (get_ur_golomb_shorten gb FNSIZE).1) = 0
        · rw [if_pos h4] at h
          unfold non_audio_command at h
          dsimp only at h
          split at h
          · injection h with _ hg
            rw [← hg]
            exact (hc.step ((get_ur_golomb_shorten_advanced _ VERBATIM_CKSIZE_SIZE).step
              (skip_verbatim_advanced _ _))).weaken (by unfold FNSIZE; omega)
          · split at h
            · injection h with _ hg
              rw [← hg]
              exact (hc.step (get_ur_golomb_shorten_advanced _ BITSHIFTSIZE)).weaken
                (by unfold FNSIZE; omega)
            · split at h
              · split at h
                · exact LoopStep.noConfusion h
                · split at h <;> exact LoopStep.noConfusion h
              · split at h
                · exact LoopStep.noConfusion h
                · injection h with _ hg
                  rw [← hg]
                  exact hc.weaken (by unfold FNSIZE; omega)
        · rw [if_neg h4] at h
          unfold audio_step at h
          dsimp only at h
          split at h
          · exact LoopStep.noConfusion h
          · split at h
            · exact LoopStep.noConfusion h
            · injection h with _ hg
              rw [← hg]
              exact (hc.step (audio_command_advanced _ _ _)).weaken (by unfold FNSIZE; omega)
  · rw [if_neg h1] at h; exact LoopStep.noConfusion h

/-- The command loop ends within the fuel it is given: one unit per bit of the
buffer is enough. -/
theorem command_loop_fuel (fuel : Nat) (s : ShortenContext) (gb : GetBitContext)
    (h : gb.size_in_bits + 1 ≤ gb.index + fuel) (h1 : 1 ≤ fuel) :
    ∃ r, command_loop fuel s gb = some r := by
  induction fuel generalizing s gb with
  | zero => omega
  | succ fuel ih =>
    cases hs : command_step s gb with
    | exit e t g => exact ⟨_, command_loop_exit fuel s t gb g e hs⟩
    | next t g =>
      rw [command_loop_next fuel s t gb g hs]
      obtain ⟨⟨_, h2, h3⟩, h4⟩ := command_step_advanced s t gb g hs
      exact ih t g (by omega) (by omega)

theorem command_loop_total (s : ShortenContext) (gb : GetBitContext) :
    ∃ r, command_loop (gb.size_in_bits + 1) s gb = some r :=
  command_loop_fuel _ s gb (by omega) (by omega)

theorem command_loop_fuel_eq (fuel1 fuel2 : Nat) (s : ShortenContext) (gb : GetBitContext)
    (h : gb.size_in_bits + 1 ≤ gb.index + fuel1) (h1 : 1 ≤ fuel1)
    (h' : gb.size_in_bits + 1 ≤ gb.index + fuel2) (h1' : 1 ≤ fuel2) :
    command_loop fuel1 s gb = command_loop fuel2 s gb := by
  induction fuel1 generalizing fuel2 s gb with
  | zero => omega
  | succ fuel1 ih =>
    obtain ⟨fuel2, rfl⟩ : ∃ m, fuel2 = m + 1 := ⟨fuel2 - 1, by omega⟩
    cases hs : command_step s gb with
    | exit e t g =>
      rw [command_loop_exit fuel1 s t gb g e hs, command_loop_exit fuel2 s t gb g e hs]
    | next t g =>
      rw [command_loop_next fuel1 s t gb g hs, command_loop_next fuel2 s t gb g hs]
      obtain ⟨⟨_, h2, h3⟩, h4⟩ := command_step_advanced s t gb g hs
      exact ih fuel2 t g (by omega) (by omega) (by omega) (by omega)

/-- The command loop after `n` iterations that go round again is the command
loop from the state they lead to. -/
theorem command_loop_iter (n : Nat) (s t : ShortenContext) (gb g : GetBitContext)
    (hn : loop_iter n s gb = some (t, g)) :
    command_loop (gb.size_in_bits + 1) s gb = command_loop (g.size_in_bits + 1) t g := by
  induction n generalizing s gb with
  | zero =>
    unfold loop_iter at hn
    injection hn with hn
    injection hn with h1 h2
    rw [h1, h2]
  | succ n ih =>
    unfold loop_iter at hn
    cases hs : command_step s gb with
    | exit e t' g' => rw [hs] at hn; exact Option.noConfusion hn
    | next t' g' =>
      rw [hs] at hn
      dsimp only at hn
      obtain ⟨⟨_, h2, h3⟩, h4⟩ := command_step_advanced s t' gb g' hs
      rw [command_loop_next _ s t' gb g' hs, ← ih t' g' hn]
      exact command_loop_fuel_eq _ _ t' g' (by omega) (by omega) (by omega) (by omega)

/-- The iterations of the command loop that go round again keep the block
size, the reader's buffer and everything `LoopFrame` names. -/
theorem loop_iter_frame (n : Nat) (s t : ShortenContext) (gb g : GetBitContext)
    (hn : loop_iter n s gb = some (t, g)) :
    LoopFrame s t ∧ Advanced 0 gb g := by
  induction n generalizing s gb with
  | zero =>
    unfold loop_iter at hn
    injection hn with hn
    injection hn with h1 h2
    rw [← h1, ← h2]
    exact ⟨LoopFrame.refl s, Advanced.start gb⟩
  | succ n ih =>
    unfold loop_iter at hn
    cases hs : command_step s gb with
    | exit e t' g' => rw [hs] at hn; exact Option.noConfusion hn
    | next t' g' =>
      rw [hs] at hn
      dsimp only at hn
      have hf := command_step_frame s gb
      rw [hs] at hf
      exact ⟨LoopFrame.trans hf (ih t' g' hn).1,
        (((command_step_advanced s t' gb g' hs).1.step (ih t' g' hn).2)).weaken (by omega)⟩

/-- An iteration of the command loop that goes round again keeps the block
size and the QUIT flag. -/
theorem command_step_next_fields (s t : ShortenContext) (gb g : GetBitContext)
    (h : command_step s gb = .next t g) :
    t.blocksize = s.blocksize ∧ t.got_quit_command = s.got_quit_command := by
  unfold command_step at h
  dsimp only at h
  by_cases h1 : s.cur_chan < s.channels
  · rw [if_pos h1] at h
    by_cases h2 : get_bits_left gb < 3 + FNSIZE
    · rw [if_pos h2] at h; exact LoopStep.noConfusion h
    · rw [if_neg h2] at h
      by_cases h3 : to_int (get_ur_golomb_shorten gb FNSIZE).1 > FN_VERBATIM
      · rw [if_pos h3] at h; exact LoopStep.noConfusion h
      · rw [if_neg h3] at h
        by_cases h4 : is_audio (to_int (get_ur_golomb_shorten gb FNSIZE).1) = 0
        · rw [if_pos h4] at h
          unfold non_audio_command at h
          dsimp only at h
          split at h
          · injection h with hs _
            rw [← hs]; exact ⟨rfl, rfl⟩
          · split at h
            · injection h with hs _
              rw [← hs]; exact ⟨rfl, rfl⟩
            · split at h
              · split at h
                · exact LoopStep.noConfusion h
                · split at h <;> exact LoopStep.noConfusion h
              · split at h
                · exact LoopStep.noConfusion h
                · injection h with hs _
                  rw [← hs]; exact ⟨rfl, rfl⟩
        · rw [if_neg h4] at h
          unfold audio_step at h
          dsimp only at h
          split at h
          · exact LoopStep.noConfusion h
          · split at h
            · exact LoopStep.noConfusion h
            · injection h with hs _
              rw [← hs]
              obtain ⟨_, _, a3, _, a5⟩ := audio_fields_loop (audio_command_frame s
                (get_ur_golomb_shorten gb FNSIZE).2 (to_int (get_ur_golomb_shorten gb FNSIZE).1))
              exact ⟨a3, a5⟩
  · rw [if_neg h1] at h; exact LoopStep.noConfusion h

theorem loop_iter_fields (n : Nat) (s t : ShortenContext) (gb g : GetBitContext)
    (hn : loop_iter n s gb = some (t, g)) :
    t.blocksize = s.blocksize ∧ t.got_quit_command = s.got_quit_command := by
  induction n generalizing s gb with
  | zero =>
    unfold loop_iter at hn
    injection hn with hn
    injection hn with h1 h2
    rw [← h1]
    exact ⟨rfl, rfl⟩
  | succ n ih =>
    unfold loop_iter at hn
    cases hs : command_step s gb with
    | exit e t' g' => rw [hs] at hn; exact Option.noConfusion hn
    | next t' g' =>
      rw [hs] at hn
      dsimp only at hn
      have h1 := command_step_next_fields s t' gb g' hs
      have h2 := ih t' g' hn
      exact ⟨h2.1.trans h1.1, h2.2.trans h1.2⟩

/-- A call that runs a pass with the header parsed and no QUIT received, whose
command loop leaves after `n` iterations through the exit `e`. -/
theorem decode_pass_iter (s t u : ShortenContext) (gb g g' : GetBitContext) (size n : Nat)
    (e : PassExit) (hh : s.got_header = true) (hq : s.got_quit_command = false)
    (hn : loop_iter n { s with cur_chan := 0 } gb = some (t, g))
    (he : command_step t g = .exit e u g') :
    decode_pass s gb size = some (e, u, g') := by
  rw [decode_pass_loop s gb size hh hq, command_loop_iter n _ t gb g hn]
  exact command_loop_exit _ _ _ _ _ _ he

/-! ## The channel count -/

theorem allocate_buffers_loop_channels (n chan : Nat) (s : ShortenContext) :
    (allocate_buffers_loop n chan s).2.channels = s.channels := by
  induction n generalizing chan s with
  | zero => rfl
  | succ n ih =>
    unfold allocate_buffers_loop
    dsimp only
    split
    · rfl
    · split
      · rfl
      · exact ih _ _

theorem allocate_buffers_channels (s : ShortenContext) :
    (allocate_buffers s).2.channels = s.channels := by
  have h := allocate_buffers_loop_channels s.channels 0 s
  unfold allocate_buffers
  dsimp only
  split
  · exact h
  · exact h

theorem init_offset_channels (s : ShortenContext) :
    (init_offset s).2.channels = s.channels := by
  unfold init_offset
  dsimp only
  split <;> rfl

theorem read_header_verbatim_channels (s : ShortenContext) (gb : GetBitContext)
    (r : Int × ShortenContext × GetBitContext) (h : read_header_verbatim s gb = some r) :
    r.2.1.channels = s.channels := by
  unfold read_header_verbatim at h
  dsimp only at h
  split at h
  · cases h; rfl
  · split at h
    · cases h; rfl
    · split at h
      · cases h
      · split at h <;> (cases h; rfl)

theorem read_header_buffers_channels (s : ShortenContext) (gb : GetBitContext) (maxnlpc : Int)
    (r : Int × ShortenContext × GetBitContext) (h : read_header_buffers s gb maxnlpc = some r) :
    r.2.1.channels = s.channels := by
  unfold read_header_buffers at h
  dsimp only at h
  have ha : (allocate_buffers { s with nwrap := (max NWRAP maxnlpc).toNat }).2.channels =
      s.channels := allocate_buffers_channels _
  have ho := init_offset_channels (allocate_buffers { s with nwrap := (max NWRAP maxnlpc).toNat }).2
  split at h
  · cases h; exact ha
  · split at h
    · cases h; exact ho.trans ha
    · split at h
      · exact (read_header_verbatim_channels _ _ _ h).trans (ho.trans ha)
      · exact (read_header_verbatim_channels _ _ _ h).trans (ho.trans ha)

theorem read_header_blocksize_channels (s : ShortenContext) (gb : GetBitContext)
    (p : ShortenContext × GetBitContext × Int) (h : read_header_blocksize s gb = .ok p) :
    p.1.channels = s.channels := by
  unfold read_header_blocksize at h
  dsimp only at h
  split at h
  · split at h
    · cases h
    · cases h; rfl
  · cases h; rfl

/-- The channel check of `read_header`, in terms of the channel count read from
the stream. -/
theorem read_header_channels_count (s : ShortenContext) (gb : GetBitContext)
    (hm : (get_bits gb 32).1 = 0x616A6B67) :
    ((read_channel_count s gb).1 = 0 ∨ (read_channel_count s gb).1 > MAX_CHANNELS →
      ∃ t, read_header_channels s gb = .error (t, (read_channel_count s gb).2) ∧
        t.channels = 0 ∧ t.got_header = s.got_header) ∧
    (¬ ((read_channel_count s gb).1 = 0 ∨ (read_channel_count s gb).1 > MAX_CHANNELS) →
      ∃ t, read_header_channels s gb = .ok (t, (read_channel_count s gb).2) ∧
        t.channels = (read_channel_count s gb).1 ∧
        t.avctx.channels = (read_channel_count s gb).1) := by
  unfold read_header_channels read_channel_count
  dsimp only
  rw [if_neg (not_not.mpr hm)]
  constructor
  · intro h
    split
    · exact ⟨_, rfl, rfl, rfl⟩
    · next h0 =>
      rw [if_pos (h.resolve_left h0)]
      exact ⟨_, rfl, rfl, rfl⟩
  · intro h
    simp only [not_or] at h
    rw [if_neg h.1, if_neg h.2]
    exact ⟨_, rfl, rfl, rfl⟩

/-! ## The verbatim section of the header -/

/-- When `read_header` reaches the check of the verbatim section, it returns
what `read_header_verbatim` returns; `got_header` has not been written. -/
theorem read_header_entry (s0 s : ShortenContext) (gb0 gb : GetBitContext)
    (he : verbatim_entry s0 gb0 = some (s, gb)) :
    read_header s0 gb0 = read_header_verbatim s gb ∧ s.got_header = s0.got_header := by
  unfold verbatim_entry at he
  unfold read_header
  cases hc : read_header_channels s0 gb0 with
  | error e => rw [hc] at he; exact Option.noConfusion he
  | ok c =>
    rw [hc] at he
    dsimp only at he ⊢
    obtain ⟨_, _, c3, _⟩ := (read_header_channels_frame s0 gb0).2 c hc
    cases hp : read_header_blocksize c.1 c.2 with
    | error e => rw [hp] at he; exact Option.noConfusion he
    | ok p =>
      rw [hp] at he
      dsimp only at he ⊢
      obtain ⟨_, _, p3, _⟩ := read_header_blocksize_frame _ _ _ hp
      have ha := (allocate_buffers_frame { p.1 with nwrap := (max NWRAP p.2.2).toNat }).2
      have ho := (init_offset_frame
        (allocate_buffers { p.1 with nwrap := (max NWRAP p.2.2).toNat }).2).2
      have hg : (init_offset (allocate_buffers
          { p.1 with nwrap := (max NWRAP p.2.2).toNat }).2).2.got_header = s0.got_header :=
        ho.trans (ha.trans (p3.trans c3))
      unfold read_header_buffers
      dsimp only
      split at he
      · exact Option.noConfusion he
      · next h1 =>
        rw [if_neg h1]
        split at he
        · exact Option.noConfusion he
        · next h2 =>
          rw [if_neg h2]
          split at he
          · next h3 =>
            rw [if_pos h3]
            injection he with he
            injection he with e1 e2
            rw [← e1, ← e2]
            exact ⟨rfl, hg⟩
          · next h3 =>
            rw [if_neg h3]
            injection he with he
            injection he with e1 e2
            rw [← e1, ← e2]
            exact ⟨rfl, hg⟩

theorem read_verbatim_header_length (n : Nat) (h : List Nat) (gb : GetBitContext) :
    (read_verbatim_header n h gb).1.length = h.length + n := by
  induction n generalizing h gb with
  | zero => rfl
  | succ n ih =>
    unfold read_verbatim_header
    dsimp only
    rw [ih, List.length_append, List.length_singleton]
    omega

/-- The checks of the verbatim section. -/
theorem read_header_verbatim_checks (s : ShortenContext) (gb : GetBitContext) :
    (verbatim_command gb ≠ 9 →
      read_header_verbatim s gb = some (AVERROR_INVALIDDATA, s, (get_ur_golomb_shorten gb FNSIZE).2)) ∧
    (verbatim_command gb = 9 → (verbatim_size gb < 44 ∨ 16384 ≤ verbatim_size gb) →
      read_header_verbatim s gb = some (AVERROR_INVALIDDATA,
        { s with header_size := verbatim_size gb },
        (get_ur_golomb_shorten (get_ur_golomb_shorten gb FNSIZE).2 VERBATIM_CKSIZE_SIZE).2)) ∧
    (∀ r, read_header_verbatim s gb = some r → ¬ r.1 < 0 →
      verbatim_command gb = 9 ∧ 44 ≤ verbatim_size gb ∧ verbatim_size gb < 16384 ∧
      r.2.1.header_size = verbatim_size gb ∧ r.2.1.got_header = true ∧
      r.2.1.header.length = (verbatim_size gb).toNat) := by
  unfold verbatim_command verbatim_size
  refine ⟨fun h => ?_, fun h1 h2 => ?_, fun r hr hn => ?_⟩
  · unfold read_header_verbatim
    dsimp only
    rw [if_pos h]
  · unfold read_header_verbatim
    dsimp only
    rw [if_neg (not_not.mpr h1), if_pos (by unfold OUT_BUFFER_SIZE CANONICAL_HEADER_SIZE; omega)]
  · unfold read_header_verbatim at hr
    dsimp only at hr
    split at hr
    · cases hr; exact absurd (by decide : AVERROR_INVALIDDATA < 0) hn
    · next h1 =>
      split at hr
      · cases hr; exact absurd (by decide : AVERROR_INVALIDDATA < 0) hn
      · next h2 =>
        unfold OUT_BUFFER_SIZE CANONICAL_HEADER_SIZE at h2
        split at hr
        · cases hr
        · split at hr
          · next hneg => cases hr; exact absurd hneg hn
          · cases hr
            refine ⟨not_not.mp h1, by omega, by omega, rfl, rfl, ?_⟩
            dsimp only
            rw [read_verbatim_header_length]
            simp

/-! ## The byte reader on the header blob -/

theorem le_value_take (l : List Nat) (n p k : Nat) (h : p + k ≤ n) :
    le_value (l.take n) p k = le_value l p k := by
  induction k generalizing p with
  | zero => rfl
  | succ k ih =>
    unfold le_value
    rw [ih (p + 1) (by omega), List.getD_eq_getElem?_getD, List.getD_eq_getElem?_getD,
      List.getElem?_take_of_lt (by omega)]

theorem get_le32_at (b : List Nat) (p : Nat) (h : p + 4 ≤ b.length) :
    bytestream2_get_le32 { buffer := b, pos := p } =
      (le_value b p 4, { buffer := b, pos := p + 4 }) := by
  unfold bytestream2_get_le32
  dsimp only
  rw [if_neg (by omega)]

theorem get_le16_at (b : List Nat) (p : Nat) (h : p + 2 ≤ b.length) :
    bytestream2_get_le16 { buffer := b, pos := p } =
      (le_value b p 2, { buffer := b, pos := p + 2 }) := by
  unfold bytestream2_get_le16
  dsimp only
  rw [if_neg (by omega)]

theorem skip_at (b : List Nat) (p n : Nat) (h : p + n ≤ b.length) :
    bytestream2_skip { buffer := b, pos := p } n = { buffer := b, pos := p + n } := by
  unfold bytestream2_skip
  dsimp only
  rw [Nat.min_eq_right (by omega)]

theorem find_fmt_at (fuel : Nat) (b : List Nat) (p : Nat) (h : p + 4 ≤ b.length)
    (ht : le_value b p 4 = MKTAG 'f' 'm' 't' ' ') :
    find_fmt (fuel + 1) { buffer := b, pos := p } = some { buffer := b, pos := p + 4 } := by
  unfold find_fmt
  dsimp only
  rw [get_le32_at b p h]
  dsimp only
  rw [if_neg (not_not.mpr ht)]

/-- The function `decode_wave_header` on a blob with the canonical layout: the
tags at the offsets 0, 8 and 12, and the fields of the `fmt ` sub-chunk behind
them. -/
theorem decode_wave_header_canonical (avctx : AVCodecContext) (header : List Nat)
    (header_size : Nat) (hs : 36 ≤ header_size) (hl : header_size ≤ header.length)
    (hriff : le_value header 0 4 = MKTAG 'R' 'I' 'F' 'F')
    (hwave : le_value header 8 4 = MKTAG 'W' 'A' 'V' 'E')
    (hfmt : le_value header 12 4 = MKTAG 'f' 'm' 't' ' ') :
    decode_wave_header avctx header header_size =
      if to_int (le_value header 16 4) < 16 then some (AVERROR_INVALIDDATA, avctx)
      else if to_short (le_value header 20 2) ≠ WAVE_FORMAT_PCM then some (AVERROR_ENOSYS, avctx)
      else if ((le_value header 34 2 : Nat) : Int) ≠ 16 then
        some (AVERROR_ENOSYS, { avctx with sample_rate := to_int (le_value header 24 4),
                                           bits_per_coded_sample := (le_value header 34 2 : Nat) })
      else some (0, { avctx with sample_rate := to_int (le_value header 24 4),
                                 bits_per_coded_sample := (le_value header 34 2 : Nat) }) := by
  have hb : (header.take header_size).length = header_size := by
    rw [List.length_take]; omega
  have hv : ∀ p k, p + k ≤ header_size →
      le_value (header.take header_size) p k = le_value header p k :=
    fun p k h => le_value_take header header_size p k h
  have e1 : bytestream2_get_le32 { buffer := header.take header_size, pos := 0 } =
      (le_value header 0 4, { buffer := header.take header_size, pos := 4 }) := by
    rw [get_le32_at _ 0 (by omega), hv 0 4 (by omega)]
  have e2 : bytestream2_skip { buffer := header.take header_size, pos := 4 } 4 =
      { buffer := header.take header_size, pos := 8 } := skip_at _ 4 4 (by omega)
  have e3 : bytestream2_get_le32 { buffer := header.take header_size, pos := 8 } =
      (le_value header 8 4, { buffer := header.take header_size, pos := 12 }) := by
    rw [get_le32_at _ 8 (by omega), hv 8 4 (by omega)]
  have e4 : find_fmt (header_size / 4 + 1) { buffer := header.take header_size, pos := 12 } =
      some { buffer := header.take header_size, pos := 16 } :=
    find_fmt_at _ _ 12 (by omega) (by rw [hv 12 4 (by omega)]; exact hfmt)
  have e5 : bytestream2_get_le32 { buffer := header.take header_size, pos := 16 } =
      (le_value header 16 4, { buffer := header.take header_size, pos := 20 }) := by
    rw [get_le32_at _ 16 (by omega), hv 16 4 (by omega)]
  have e6 : bytestream2_get_le16 { buffer := header.take header_size, pos := 20 } =
      (le_value header 20 2, { buffer := header.take header_size, pos := 22 }) := by
    rw [get_le16_at _ 20 (by omega), hv 20 2 (by omega)]
  have e7 : bytestream2_skip { buffer := header.take header_size, pos := 22 } 2 =
      { buffer := header.take header_size, pos := 24 } := skip_at _ 22 2 (by omega)
  have e8 : bytestream2_get_le32 { buffer := header.take header_size, pos := 24 } =
      (le_value header 24 4, { buffer := header.take header_size, pos := 28 }) := by
    rw [get_le32_at _ 24 (by omega), hv 24 4 (by omega)]
  have e9 : bytestream2_skip { buffer := header.take header_size, pos := 28 } 4 =
      { buffer := header.take header_size, pos := 32 } := skip_at _ 28 4 (by omega)
  have e10 : bytestream2_skip { buffer := header.take header_size, pos := 32 } 2 =
      { buffer := header.take header_size, pos := 34 } := skip_at _ 32 2 (by omega)
  have e11 : bytestream2_get_le16 { buffer := header.take header_size, pos := 34 } =
      (le_value header 34 2, { buffer := header.take header_size, pos := 36 }) := by
    rw [get_le16_at _ 34 (by omega), hv 34 2 (by omega)]
  unfold decode_wave_header bytestream2_init
  dsimp only
  rw [e1]
  dsimp only
  rw [if_neg (not_not.mpr hriff), e2, e3]
  dsimp only
  rw [if_neg (not_not.mpr hwave), e4]
  dsimp only
  rw [e5]
  dsimp only
  rw [e6]
  dsimp only
  rw [e7, e8]
  dsimp only
  rw [e9, e10, e11]

/-- The checks of `decode_wave_header` in order: the two tags, then, with the
`fmt ` sub-chunk found by the scan, its length, its format code and the bits per
sample. -/
theorem decode_wave_header_checks (avctx : AVCodecContext) (header : List Nat)
    (header_size : Nat) :
    decode_wave_header avctx header header_size =
      if (bytestream2_get_le32 (bytestream2_init header header_size)).1 ≠ MKTAG 'R' 'I' 'F' 'F'
      then some (AVERROR_INVALIDDATA, avctx)
      else if (bytestream2_get_le32 (bytestream2_skip
          (bytestream2_get_le32 (bytestream2_init header header_size)).2 4)).1 ≠
            MKTAG 'W' 'A' 'V' 'E'
      then some (AVERROR_INVALIDDATA, avctx)
      else match fmt_chunk header header_size with
        | none => none
        | some g =>
          if fmt_length g < 16 then some (AVERROR_INVALIDDATA, avctx)
          else if fmt_format g ≠ WAVE_FORMAT_PCM then some (AVERROR_ENOSYS, avctx)
          else if ((fmt_bits g : Nat) : Int) ≠ 16 then
            some (AVERROR_ENOSYS,
              { avctx with sample_rate := to_int (bytestream2_get_le32 (fmt_rate_reader g)).1,
                           bits_per_coded_sample := (fmt_bits g : Nat) })
          else
            some (0,
              { avctx with sample_rate := to_int (bytestream2_get_le32 (fmt_rate_reader g)).1,
                           bits_per_coded_sample := (fmt_bits g : Nat) }) := by
  unfold decode_wave_header fmt_chunk
  dsimp only
  split
  · rfl
  · split
    · rfl
    · cases find_fmt (header_size / 4 + 1)
        (bytestream2_get_le32
          (bytestream2_skip (bytestream2_get_le32 (bytestream2_init header header_size)).2 4)).2 with
      | none => rfl
      | some g => rfl

/-- The first tag read by `decode_wave_header`: the first four bytes of the
blob, or `0` for a blob of fewer than four bytes. -/
theorem riff_tag_value (header : List Nat) (header_size : Nat) (hl : header_size ≤ header.length) :
    (bytestream2_get_le32 (bytestream2_init header header_size)).1 =
      if 4 ≤ header_size then le_value header 0 4 else 0 := by
  have hb : (header.take header_size).length = header_size := by
    rw [List.length_take]; omega
  unfold bytestream2_init bytestream2_get_le32
  dsimp only
  rw [hb]
  by_cases h : 4 ≤ header_size
  · rw [if_pos h, if_neg (by omega)]
    exact le_value_take header header_size 0 4 (by omega)
  · rw [if_neg h, if_pos (by omega)]

/-- The second tag read by `decode_wave_header`, when the first one is there:
the bytes 8 to 11 of the blob, or `0` for a blob of fewer than twelve bytes. -/
theorem wave_tag_value (header : List Nat) (header_size : Nat) (hl : header_size ≤ header.length)
    (h4 : 4 ≤ header_size) :
    (bytestream2_get_le32 (bytestream2_skip
      (bytestream2_get_le32 (bytestream2_init header header_size)).2 4)).1 =
      if 12 ≤ header_size then le_value header 8 4 else 0 := by
  have hb : (header.take header_size).length = header_size := by
    rw [List.length_take]; omega
  unfold bytestream2_init
  rw [get_le32_at _ 0 (by omega)]
  dsimp only
  by_cases h : 12 ≤ header_size
  · rw [if_pos h, skip_at _ (0 + 4) 4 (by omega), get_le32_at _ (0 + 4 + 4) (by omega)]
    exact le_value_take header header_size 8 4 (by omega)
  · rw [if_neg h]
    unfold bytestream2_skip bytestream2_get_le32
    dsimp only
    rw [if_pos (by rw [hb]; omega)]

/-! ## The zero block -/

theorem getD_set (d : List Int) (p q : Nat) (v : Int) :
    (d.set p v).getD q 0 = if q = p ∧ p < d.length then v else d.getD q 0 := by
  by_cases h : q = p
  · subst h
    by_cases hl : q < d.length
    · rw [if_pos ⟨rfl, hl⟩, getD_set_eq d q v hl]
    · rw [if_neg (fun h => hl h.2), List.getD_eq_getElem?_getD, List.getD_eq_getElem?_getD,
        List.getElem?_eq_none (by rw [List.length_set]; omega),
        List.getElem?_eq_none (by omega)]
  · rw [if_neg (fun h2 => h h2.1), getD_set_ne d p q v (Ne.symm h)]

theorem getD_beyond (d : List Int) (j : Nat) (h : d.length ≤ j) : d.getD j 0 = 0 := by
  rw [List.getD_eq_getElem?_getD, List.getElem?_eq_none h]
  rfl

theorem foldl_set_length (f : List Int → Nat → List Int)
    (hf : ∀ d i, (f d i).length = d.length) (l : List Nat) (d : List Int) :
    (l.foldl f d).length = d.length := by
  induction l generalizing d with
  | nil => rfl
  | cons a l ih => rw [List.foldl_cons, ih, hf]

/-- The zero fill of `FN_ZERO`: the `n` cells from position `p` on read as 0,
the others are unchanged. -/
theorem zero_fill_getD (n p : Nat) (d : List Int) (j : Nat) :
    ((List.range n).foldl (fun d i => d.set (p + i) 0) d).getD j 0 =
      if p ≤ j ∧ j < p + n then 0 else d.getD j 0 := by
  induction n with
  | zero => rw [if_neg (by omega)]; rfl
  | succ n ih =>
    rw [List.range_succ, List.foldl_append, List.foldl_cons, List.foldl_nil, getD_set, ih]
    have hlen : ((List.range n).foldl (fun d i => d.set (p + i) 0) d).length = d.length :=
      foldl_set_length _ (fun d i => List.length_set _ _ _) _ _
    rw [hlen]
    by_cases h1 : j = p + n
    · by_cases h2 : p + n < d.length
      · rw [if_pos ⟨h1, h2⟩, if_pos (by omega)]
      · rw [if_neg (fun h => h2 h.2), if_neg (by omega), if_pos (by omega)]
        exact getD_beyond d j (by omega)
    · rw [if_neg (fun h => h1 h.1)]
      by_cases h3 : p ≤ j ∧ j < p + n
      · rw [if_pos h3, if_pos (by omega)]
      · rw [if_neg h3, if_neg (by omega)]

/-- The wrap copy: the first `nwrap` cells receive the cells `blocksize`
further on, the others are unchanged. -/
theorem copy_wrap_getD (s : ShortenContext) (d : List Int) (j : Nat) :
    (copy_wrap s d).getD j 0 =
      if j < s.nwrap then d.getD (j + s.blocksize) 0 else d.getD j 0 := by
  unfold copy_wrap
  generalize s.nwrap = w
  induction w generalizing j with
  | zero => rw [if_neg (by omega)]; rfl
  | succ w ih =>
    rw [List.range_succ, List.foldl_append, List.foldl_cons, List.foldl_nil, getD_set]
    have hlen : ((List.range w).foldl (fun d t => d.set t (d.getD (t + s.blocksize) 0)) d).length =
        d.length := foldl_set_length _ (fun d i => List.length_set _ _ _) _ _
    rw [hlen, ih (w + s.blocksize), ih j]
    by_cases h1 : j = w
    · subst h1
      by_cases h2 : j < d.length
      · rw [if_pos ⟨rfl, h2⟩, if_neg (by omega), if_pos (by omega)]
      · rw [if_neg (fun h => h2 h.2), if_neg (by omega), if_pos (by omega),
          getD_beyond d j (by omega), getD_beyond d _ (by omega)]
    · rw [if_neg (fun h => h1 h.1)]
      by_cases h3 : j < w
      · rw [if_pos h3, if_pos (by omega)]
      · rw [if_neg h3, if_neg (by omega)]

theorem shl32_zero (n : Nat) : shl32 0 n = 0 := by
  unfold shl32 wrap32
  rw [Int.zero_mul]
  rfl

/-- The bit shift correction: the cells of the block are shifted, the others
are unchanged. -/
theorem fix_bitshift_getD (s : ShortenContext) (d : List Int) (j : Nat) :
    (fix_bitshift s d).getD j 0 =
      if s.bitshift ≠ 0 ∧ s.nwrap ≤ j ∧ j < s.nwrap + s.blocksize then
        shl32 (d.getD j 0) s.bitshift.toNat
      else d.getD j 0 := by
  unfold fix_bitshift
  by_cases hb : s.bitshift ≠ 0
  · rw [if_pos hb]
    generalize s.blocksize = n
    induction n generalizing j with
    | zero => rw [if_neg (by omega)]; rfl
    | succ n ih =>
      rw [List.range_succ, List.foldl_append, List.foldl_cons, List.foldl_nil, getD_set]
      have hlen : ((List.range n).foldl (fun b i => b.set (s.nwrap + i)
          (shl32 (b.getD (s.nwrap + i) 0) s.bitshift.toNat)) d).length = d.length :=
        foldl_set_length _ (fun d i => List.length_set _ _ _) _ _
      rw [hlen, ih j, ih (s.nwrap + n)]
      by_cases h1 : j = s.nwrap + n
      · subst h1
        have e1 : ¬ (s.bitshift ≠ 0 ∧ s.nwrap ≤ s.nwrap + n ∧ s.nwrap + n < s.nwrap + n) :=
          fun h => absurd h.2.2 (lt_irrefl _)
        have e2 : s.bitshift ≠ 0 ∧ s.nwrap ≤ s.nwrap + n ∧ s.nwrap + n < s.nwrap + (n + 1) :=
          ⟨hb, by omega, by omega⟩
        by_cases h2 : s.nwrap + n < d.length
        · rw [if_pos ⟨rfl, h2⟩, if_neg e1, if_pos e2]
        · rw [if_neg (fun h => h2 h.2), if_neg e1, if_pos e2,
            getD_beyond d _ (by omega), shl32_zero]
      · rw [if_neg (fun h => h1 h.1)]
        by_cases h3 : s.nwrap ≤ j ∧ j < s.nwrap + n
        · rw [if_pos ⟨hb, h3⟩, if_pos ⟨hb, by omega, by omega⟩]
        · rw [if_neg (fun h => h3 h.2), if_neg (fun h => h3 ⟨h.2.1, by omega⟩)]
  · rw [if_neg hb, if_neg (fun h => hb h.1)]

theorem update_means_decoded_base (s : ShortenContext) (channel : Nat) :
    (update_means s channel).decoded_base = s.decoded_base ∧
    (update_means s channel).nwrap = s.nwrap ∧
    (update_means s channel).blocksize = s.blocksize ∧
    (update_means s channel).bitshift = s.bitshift ∧
    (update_means s channel).channels = s.channels := by
  unfold update_means
  split <;> exact ⟨rfl, rfl, rfl, rfl, rfl⟩

/-- The audio branch for `FN_ZERO`: nothing is read, and the channel buffer
after the branch reads as 0 in the whole block, and in the history when the
block is at least as long as the history. -/
theorem audio_command_zero (s : ShortenContext) (gb : GetBitContext)
    (hch : s.cur_chan < s.decoded_base.length) :
    (audio_command s gb FN_ZERO).1 = 0 ∧ (audio_command s gb FN_ZERO).2.2 = gb ∧
    (audio_command s gb FN_ZERO).2.1.cur_chan = s.cur_chan + 1 ∧
    (audio_command s gb FN_ZERO).2.1.nwrap = s.nwrap ∧
    (audio_command s gb FN_ZERO).2.1.blocksize = s.blocksize ∧
    (audio_command s gb FN_ZERO).2.1.channels = s.channels ∧
    (∀ j, s.nwrap ≤ j → j < s.nwrap + s.blocksize →
      ((audio_command s gb FN_ZERO).2.1.decoded_base.getD s.cur_chan []).getD j 0 = 0) ∧
    (s.nwrap ≤ s.blocksize → ∀ j, j < s.nwrap →
      ((audio_command s gb FN_ZERO).2.1.decoded_base.getD s.cur_chan []).getD j 0 = 0) := by
  have hz : decode_channel s gb FN_ZERO s.cur_chan 0 (sample_offset s s.cur_chan) =
      (0, zero_filled s, gb) := by
    unfold decode_channel
    rw [if_pos rfl]
    rfl
  have hrs : read_residual_size s gb FN_ZERO = (0, gb) := by
    unfold read_residual_size
    rw [if_neg (fun h => h rfl)]
  have ha : audio_command s gb FN_ZERO = (0, finish_channel (zero_filled s) s.cur_chan, gb) := by
    unfold audio_command
    rw [hrs]
    dsimp only
    rw [hz]
    dsimp only
    rw [if_neg (lt_irrefl _)]
  rw [ha]
  dsimp only
  obtain ⟨u1, u2, u3, u4, u5⟩ := update_means_decoded_base (zero_filled s) s.cur_chan
  have uc := (update_means_frame (zero_filled s) s.cur_chan).2
  have hzb : (zero_filled s).decoded_base = s.decoded_base.set s.cur_chan
      ((List.range s.blocksize).foldl (fun d i => d.set (s.nwrap + i) 0)
        (s.decoded_base.getD s.cur_chan [])) := rfl
  have hget : ∀ j, ((finish_channel (zero_filled s) s.cur_chan).decoded_base.getD
            s.cur_chan []).getD j 0 =
      (fix_bitshift s (copy_wrap s ((List.range s.blocksize).foldl
        (fun d i => d.set (s.nwrap + i) 0) (s.decoded_base.getD s.cur_chan [])))).getD j 0 := by
    intro j
    unfold finish_channel
    dsimp only
    rw [getD_set_self_list _ _ _ (by rw [u1, hzb, List.length_set]; exact hch), u1, hzb,
      getD_set_self_list _ _ _ hch]
    have e1 : ∀ d, copy_wrap (update_means (zero_filled s) s.cur_chan) d = copy_wrap s d := by
      intro d
      unfold copy_wrap
      rw [u2, u3]
      rfl
    have e2 : ∀ d, fix_bitshift (update_means (zero_filled s) s.cur_chan) d =
        fix_bitshift s d := by
      intro d
      unfold fix_bitshift
      rw [u2, u3, u4]
      rfl
    rw [e1, e2]
  refine ⟨rfl, rfl, ?_, ?_, ?_, ?_, ?_, ?_⟩
  · unfold finish_channel; exact congrArg (· + 1) uc
  · unfold finish_channel; exact u2
  · unfold finish_channel; exact u3
  · unfold finish_channel; exact u5
  · intro j h1 h2
    have hc : (copy_wrap s ((List.range s.blocksize).foldl
        (fun d i => d.set (s.nwrap + i) 0) (s.decoded_base.getD s.cur_chan []))).getD j 0 = 0 := by
      rw [copy_wrap_getD, if_neg (by omega), zero_fill_getD, if_pos ⟨h1, h2⟩]
    rw [hget, fix_bitshift_getD, hc, shl32_zero]
    split <;> rfl
  · intro hw j hj
    have hc : (copy_wrap s ((List.range s.blocksize).foldl
        (fun d i => d.set (s.nwrap + i) 0) (s.decoded_base.getD s.cur_chan []))).getD j 0 = 0 := by
      rw [copy_wrap_getD, if_pos hj, zero_fill_getD, if_pos (by omega)]
    rw [hget, fix_bitshift_getD, hc, shl32_zero]
    split <;> rfl

theorem decoded_getD (s : ShortenContext) (c i : Nat) :
    ((decoded s).getD c []).getD i 0 = (s.decoded_base.getD c []).getD (s.nwrap + i) 0 := by
  unfold decoded
  have h : (s.decoded_base.map (fun d => d.drop s.nwrap)).getD c [] =
      (s.decoded_base.getD c []).drop s.nwrap := by
    rw [List.getD_eq_getElem?_getD, List.getD_eq_getElem?_getD, List.getElem?_map]
    cases s.decoded_base[c]? <;> simp
  rw [h]
  simp only [List.getD_eq_getElem?_getD, List.getElem?_drop]

/-- A frame of one channel whose block reads as 0 is a frame of zero samples. -/
theorem interleave_zero (b : Nat) (buffer : List (List Int))
    (h : ∀ i, i < b → (buffer.getD 0 []).getD i 0 = 0) :
    interleave_buffer 1 b buffer = List.replicate b 0 := by
  induction b with
  | zero => rfl
  | succ b ih =>
    have h1 : (List.range 1).map
        (fun chan => av_clip_int16 ((buffer.getD chan []).getD b 0)) =
        [av_clip_int16 ((buffer.getD 0 []).getD b 0)] := rfl
    rw [interleave_buffer_succ, ih (fun i hi => h i (by omega)), List.replicate_succ', h1,
      h b (by omega)]
    rfl

/-- An iteration of the command loop that reads `FN_ZERO`. -/
theorem command_step_zero (s : ShortenContext) (gb : GetBitContext)
    (h1 : s.cur_chan < s.channels) (h2 : ¬ get_bits_left gb < 3 + FNSIZE)
    (h3 : to_int (get_ur_golomb_shorten gb FNSIZE).1 = FN_ZERO) :
    command_step s gb = audio_step s (get_ur_golomb_shorten gb FNSIZE).2 FN_ZERO := by
  unfold command_step
  dsimp only
  rw [if_pos h1, if_neg h2, h3, if_neg (by decide), if_neg (by decide)]

/-! ## When a pass produces a frame -/

theorem stream_fields_channels {s t : ShortenContext} (h : stream_fields t = stream_fields s) :
    t.channels = s.channels := by
  unfold stream_fields at h
  simp only [Prod.mk.injEq] at h
  exact h.2.1

/-- The audio branch keeps the channel count; it increments `cur_chan` when it
succeeds and leaves it when it fails. -/
theorem audio_command_chan (s : ShortenContext) (gb : GetBitContext) (cmd : Int) :
    (audio_command s gb cmd).2.1.channels = s.channels ∧
    ((audio_command s gb cmd).1 < 0 → (audio_command s gb cmd).2.1.cur_chan = s.cur_chan) ∧
    (¬ (audio_command s gb cmd).1 < 0 → (audio_command s gb cmd).2.1.cur_chan = s.cur_chan + 1) := by
  refine ⟨stream_fields_channels (audio_fields_loop (audio_command_frame s gb cmd)).2.1, ?_,
    audio_command_cur_chan s gb cmd⟩
  intro h
  unfold audio_command at h ⊢
  dsimp only at h ⊢
  split
  · exact (decode_channel_frame _ _ _ _ _ _).2
  · next hn =>
    rw [if_neg hn] at h
    exact absurd h (lt_irrefl _)

/-- How an iteration of the command loop leaves the loop: with the frame,
when it has completed the last channel, or without a frame (by `break` or with
a negative return value) in the middle of a block. -/
theorem command_step_exit_cases (s t : ShortenContext) (gb g : GetBitContext) (e : PassExit)
    (h : command_step s gb = .exit e t g) (hc : s.cur_chan < s.channels) :
    (e = .finish true (interleave_buffer t.channels t.blocksize (decoded t)) ∧
      t.cur_chan = t.channels) ∨
    ((e = .finish false [] ∨ ∃ code, e = .ret code ∧ code < 0) ∧ t.cur_chan < t.channels) := by
  unfold command_step at h
  dsimp only at h
  rw [if_pos hc] at h
  by_cases h2 : get_bits_left gb < 3 + FNSIZE
  · rw [if_pos h2] at h
    cases h
    exact Or.inr ⟨Or.inl rfl, hc⟩
  · rw [if_neg h2] at h
    by_cases h3 : to_int (get_ur_golomb_shorten gb FNSIZE).1 > FN_VERBATIM
    · rw [if_pos h3] at h
      cases h
      exact Or.inr ⟨Or.inl rfl, hc⟩
    · rw [if_neg h3] at h
      by_cases h4 : is_audio (to_int (get_ur_golomb_shorten gb FNSIZE).1) = 0
      · rw [if_pos h4] at h
        unfold non_audio_command at h
        dsimp only at h
        split at h
        · exact LoopStep.noConfusion h
        · split at h
          · exact LoopStep.noConfusion h
          · split at h
            · split at h
              · cases h
                exact Or.inr ⟨Or.inr ⟨_, rfl, by decide⟩, hc⟩
              · split at h
                · cases h
                  exact Or.inr ⟨Or.inr ⟨_, rfl, by decide⟩, hc⟩
                · cases h
                  exact Or.inr ⟨Or.inl rfl, hc⟩
            · split at h
              · cases h
                exact Or.inr ⟨Or.inl rfl, hc⟩
              · exact LoopStep.noConfusion h
      · rw [if_neg h4] at h
        obtain ⟨c1, c2, c3⟩ := audio_command_chan s (get_ur_golomb_shorten gb FNSIZE).2
          (to_int (get_ur_golomb_shorten gb FNSIZE).1)
        unfold audio_step at h
        dsimp only at h
        split at h
        · next hneg =>
          cases h
          exact Or.inr ⟨Or.inr ⟨_, rfl, hneg⟩, by rw [c1, c2 hneg]; exact hc⟩
        · split at h
          · next hfull =>
            cases h
            exact Or.inl ⟨rfl, hfull⟩
          · exact LoopStep.noConfusion h

/-- An iteration of the command loop that goes round again is in the middle
of a block. -/
theorem command_step_next_chan (s t : ShortenContext) (gb g : GetBitContext)
    (h : command_step s gb = .next t g) : t.cur_chan < t.channels := by
  unfold command_step at h
  dsimp only at h
  by_cases hc : s.cur_chan < s.channels
  · rw [if_pos hc] at h
    by_cases h2 : get_bits_left gb < 3 + FNSIZE
    · rw [if_pos h2] at h; exact LoopStep.noConfusion h
    · rw [if_neg h2] at h
      by_cases h3 : to_int (get_ur_golomb_shorten gb FNSIZE).1 > FN_VERBATIM
      · rw [if_pos h3] at h; exact LoopStep.noConfusion h
      · rw [if_neg h3] at h
        by_cases h4 : is_audio (to_int (get_ur_golomb_shorten gb FNSIZE).1) = 0
        · rw [if_pos h4] at h
          unfold non_audio_command at h
          dsimp only at h
          split at h
          · cases h; exact hc
          · split at h
            · cases h; exact hc
            · split at h
              · split at h
                · exact LoopStep.noConfusion h
                · split at h <;> exact LoopStep.noConfusion h
              · split at h
                · exact LoopStep.noConfusion h
                · cases h; exact hc
        · rw [if_neg h4] at h
          obtain ⟨c1, c2, c3⟩ := audio_command_chan s (get_ur_golomb_shorten gb FNSIZE).2
            (to_int (get_ur_golomb_shorten gb FNSIZE).1)
          unfold audio_step at h
          dsimp only at h
          split at h
          · exact LoopStep.noConfusion h
          · next hneg =>
            split at h
            · exact LoopStep.noConfusion h
            · next hfull =>
              cases h
              rw [c1, c3 hneg] at hfull ⊢
              omega
  · rw [if_neg hc] at h; exact LoopStep.noConfusion h

theorem command_loop_exit_cases (fuel : Nat) (s t : ShortenContext) (gb g : GetBitContext)
    (e : PassExit) (h : command_loop fuel s gb = some (e, t, g)) (hc : s.cur_chan < s.channels) :
    (e = .finish true (interleave_buffer t.channels t.blocksize (decoded t)) ∧
      t.cur_chan = t.channels) ∨
    ((e = .finish false [] ∨ ∃ code, e = .ret code ∧ code < 0) ∧ t.cur_chan < t.channels) := by
  induction fuel generalizing s gb with
  | zero => unfold command_loop at h; cases h
  | succ fuel ih =>
    cases hstep : command_step s gb with
    | next u g2 =>
      rw [command_loop_next _ _ _ _ _ hstep] at h
      exact ih _ _ h (command_step_next_chan s u gb g2 hstep)
    | exit e2 u g2 =>
      rw [command_loop_exit _ _ _ _ _ _ hstep] at h
      cases h
      exact command_step_exit_cases s t gb g e hstep hc

theorem interleave_buffer_range (nchan b : Nat) (buffer : List (List Int)) (x : Int)
    (h : x ∈ interleave_buffer nchan b buffer) : -32768 ≤ x ∧ x ≤ 32767 := by
  induction b with
  | zero => exact absurd h (List.not_mem_nil x)
  | succ b ih =>
    rw [interleave_buffer_succ, List.mem_append] at h
    rcases h with h | h
    · exact ih h
    · rw [List.mem_map] at h
      obtain ⟨c, _, hx⟩ := h
      rw [← hx]
      unfold av_clip_int16
      split
      · omega
      · split <;> omega

/-- An iteration of the command loop that finds fewer than five bits, or reads
`FN_BLOCKSIZE` or `FN_QUIT`, leaves the loop without a frame. -/
theorem command_step_suspends (s : ShortenContext) (gb : GetBitContext)
    (hc : s.cur_chan < s.channels)
    (h : get_bits_left gb < 3 + FNSIZE ∨
      to_int (get_ur_golomb_shorten gb FNSIZE).1 = FN_BLOCKSIZE ∨
      to_int (get_ur_golomb_shorten gb FNSIZE).1 = FN_QUIT) :
    ∃ e t g, command_step s gb = .exit e t g ∧ (e = .finish false [] ∨ ∃ code, e = .ret code) := by
  by_cases h2 : get_bits_left gb < 3 + FNSIZE
  · refine ⟨_, s, gb, ?_, Or.inl rfl⟩
    unfold command_step
    rw [if_pos hc, if_pos h2]
  · rcases h with h | h | h
    · exact absurd h h2
    · rw [command_step_blocksize s gb hc h2 h]
      unfold non_audio_command
      dsimp only
      rw [if_neg (by decide), if_neg (by decide), if_pos rfl]
      split
      · exact ⟨_, _, _, rfl, Or.inr ⟨_, rfl⟩⟩
      · split
        · exact ⟨_, _, _, rfl, Or.inr ⟨_, rfl⟩⟩
        · exact ⟨_, _, _, rfl, Or.inl rfl⟩
    · refine ⟨.finish false [], { s with got_quit_command := true },
        (get_ur_golomb_shorten gb FNSIZE).2, ?_, Or.inl rfl⟩
      unfold command_step
      dsimp only
      rw [if_pos hc, if_neg h2, h, if_neg (by decide), if_pos (by decide)]
      unfold non_audio_command
      dsimp only
      rw [if_neg (by decide), if_neg (by decide), if_neg (by decide), if_pos rfl]

/-- A decode pass on a context with the header parsed returns. -/
theorem decode_pass_total (s : ShortenContext) (gb : GetBitContext) (size : Nat)
    (hh : s.got_header = true) : ∃ x, decode_pass s gb size = some x := by
  unfold decode_pass
  rw [if_neg (by rw [hh]; exact fun h => h rfl)]
  split
  · exact ⟨_, rfl⟩
  · exact command_loop_total _ gb

/-- A call on a context with the header parsed returns. -/
theorem decode_frame_total (s : ShortenContext) (avpkt : AVPacket) (hh : s.got_header = true) :
    ∃ r, shorten_decode_frame s avpkt = some r := by
  unfold shorten_decode_frame
  split
  · exact ⟨_, rfl⟩
  · have hA := append_packet_eq s avpkt
    have hh2 : (append_packet s avpkt).got_header = true := by rw [hA]; exact hh
    obtain ⟨⟨e, t, g⟩, hx⟩ := decode_pass_total (append_packet s avpkt)
      (pass_reader (append_packet s avpkt)) avpkt.size hh2
    cases e with
    | ret code => exact ⟨_, run_pass_ret _ _ _ _ _ _ hx⟩
    | finish got_frame frame => exact ⟨_, run_pass_finish _ _ _ _ _ _ _ hx⟩

theorem finish_frame_fields (t : ShortenContext) (gb : GetBitContext) (buf_size n : Nat)
    (got_frame : Bool) (frame : List Int) :
    (finish_frame t gb buf_size n got_frame frame).ctx.cur_chan = t.cur_chan ∧
    (finish_frame t gb buf_size n got_frame frame).ctx.channels = t.channels ∧
    (finish_frame t gb buf_size n got_frame frame).ctx.blocksize = t.blocksize ∧
    decoded (finish_frame t gb buf_size n got_frame frame).ctx = decoded t := by
  unfold finish_frame
  dsimp only
  split
  · exact ⟨rfl, rfl, rfl, rfl⟩
  · split <;> exact ⟨rfl, rfl, rfl, rfl⟩

/-- How a decode pass ends: with the frame, after a command loop that
completed the last channel, or without a frame. -/
theorem decode_pass_exit_cases (s t : ShortenContext) (gb g : GetBitContext) (size : Nat)
    (e : PassExit) (h : decode_pass s gb size = some (e, t, g)) :
    (e = .finish true (interleave_buffer t.channels t.blocksize (decoded t)) ∧
      t.cur_chan = t.channels ∧ 0 < t.channels ∧ s.got_header = true ∧
      s.got_quit_command = false) ∨
    ((e = .finish false [] ∨ ∃ code, e = .ret code) ∧
      (s.got_header = true → s.got_quit_command = false →
        ¬ (t.cur_chan = t.channels ∧ 0 < t.channels))) := by
  by_cases hh : s.got_header = true
  · by_cases hq : s.got_quit_command = true
    · unfold decode_pass at h
      rw [if_neg (by rw [hh]; exact fun h => h rfl), if_pos hq] at h
      cases h
      exact Or.inr ⟨Or.inr ⟨_, rfl⟩, fun _ h2 => absurd hq (by rw [h2]; exact Bool.false_ne_true)⟩
    · have hq2 : s.got_quit_command = false := by
        cases hb : s.got_quit_command
        · rfl
        · exact absurd hb hq
      rw [decode_pass_loop s gb size hh hq2] at h
      have hf := stream_fields_channels (command_loop_frame _ _ _ _ h).2.1
      have hf2 : t.channels = s.channels := hf
      by_cases hc : 0 < s.channels
      · rcases command_loop_exit_cases _ _ t _ g e h hc with ⟨h1, h2⟩ | ⟨h1, h2⟩
        · exact Or.inl ⟨h1, h2, by omega, hh, hq2⟩
        · refine Or.inr ⟨?_, fun _ _ h3 => by omega⟩
          rcases h1 with h1 | ⟨code, h1, _⟩
          · exact Or.inl h1
          · exact Or.inr ⟨code, h1⟩
      · have hstep : command_step { s with cur_chan := 0 } gb =
            .exit (.finish false []) { s with cur_chan := 0 } gb := by
          unfold command_step
          rw [if_neg hc]
        rw [command_loop_exit _ _ _ _ _ _ hstep] at h
        cases h
        exact Or.inr ⟨Or.inl rfl, fun _ _ h3 => hc h3.2⟩
  · refine Or.inr ⟨?_, fun h1 => absurd h1 hh⟩
    unfold decode_pass at h
    rw [if_pos (by
      cases hb : s.got_header
      · exact fun h => Bool.noConfusion h
      · exact absurd hb hh)] at h
    split at h
    · cases h
    · split at h
      · cases h; exact Or.inr ⟨_, rfl⟩
      · cases h; exact Or.inl rfl

/-- The frame of a call: it is there exactly when a pass over a parsed header,
with no QUIT received, ended with `cur_chan = channels`. -/
theorem decode_frame_cases (s : ShortenContext) (avpkt : AVPacket) (r : DecodeResult)
    (hr : shorten_decode_frame s avpkt = some r) :
    (r.got_frame = true ∧ s.got_header = true ∧ s.got_quit_command = false ∧
      ¬ ((append_packet s avpkt).bitstream_size < (append_packet s avpkt).max_framesize ∧
          avpkt.data.isSome) ∧
      r.ctx.cur_chan = r.ctx.channels ∧ 0 < r.ctx.channels ∧
      r.frame = interleave_buffer r.ctx.channels r.ctx.blocksize (decoded r.ctx)) ∨
    (r.got_frame = false ∧ r.frame = [] ∧
      (s.got_header = true → s.got_quit_command = false →
        ¬ ((append_packet s avpkt).bitstream_size < (append_packet s avpkt).max_framesize ∧
            avpkt.data.isSome) →
        ¬ (r.ctx.cur_chan = r.ctx.channels ∧ 0 < r.ctx.channels))) := by
  have hA := append_packet_eq s avpkt
  have hh2 : (append_packet s avpkt).got_header = s.got_header := by rw [hA]
  have hq2 : (append_packet s avpkt).got_quit_command = s.got_quit_command := by rw [hA]
  unfold shorten_decode_frame at hr
  by_cases hpass : (append_packet s avpkt).bitstream_size < (append_packet s avpkt).max_framesize ∧
      avpkt.data.isSome
  · rw [if_pos hpass] at hr
    cases hr
    exact Or.inr ⟨rfl, rfl, fun _ _ h => absurd hpass h⟩
  · rw [if_neg hpass] at hr
    cases hx : decode_pass (append_packet s avpkt) (pass_reader (append_packet s avpkt))
        avpkt.size with
    | none => unfold run_pass at hr; rw [hx] at hr; cases hr
    | some x =>
      obtain ⟨e, t, g⟩ := x
      rcases decode_pass_exit_cases _ t _ g _ e hx with ⟨h1, h2, h3, h4, h5⟩ | ⟨h1, h2⟩
      · rw [h1] at hx
        rw [run_pass_finish _ _ _ _ _ _ _ hx] at hr
        cases hr
        obtain ⟨f1, f2, f3, f4⟩ := finish_frame_fields t g (append_packet s avpkt).bitstream_size
          (input_buf_size s avpkt) true (interleave_buffer t.channels t.blocksize (decoded t))
        obtain ⟨s1, s2, _, _⟩ := finish_frame_spec t g (append_packet s avpkt).bitstream_size
          (input_buf_size s avpkt) true (interleave_buffer t.channels t.blocksize (decoded t))
        refine Or.inl ⟨s1, hh2 ▸ h4, hq2 ▸ h5, hpass, by rw [f1, f2]; exact h2,
          by rw [f2]; exact h3, ?_⟩
        rw [s2, f2, f3, f4]
      · rcases h1 with h1 | ⟨code, h1⟩
        · rw [h1] at hx
          rw [run_pass_finish _ _ _ _ _ _ _ hx] at hr
          cases hr
          obtain ⟨f1, f2, f3, f4⟩ := finish_frame_fields t g
            (append_packet s avpkt).bitstream_size (input_buf_size s avpkt) false []
          obtain ⟨s1, s2, _, _⟩ := finish_frame_spec t g (append_packet s avpkt).bitstream_size
            (input_buf_size s avpkt) false []
          refine Or.inr ⟨s1, s2, fun a b _ => ?_⟩
          rw [f1, f2]
          exact h2 (hh2 ▸ a) (hq2 ▸ b)
        · rw [h1] at hx
          rw [run_pass_ret _ _ _ _ _ _ hx] at hr
          cases hr
          exact Or.inr ⟨rfl, rfl, fun a b _ => h2 (hh2 ▸ a) (hq2 ▸ b)⟩

/-! ## The Rice codes -/

theorem bit_at_lt (buffer : List Nat) (i : Nat) : bit_at buffer i < 2 := by
  unfold bit_at
  omega

theorem bits_value_lt (buffer : List Nat) (i n : Nat) : bits_value buffer i n < 2 ^ n := by
  induction n with
  | zero => unfold bits_value; omega
  | succ n ih =>
    unfold bits_value
    have h := bit_at_lt buffer (i + n)
    rw [Nat.pow_succ]
    omega

/-- The scan for the first one bit: the bits counted are zero, and the scan
stops at a one bit unless it has used up its `fuel`. -/
theorem count_zeros_spec (buffer : List Nat) (i fuel : Nat) :
    count_zeros buffer i fuel ≤ fuel ∧
    (∀ j, j < count_zeros buffer i fuel → bit_at buffer (i + j) = 0) ∧
    (count_zeros buffer i fuel < fuel → bit_at buffer (i + count_zeros buffer i fuel) = 1) := by
  induction fuel generalizing i with
  | zero =>
    unfold count_zeros
    exact ⟨Nat.le_refl _, fun j hj => absurd hj (Nat.not_lt_zero j),
      fun h => absurd h (Nat.lt_irrefl 0)⟩
  | succ fuel ih =>
    unfold count_zeros
    obtain ⟨h1, h2, h3⟩ := ih (i + 1)
    by_cases hb : bit_at buffer i = 1
    · rw [if_pos hb]
      exact ⟨Nat.zero_le _, fun j hj => absurd hj (Nat.not_lt_zero j), fun _ => hb⟩
    · rw [if_neg hb]
      have hz : bit_at buffer i = 0 := by
        have := bit_at_lt buffer i
        omega
      refine ⟨by omega, fun j hj => ?_, fun h => ?_⟩
      · cases j with
        | zero => exact hz
        | succ j =>
          have := h2 j (by omega)
          rw [show i + (j + 1) = i + 1 + j by omega]
          exact this
      · have := h3 (by omega)
        rw [show i + (count_zeros buffer (i + 1) fuel + 1) =
          i + 1 + count_zeros buffer (i + 1) fuel by omega]
        exact this

theorem fold_signed_injective : Function.Injective fold_signed := by
  intro u v h
  unfold fold_signed at h
  split at h <;> split at h <;> omega

theorem fold_signed_surjective : Function.Surjective fold_signed := by
  intro z
  by_cases hz : 0 ≤ z
  · refine ⟨(2 * z).toNat, ?_⟩
    unfold fold_signed
    rw [if_pos (by omega)]
    omega
  · refine ⟨(-2 * z - 1).toNat, ?_⟩
    unfold fold_signed
    rw [if_neg (by omega)]
    omega

/-! ## Feeding a stream in chunks -/

theorem feed_nil (fuel : Nat) (s : ShortenContext) (fr : List (List Int)) (k : Nat) :
    feed (fuel + 1) s [] fr k = some (.ok fr k s) := by
  unfold feed
  rfl

theorem feed_skip (fuel : Nat) (s : ShortenContext) (cs : List (List Nat))
    (fr : List (List Int)) (k : Nat) :
    feed (fuel + 1) s ([] :: cs) fr k = feed fuel s cs fr k := by
  conv => lhs; unfold feed

theorem feed_call (fuel : Nat) (s : ShortenContext) (c : List Nat) (cs : List (List Nat))
    (fr : List (List Int)) (k : Nat) (hc : c ≠ []) :
    feed (fuel + 1) s (c :: cs) fr k =
      match shorten_decode_frame s { data := some c } with
      | none => none
      | some r =>
        if r.ret < 0 then some (.error fr (k + input_buf_size s { data := some c }) r)
        else feed fuel r.ctx (c.drop r.ret.toNat :: cs)
          (if r.got_frame then fr ++ [r.frame] else fr) (k + r.ret.toNat) := by
  cases c with
  | nil => exact absurd rfl hc
  | cons b c =>
    conv => lhs; unfold feed
    try rfl

/-- More fuel does not change the outcome of a run. -/
theorem feed_mono (n m : Nat) (s : ShortenContext) (cs : List (List Nat))
    (fr : List (List Int)) (k : Nat) (res : FeedResult) (h : feed n s cs fr k = some res) :
    feed (n + m) s cs fr k = some res := by
  induction n generalizing s cs fr k with
  | zero => unfold feed at h; cases h
  | succ n ih =>
    rw [show n + 1 + m = (n + m) + 1 by omega]
    cases cs with
    | nil => rw [feed_nil] at h ⊢; exact h
    | cons c cs =>
      by_cases hc : c = []
      · subst hc
        rw [feed_skip] at h ⊢
        exact ih _ _ _ _ h
      · rw [feed_call _ _ _ _ _ _ hc] at h ⊢
        generalize shorten_decode_frame s { data := some c } = x at h ⊢
        cases x with
        | none => cases h
        | some r =>
          dsimp only at h ⊢
          split
          · next hneg => rw [if_pos hneg] at h; exact h
          · next hneg => rw [if_neg hneg] at h; exact ih _ _ _ _ h

/-- A decode pass leaves the buffer bookkeeping alone. -/
theorem decode_pass_buffer (s t : ShortenContext) (gb g : GetBitContext) (size : Nat)
    (e : PassExit) (h : decode_pass s gb size = some (e, t, g)) :
    buffer_fields t = buffer_fields s := by
  unfold decode_pass at h
  split at h
  · split at h
    · cases h
    · next r hr =>
      have hs := (read_header_spec s gb r hr).1
      split at h <;> (cases h; exact hs)
  · split at h
    · cases h; rfl
    · exact (command_loop_frame _ _ _ _ h).1

/-- A `return` inside the command loop returns a negative value. -/
theorem command_loop_ret_neg (fuel : Nat) (s t : ShortenContext) (gb g : GetBitContext)
    (code : Int) (h : command_loop fuel s gb = some (.ret code, t, g)) : code < 0 := by
  induction fuel generalizing s gb with
  | zero => unfold command_loop at h; cases h
  | succ fuel ih =>
    cases hstep : command_step s gb with
    | next u g2 =>
      rw [command_loop_next _ _ _ _ _ hstep] at h
      exact ih _ _ h
    | exit e2 u g2 =>
      rw [command_loop_exit _ _ _ _ _ _ hstep] at h
      cases h
      by_cases hc : s.cur_chan < s.channels
      · rcases command_step_exit_cases s t gb g _ hstep hc with ⟨h1, _⟩ | ⟨h1, _⟩
        · cases h1
        · rcases h1 with h1 | ⟨c, h1, h2⟩
          · cases h1
          · cases h1; exact h2
      · unfold command_step at hstep
        rw [if_neg hc] at hstep
        cases hstep

/-- Unless QUIT has been received, a decode pass does not depend on the packet
size, and a `return` inside it returns a negative value. -/
theorem decode_pass_size (s : ShortenContext) (gb : GetBitContext) (size : Nat)
    (hq : ¬ (s.got_header = true ∧ s.got_quit_command = true)) :
    decode_pass s gb size = decode_pass s gb 0 ∧
    ∀ code t g, decode_pass s gb size = some (.ret code, t, g) → code < 0 := by
  unfold decode_pass
  by_cases hh : s.got_header = true
  · have hq2 : ¬ s.got_quit_command = true := fun h => hq ⟨hh, h⟩
    rw [if_neg (by rw [hh]; exact fun h => h rfl), if_neg hq2,
      if_neg (by rw [hh]; exact fun h => h rfl), if_neg hq2]
    exact ⟨rfl, fun code t g h => command_loop_ret_neg _ _ _ _ _ _ h⟩
  · have hh2 : ¬ s.got_header = true := hh
    rw [if_pos hh2, if_pos hh2]
    refine ⟨rfl, fun code t g h => ?_⟩
    split at h
    · cases h
    · split at h
      · next hneg => cases h; exact hneg
      · cases h

/-- After QUIT a decode pass returns the packet size and changes nothing. -/
theorem run_pass_quit (s : ShortenContext) (size n : Nat) (hh : s.got_header = true)
    (hq : s.got_quit_command = true) :
    run_pass s size n = some { ret := size, got_frame := false, frame := [], ctx := s } := by
  apply run_pass_ret
  unfold decode_pass
  rw [if_neg (by rw [hh]; exact fun h => h rfl), if_pos hq]

theorem decode_result_eq (a b : DecodeResult) (h1 : a.ret = b.ret)
    (h2 : a.got_frame = b.got_frame) (h3 : a.frame = b.frame) (h4 : a.ctx = b.ctx) : a = b := by
  cases a
  cases b
  dsimp only at h1 h2 h3 h4
  rw [h1, h2, h3, h4]

/-- The value returned behind `finish_frame` and the independence of the rest
of the result from `input_buf_size`. -/
theorem finish_frame_ret (t : ShortenContext) (g : GetBitContext) (b n : Nat) (gf : Bool)
    (fr : List Int) :
    (get_bits_count g / 8 > b → (finish_frame t g b n gf fr).ret = AVERROR_INVALIDDATA) ∧
    (¬ get_bits_count g / 8 > b → t.bitstream_size ≠ 0 →
      (finish_frame t g b n gf fr).ret = (n : Int)) ∧
    (finish_frame t g b n gf fr).ctx = (finish_frame t g b 0 gf fr).ctx := by
  unfold finish_frame
  dsimp only
  by_cases h : get_bits_count g / 8 > b
  · rw [if_pos h, if_pos h]
    exact ⟨fun _ => rfl, fun h2 => absurd h h2, rfl⟩
  · rw [if_neg h, if_neg h]
    refine ⟨fun h2 => absurd h2 h, fun _ hpos => ?_, ?_⟩
    · split
      · rfl
      · next h3 => exact absurd (not_not.mp h3) hpos
    · split <;> rfl

/-- Unless QUIT has been received, the result of a decode pass over a non-empty
buffer depends on the packet only through `input_buf_size`, which it returns
when it does not fail. -/
theorem run_pass_form (s : ShortenContext) (size n : Nat)
    (hq : ¬ (s.got_header = true ∧ s.got_quit_command = true)) (hpos : s.bitstream_size ≠ 0) :
    run_pass s size n =
      (run_pass s 0 0).map (fun r => { r with ret := if r.ret < 0 then r.ret else (n : Int) }) := by
  obtain ⟨h1, h2⟩ := decode_pass_size s (pass_reader s) size hq
  unfold run_pass
  rw [h1] at h2 ⊢
  cases hd : decode_pass s (pass_reader s) 0 with
  | none => rfl
  | some x =>
    obtain ⟨e, t, g⟩ := x
    cases e with
    | ret code =>
      have hneg := h2 code t g hd
      dsimp only [Option.map]
      rw [if_pos hneg]
    | finish gf fr =>
      have hb := decode_pass_buffer s t _ g 0 _ hd
      have hbs : t.bitstream = s.bitstream := by
        unfold buffer_fields at hb
        simp only [Prod.mk.injEq] at hb
        exact hb.2.1
      have hpos2 : t.bitstream_size ≠ 0 := by
        unfold ShortenContext.bitstream_size at hpos ⊢
        rw [hbs]; exact hpos
      obtain ⟨a1, a2, a3⟩ := finish_frame_ret t g s.bitstream_size n gf fr
      obtain ⟨b1, b2, _⟩ := finish_frame_ret t g s.bitstream_size 0 gf fr
      obtain ⟨c1, c2, _, _⟩ := finish_frame_spec t g s.bitstream_size n gf fr
      obtain ⟨d1, d2, _, _⟩ := finish_frame_spec t g s.bitstream_size 0 gf fr
      dsimp only [Option.map]
      congr 1
      apply decode_result_eq
      · dsimp only
        by_cases h : get_bits_count g / 8 > s.bitstream_size
        · rw [a1 h, b1 h, if_pos (by decide)]
        · rw [a2 h hpos2, b2 h hpos2, if_neg (by omega)]
      · exact c1.trans d1.symm
      · exact c2.trans d2.symm
      · exact a3

/-! ## The buffer stage on concatenated input -/

theorem frame_cap_pos (s : ShortenContext) : 0 < frame_cap s := by
  unfold frame_cap
  split
  · decide
  · omega

theorem alloc_bitstream_fields (s : ShortenContext) :
    (alloc_bitstream s).max_framesize = frame_cap s ∧
    (alloc_bitstream s).bitstream = s.bitstream ∧
    (alloc_bitstream s).bitstream_index = s.bitstream_index ∧
    (s.max_framesize ≠ 0 → alloc_bitstream s = s) ∧
    ((s.max_framesize ≠ 0 → s.max_framesize ≤ s.allocated_bitstream_size) →
      frame_cap s ≤ (alloc_bitstream s).allocated_bitstream_size) := by
  unfold alloc_bitstream frame_cap
  split
  · next h =>
    refine ⟨rfl, rfl, rfl, fun h2 => absurd h h2, fun _ => ?_⟩
    unfold av_fast_realloc
    dsimp only
    split <;> omega
  · next h => exact ⟨rfl, rfl, rfl, fun _ => rfl, fun h2 => h2 h⟩

/-- The context after the buffer stage of a call with data, field by field. -/
theorem append_packet_fields (s : ShortenContext) (c : List Nat) :
    append_packet s { data := some c } =
      { s with
        max_framesize := frame_cap s,
        allocated_bitstream_size := (alloc_bitstream s).allocated_bitstream_size,
        bitstream_index :=
          if s.bitstream_index + s.bitstream_size + input_buf_size s { data := some c } >
              (alloc_bitstream s).allocated_bitstream_size then 0 else s.bitstream_index,
        bitstream := s.bitstream ++ c.take (input_buf_size s { data := some c }) } := by
  unfold append_packet copy_packet move_bitstream
  dsimp only
  unfold ShortenContext.bitstream_size
  unfold alloc_bitstream frame_cap
  split <;> split <;> rfl

theorem input_buf_size_eq (s : ShortenContext) (c : List Nat) :
    input_buf_size s { data := some c } = min c.length (frame_cap s - s.bitstream_size) := rfl

/-- The buffer stage keeps the bookkeeping in order: afterwards the cap is set,
the pending bytes fit under it and behind the read index. -/
theorem append_packet_ok (s : ShortenContext) (c : List Nat) (hs : BufferOk s) :
    BufferOk (append_packet s { data := some c }) ∧
    (append_packet s { data := some c }).max_framesize ≠ 0 ∧
    (append_packet s { data := some c }).max_framesize = frame_cap s ∧
    (append_packet s { data := some c }).bitstream_size =
      s.bitstream_size + input_buf_size s { data := some c } ∧
    (append_packet s { data := some c }).bitstream_index +
      (append_packet s { data := some c }).bitstream_size ≤
        (append_packet s { data := some c }).allocated_bitstream_size := by
  obtain ⟨a1, a2, a3, a4, a5⟩ := alloc_bitstream_fields s
  have hcap := frame_cap_pos s
  have hsz := append_packet_size s { data := some c }
  have hn := input_buf_size_eq s c
  have hm : (append_packet s { data := some c }).max_framesize = frame_cap s := by
    rw [append_packet_fields]
  have hal : (append_packet s { data := some c }).allocated_bitstream_size =
      (alloc_bitstream s).allocated_bitstream_size := by
    rw [append_packet_fields]
  have hix : (append_packet s { data := some c }).bitstream_index =
      if s.bitstream_index + s.bitstream_size + input_buf_size s { data := some c } >
          (alloc_bitstream s).allocated_bitstream_size then 0 else s.bitstream_index := by
    rw [append_packet_fields]
  have h5 := a5 hs.2
  have h1 := hs.1
  refine ⟨⟨?_, fun _ => ?_⟩, by omega, hm, hsz, ?_⟩
  · unfold frame_cap
    rw [hm, if_neg (by omega), hsz]
    omega
  · rw [hm, hal]; exact h5
  · rw [hix, hsz, hal]
    split <;> omega

/-- Bytes that a call only stores, followed by more bytes in a second call,
leave the buffer as one call with all the bytes does. -/
theorem append_packet_merge (s : ShortenContext) (c1 c2 : List Nat)
    (h : s.bitstream_size + c1.length < frame_cap s) :
    append_packet (append_packet s { data := some c1 }) { data := some c2 } =
      append_packet s { data := some (c1 ++ c2) } ∧
    input_buf_size s { data := some (c1 ++ c2) } =
      c1.length + input_buf_size (append_packet s { data := some c1 }) { data := some c2 } := by
  obtain ⟨a1, a2, a3, a4, a5⟩ := alloc_bitstream_fields s
  have hn1 : input_buf_size s { data := some c1 } = c1.length := input_buf_size_small s c1 h
  have hsz1 := append_packet_size s { data := some c1 }
  rw [hn1] at hsz1
  have hm1 : (append_packet s { data := some c1 }).max_framesize = frame_cap s := by
    rw [append_packet_fields]
  have hcap := frame_cap_pos s
  have hc1 : frame_cap (append_packet s { data := some c1 }) = frame_cap s := by
    unfold frame_cap
    rw [hm1, if_neg (by omega)]
    rfl
  have hn : input_buf_size s { data := some (c1 ++ c2) } =
      c1.length + input_buf_size (append_packet s { data := some c1 }) { data := some c2 } := by
    rw [input_buf_size_eq, input_buf_size_eq, hc1, hsz1, List.length_append]
    omega
  refine ⟨?_, hn⟩
  have hal1 : alloc_bitstream (append_packet s { data := some c1 }) =
      append_packet s { data := some c1 } :=
    (alloc_bitstream_fields _).2.2.2.1 (by rw [hm1]; omega)
  rw [append_packet_fields (append_packet s { data := some c1 }) c2, hal1, hc1, hsz1,
    append_packet_fields s (c1 ++ c2), hn]
  generalize input_buf_size (append_packet s { data := some c1 }) { data := some c2 } = n2
  rw [append_packet_fields s c1, hn1]
  dsimp only
  have hb : s.bitstream ++ List.take c1.length c1 ++ List.take n2 c2 =
      s.bitstream ++ List.take (c1.length + n2) (c1 ++ c2) := by
    rw [List.take_length, List.take_append, List.append_assoc]
  have hi : (if (if s.bitstream_index + s.bitstream_size + c1.length >
          (alloc_bitstream s).allocated_bitstream_size then 0 else s.bitstream_index) +
        (s.bitstream_size + c1.length) + n2 > (alloc_bitstream s).allocated_bitstream_size
        then 0
        else if s.bitstream_index + s.bitstream_size + c1.length >
          (alloc_bitstream s).allocated_bitstream_size then 0 else s.bitstream_index) =
      (if s.bitstream_index + s.bitstream_size + (c1.length + n2) >
          (alloc_bitstream s).allocated_bitstream_size then 0 else s.bitstream_index) := by
    split <;> split <;> split <;> omega
  rw [hb, hi]

/-- Bytes behind those that fill the buffer do not matter to the buffer stage. -/
theorem append_packet_fill (s : ShortenContext) (c1 c2 : List Nat)
    (h : frame_cap s ≤ s.bitstream_size + c1.length) :
    append_packet s { data := some (c1 ++ c2) } = append_packet s { data := some c1 } ∧
    input_buf_size s { data := some (c1 ++ c2) } = input_buf_size s { data := some c1 } ∧
    input_buf_size s { data := some c1 } ≤ c1.length := by
  have hn : input_buf_size s { data := some (c1 ++ c2) } = input_buf_size s { data := some c1 } := by
    rw [input_buf_size_eq, input_buf_size_eq, List.length_append]
    omega
  have hle : input_buf_size s { data := some c1 } ≤ c1.length := by
    rw [input_buf_size_eq]
    omega
  refine ⟨?_, hn, hle⟩
  rw [append_packet_fields s (c1 ++ c2), append_packet_fields s c1, hn,
    List.take_append_of_le_length hle]

/-- On a full buffer the buffer stage changes nothing. -/
theorem append_packet_full (s : ShortenContext) (c : List Nat) (hm : s.max_framesize ≠ 0)
    (hfull : s.max_framesize ≤ s.bitstream_size)
    (hix : s.bitstream_index + s.bitstream_size ≤ s.allocated_bitstream_size) :
    append_packet s { data := some c } = s ∧ input_buf_size s { data := some c } = 0 := by
  have hc : frame_cap s = s.max_framesize := by
    unfold frame_cap
    rw [if_neg hm]
  have hn : input_buf_size s { data := some c } = 0 := by
    rw [input_buf_size_eq, hc]
    omega
  refine ⟨?_, hn⟩
  rw [append_packet_fields, hn, (alloc_bitstream_fields s).2.2.2.1 hm, hc, if_neg (by omega),
    List.take_zero, List.append_nil]

/-- Two calls of the buffer stage leave the buffer as one call with all the
bytes does. -/
theorem append_packet_append (s : ShortenContext) (c1 c2 : List Nat) (hs : BufferOk s) :
    append_packet (append_packet s { data := some c1 }) { data := some c2 } =
      append_packet s { data := some (c1 ++ c2) } := by
  by_cases h : s.bitstream_size + c1.length < frame_cap s
  · exact (append_packet_merge s c1 c2 h).1
  · obtain ⟨_, b2, b3, b4, b5⟩ := append_packet_ok s c1 hs
    have hn : input_buf_size s { data := some c1 } = frame_cap s - s.bitstream_size := by
      rw [input_buf_size_eq]
      omega
    have h1 := hs.1
    rw [(append_packet_fill s c1 c2 (by omega)).1]
    exact (append_packet_full _ c2 b2 (by rw [b3, b4, hn]; omega) b5).1

/-! ## A call on a chunk -/

theorem append_packet_flags (s : ShortenContext) (avpkt : AVPacket) :
    (append_packet s avpkt).got_header = s.got_header ∧
    (append_packet s avpkt).got_quit_command = s.got_quit_command := by
  rw [append_packet_eq]
  exact ⟨rfl, rfl⟩

/-- After QUIT a call takes the whole packet and only runs the buffer stage. -/
theorem call_quit (s : ShortenContext) (c : List Nat) (hh : s.got_header = true)
    (hq : s.got_quit_command = true) :
    shorten_decode_frame s { data := some c } =
      some { ret := c.length, got_frame := false, frame := [],
             ctx := append_packet s { data := some c } } := by
  obtain ⟨f1, f2⟩ := append_packet_flags s { data := some c }
  have hcap := frame_cap_pos s
  unfold shorten_decode_frame
  split
  · next hb =>
    have h1 := hb.1
    rw [append_packet_size, (append_packet_fields s c ▸ rfl :
      (append_packet s { data := some c }).max_framesize = frame_cap s)] at h1
    have hn : input_buf_size s { data := some c } = c.length := by
      rw [input_buf_size_eq] at h1 ⊢
      omega
    rw [hn]
  · exact run_pass_quit _ _ _ (f1.trans hh) (f2.trans hq)

/-- Unless QUIT has been received, a call depends on the packet only through
the context left by the buffer stage and through `input_buf_size`, which it
returns when it does not fail. -/
theorem call_form (s : ShortenContext) (c : List Nat)
    (hq : ¬ (s.got_header = true ∧ s.got_quit_command = true)) :
    shorten_decode_frame s { data := some c } =
      (call_core (append_packet s { data := some c })).map
        (with_count (input_buf_size s { data := some c })) := by
  obtain ⟨f1, f2⟩ := append_packet_flags s { data := some c }
  have hcap := frame_cap_pos s
  have hm : (append_packet s { data := some c }).max_framesize = frame_cap s := by
    rw [append_packet_fields]
  unfold shorten_decode_frame call_core
  by_cases hb : (append_packet s { data := some c }).bitstream_size <
      (append_packet s { data := some c }).max_framesize
  · rw [if_pos ⟨hb, rfl⟩, if_pos hb]
    rfl
  · rw [if_neg (fun h => hb h.1), if_neg hb]
    exact run_pass_form _ _ _ (by rw [f1, f2]; exact hq) (by rw [hm] at hb; omega)

theorem buffer_ok_of_fields (s t : ShortenContext) (hs : BufferOk s)
    (h1 : t.max_framesize = s.max_framesize)
    (h2 : t.allocated_bitstream_size = s.allocated_bitstream_size)
    (h3 : t.bitstream.length ≤ s.bitstream.length) : BufferOk t := by
  unfold BufferOk frame_cap ShortenContext.bitstream_size at hs ⊢
  rw [h1, h2]
  exact ⟨by omega, hs.2⟩

/-- A decode pass keeps the bookkeeping of the input buffer in order. -/
theorem run_pass_buffer_ok (s : ShortenContext) (size n : Nat) (r : DecodeResult)
    (h : run_pass s size n = some r) (hs : BufferOk s) : BufferOk r.ctx := by
  unfold run_pass at h
  cases hd : decode_pass s (pass_reader s) size with
  | none => rw [hd] at h; cases h
  | some x =>
    obtain ⟨e, t, g⟩ := x
    rw [hd] at h
    have hb := decode_pass_buffer s t _ g size e hd
    unfold buffer_fields at hb
    simp only [Prod.mk.injEq] at hb
    obtain ⟨b1, b2, b3, b4, b5⟩ := hb
    cases e with
    | ret code =>
      cases h
      exact buffer_ok_of_fields s t hs b1 b4 (by rw [b2])
    | finish gf fr =>
      dsimp only at h
      cases h
      unfold finish_frame
      dsimp only
      split
      · exact buffer_ok_of_fields s _ hs b1 b4 (Nat.zero_le _)
      · split
        · refine buffer_ok_of_fields s _ hs b1 b4 ?_
          dsimp only
          rw [List.length_drop, b2]
          omega
        · exact buffer_ok_of_fields s _ hs b1 b4 (by dsimp only; rw [b2])

theorem call_core_buffer_ok (s : ShortenContext) (r : DecodeResult)
    (h : call_core s = some r) (hs : BufferOk s) : BufferOk r.ctx := by
  unfold call_core at h
  split at h
  · cases h; exact hs
  · exact run_pass_buffer_ok s 0 0 r h hs

/-! ## One step of the caller's loop -/

/-- After QUIT the loop hands the whole chunk to one call. -/
theorem feed_step_quit (fuel : Nat) (s : ShortenContext) (c : List Nat) (cs : List (List Nat))
    (fr : List (List Int)) (k : Nat) (hc : c ≠ []) (hh : s.got_header = true)
    (hq : s.got_quit_command = true) :
    feed (fuel + 1) s (c :: cs) fr k =
      feed fuel (append_packet s { data := some c }) ([] :: cs) fr (k + c.length) := by
  rw [feed_call _ _ _ _ _ _ hc, call_quit s c hh hq]
  dsimp only
  rw [if_neg (by omega), Int.toNat_ofNat, List.drop_length]
  rfl

/-- Unless QUIT has been received, a step of the loop is determined by the
context left by the buffer stage and by `input_buf_size`. -/
theorem feed_step (fuel : Nat) (s : ShortenContext) (c : List Nat) (cs : List (List Nat))
    (fr : List (List Int)) (k : Nat) (hc : c ≠ [])
    (hq : ¬ (s.got_header = true ∧ s.got_quit_command = true)) :
    feed (fuel + 1) s (c :: cs) fr k =
      match call_core (append_packet s { data := some c }) with
      | none => none
      | some r =>
        if r.ret < 0 then some (.error fr (k + input_buf_size s { data := some c }) r)
        else feed fuel r.ctx (c.drop (input_buf_size s { data := some c }) :: cs)
          (if r.got_frame then fr ++ [r.frame] else fr)
          (k + input_buf_size s { data := some c }) := by
  rw [feed_call _ _ _ _ _ _ hc, call_form s c hq]
  cases call_core (append_packet s { data := some c }) with
  | none => rfl
  | some r =>
    dsimp only [Option.map, with_count]
    by_cases hneg : r.ret < 0
    · rw [if_pos hneg, if_pos hneg, if_pos hneg]
    · rw [if_neg hneg, if_neg (by omega), if_neg hneg, Int.toNat_ofNat]

theorem call_core_store (s : ShortenContext) (h : s.bitstream_size < s.max_framesize) :
    call_core s = some { ret := 0, got_frame := false, frame := [], ctx := s } := by
  unfold call_core
  rw [if_pos h]

/-- A chunk that does not fill the buffer is stored by one call. -/
theorem feed_step_store (fuel : Nat) (s : ShortenContext) (c : List Nat) (cs : List (List Nat))
    (fr : List (List Int)) (k : Nat) (hc : c ≠ [])
    (hq : ¬ (s.got_header = true ∧ s.got_quit_command = true))
    (h : s.bitstream_size + c.length < frame_cap s) :
    feed (fuel + 1) s (c :: cs) fr k =
      feed fuel (append_packet s { data := some c }) ([] :: cs) fr (k + c.length) := by
  have hn := input_buf_size_small s c h
  have hsz := append_packet_size s { data := some c }
  have hm : (append_packet s { data := some c }).max_framesize = frame_cap s := by
    rw [append_packet_fields]
  rw [feed_step _ _ _ _ _ _ hc hq, call_core_store _ (by rw [hsz, hm, hn]; exact h)]
  dsimp only
  rw [if_neg (lt_irrefl _), hn, List.drop_length]
  rfl

/-! ## Cutting a chunk in two -/

/-- A chunk cut in two non-empty pieces: a run over the whole chunk and a run
over the two pieces end alike. -/
theorem feed_split (c2 : List Nat) (cs : List (List Nat)) (hc2 : c2 ≠ []) (res : FeedResult)
    (n : Nat) (s : ShortenContext) (c1 : List Nat) (fr : List (List Int)) (k : Nat)
    (hs : BufferOk s) (hc1 : c1 ≠ []) :
    (feed n s ((c1 ++ c2) :: cs) fr k = some res →
      ∃ m, feed m s (c1 :: c2 :: cs) fr k = some res) ∧
    (feed n s (c1 :: c2 :: cs) fr k = some res →
      ∃ m, feed m s ((c1 ++ c2) :: cs) fr k = some res) := by
  induction n generalizing s c1 fr k with
  | zero =>
    constructor
    · intro h; unfold feed at h; cases h
    · intro h; unfold feed at h; cases h
  | succ n ih =>
    have hc12 : c1 ++ c2 ≠ [] := by
      intro h
      exact hc1 (List.append_eq_nil.mp h).1
    by_cases hq : s.got_header = true ∧ s.got_quit_command = true
    · -- after QUIT every call takes its whole packet
      obtain ⟨f1, f2⟩ := append_packet_flags s { data := some c1 }
      have hw : ∀ m, feed (m + 1) s ((c1 ++ c2) :: cs) fr k =
          feed (m + 3) s (c1 :: c2 :: cs) fr k := by
        intro m
        rw [feed_step_quit _ _ _ _ _ _ hc12 hq.1 hq.2,
          feed_step_quit _ _ _ _ _ _ hc1 hq.1 hq.2, feed_skip,
          feed_step_quit _ _ _ _ _ _ hc2 (f1.trans hq.1) (f2.trans hq.2),
          append_packet_append s c1 c2 hs, List.length_append, Nat.add_assoc]
      constructor
      · intro h
        exact ⟨n + 3, by rw [← hw]; exact h⟩
      · intro h
        exact ⟨n + 1, by rw [hw]; exact feed_mono (n + 1) 2 _ _ _ _ _ h⟩
    · by_cases hb : s.bitstream_size + c1.length < frame_cap s
      · -- the first piece is only stored
        obtain ⟨f1, f2⟩ := append_packet_flags s { data := some c1 }
        have hq1 : ¬ ((append_packet s { data := some c1 }).got_header = true ∧
            (append_packet s { data := some c1 }).got_quit_command = true) := by
          rw [f1, f2]; exact hq
        obtain ⟨m1, m2⟩ := append_packet_merge s c1 c2 hb
        have hw : ∀ m, feed (m + 1) s ((c1 ++ c2) :: cs) fr k =
            feed (m + 3) s (c1 :: c2 :: cs) fr k := by
          intro m
          rw [feed_step_store _ _ _ _ _ _ hc1 hq hb, feed_skip,
            feed_step _ _ _ _ _ _ hc12 hq, feed_step _ _ _ _ _ _ hc2 hq1, m1, m2,
            List.drop_append, Nat.add_assoc]
        constructor
        · intro h
          exact ⟨n + 3, by rw [← hw]; exact h⟩
        · intro h
          exact ⟨n + 1, by rw [hw]; exact feed_mono (n + 1) 2 _ _ _ _ _ h⟩
      · -- the first piece fills the buffer: both runs make the same call
        obtain ⟨a1, a2, a3⟩ := append_packet_fill s c1 c2 (by omega)
        have hok := (append_packet_ok s c1 hs).1
        rw [feed_step _ _ _ _ _ _ hc12 hq, feed_step _ _ _ _ _ _ hc1 hq, a1, a2,
          List.drop_append_of_le_length a3]
        cases hcore : call_core (append_packet s { data := some c1 }) with
        | none =>
          constructor
          · intro h; cases h
          · intro h; cases h
        | some r =>
          dsimp only
          have hr := call_core_buffer_ok _ r hcore hok
          by_cases hneg : r.ret < 0
          · constructor
            · intro h
              rw [if_pos hneg] at h
              refine ⟨1, ?_⟩
              rw [feed_step _ _ _ _ _ _ hc1 hq, hcore]
              dsimp only
              rw [if_pos hneg]
              exact h
            · intro h
              rw [if_pos hneg] at h
              refine ⟨1, ?_⟩
              rw [feed_step _ _ _ _ _ _ hc12 hq, a1, a2, hcore]
              dsimp only
              rw [if_pos hneg]
              exact h
          · by_cases hd : c1.drop (input_buf_size s { data := some c1 }) = []
            · constructor
              · intro h
                rw [if_neg hneg, hd, List.nil_append] at h
                refine ⟨n + 2, ?_⟩
                rw [feed_step _ _ _ _ _ _ hc1 hq, hcore]
                dsimp only
                rw [if_neg hneg, hd, feed_skip]
                exact h
              · intro h
                rw [if_neg hneg, hd] at h
                cases n with
                | zero => unfold feed at h; cases h
                | succ n' =>
                  rw [feed_skip] at h
                  refine ⟨n' + 1, ?_⟩
                  rw [feed_step _ _ _ _ _ _ hc12 hq, a1, a2, hcore]
                  dsimp only
                  rw [if_neg hneg, List.drop_append_of_le_length a3, hd, List.nil_append]
                  exact h
            · obtain ⟨i1, i2⟩ := ih r.ctx (c1.drop (input_buf_size s { data := some c1 }))
                (if r.got_frame then fr ++ [r.frame] else fr)
                (k + input_buf_size s { data := some c1 }) hr hd
              constructor
              · intro h
                rw [if_neg hneg] at h
                obtain ⟨m, hm⟩ := i1 h
                refine ⟨m + 1, ?_⟩
                rw [feed_step _ _ _ _ _ _ hc1 hq, hcore]
                dsimp only
                rw [if_neg hneg]
                exact hm
              · intro h
                rw [if_neg hneg] at h
                obtain ⟨m, hm⟩ := i2 h
                refine ⟨m + 1, ?_⟩
                rw [feed_step _ _ _ _ _ _ hc12 hq, a1, a2, hcore]
                dsimp only
                rw [if_neg hneg, List.drop_append_of_le_length a3]
                exact hm

/-- An empty chunk behind the first chunk does not change how a run ends. -/
theorem feed_drop_empty (rest : List (List Nat)) (res : FeedResult) (n : Nat)
    (s : ShortenContext) (c1 : List Nat) (fr : List (List Int)) (k : Nat) :
    (feed n s (c1 :: [] :: rest) fr k = some res → ∃ m, feed m s (c1 :: rest) fr k = some res) ∧
    (feed n s (c1 :: rest) fr k = some res →
      ∃ m, feed m s (c1 :: [] :: rest) fr k = some res) := by
  induction n generalizing s c1 fr k with
  | zero =>
    constructor
    · intro h; unfold feed at h; cases h
    · intro h; unfold feed at h; cases h
  | succ n ih =>
    by_cases hc : c1 = []
    · subst hc
      constructor
      · intro h
        rw [feed_skip] at h
        exact ⟨n, h⟩
      · intro h
        exact ⟨n + 2, by rw [feed_skip]; exact h⟩
    · cases hr : shorten_decode_frame s { data := some c1 } with
      | none =>
        constructor
        · intro h; rw [feed_call _ _ _ _ _ _ hc, hr] at h; cases h
        · intro h; rw [feed_call _ _ _ _ _ _ hc, hr] at h; cases h
      | some r =>
        by_cases hneg : r.ret < 0
        · constructor
          · intro h
            rw [feed_call _ _ _ _ _ _ hc, hr] at h
            dsimp only at h
            rw [if_pos hneg] at h
            refine ⟨1, ?_⟩
            rw [feed_call _ _ _ _ _ _ hc, hr]
            dsimp only
            rw [if_pos hneg]
            exact h
          · intro h
            rw [feed_call _ _ _ _ _ _ hc, hr] at h
            dsimp only at h
            rw [if_pos hneg] at h
            refine ⟨1, ?_⟩
            rw [feed_call _ _ _ _ _ _ hc, hr]
            dsimp only
            rw [if_pos hneg]
            exact h
        · obtain ⟨i1, i2⟩ := ih r.ctx (c1.drop r.ret.toNat)
            (if r.got_frame then fr ++ [r.frame] else fr) (k + r.ret.toNat)
          constructor
          · intro h
            rw [feed_call _ _ _ _ _ _ hc, hr] at h
            dsimp only at h
            rw [if_neg hneg] at h
            obtain ⟨m, hm⟩ := i1 h
            refine ⟨m + 1, ?_⟩
            rw [feed_call _ _ _ _ _ _ hc, hr]
            dsimp only
            rw [if_neg hneg]
            exact hm
          · intro h
            rw [feed_call _ _ _ _ _ _ hc, hr] at h
            dsimp only at h
            rw [if_neg hneg] at h
            obtain ⟨m, hm⟩ := i2 h
            refine ⟨m + 1, ?_⟩
            rw [feed_call _ _ _ _ _ _ hc, hr]
            dsimp only
            rw [if_neg hneg]
            exact hm

/-- Joining the first two chunks of a list does not change how a run ends. -/
theorem feed_join_two (res : FeedResult) (s : ShortenContext) (c1 c2 : List Nat)
    (rest : List (List Nat)) (fr : List (List Int)) (k : Nat) (hs : BufferOk s) :
    (∃ n, feed n s (c1 :: c2 :: rest) fr k = some res) ↔
      (∃ n, feed n s ((c1 ++ c2) :: rest) fr k = some res) := by
  by_cases h1 : c1 = []
  · subst h1
    rw [List.nil_append]
    constructor
    · rintro ⟨n, h⟩
      cases n with
      | zero => unfold feed at h; cases h
      | succ n => rw [feed_skip] at h; exact ⟨n, h⟩
    · rintro ⟨n, h⟩
      exact ⟨n + 1, by rw [feed_skip]; exact h⟩
  · by_cases h2 : c2 = []
    · subst h2
      rw [List.append_nil]
      constructor
      · rintro ⟨n, h⟩
        exact (feed_drop_empty rest res n s c1 fr k).1 h
      · rintro ⟨n, h⟩
        exact (feed_drop_empty rest res n s c1 fr k).2 h
    · constructor
      · rintro ⟨n, h⟩
        exact (feed_split c2 rest h2 res n s c1 fr k hs h1).2 h
      · rintro ⟨n, h⟩
        exact (feed_split c2 rest h2 res n s c1 fr k hs h1).1 h

/-- A run over a list of chunks ends as the run over their concatenation, given
as one chunk. -/
theorem feed_flatten (res : FeedResult) (cs : List (List Nat)) (s : ShortenContext)
    (fr : List (List Int)) (k : Nat) (hs : BufferOk s) :
    (∃ n, feed n s cs fr k = some res) ↔ (∃ n, feed n s [cs.flatten] fr k = some res) := by
  obtain ⟨L, hL⟩ : ∃ L, cs.length = L := ⟨_, rfl⟩
  induction L generalizing cs with
  | zero =>
    rw [List.length_eq_zero] at hL
    subst hL
    rw [List.flatten_nil]
    constructor
    · rintro ⟨n, h⟩
      exact ⟨n + 1, by rw [feed_skip]; exact h⟩
    · rintro ⟨n, h⟩
      cases n with
      | zero => unfold feed at h; cases h
      | succ n => rw [feed_skip] at h; exact ⟨n, h⟩
  | succ L ih =>
    cases cs with
    | nil => cases hL
    | cons c cs =>
      cases cs with
      | nil => rw [List.flatten_cons, List.flatten_nil, List.append_nil]
      | cons c2 rest =>
        rw [feed_join_two res s c c2 rest fr k hs,
          ih ((c ++ c2) :: rest) (by simp only [List.length_cons] at hL ⊢; omega),
          List.flatten_cons, List.flatten_cons, List.flatten_cons, List.append_assoc]

/-! ## The invariant of the input buffer -/

theorem append_packet_buffer_ok (s : ShortenContext) (avpkt : AVPacket) (hs : BufferOk s) :
    BufferOk (append_packet s avpkt) := by
  obtain ⟨a1, a2, a3, a4, a5⟩ := alloc_bitstream_fields s
  have hcap := frame_cap_pos s
  have hsz := append_packet_size s avpkt
  have hm : (append_packet s avpkt).max_framesize = frame_cap s := by
    rw [append_packet_eq]
  have hal : (append_packet s avpkt).allocated_bitstream_size =
      (alloc_bitstream s).allocated_bitstream_size := by
    unfold append_packet copy_packet move_bitstream
    split <;> split <;> rfl
  have hn : input_buf_size s avpkt ≤ frame_cap s - s.bitstream_size := by
    unfold input_buf_size
    omega
  have h5 := a5 hs.2
  have h1 := hs.1
  refine ⟨?_, fun _ => ?_⟩
  · unfold frame_cap
    rw [hm, if_neg (by omega), hsz]
    omega
  · rw [hm, hal]; exact h5

/-- Every call keeps the bookkeeping of the input buffer in order. -/
theorem decode_frame_buffer_ok (s : ShortenContext) (avpkt : AVPacket) (r : DecodeResult)
    (h : shorten_decode_frame s avpkt = some r) (hs : BufferOk s) : BufferOk r.ctx := by
  have ha := append_packet_buffer_ok s avpkt hs
  unfold shorten_decode_frame at h
  split at h
  · cases h; exact ha
  · exact run_pass_buffer_ok _ _ _ r h ha

theorem reachable_buffer_ok (s : ShortenContext) (h : Reachable s) : BufferOk s := by
  induction h with
  | init => exact ⟨by decide, fun h => absurd rfl h⟩
  | call s avpkt r _ hr ih => exact decode_frame_buffer_ok s avpkt r hr ih

/-! ## The quantised LPC predictor -/

theorem wrap32_idem (a : Int) : wrap32 (wrap32 a) = wrap32 a := by
  unfold wrap32; omega

theorem wrap32_congr (a b : Int) (h : wrap32 a = wrap32 b) (c : Int) :
    wrap32 (a + c) = wrap32 (b + c) := by
  rw [← wrap32_wrap32_add a c, h, wrap32_wrap32_add]

/-- The inner loop, up to wrap-around, adds the products to the initial sum. -/
theorem predict_sum (coeffs d : List Int) (p order : Nat) (init_sum : Int) :
    wrap32 (predict coeffs d p order init_sum) =
      wrap32 (init_sum +
        ((List.range order).map (fun j => coeffs.getD j 0 * d.getD (p - j - 1) 0)).sum) := by
  unfold predict
  induction order with
  | zero => simp
  | succ n ih =>
    rw [List.range_succ, List.foldl_append, List.map_append, List.sum_append]
    simp only [List.foldl_cons, List.foldl_nil, List.map_cons, List.map_nil, List.sum_cons,
      List.sum_nil, Int.add_zero]
    rw [wrap32_idem, wrap32_add_wrap32, wrap32_congr _ _ ih, Int.add_assoc]

theorem predict_wrapped (coeffs d : List Int) (p order : Nat) (init_sum : Int) (h : 0 < order) :
    wrap32 (predict coeffs d p order init_sum) = predict coeffs d p order init_sum := by
  obtain ⟨n, rfl⟩ : ∃ n, order = n + 1 := ⟨order - 1, by omega⟩
  unfold predict
  rw [List.range_succ, List.foldl_append]
  simp only [List.foldl_cons, List.foldl_nil]
  exact wrap32_idem _

theorem read_coeffs_length (n i : Nat) (c : List Int) (gb : GetBitContext) :
    (read_coeffs n i c gb).1.length = c.length := by
  induction n generalizing i c gb with
  | zero => rfl
  | succ n ih =>
    unfold read_coeffs
    dsimp only
    rw [ih, List.length_set]

theorem read_coeffs_below (n i : Nat) (c : List Int) (gb : GetBitContext) (p : Nat)
    (hp : p < i) : (read_coeffs n i c gb).1.getD p 0 = c.getD p 0 := by
  induction n generalizing i c gb with
  | zero => rfl
  | succ n ih =>
    unfold read_coeffs
    dsimp only
    rw [ih _ _ _ (by omega), getD_set_ne _ _ _ _ (by omega)]

/-- The coefficient loop stores the next `n` signed codes of parameter
`LPCQUANT`, as 32-bit values. -/
theorem read_coeffs_value (n i : Nat) (c : List Int) (gb : GetBitContext) (t : Nat)
    (ht : t < n) (hlen : i + n ≤ c.length) :
    (read_coeffs n i c gb).1.getD (i + t) 0 =
      wrap32 ((residuals (LPCQUANT : Nat) n gb).getD t 0) := by
  induction n generalizing i c gb t with
  | zero => omega
  | succ n ih =>
    unfold read_coeffs
    dsimp only
    rw [residuals_succ]
    cases t with
    | zero =>
      rw [Nat.add_zero i, read_coeffs_below _ _ _ _ _ (by omega), getD_set_eq _ _ _ (by omega)]
      rfl
    | succ t =>
      rw [show i + (t + 1) = (i + 1) + t by omega,
        ih (i + 1) _ _ t (by omega) (by rw [List.length_set]; omega)]
      rfl

theorem decode_subframe_lpc_qlpc (s : ShortenContext) (gb : GetBitContext) (channel : Nat)
    (residual_size coffset : Int) (hp : ¬ qlpc_order gb > s.nwrap)
    (hch : channel < s.decoded_base.length) :
    (decode_subframe_lpc s gb FN_QLPC channel residual_size coffset).1 = 0 ∧
    (decode_subframe_lpc s gb FN_QLPC channel residual_size coffset).2.1.nwrap = s.nwrap ∧
    (decode_subframe_lpc s gb FN_QLPC channel residual_size coffset).2.1.coeffs =
      (read_coeffs (qlpc_order gb).toNat 0 s.coeffs (qlpc_coeff_reader gb)).1 ∧
    (decode_subframe_lpc s gb FN_QLPC channel residual_size coffset).2.1.decoded_base.getD
        channel [] =
      (if coffset ≠ 0 then
        add_range (qlpc_block s gb channel residual_size coffset).1 s.nwrap s.blocksize coffset
       else (qlpc_block s gb channel residual_size coffset).1) ∧
    (decode_subframe_lpc s gb FN_QLPC channel residual_size coffset).2.2 =
      (qlpc_block s gb channel residual_size coffset).2 := by
  unfold decode_subframe_lpc
  dsimp only
  rw [if_pos rfl]
  unfold qlpc_order at hp
  rw [if_neg hp]
  refine ⟨rfl, rfl, rfl, ?_, rfl⟩
  dsimp only
  rw [getD_set_self_list _ _ _ hch]
  rfl

/-- What `add_range` does to each cell. -/
theorem add_range_getD (d : List Int) (p n : Nat) (v : Int) (q : Nat) :
    (add_range d p n v).getD q 0 =
      if p ≤ q ∧ q < p + n ∧ q < d.length then wrap32 (d.getD q 0 + v) else d.getD q 0 := by
  unfold add_range
  induction n with
  | zero =>
    rw [if_neg (by omega)]
    rfl
  | succ n ih =>
    rw [List.range_succ, List.foldl_append]
    simp only [List.foldl_cons, List.foldl_nil]
    have hl : ((List.range n).foldl
        (fun d t => d.set (p + t) (wrap32 (d.getD (p + t) 0 + v))) d).length = d.length :=
      foldl_set_length _ (fun d i => List.length_set _ _ _) _ _
    rw [getD_set, hl]
    by_cases hq : q = p + n
    · subst hq
      by_cases hlen : p + n < d.length
      · rw [if_pos ⟨rfl, hlen⟩, ih, if_neg (by omega), if_pos ⟨by omega, by omega, hlen⟩]
      · rw [if_neg (fun h => hlen h.2), ih, if_neg (by omega), if_neg (by omega)]
    · rw [if_neg (fun h => hq h.1), ih]
      by_cases h1 : p ≤ q ∧ q < p + n ∧ q < d.length
      · rw [if_pos h1, if_pos ⟨h1.1, by omega, h1.2.2⟩]
      · rw [if_neg h1, if_neg (by omega)]

theorem add_range_length (d : List Int) (p n : Nat) (v : Int) :
    (add_range d p n v).length = d.length := by
  unfold add_range
  exact foldl_set_length _ (fun d i => List.length_set _ _ _) _ _

/-- The block of `FN_QLPC` without offset: the coefficients read, the history
kept, and every sample as the residual plus the shifted prediction. -/
theorem qlpc_sample (s : ShortenContext) (gb : GetBitContext) (channel : Nat)
    (residual_size coffset : Int)
    (hlen : s.nwrap + s.blocksize ≤ (s.decoded_base.getD channel []).length)
    (hp1 : 1 ≤ qlpc_order gb) (hp2 : qlpc_order gb ≤ s.nwrap) (i : Nat) (hi : i < s.blocksize) :
    (qlpc_block s gb channel residual_size coffset).1.getD (s.nwrap + i) 0 =
      wrap32 ((residuals residual_size s.blocksize (qlpc_sample_reader s gb)).getD i 0 +
        asr (wrap32 (s.lpcqoffset +
          ((List.range (qlpc_order gb).toNat).map (fun j =>
            (read_coeffs (qlpc_order gb).toNat 0 s.coeffs (qlpc_coeff_reader gb)).1.getD j 0 *
            (qlpc_block s gb channel residual_size coffset).1.getD
              ((s.nwrap : Int) + ((i : Int) - (j : Int) - 1)).toNat 0)).sum)) 5) := by
  have hl : (qlpc_history s gb channel coffset).length =
      (s.decoded_base.getD channel []).length := by
    unfold qlpc_history
    split
    · exact add_range_length _ _ _ _
    · rfl
  have hv := decode_samples_value
    (read_coeffs (qlpc_order gb).toNat 0 s.coeffs (qlpc_coeff_reader gb)).1
    (qlpc_order gb).toNat (if qlpc_order gb ≠ 0 then s.lpcqoffset else coffset) LPCQUANT
    residual_size s.nwrap s.blocksize 0 (qlpc_history s gb channel coffset)
    (qlpc_sample_reader s gb) i hi (by rw [hl]; omega) (by omega)
  rw [Nat.add_zero s.nwrap] at hv
  unfold qlpc_block
  rw [hv, ← predict_wrapped _ _ _ _ _ (by omega), predict_sum, if_pos (by omega)]
  have hm : ∀ j ∈ List.range (qlpc_order gb).toNat,
      (fun j => (read_coeffs (qlpc_order gb).toNat 0 s.coeffs (qlpc_coeff_reader gb)).1.getD j 0 *
        (decode_samples (read_coeffs (qlpc_order gb).toNat 0 s.coeffs (qlpc_coeff_reader gb)).1
          (qlpc_order gb).toNat s.lpcqoffset LPCQUANT residual_size s.nwrap s.blocksize 0
          (qlpc_history s gb channel coffset) (qlpc_sample_reader s gb)).1.getD
            (s.nwrap + i - j - 1) 0) j =
      (fun j => (read_coeffs (qlpc_order gb).toNat 0 s.coeffs (qlpc_coeff_reader gb)).1.getD j 0 *
        (decode_samples (read_coeffs (qlpc_order gb).toNat 0 s.coeffs (qlpc_coeff_reader gb)).1
          (qlpc_order gb).toNat s.lpcqoffset LPCQUANT residual_size s.nwrap s.blocksize 0
          (qlpc_history s gb channel coffset) (qlpc_sample_reader s gb)).1.getD
            ((s.nwrap : Int) + ((i : Int) - (j : Int) - 1)).toNat 0) j := by
    intro j hj
    rw [List.mem_range] at hj
    dsimp only
    rw [show ((s.nwrap : Int) + ((i : Int) - (j : Int) - 1)).toNat = s.nwrap + i - j - 1 by omega]
  rw [List.map_congr_left hm]
  rfl

/-! ## The LPC quantisation offset set by `read_header` -/

theorem allocate_buffers_loop_lpc (n chan : Nat) (s : ShortenContext) :
    (allocate_buffers_loop n chan s).2.lpcqoffset = s.lpcqoffset ∧
    (allocate_buffers_loop n chan s).2.version = s.version := by
  induction n generalizing chan s with
  | zero => exact ⟨rfl, rfl⟩
  | succ n ih =>
    unfold allocate_buffers_loop
    dsimp only
    split
    · exact ⟨rfl, rfl⟩
    · split
      · exact ⟨rfl, rfl⟩
      · exact ih _ _

theorem allocate_buffers_lpc (s : ShortenContext) :
    (allocate_buffers s).2.lpcqoffset = s.lpcqoffset ∧
    (allocate_buffers s).2.version = s.version := by
  have h := allocate_buffers_loop_lpc s.channels 0 s
  unfold allocate_buffers
  dsimp only
  split
  · exact h
  · exact h

theorem init_offset_lpc (s : ShortenContext) :
    (init_offset s).2.lpcqoffset = s.lpcqoffset ∧ (init_offset s).2.version = s.version := by
  unfold init_offset
  dsimp only
  split <;> exact ⟨rfl, rfl⟩

theorem read_header_verbatim_lpc (s : ShortenContext) (gb : GetBitContext)
    (r : Int × ShortenContext × GetBitContext) (h : read_header_verbatim s gb = some r) :
    r.2.1.lpcqoffset = s.lpcqoffset ∧ r.2.1.version = s.version := by
  unfold read_header_verbatim at h
  dsimp only at h
  split at h
  · cases h; exact ⟨rfl, rfl⟩
  · split at h
    · cases h; exact ⟨rfl, rfl⟩
    · split at h
      · cases h
      · split at h
        · cases h; exact ⟨rfl, rfl⟩
        · cases h; exact ⟨rfl, rfl⟩

theorem read_header_buffers_lpc (s : ShortenContext) (gb : GetBitContext) (maxnlpc : Int)
    (r : Int × ShortenContext × GetBitContext) (h : read_header_buffers s gb maxnlpc = some r)
    (h0 : s.lpcqoffset = 0) (hok : ¬ r.1 < 0) :
    r.2.1.version = s.version ∧
    r.2.1.lpcqoffset = if r.2.1.version > 1 then V2LPCQOFFSET else 0 := by
  unfold read_header_buffers at h
  dsimp only at h
  have ha := allocate_buffers_lpc { s with nwrap := (max NWRAP maxnlpc).toNat }
  have ho := init_offset_lpc (allocate_buffers { s with nwrap := (max NWRAP maxnlpc).toNat }).2
  have hv : (init_offset (allocate_buffers
      { s with nwrap := (max NWRAP maxnlpc).toNat }).2).2.version = s.version :=
    ho.2.trans ha.2
  have hl : (init_offset (allocate_buffers
      { s with nwrap := (max NWRAP maxnlpc).toNat }).2).2.lpcqoffset = 0 :=
    (ho.1.trans ha.1).trans h0
  split at h
  · next hneg => cases h; exact absurd hneg hok
  · split at h
    · next hneg => cases h; exact absurd hneg hok
    · split at h
      · next h2 =>
        obtain ⟨v1, v2⟩ := read_header_verbatim_lpc _ _ _ h
        have v2b : r.2.1.version = (init_offset (allocate_buffers
            { s with nwrap := (max NWRAP maxnlpc).toNat }).2).2.version := v2
        refine ⟨v2b.trans hv, ?_⟩
        rw [v2b, if_pos h2]
        exact v1
      · next h2 =>
        obtain ⟨v1, v2⟩ := read_header_verbatim_lpc _ _ _ h
        refine ⟨v2.trans hv, ?_⟩
        rw [v2, if_neg h2, v1]
        exact hl

theorem read_header_channels_lpc (s : ShortenContext) (gb : GetBitContext)
    (c : ShortenContext × GetBitContext) (h : read_header_channels s gb = .ok c) :
    c.1.lpcqoffset = 0 := by
  unfold read_header_channels at h
  dsimp only at h
  split at h
  · cases h
  · split at h
    · cases h
    · split at h
      · cases h
      · cases h; rfl

theorem read_header_blocksize_lpc (s : ShortenContext) (gb : GetBitContext)
    (p : ShortenContext × GetBitContext × Int) (h : read_header_blocksize s gb = .ok p) :
    p.1.lpcqoffset = s.lpcqoffset := by
  unfold read_header_blocksize at h
  dsimp only at h
  split at h
  · split at h
    · cases h
    · cases h; rfl
  · cases h; rfl

/-- A successful `read_header` leaves `lpcqoffset` at `V2LPCQOFFSET` for a
stream of version above 1 and at 0 otherwise. -/
theorem read_header_lpc (s : ShortenContext) (gb : GetBitContext)
    (r : Int × ShortenContext × GetBitContext) (h : read_header s gb = some r)
    (hok : ¬ r.1 < 0) :
    r.2.1.lpcqoffset = if r.2.1.version > 1 then V2LPCQOFFSET else 0 := by
  unfold read_header at h
  split at h
  · cases h; exact absurd (by decide : AVERROR_INVALIDDATA < 0) hok
  · next c hc =>
    split at h
    · cases h; exact absurd (by decide : AVERROR_EINVAL < 0) hok
    · next p hp =>
      exact (read_header_buffers_lpc _ _ _ _ h
        ((read_header_blocksize_lpc _ _ _ hp).trans (read_header_channels_lpc _ _ _ hc)) hok).2

theorem decode_pass_lpc (s : ShortenContext) (gb : GetBitContext) (n : Nat)
    (r : PassExit × ShortenContext × GetBitContext) (h : decode_pass s gb n = some r)
    (hs : s.got_header = true → s.lpcqoffset = if s.version > 1 then V2LPCQOFFSET else 0) :
    r.2.1.got_header = true →
      r.2.1.lpcqoffset = if r.2.1.version > 1 then V2LPCQOFFSET else 0 := by
  unfold decode_pass at h
  by_cases hh : s.got_header = true
  · rw [if_neg (by rw [hh]; exact fun h => h rfl)] at h
    intro _
    split at h
    · cases h; exact hs hh
    · obtain ⟨_, h2, _, _⟩ := command_loop_frame _ _ _ _ h
      unfold stream_fields at h2
      simp only [Prod.mk.injEq] at h2
      have e1 : r.2.1.version = s.version := h2.2.2.2.2.1
      have e2 : r.2.1.lpcqoffset = s.lpcqoffset := h2.2.2.2.2.2.2.2.2.1
      rw [e1, e2]
      exact hs hh
  · rw [if_pos hh] at h
    intro hg
    split at h
    · cases h
    · next x hx =>
      obtain ⟨_, _, e1, _⟩ := read_header_spec _ _ _ hx
      split at h
      · next hneg =>
        cases h
        exact absurd ((e1 hneg).symm.trans hg) hh
      · next hneg =>
        cases h
        exact read_header_lpc _ _ _ hx hneg

theorem decode_call_lpc (s : ShortenContext) (avpkt : AVPacket) (r : DecodeResult)
    (h : shorten_decode_frame s avpkt = some r)
    (hs : s.got_header = true → s.lpcqoffset = if s.version > 1 then V2LPCQOFFSET else 0) :
    r.ctx.got_header = true →
      r.ctx.lpcqoffset = if r.ctx.version > 1 then V2LPCQOFFSET else 0 := by
  have hA := append_packet_eq s avpkt
  have hg : (append_packet s avpkt).got_header = s.got_header := by rw [hA]
  have hv : (append_packet s avpkt).version = s.version := by rw [hA]
  have hl : (append_packet s avpkt).lpcqoffset = s.lpcqoffset := by rw [hA]
  have hs2 : (append_packet s avpkt).got_header = true → (append_packet s avpkt).lpcqoffset =
      if (append_packet s avpkt).version > 1 then V2LPCQOFFSET else 0 := by
    rw [hg, hv, hl]; exact hs
  unfold shorten_decode_frame at h
  split at h
  · cases h
    exact hs2
  · unfold run_pass at h
    split at h
    · cases h
    · next code t g hd =>
      cases h
      exact decode_pass_lpc _ _ _ _ hd hs2
    · next gf fr t g hd =>
      cases h
      rw [finish_frame_ctx_eq]
      exact decode_pass_lpc _ _ _ _ hd hs2

/-- In every reachable context with the header parsed, `lpcqoffset` is
`V2LPCQOFFSET` for a stream of version above 1 and 0 otherwise. -/
theorem reachable_lpcqoffset (s : ShortenContext) (hr : Reachable s) :
    s.got_header = true → s.lpcqoffset = if s.version > 1 then V2LPCQOFFSET else 0 := by
  induction hr with
  | init => intro h; exact absurd h (by decide)
  | call s avpkt r _ hcall ih => exact decode_call_lpc s avpkt r hcall ih

theorem list_eq_of_getD (a b : List Int) (hl : a.length = b.length)
    (h : ∀ k, k < a.length → a.getD k 0 = b.getD k 0) : a = b := by
  apply List.ext_getElem hl
  intro n h1 h2
  have e := h n h1
  rw [List.getD_eq_getElem?_getD, List.getD_eq_getElem?_getD, List.getElem?_eq_getElem h1,
    List.getElem?_eq_getElem h2] at e
  exact e

theorem getD_map_range (f : Nat → Int) (n k : Nat) (h : k < n) :
    ((List.range n).map f).getD k 0 = f k := by
  rw [List.getD_eq_getElem?_getD, List.getElem?_map, List.getElem?_range h]
  rfl

/-- The subtraction loop of `FN_QLPC` yields the buffer of `offset_history`. -/
theorem qlpc_history_eq (s : ShortenContext) (gb : GetBitContext) (channel : Nat) (c : Int)
    (hc : c ≠ 0) (hch : channel < s.decoded_base.length) (hp : qlpc_order gb ≤ s.nwrap) :
    qlpc_history s gb channel c =
      (offset_history s channel (qlpc_order gb).toNat c).decoded_base.getD channel [] := by
  unfold qlpc_history offset_history
  dsimp only
  rw [if_pos hc, getD_set_self_list _ _ _ hch]
  apply list_eq_of_getD
  · rw [add_range_length, List.length_map, List.length_range]
  · intro k hk
    rw [add_range_length] at hk
    rw [add_range_getD, getD_map_range _ _ _ hk]
    by_cases h1 : s.nwrap - (qlpc_order gb).toNat ≤ k ∧ k < s.nwrap
    · rw [if_pos h1, if_pos ⟨h1.1, by omega, hk⟩, Int.sub_eq_add_neg]
    · rw [if_neg h1, if_neg (by omega)]

theorem qlpc_block_length (s : ShortenContext) (gb : GetBitContext) (channel : Nat)
    (residual_size coffset : Int) :
    (qlpc_block s gb channel residual_size coffset).1.length =
      (s.decoded_base.getD channel []).length := by
  unfold qlpc_block
  rw [decode_samples_length]
  unfold qlpc_history
  split
  · exact add_range_length _ _ _ _
  · rfl

/-! ## Sums in 32-bit arithmetic -/

/-- A loop that adds with wrap-around computes, up to wrap-around, the sum over
the integers. -/
theorem foldl_wrap_sum (f : Nat → Int) (n : Nat) (sum0 : Int) :
    wrap32 ((List.range n).foldl (fun sum i => wrap32 (sum + f i)) sum0) =
      wrap32 (sum0 + ((List.range n).map f).sum) := by
  induction n with
  | zero => simp
  | succ n ih =>
    rw [List.range_succ, List.foldl_append, List.map_append, List.sum_append]
    simp only [List.foldl_cons, List.foldl_nil, List.map_cons, List.map_nil, List.sum_cons,
      List.sum_nil, Int.add_zero]
    rw [wrap32_idem, wrap32_congr _ _ ih, Int.add_assoc]

theorem foldl_wrap_wrapped (f : Nat → Int) (n : Nat) (sum0 : Int) (h : 0 < n) :
    wrap32 ((List.range n).foldl (fun sum i => wrap32 (sum + f i)) sum0) =
      (List.range n).foldl (fun sum i => wrap32 (sum + f i)) sum0 := by
  obtain ⟨m, rfl⟩ : ∃ m, n = m + 1 := ⟨n - 1, by omega⟩
  rw [List.range_succ, List.foldl_append]
  simp only [List.foldl_cons, List.foldl_nil]
  exact wrap32_idem _

theorem wrap32_of_range (a : Int) (h1 : -2147483648 ≤ a) (h2 : a < 2147483648) :
    wrap32 a = a := by
  unfold wrap32; omega

/-- The sum loop with a start value that is a 32-bit number. -/
theorem foldl_wrap_eq (f : Nat → Int) (n : Nat) (sum0 : Int) (h1 : -2147483648 ≤ sum0)
    (h2 : sum0 < 2147483648) :
    (List.range n).foldl (fun sum i => wrap32 (sum + f i)) sum0 =
      wrap32 (sum0 + ((List.range n).map f).sum) := by
  rw [← foldl_wrap_sum]
  by_cases h : 0 < n
  · exact (foldl_wrap_wrapped f n sum0 h).symm
  · have : n = 0 := by omega
    subst this
    exact (wrap32_of_range sum0 h1 h2).symm

theorem tdiv_two_range (a : Int) (h1 : -2147483648 ≤ a) (h2 : a < 2147483648) :
    -2147483648 ≤ a.tdiv 2 ∧ a.tdiv 2 < 2147483648 := by
  by_cases h : 0 ≤ a
  · rw [Int.tdiv_eq_ediv h (by decide)]
    omega
  · have e : a.tdiv 2 = -((-a) / 2) := by
      have := Int.neg_tdiv (-a) 2
      rw [Int.neg_neg] at this
      rw [this, Int.tdiv_eq_ediv (by omega) (by decide)]
    rw [e]
    omega

/-! ## The end of the audio branch -/

theorem decode_subframe_lpc_fields (s : ShortenContext) (gb : GetBitContext) (command : Int)
    (channel : Nat) (residual_size coffset : Int) :
    (decode_subframe_lpc s gb command channel residual_size coffset).2.1.offset = s.offset ∧
    (decode_subframe_lpc s gb command channel residual_size coffset).2.1.nmean = s.nmean ∧
    (decode_subframe_lpc s gb command channel residual_size coffset).2.1.version = s.version ∧
    (decode_subframe_lpc s gb command channel residual_size coffset).2.1.blocksize =
      s.blocksize ∧
    (decode_subframe_lpc s gb command channel residual_size coffset).2.1.bitshift = s.bitshift ∧
    (decode_subframe_lpc s gb command channel residual_size coffset).2.1.nwrap = s.nwrap ∧
    (decode_subframe_lpc s gb command channel residual_size coffset).2.1.decoded_base.length =
      s.decoded_base.length := by
  unfold decode_subframe_lpc
  dsimp only
  split
  · split
    · exact ⟨rfl, rfl, rfl, rfl, rfl, rfl, rfl⟩
    · exact ⟨rfl, rfl, rfl, rfl, rfl, rfl, List.length_set _ _ _⟩
  · exact ⟨rfl, rfl, rfl, rfl, rfl, rfl, List.length_set _ _ _⟩

theorem decode_channel_fields (s : ShortenContext) (gb : GetBitContext) (cmd : Int)
    (channel : Nat) (residual_size coffset : Int) :
    (decode_channel s gb cmd channel residual_size coffset).2.1.offset = s.offset ∧
    (decode_channel s gb cmd channel residual_size coffset).2.1.nmean = s.nmean ∧
    (decode_channel s gb cmd channel residual_size coffset).2.1.version = s.version ∧
    (decode_channel s gb cmd channel residual_size coffset).2.1.blocksize = s.blocksize ∧
    (decode_channel s gb cmd channel residual_size coffset).2.1.bitshift = s.bitshift ∧
    (decode_channel s gb cmd channel residual_size coffset).2.1.nwrap = s.nwrap ∧
    (decode_channel s gb cmd channel residual_size coffset).2.1.decoded_base.length =
      s.decoded_base.length := by
  unfold decode_channel
  split
  · exact ⟨rfl, rfl, rfl, rfl, rfl, rfl, List.length_set _ _ _⟩
  · exact decode_subframe_lpc_fields s gb cmd channel residual_size coffset

/-- A successful audio command is the decode of the channel followed by the
end of the audio branch. -/
theorem audio_command_ok (s : ShortenContext) (gb : GetBitContext) (cmd : Int)
    (h : ¬ (audio_command s gb cmd).1 < 0) :
    (audio_command s gb cmd).2.1 = finish_channel (decoded_state s gb cmd) s.cur_chan := by
  unfold audio_command at h ⊢
  dsimp only at h ⊢
  split
  · next hneg =>
    rw [if_pos hneg] at h
    exact absurd hneg h
  · rfl

/-- The loop `offset[i - 1] = offset[i]` moves every entry down by one. -/
theorem shift_down_getD (off : List Int) (n j : Nat) :
    ((List.range n).foldl (fun o t => o.set t (o.getD (t + 1) 0)) off).getD j 0 =
      if j < n ∧ j < off.length then off.getD (j + 1) 0 else off.getD j 0 := by
  induction n generalizing j with
  | zero =>
    rw [if_neg (by omega)]
    rfl
  | succ n ih =>
    rw [List.range_succ, List.foldl_append]
    simp only [List.foldl_cons, List.foldl_nil]
    have hl : ((List.range n).foldl (fun o t => o.set t (o.getD (t + 1) 0)) off).length =
        off.length := foldl_set_length _ (fun d i => List.length_set _ _ _) _ _
    rw [getD_set, hl]
    by_cases hj : j = n
    · subst hj
      by_cases hlen : j < off.length
      · rw [if_pos ⟨rfl, hlen⟩, if_pos ⟨by omega, hlen⟩, ih (j + 1), if_neg (by omega)]
      · rw [if_neg (fun h => hlen h.2), if_neg (fun h => hlen h.2), ih j, if_neg (by omega)]
    · rw [if_neg (fun h => hj h.1), ih j]
      by_cases h1 : j < n ∧ j < off.length
      · rw [if_pos h1, if_pos ⟨by omega, h1.2⟩]
      · rw [if_neg h1, if_neg (by omega)]

theorem getD_set_other_list (l : List (List Int)) (c ch : Nat) (v : List Int) (h : ch ≠ c) :
    (l.set c v).getD ch [] = l.getD ch [] := by
  rw [List.getD_eq_getElem?_getD, List.getD_eq_getElem?_getD, List.getElem?_set_ne (Ne.symm h)]

/-- What `update_means` stores in the means of the channel and of the others. -/
theorem update_means_offset (s : ShortenContext) (channel : Nat)
    (hch : channel < s.offset.length)
    (hlen : s.nmean.toNat ≤ (s.offset.getD channel []).length) (hb : 0 < s.blocksize) :
    (s.nmean > 0 →
      (∀ i : Nat, i + 1 < s.nmean.toNat →
        ((update_means s channel).offset.getD channel []).getD i 0 =
          (s.offset.getD channel []).getD (i + 1) 0) ∧
      ((update_means s channel).offset.getD channel []).getD (s.nmean.toNat - 1) 0 =
        (if s.version < 2 then
          wrap32 (Int.tdiv (wrap32 (0 +
            ((List.range s.blocksize).map (fun i : Nat => sample s channel (i : Int))).sum)) s.blocksize)
         else shl32 (wrap32 (Int.tdiv (wrap32 (((s.blocksize / 2 : Nat) : Int) +
            ((List.range s.blocksize).map (fun i : Nat => sample s channel (i : Int))).sum)) s.blocksize))
            s.bitshift.toNat)) ∧
    (s.nmean ≤ 0 → (update_means s channel).offset = s.offset) ∧
    (∀ ch : Nat, ch ≠ channel →
      (update_means s channel).offset.getD ch [] = s.offset.getD ch []) := by
  have hsum : ∀ sum0 : Int, (List.range s.blocksize).foldl
      (fun sum i => wrap32 (sum + (s.decoded_base.getD channel []).getD (s.nwrap + i) 0)) sum0 =
      wrap32 (sum0 + ((List.range s.blocksize).map (fun i : Nat => sample s channel (i : Int))).sum) := by
    intro sum0
    rw [← foldl_wrap_wrapped _ _ _ hb, foldl_wrap_sum]
    have hm : ∀ i ∈ List.range s.blocksize,
        (fun i => (s.decoded_base.getD channel []).getD (s.nwrap + i) 0) i =
        (fun i : Nat => sample s channel i) i := by
      intro i _
      unfold sample
      dsimp only
      rw [show ((s.nwrap : Int) + (i : Int)).toNat = s.nwrap + i by omega]
    rw [List.map_congr_left hm]
  have hl : ((List.range (s.nmean.toNat - 1)).foldl (fun o t => o.set t (o.getD (t + 1) 0))
      (s.offset.getD channel [])).length = (s.offset.getD channel []).length :=
    foldl_set_length _ (fun d i => List.length_set _ _ _) _ _
  refine ⟨fun hn => ?_, fun hn => ?_, fun ch hne => ?_⟩
  · unfold update_means
    dsimp only
    rw [if_pos hn, hsum]
    by_cases hv : s.version < 2
    · simp only [if_pos hv]
      rw [getD_set_self_list _ _ _ hch]
      refine ⟨fun i hi => ?_, ?_⟩
      · rw [getD_set_ne _ _ _ _ (by omega), shift_down_getD, if_pos ⟨by omega, by omega⟩]
      · rw [getD_set_eq _ _ _ (by rw [hl]; omega)]
    · simp only [if_neg hv]
      rw [getD_set_self_list _ _ _ hch]
      refine ⟨fun i hi => ?_, ?_⟩
      · rw [getD_set_ne _ _ _ _ (by omega), shift_down_getD, if_pos ⟨by omega, by omega⟩]
      · rw [getD_set_eq _ _ _ (by rw [hl]; omega)]
  · unfold update_means
    rw [if_neg (by omega)]
  · unfold update_means
    dsimp only
    split
    · dsimp only
      exact getD_set_other_list _ _ _ _ hne
    · rfl

/-- The channel buffer after the end of the audio branch: the history holds
the cells `blocksize` further on, the block is shifted by `bitshift`. -/
theorem finish_channel_getD (u : ShortenContext) (channel : Nat)
    (hch : channel < u.decoded_base.length) (j : Nat) :
    (finish_channel u channel).nwrap = u.nwrap ∧
    ((finish_channel u channel).decoded_base.getD channel []).getD j 0 =
      if j < u.nwrap then (u.decoded_base.getD channel []).getD (j + u.blocksize) 0
      else if u.bitshift ≠ 0 ∧ j < u.nwrap + u.blocksize then
        shl32 ((u.decoded_base.getD channel []).getD j 0) u.bitshift.toNat
      else (u.decoded_base.getD channel []).getD j 0 := by
  obtain ⟨m1, m2, m3, m4, _⟩ := update_means_decoded_base u channel
  unfold finish_channel
  dsimp only
  refine ⟨m2, ?_⟩
  rw [getD_set_self_list _ _ _ (by rw [m1]; exact hch), fix_bitshift_getD, copy_wrap_getD,
    m1, m2, m3, m4]
  by_cases h1 : j < u.nwrap
  · rw [if_pos h1, if_neg (by omega), if_pos h1]
  · rw [if_neg h1, if_neg h1]
    by_cases h2 : u.bitshift ≠ 0 ∧ j < u.nwrap + u.blocksize
    · rw [if_pos h2, if_pos ⟨h2.1, by omega, h2.2⟩]
    · rw [if_neg h2, if_neg (fun h => h2 ⟨h.1, h.2.2⟩)]

theorem finish_channel_offset (u : ShortenContext) (channel : Nat) :
    (finish_channel u channel).offset = (update_means u channel).offset := by
  unfold finish_channel
  rfl

/-- The decode of a channel leaves the carried-over history as it was, unless
the command is `FN_QLPC` with an offset that is not zero. -/
theorem decode_channel_history (s : ShortenContext) (gb : GetBitContext) (cmd : Int)
    (channel : Nat) (residual_size coffset : Int) (hch : channel < s.decoded_base.length)
    (hq : cmd ≠ FN_QLPC ∨ coffset = 0) (p : Nat) (hp : p < s.nwrap) :
    ((decode_channel s gb cmd channel residual_size coffset).2.1.decoded_base.getD
      channel []).getD p 0 = (s.decoded_base.getD channel []).getD p 0 := by
  unfold decode_channel
  split
  · dsimp only
    rw [getD_set_self_list _ _ _ hch, zero_fill_getD, if_neg (by omega)]
  · unfold decode_subframe_lpc
    dsimp only
    split
    · next hc =>
      have h0 : coffset = 0 := hq.resolve_left (fun h => h hc)
      subst h0
      split
      · rfl
      · dsimp only
        have hz : ¬ ((0 : Int) ≠ 0) := fun h => h rfl
        rw [getD_set_self_list _ _ _ hch, if_neg hz, if_neg hz,
          decode_samples_below _ _ _ _ _ _ _ _ _ _ _ (by omega)]
    · dsimp only
      rw [getD_set_self_list _ _ _ hch, decode_samples_below _ _ _ _ _ _ _ _ _ _ _ (by omega)]

/-! ## The resume offset -/

theorem finish_frame_bitindex (t : ShortenContext) (g : GetBitContext) (b n : Nat) (gf : Bool)
    (fr : List Int) :
    (finish_frame t g b n gf fr).ctx.bitindex = get_bits_count g % 8 ∧
    (¬ get_bits_count g / 8 > b → t.bitstream_size = b →
      (finish_frame t g b n gf fr).ctx.bitstream = t.bitstream.drop (get_bits_count g / 8)) := by
  have e : get_bits_count g - 8 * (get_bits_count g / 8) = get_bits_count g % 8 := by omega
  unfold finish_frame
  dsimp only
  split
  · next h => exact ⟨e, fun h2 => absurd h h2⟩
  · split
    · exact ⟨e, fun _ _ => rfl⟩
    · next h1 h2 =>
      refine ⟨e, fun _ hb => ?_⟩
      have h0 : t.bitstream_size = 0 := by
        by_cases hz : t.bitstream_size = 0
        · exact hz
        · exact absurd hz h2
      have hd : get_bits_count g / 8 = 0 := by omega
      rw [hd]
      rfl

theorem decode_call_bitindex (s : ShortenContext) (avpkt : AVPacket) (r : DecodeResult)
    (h : shorten_decode_frame s avpkt = some r) (hs : s.bitindex < 8) : r.ctx.bitindex < 8 := by
  have hA := append_packet_eq s avpkt
  have hb : (append_packet s avpkt).bitindex = s.bitindex := by rw [hA]
  unfold shorten_decode_frame at h
  split at h
  · cases h
    rw [hb]; exact hs
  · unfold run_pass at h
    split at h
    · cases h
    · next code t g hd =>
      cases h
      have hf := decode_pass_buffer _ _ _ _ _ _ hd
      unfold buffer_fields at hf
      simp only [Prod.mk.injEq] at hf
      have e : t.bitindex = (append_packet s avpkt).bitindex := hf.2.2.2.2
      rw [e, hb]; exact hs
    · next gf fr t g hd =>
      cases h
      rw [(finish_frame_bitindex _ _ _ _ _ _).1]
      omega

/-- In every reachable context the resume offset is below 8. -/
theorem reachable_bitindex (s : ShortenContext) (hr : Reachable s) : s.bitindex < 8 := by
  induction hr with
  | init => decide
  | call s avpkt r _ hcall ih => exact decode_call_bitindex s avpkt r hcall ih

/-- Bit `j` of a buffer without its first `m` bytes is bit `8 m + j` of the
buffer. -/
theorem bit_at_drop (l x : List Nat) (m j : Nat) (h : m ≤ l.length) :
    bit_at (l.drop m ++ x) j = bit_at (l ++ x) (8 * m + j) := by
  unfold bit_at
  have e1 : (8 * m + j) / 8 = m + j / 8 := by omega
  have e2 : (8 * m + j) % 8 = j % 8 := by omega
  rw [e1, e2, ← List.drop_append_of_le_length h, List.getD_eq_getElem?_getD,
    List.getD_eq_getElem?_getD, List.getElem?_drop]

/-! ## The offset computed from the means -/

/-- The offset of the audio branch as a closed formula (`nmean ≠ 0`). -/
theorem sample_offset_eq (s : ShortenContext) (channel : Nat) (hn : s.nmean ≠ 0)
    (h1 : -2147483648 ≤ s.nmean) (h2 : s.nmean < 2147483648) :
    sample_offset s channel =
      (if s.version ≥ 2 then
        asr (wrap32 (Int.tdiv (wrap32 (s.nmean.tdiv 2 +
          ((List.range s.nmean.toNat).map
            (fun i => (s.offset.getD channel []).getD i 0)).sum)) s.nmean))
          (min 1 s.bitshift).toNat
       else wrap32 (Int.tdiv (wrap32 (0 +
          ((List.range s.nmean.toNat).map
            (fun i => (s.offset.getD channel []).getD i 0)).sum)) s.nmean)) := by
  unfold sample_offset
  dsimp only
  rw [if_neg hn]
  by_cases hv : s.version < 2
  · rw [if_pos hv, if_neg (by omega), if_neg (by omega),
      foldl_wrap_eq _ _ 0 (by decide) (by decide)]
  · obtain ⟨b1, b2⟩ := tdiv_two_range s.nmean h1 h2
    rw [if_neg hv, if_pos (by omega), if_pos (by omega), foldl_wrap_eq _ _ _ b1 b2]

theorem sum_map_const (f : Nat → Int) (n : Nat) (m : Int) (h : ∀ i, i < n → f i = m) :
    ((List.range n).map f).sum = (n : Int) * m := by
  induction n with
  | zero => simp
  | succ n ih =>
    rw [List.range_succ, List.map_append, List.sum_append, ih (fun i hi => h i (by omega))]
    simp only [List.map_cons, List.map_nil, List.sum_cons, List.sum_nil, Int.add_zero]
    rw [h n (by omega)]
    push_cast
    ring

/-- Truncating division by a positive number, from a quotient and a remainder
on the side of the dividend. -/
theorem tdiv_eq_of (a n q r : Int) (hn : 0 < n) (h : a = n * q + r)
    (hr : (0 ≤ a ∧ 0 ≤ r ∧ r < n) ∨ (a ≤ 0 ∧ -n < r ∧ r ≤ 0)) : a.tdiv n = q := by
  rcases hr with ⟨ha, r1, r2⟩ | ⟨ha, r1, r2⟩
  · rw [Int.tdiv_eq_ediv ha (by omega)]
    exact (Int.ediv_emod_unique hn).mpr ⟨by rw [h]; ring, r1, r2⟩ |>.1
  · have e : a.tdiv n = -((-a).tdiv n) := by
      have := Int.neg_tdiv (-a) n
      rw [Int.neg_neg] at this
      exact this
    rw [e, Int.tdiv_eq_ediv (by omega) (by omega)]
    have := ((Int.ediv_emod_unique hn).mpr
      ⟨show -r + n * -q = -a by rw [h]; ring, by omega, by omega⟩).1
    rw [this, Int.neg_neg]

/-! ## Fixed predictors with residuals zero -/

/-- The recurrences of the predictors of order 1 and 2, on the channel buffer
after the decode. -/
theorem fixed_recurrence (s : ShortenContext) (gb : GetBitContext) (channel : Nat)
    (residual_size coffset : Int) (hch : channel < s.decoded_base.length)
    (hlen : s.nwrap + s.blocksize ≤ (s.decoded_base.getD channel []).length)
    (hw : 3 ≤ s.nwrap) (i : Nat) (hi : i < s.blocksize) :
    ((decode_subframe_lpc s gb FN_DIFF1 channel residual_size coffset).2.1.decoded_base.getD
        channel []).getD (s.nwrap + i) 0 =
      wrap32 ((residuals residual_size s.blocksize gb).getD i 0 +
        ((decode_subframe_lpc s gb FN_DIFF1 channel residual_size coffset).2.1.decoded_base.getD
          channel []).getD (s.nwrap + i - 1) 0) ∧
    ((decode_subframe_lpc s gb FN_DIFF2 channel residual_size coffset).2.1.decoded_base.getD
        channel []).getD (s.nwrap + i) 0 =
      wrap32 ((residuals residual_size s.blocksize gb).getD i 0 +
        2 * ((decode_subframe_lpc s gb FN_DIFF2 channel residual_size
          coffset).2.1.decoded_base.getD channel []).getD (s.nwrap + i - 1) 0 -
        ((decode_subframe_lpc s gb FN_DIFF2 channel residual_size
          coffset).2.1.decoded_base.getD channel []).getD (s.nwrap + i - 2) 0) := by
  have hpos : ∀ (s2 : ShortenContext), s2.nwrap = s.nwrap →
      sample s2 channel (i : Int) = (s2.decoded_base.getD channel []).getD (s.nwrap + i) 0 := by
    intro s2 h2
    unfold sample
    rw [h2, show ((s.nwrap : Int) + (i : Int)).toNat = s.nwrap + i by omega]
  constructor
  · have h2 := (decode_subframe_lpc_fixed s gb FN_DIFF1 channel residual_size coffset
      (by decide) hch).2.1
    have h := (fixed_sample s gb FN_DIFF1 channel residual_size coffset (by decide) hch hlen
      hw).1 i hi
    rw [hpos _ h2] at h
    rw [h]
    generalize (decode_subframe_lpc s gb FN_DIFF1 channel residual_size coffset).2.1.decoded_base.getD
      channel [] = d
    generalize (residuals residual_size s.blocksize gb).getD i 0 = r
    have hp : predict (fixed_coeffs.getD (FN_DIFF1.toNat - 1) []) d (s.nwrap + i) FN_DIFF1.toNat
        (if FN_DIFF1 ≠ 0 then 0 else coffset) =
        wrap32 (0 + wrap32 (1 * d.getD (s.nwrap + i - 0 - 1) 0)) := rfl
    rw [hp, Nat.sub_zero]
    generalize d.getD (s.nwrap + i - 1) 0 = x1
    unfold wrap32
    omega
  · have h2 := (decode_subframe_lpc_fixed s gb FN_DIFF2 channel residual_size coffset
      (by decide) hch).2.1
    have h := (fixed_sample s gb FN_DIFF2 channel residual_size coffset (by decide) hch hlen
      hw).1 i hi
    rw [hpos _ h2] at h
    rw [h]
    generalize (decode_subframe_lpc s gb FN_DIFF2 channel residual_size coffset).2.1.decoded_base.getD
      channel [] = d
    generalize (residuals residual_size s.blocksize gb).getD i 0 = r
    have hp : predict (fixed_coeffs.getD (FN_DIFF2.toNat - 1) []) d (s.nwrap + i) FN_DIFF2.toNat
        (if FN_DIFF2 ≠ 0 then 0 else coffset) =
        wrap32 (wrap32 (0 + wrap32 (2 * d.getD (s.nwrap + i - 0 - 1) 0)) +
          wrap32 (-1 * d.getD (s.nwrap + i - 1 - 1) 0)) := rfl
    rw [hp, Nat.sub_zero, show s.nwrap + i - 1 - 1 = s.nwrap + i - 2 by omega]
    generalize d.getD (s.nwrap + i - 1) 0 = x1
    generalize d.getD (s.nwrap + i - 2) 0 = x2
    unfold wrap32
    omega

/-- A sequence with `D (t+1) = wrap32 (D t)` is constant up to wrap-around. -/
theorem constant_run (D : Nat → Int) (n : Nat) (h : ∀ t, t < n → D (t + 1) = wrap32 (0 + D t))
    (t : Nat) (ht : t < n) : D (t + 1) = wrap32 (D 0) := by
  induction t with
  | zero => rw [h 0 ht, Int.zero_add]
  | succ t ih => rw [h (t + 1) ht, ih (by omega), Int.zero_add, wrap32_idem]

/-- A sequence with `D (t+2) = wrap32 (2 D (t+1) − D t)` is linear up to
wrap-around. -/
theorem linear_run (D : Nat → Int) (n : Nat)
    (h : ∀ t, t < n → D (t + 2) = wrap32 (0 + 2 * D (t + 1) - D t))
    (t : Nat) (ht : t ≤ n + 1) :
    wrap32 (D t) = wrap32 (D 0 + (t : Int) * (D 1 - D 0)) := by
  induction t using Nat.strong_induction_on with
  | _ t ih =>
    match t, ih, ht with
    | 0, _, _ => simp
    | 1, _, _ =>
      have : D 0 + ((1 : Nat) : Int) * (D 1 - D 0) = D 1 := by push_cast; ring
      rw [this]
    | t + 2, ih, ht =>
      have a := ih (t + 1) (by omega) (by omega)
      have b := ih t (by omega) (by omega)
      have e1 : ((t + 1 : Nat) : Int) * (D 1 - D 0) = (t : Int) * (D 1 - D 0) + (D 1 - D 0) := by
        push_cast; ring
      have e2 : ((t + 2 : Nat) : Int) * (D 1 - D 0) =
          (t : Int) * (D 1 - D 0) + 2 * (D 1 - D 0) := by
        push_cast; ring
      rw [e1] at a
      rw [h t (by omega), e2, wrap32_idem]
      generalize (t : Int) * (D 1 - D 0) = p at a b ⊢
      generalize D (t + 1) = u at a ⊢
      generalize D t = v at b ⊢
      generalize D 1 = x1 at a b ⊢
      generalize D 0 = x0 at a b ⊢
      unfold wrap32 at a b ⊢
      omega

/-! ## The sub-chunk scan of `decode_wave_header` -/

theorem find_fmt_zero (g : GetByteContext) : find_fmt 0 g = none := by
  unfold find_fmt
  rfl

theorem find_fmt_succ (fuel : Nat) (g : GetByteContext) :
    find_fmt (fuel + 1) g =
      if (bytestream2_get_le32 g).1 ≠ MKTAG 'f' 'm' 't' ' ' then find_fmt fuel (scan_step g)
      else some (bytestream2_get_le32 g).2 := by
  conv => lhs; unfold find_fmt
  rfl

theorem fmt_tag_ne_zero : (0 : Nat) ≠ MKTAG 'f' 'm' 't' ' ' := by decide

/-- With fewer than four bytes left an iteration of the scan reads the tag 0
and leaves the reader where it is. -/
theorem scan_step_stuck (g : GetByteContext) (h : g.buffer.length - g.pos < 4) :
    (bytestream2_get_le32 g).1 = 0 ∧ scan_step g = g := by
  have e : bytestream2_get_le32 g = (0, g) := by
    unfold bytestream2_get_le32
    rw [if_pos h]
  refine ⟨by rw [e], ?_⟩
  unfold scan_step
  rw [e]
  dsimp only
  rw [e]
  unfold bytestream2_skip
  dsimp only
  rw [Nat.min_zero, Nat.add_zero]

/-- With fewer than four bytes left the scan never ends. -/
theorem find_fmt_stuck (g : GetByteContext) (h : g.buffer.length - g.pos < 4) (fuel : Nat) :
    find_fmt fuel g = none := by
  induction fuel with
  | zero => exact find_fmt_zero g
  | succ fuel ih =>
    obtain ⟨e1, e2⟩ := scan_step_stuck g h
    rw [find_fmt_succ, e1, if_pos fmt_tag_ne_zero, e2]
    exact ih

/-- An iteration of the scan with at least four bytes left moves the reader on
by at least four bytes, within the same buffer. -/
theorem scan_step_advances (g : GetByteContext) (h : ¬ g.buffer.length - g.pos < 4) :
    (scan_step g).buffer = g.buffer ∧ g.pos + 4 ≤ (scan_step g).pos := by
  have e : bytestream2_get_le32 g = (le_value g.buffer g.pos 4, { g with pos := g.pos + 4 }) := by
    unfold bytestream2_get_le32
    rw [if_neg h]
  unfold scan_step
  rw [e]
  dsimp only
  unfold bytestream2_skip bytestream2_get_le32
  dsimp only
  split
  · exact ⟨rfl, Nat.le_add_right _ _⟩
  · dsimp only
    exact ⟨rfl, by omega⟩

/-- Fuel adequacy of the scan: when the scan has not found the tag after one
iteration per four bytes left, and one more, it never finds it. -/
theorem find_fmt_adequate (n : Nat) (g : GetByteContext) (fuel : Nat)
    (hn : g.buffer.length - g.pos ≤ n) (hf : n / 4 + 1 ≤ fuel) (h : find_fmt fuel g = none)
    (fuel2 : Nat) : find_fmt fuel2 g = none := by
  induction n using Nat.strong_induction_on generalizing g fuel fuel2 with
  | _ n ih =>
    by_cases hs : g.buffer.length - g.pos < 4
    · exact find_fmt_stuck g hs fuel2
    · obtain ⟨fuel1, rfl⟩ : ∃ k, fuel = k + 1 := ⟨fuel - 1, by omega⟩
      rw [find_fmt_succ] at h
      by_cases ht : (bytestream2_get_le32 g).1 ≠ MKTAG 'f' 'm' 't' ' '
      · rw [if_pos ht] at h
        obtain ⟨a1, a2⟩ := scan_step_advances g hs
        cases fuel2 with
        | zero => exact find_fmt_zero g
        | succ k =>
          rw [find_fmt_succ, if_pos ht]
          exact ih (n - 4) (by omega) (scan_step g) fuel1 (by rw [a1]; omega) (by omega) h k
      · rw [if_neg ht] at h
        cases h

/-- More fuel does not change the reader that the scan has found. -/
theorem find_fmt_mono (fuel : Nat) (g r : GetByteContext) (h : find_fmt fuel g = some r)
    (k : Nat) : find_fmt (fuel + k) g = some r := by
  induction fuel generalizing g with
  | zero => rw [find_fmt_zero] at h; cases h
  | succ fuel ih =>
    rw [find_fmt_succ] at h
    rw [show fuel + 1 + k = (fuel + k) + 1 by omega, find_fmt_succ]
    by_cases ht : (bytestream2_get_le32 g).1 ≠ MKTAG 'f' 'm' 't' ' '
    · rw [if_pos ht] at h ⊢
      exact ih _ h
    · rw [if_neg ht] at h ⊢
      exact h

theorem scan_start_left (header : List Nat) (header_size : Nat) :
    (scan_start header header_size).buffer.length - (scan_start header header_size).pos ≤
      header_size := by
  have hb : (scan_start header header_size).buffer = header.take header_size := by
    unfold scan_start bytestream2_get_le32 bytestream2_skip bytestream2_init
    dsimp only
    split <;> split <;> rfl
  rw [hb, List.length_take]
  omega

/-- The scan of `decode_wave_header` does not end exactly when no number of
iterations finds the tag. -/
theorem fmt_chunk_none (header : List Nat) (header_size : Nat) :
    fmt_chunk header header_size = none ↔
      ∀ fuel, find_fmt fuel (scan_start header header_size) = none := by
  constructor
  · intro h fuel
    exact find_fmt_adequate header_size _ (header_size / 4 + 1)
      (scan_start_left header header_size) (le_refl _) h fuel
  · intro h
    exact h _

/-! ## The pending buffer -/

theorem frame_cap_value (s : ShortenContext) (h : s.max_framesize = 0 ∨ s.max_framesize = 1024) :
    frame_cap s = 1024 := by
  unfold frame_cap
  rcases h with h | h
  · rw [if_pos h]
  · rw [if_neg (by omega), h]

/-- The fields of the context after the buffer stage, for every packet. -/
theorem append_packet_index (s : ShortenContext) (avpkt : AVPacket) :
    (append_packet s avpkt).bitstream_index =
      (if s.bitstream_index + s.bitstream_size + input_buf_size s avpkt >
          (alloc_bitstream s).allocated_bitstream_size then 0 else s.bitstream_index) ∧
    (append_packet s avpkt).allocated_bitstream_size =
      (alloc_bitstream s).allocated_bitstream_size ∧
    (append_packet s avpkt).max_framesize = frame_cap s ∧
    (append_packet s avpkt).bitindex = s.bitindex := by
  obtain ⟨a1, a2, a3, _, _⟩ := alloc_bitstream_fields s
  have hb : (alloc_bitstream s).bitindex = s.bitindex := by
    unfold alloc_bitstream
    split <;> rfl
  have hsz : (alloc_bitstream s).bitstream_size = s.bitstream_size := by
    unfold ShortenContext.bitstream_size
    rw [a2]
  have hcp : ∀ (t : ShortenContext) (n : Nat),
      (copy_packet t avpkt n).bitstream_index = t.bitstream_index ∧
      (copy_packet t avpkt n).allocated_bitstream_size = t.allocated_bitstream_size ∧
      (copy_packet t avpkt n).max_framesize = t.max_framesize ∧
      (copy_packet t avpkt n).bitindex = t.bitindex := by
    intro t n
    unfold copy_packet
    split <;> exact ⟨rfl, rfl, rfl, rfl⟩
  obtain ⟨c1, c2, c3, c4⟩ := hcp (move_bitstream (alloc_bitstream s) (input_buf_size s avpkt))
    (input_buf_size s avpkt)
  unfold append_packet
  rw [c1, c2, c3, c4]
  unfold move_bitstream
  rw [a3, hsz]
  by_cases hc : s.bitstream_index + s.bitstream_size + input_buf_size s avpkt >
      (alloc_bitstream s).allocated_bitstream_size
  · rw [if_pos hc, if_pos hc]
    exact ⟨rfl, rfl, a1, hb⟩
  · rw [if_neg hc, if_neg hc]
    exact ⟨a3, rfl, a1, hb⟩

/-- The buffer stage keeps the pending bytes, old and new, inside the
allocation, for every packet. -/
theorem append_packet_pending (s : ShortenContext) (avpkt : AVPacket) (hs : PendingOk s) :
    PendingOk (append_packet s avpkt) ∧ (append_packet s avpkt).max_framesize = 1024 ∧
    (append_packet s avpkt).bitstream_index + s.bitstream_size + input_buf_size s avpkt ≤
      (append_packet s avpkt).allocated_bitstream_size := by
  obtain ⟨hb, _, hm, h8⟩ := hs
  obtain ⟨i1, i2, i3, i4⟩ := append_packet_index s avpkt
  obtain ⟨_, _, _, _, a5⟩ := alloc_bitstream_fields s
  have hcap := frame_cap_value s hm
  have h5 := a5 hb.2
  have hsz := append_packet_size s avpkt
  have hn : input_buf_size s avpkt ≤ frame_cap s - s.bitstream_size := by
    unfold input_buf_size
    exact Nat.min_le_right _ _
  have h1 := hb.1
  have hcopy : (append_packet s avpkt).bitstream_index + s.bitstream_size +
      input_buf_size s avpkt ≤ (append_packet s avpkt).allocated_bitstream_size := by
    rw [i1, i2]
    split <;> omega
  refine ⟨⟨append_packet_buffer_ok s avpkt hb, ?_, Or.inr (by rw [i3, hcap]), by rw [i4]; exact h8⟩,
    by rw [i3, hcap], hcopy⟩
  rw [hsz]
  omega

/-- A call keeps the pending-buffer invariant and leaves the cap at 1024. -/
theorem decode_call_pending (s : ShortenContext) (avpkt : AVPacket) (r : DecodeResult)
    (h : shorten_decode_frame s avpkt = some r) (hs : PendingOk s) :
    PendingOk r.ctx ∧ r.ctx.max_framesize = 1024 := by
  obtain ⟨⟨pb, pi, pm, p8⟩, p1024, _⟩ := append_packet_pending s avpkt hs
  have hbo := decode_frame_buffer_ok s avpkt r h hs.1
  have h8 := decode_call_bitindex s avpkt r h hs.2.2.2
  unfold shorten_decode_frame at h
  split at h
  · cases h
    exact ⟨⟨pb, pi, pm, p8⟩, p1024⟩
  · unfold run_pass at h
    split at h
    · cases h
    · next code t g hd =>
      cases h
      have hf := decode_pass_buffer _ _ _ _ _ _ hd
      unfold buffer_fields at hf
      simp only [Prod.mk.injEq] at hf
      obtain ⟨b1, b2, b3, b4, _⟩ := hf
      have hsz : t.bitstream_size = (append_packet s avpkt).bitstream_size := by
        unfold ShortenContext.bitstream_size; rw [b2]
      exact ⟨⟨hbo, by dsimp only; rw [b3, hsz, b4]; exact pi, Or.inr (by dsimp only; rw [b1, p1024]),
        h8⟩, by dsimp only; rw [b1, p1024]⟩
    · next gf fr t g hd =>
      cases h
      have hf := decode_pass_buffer _ _ _ _ _ _ hd
      unfold buffer_fields at hf
      simp only [Prod.mk.injEq] at hf
      obtain ⟨b1, b2, b3, b4, _⟩ := hf
      have hsz : t.bitstream_size = (append_packet s avpkt).bitstream_size := by
        unfold ShortenContext.bitstream_size; rw [b2]
      have hmax : (finish_frame t g (append_packet s avpkt).bitstream_size
          (input_buf_size s avpkt) gf fr).ctx.max_framesize = 1024 := by
        rw [finish_frame_ctx_eq]
        dsimp only
        rw [b1, p1024]
      refine ⟨⟨hbo, ?_, Or.inr hmax, h8⟩, hmax⟩
      unfold ShortenContext.bitstream_size at pi hsz
      unfold finish_frame ShortenContext.bitstream_size
      dsimp only
      split
      · dsimp only
        exact Nat.zero_le _
      · split
        · next hle _ =>
          dsimp only
          rw [List.length_drop, b3, b4]
          omega
        · dsimp only
          rw [b3, b4, hsz]
          exact pi

/-- Every reachable context satisfies the pending-buffer invariant. -/
theorem reachable_pending (s : ShortenContext) (h : Reachable s) : PendingOk s := by
  induction h with
  | init => exact ⟨reachable_buffer_ok _ Reachable.init, by decide, Or.inl rfl, by decide⟩
  | call s avpkt r _ hcall ih => exact (decode_call_pending s avpkt r hcall ih).1

/-! ## The value of `bitshift` -/

/-- A code read with parameter `k` is bounded by the length of the buffer. -/
theorem get_ur_golomb_shorten_le (gb : GetBitContext) (k : Nat) :
    (get_ur_golomb_shorten gb k).1 ≤ gb.size_in_bits * 2 ^ k + (2 ^ k - 1) := by
  unfold get_ur_golomb_shorten
  dsimp only
  have h1 := (count_zeros_spec gb.buffer gb.index (gb.size_in_bits - gb.index)).1
  have h2 := bits_value_lt gb.buffer
    (gb.index + count_zeros gb.buffer gb.index (gb.size_in_bits - gb.index) + 1) k
  have h3 : count_zeros gb.buffer gb.index (gb.size_in_bits - gb.index) * 2 ^ k ≤
      gb.size_in_bits * 2 ^ k := Nat.mul_le_mul_right _ (by omega)
  omega

theorem to_int_small (u : Nat) (h : u < 2147483648) : to_int u = (u : Int) := by
  unfold to_int
  have e : u % 4294967296 = u := Nat.mod_eq_of_lt (by omega)
  rw [e, if_pos h]

/-- An iteration of the command loop keeps `bitshift` between 0 and a bound
given by the length of the buffer. -/
theorem command_step_bitshift (s : ShortenContext) (gb : GetBitContext) (n : Nat)
    (hn : gb.size_in_bits ≤ n) (hn2 : 4 * n + 3 < 2147483648)
    (hs : 0 ≤ s.bitshift ∧ s.bitshift ≤ 4 * (n : Int) + 3) :
    0 ≤ (command_step s gb).state.bitshift ∧
    (command_step s gb).state.bitshift ≤ 4 * (n : Int) + 3 := by
  unfold command_step
  dsimp only
  by_cases h1 : s.cur_chan < s.channels
  swap
  · rw [if_neg h1]; exact hs
  rw [if_pos h1]
  by_cases h2 : get_bits_left gb < 3 + FNSIZE
  · rw [if_pos h2]; exact hs
  rw [if_neg h2]
  by_cases h3 : to_int (get_ur_golomb_shorten gb FNSIZE).1 > FN_VERBATIM
  · rw [if_pos h3]; exact hs
  rw [if_neg h3]
  by_cases h4 : is_audio (to_int (get_ur_golomb_shorten gb FNSIZE).1) = 0
  · rw [if_pos h4]
    unfold non_audio_command
    split
    · exact hs
    · split
      · have hb := get_ur_golomb_shorten_le (get_ur_golomb_shorten gb FNSIZE).2 BITSHIFTSIZE
        have hsz : (get_ur_golomb_shorten gb FNSIZE).2.size_in_bits = gb.size_in_bits :=
          (get_ur_golomb_shorten_advanced gb FNSIZE).2.1
        rw [hsz] at hb
        have e4 : 2 ^ BITSHIFTSIZE = 4 := rfl
        rw [e4] at hb
        unfold LoopStep.state
        dsimp only
        rw [to_int_small _ (by omega)]
        omega
      · split
        · dsimp only
          split
          · exact hs
          · split
            · exact hs
            · exact hs
        · split
          · exact hs
          · exact hs
  · rw [if_neg h4]
    have hf := audio_command_frame s (get_ur_golomb_shorten gb FNSIZE).2
      (to_int (get_ur_golomb_shorten gb FNSIZE).1)
    unfold audio_fields at hf
    simp only [Prod.mk.injEq] at hf
    have hb : (audio_command s (get_ur_golomb_shorten gb FNSIZE).2
        (to_int (get_ur_golomb_shorten gb FNSIZE).1)).2.1.bitshift = s.bitshift := hf.2.2.2.1
    unfold audio_step
    dsimp only
    split
    · unfold LoopStep.state; dsimp only; rw [hb]; exact hs
    · split
      · unfold LoopStep.state; dsimp only; rw [hb]; exact hs
      · unfold LoopStep.state; dsimp only; rw [hb]; exact hs

theorem command_loop_bitshift (fuel : Nat) (s : ShortenContext) (gb : GetBitContext) (n : Nat)
    (r : PassExit × ShortenContext × GetBitContext) (h : command_loop fuel s gb = some r)
    (hn : gb.size_in_bits ≤ n) (hn2 : 4 * n + 3 < 2147483648)
    (hs : 0 ≤ s.bitshift ∧ s.bitshift ≤ 4 * (n : Int) + 3) :
    0 ≤ r.2.1.bitshift ∧ r.2.1.bitshift ≤ 4 * (n : Int) + 3 := by
  induction fuel generalizing s gb with
  | zero => unfold command_loop at h; cases h
  | succ fuel ih =>
    unfold command_loop at h
    have hb := command_step_bitshift s gb n hn hn2 hs
    split at h
    · next e t g he =>
      rw [he] at hb
      cases h
      exact hb
    · next t g he =>
      rw [he] at hb
      have ha := (command_step_advanced s t gb g he).1
      exact ih t g h (by rw [ha.2.1]; exact hn) hb

theorem read_header_verbatim_bitshift (s : ShortenContext) (gb : GetBitContext)
    (r : Int × ShortenContext × GetBitContext) (h : read_header_verbatim s gb = some r)
    (hok : ¬ r.1 < 0) : r.2.1.bitshift = 0 := by
  unfold read_header_verbatim at h
  dsimp only at h
  split at h
  · cases h; exact absurd (by decide : AVERROR_INVALIDDATA < 0) hok
  · split at h
    · cases h; exact absurd (by decide : AVERROR_INVALIDDATA < 0) hok
    · split at h
      · cases h
      · split at h
        · next hneg => cases h; exact absurd hneg hok
        · cases h; rfl

theorem read_header_buffers_bitshift (s : ShortenContext) (gb : GetBitContext) (maxnlpc : Int)
    (r : Int × ShortenContext × GetBitContext) (h : read_header_buffers s gb maxnlpc = some r)
    (hok : ¬ r.1 < 0) : r.2.1.bitshift = 0 := by
  unfold read_header_buffers at h
  dsimp only at h
  split at h
  · next hneg => cases h; exact absurd hneg hok
  · split at h
    · next hneg => cases h; exact absurd hneg hok
    · split at h
      · exact read_header_verbatim_bitshift _ _ _ h hok
      · exact read_header_verbatim_bitshift _ _ _ h hok

/-- A successful `read_header` leaves `bitshift` at 0. -/
theorem read_header_bitshift (s : ShortenContext) (gb : GetBitContext)
    (r : Int × ShortenContext × GetBitContext) (h : read_header s gb = some r)
    (hok : ¬ r.1 < 0) : r.2.1.bitshift = 0 := by
  unfold read_header at h
  split at h
  · cases h; exact absurd (by decide : AVERROR_INVALIDDATA < 0) hok
  · split at h
    · cases h; exact absurd (by decide : AVERROR_EINVAL < 0) hok
    · exact read_header_buffers_bitshift _ _ _ _ h hok

theorem decode_pass_bitshift (s : ShortenContext) (gb : GetBitContext) (size n : Nat)
    (r : PassExit × ShortenContext × GetBitContext) (h : decode_pass s gb size = some r)
    (hn : gb.size_in_bits ≤ n) (hn2 : 4 * n + 3 < 2147483648)
    (hs : s.got_header = true → 0 ≤ s.bitshift ∧ s.bitshift ≤ 4 * (n : Int) + 3) :
    r.2.1.got_header = true → 0 ≤ r.2.1.bitshift ∧ r.2.1.bitshift ≤ 4 * (n : Int) + 3 := by
  unfold decode_pass at h
  by_cases hh : s.got_header = true
  · rw [if_neg (by rw [hh]; exact fun h => h rfl)] at h
    intro _
    split at h
    · cases h; exact hs hh
    · exact command_loop_bitshift _ _ _ n _ h hn hn2 (hs hh)
  · rw [if_pos hh] at h
    intro hg
    split at h
    · cases h
    · next x hx =>
      obtain ⟨_, _, e1, _⟩ := read_header_spec _ _ _ hx
      split at h
      · next hneg =>
        cases h
        exact absurd ((e1 hneg).symm.trans hg) hh
      · next hneg =>
        cases h
        have e := read_header_bitshift _ _ _ hx hneg
        have e2 : x.2.1.bitshift = 0 := e
        show 0 ≤ x.2.1.bitshift ∧ x.2.1.bitshift ≤ 4 * (n : Int) + 3
        rw [e2]
        omega

theorem pass_reader_size (s : ShortenContext) :
    (pass_reader s).size_in_bits = s.bitstream_size * 8 := by
  unfold pass_reader
  rw [(skip_bits_advanced _ _).2.1]
  rfl

theorem decode_call_bitshift (s : ShortenContext) (avpkt : AVPacket) (r : DecodeResult)
    (h : shorten_decode_frame s avpkt = some r) (hp : PendingOk s)
    (hs : s.got_header = true → 0 ≤ s.bitshift ∧ s.bitshift ≤ 32771) :
    r.ctx.got_header = true → 0 ≤ r.ctx.bitshift ∧ r.ctx.bitshift ≤ 32771 := by
  have hA := append_packet_eq s avpkt
  have hg : (append_packet s avpkt).got_header = s.got_header := by rw [hA]
  have hb : (append_packet s avpkt).bitshift = s.bitshift := by rw [hA]
  obtain ⟨⟨pb, _, _, _⟩, p1024, _⟩ := append_packet_pending s avpkt hp
  have hcap : (append_packet s avpkt).bitstream_size ≤ 1024 := by
    have := pb.1
    unfold frame_cap at this
    rw [p1024] at this
    exact this
  have hsz : (pass_reader (append_packet s avpkt)).size_in_bits ≤ 8192 := by
    rw [pass_reader_size]
    omega
  have hs2 : (append_packet s avpkt).got_header = true →
      0 ≤ (append_packet s avpkt).bitshift ∧
      (append_packet s avpkt).bitshift ≤ 4 * ((8192 : Nat) : Int) + 3 := by
    rw [hg, hb]
    intro hh
    have := hs hh
    omega
  have key : ∀ (e : PassExit × ShortenContext × GetBitContext),
      decode_pass (append_packet s avpkt) (pass_reader (append_packet s avpkt)) avpkt.size =
        some e → e.2.1.got_header = true → 0 ≤ e.2.1.bitshift ∧ e.2.1.bitshift ≤ 32771 := by
    intro e he hh
    have := decode_pass_bitshift _ _ _ 8192 e he hsz (by decide) hs2 hh
    omega
  unfold shorten_decode_frame at h
  split at h
  · cases h
    show (append_packet s avpkt).got_header = true → _
    rw [hg, hb]
    exact hs
  · unfold run_pass at h
    split at h
    · cases h
    · next code t g hd =>
      cases h
      exact key _ hd
    · next gf fr t g hd =>
      cases h
      rw [finish_frame_ctx_eq]
      exact key _ hd

/-- In every reachable context with the header parsed, `bitshift` lies between
0 and 32771: it is 0 after the header and is set by `FN_BITSHIFT` alone, to a
code read from at most 1024 pending bytes. -/
theorem reachable_bitshift (s : ShortenContext) (hr : Reachable s) :
    s.got_header = true → 0 ≤ s.bitshift ∧ s.bitshift ≤ 32771 := by
  induction hr with
  | init => intro h; exact absurd h (by decide)
  | call s avpkt r hr hcall ih =>
    exact decode_call_bitshift s avpkt r hcall (reachable_pending s hr) ih

/-! ## The allocation of the channel buffers -/

theorem set_getD_length (l : List (List Int)) (c : Nat) (v : List Int)
    (hv : v.length = (l.getD c []).length) (ch : Nat) :
    ((l.set c v).getD ch []).length = (l.getD ch []).length := by
  by_cases h : ch = c
  · subst h
    by_cases hc : ch < l.length
    · rw [getD_set_self_list l ch v hc, hv]
    · rw [List.set_eq_of_length_le (by omega)]
  · rw [getD_set_other_list l c ch v h]

theorem realloc_length (old : List Int) (n : Nat) : (realloc old n).length = n := by
  unfold realloc
  rw [List.length_append, List.length_take, List.length_replicate]
  omega

theorem fill_first_length (l : List Int) (n : Nat) (v : Int) :
    (fill_first l n v).length = l.length := by
  unfold fill_first
  rw [List.length_append, List.length_replicate, List.length_drop]
  omega

theorem fill_first_all (l : List Int) (n : Nat) (v : Int) (h : l.length = n) :
    fill_first l n v = List.replicate n v := by
  unfold fill_first
  rw [h, Nat.min_self, List.drop_of_length_le (by omega), List.append_nil]

/-- The channel loop of `allocate_buffers`: what it keeps, and the lengths of
the arrays of the channels it has passed when it does not fail. -/
theorem allocate_buffers_loop_alloc (n chan : Nat) (s : ShortenContext) :
    (allocate_buffers_loop n chan s).2.decoded_base.length = s.decoded_base.length ∧
    (allocate_buffers_loop n chan s).2.offset.length = s.offset.length ∧
    (allocate_buffers_loop n chan s).2.nwrap = s.nwrap ∧
    (allocate_buffers_loop n chan s).2.blocksize = s.blocksize ∧
    (allocate_buffers_loop n chan s).2.nmean = s.nmean ∧
    (allocate_buffers_loop n chan s).2.coeffs = s.coeffs ∧
    (∀ ch, ch < chan →
      (allocate_buffers_loop n chan s).2.decoded_base.getD ch [] = s.decoded_base.getD ch [] ∧
      (allocate_buffers_loop n chan s).2.offset.getD ch [] = s.offset.getD ch []) ∧
    (¬ (allocate_buffers_loop n chan s).1 < 0 → chan + n ≤ s.decoded_base.length →
      chan + n ≤ s.offset.length → ∀ ch, chan ≤ ch → ch < chan + n →
        ((allocate_buffers_loop n chan s).2.decoded_base.getD ch []).length =
          s.blocksize + s.nwrap ∧
        ((allocate_buffers_loop n chan s).2.offset.getD ch []).length =
          (max 1 s.nmean).toNat) := by
  induction n generalizing chan s with
  | zero =>
    exact ⟨rfl, rfl, rfl, rfl, rfl, rfl, fun _ _ => ⟨rfl, rfl⟩,
      fun _ _ _ ch h1 h2 => absurd h2 (by omega)⟩
  | succ n ih =>
    unfold allocate_buffers_loop
    dsimp only
    split
    · exact ⟨rfl, rfl, rfl, rfl, rfl, rfl, fun _ _ => ⟨rfl, rfl⟩,
        fun h => absurd (by decide : AVERROR_INVALIDDATA < 0) h⟩
    · split
      · exact ⟨rfl, rfl, rfl, rfl, rfl, rfl, fun _ _ => ⟨rfl, rfl⟩,
          fun h => absurd (by decide : AVERROR_INVALIDDATA < 0) h⟩
      · obtain ⟨i1, i2, i3, i4, i5, i6, i7, i8⟩ := ih (chan + 1)
          { s with
            offset := s.offset.set chan (realloc (s.offset.getD chan []) (max 1 s.nmean).toNat),
            decoded_base := s.decoded_base.set chan
              (fill_first (realloc (s.decoded_base.getD chan []) (s.blocksize + s.nwrap))
                s.nwrap 0) }
        refine ⟨i1.trans (List.length_set _ _ _), i2.trans (List.length_set _ _ _), i3, i4, i5,
          i6, fun ch hch => ?_, fun hok hd ho ch h1 h2 => ?_⟩
        · obtain ⟨a, b⟩ := i7 ch (by omega)
          exact ⟨a.trans (getD_set_other_list _ _ _ _ (by omega)),
            b.trans (getD_set_other_list _ _ _ _ (by omega))⟩
        · by_cases hc : ch = chan
          · subst hc
            obtain ⟨a, b⟩ := i7 ch (by omega)
            rw [a, b]
            dsimp only
            rw [getD_set_self_list _ _ _ (by omega), getD_set_self_list _ _ _ (by omega),
              fill_first_length, realloc_length, realloc_length]
            exact ⟨rfl, rfl⟩
          · exact i8 hok (by rw [List.length_set]; omega) (by rw [List.length_set]; omega)
              ch (by omega) (by omega)

theorem foldl_set_map_getD (f : List Int → List Int) (n : Nat) (o : List (List Int)) (ch : Nat) :
    ((List.range n).foldl (fun o c => o.set c (f (o.getD c []))) o).length = o.length ∧
    ((List.range n).foldl (fun o c => o.set c (f (o.getD c []))) o).getD ch [] =
      if ch < n ∧ ch < o.length then f (o.getD ch []) else o.getD ch [] := by
  induction n with
  | zero => exact ⟨rfl, by rw [if_neg (by omega)]; rfl⟩
  | succ n ih =>
    rw [List.range_succ, List.foldl_append, List.foldl_cons, List.foldl_nil, List.length_set]
    refine ⟨ih.1, ?_⟩
    by_cases h : ch = n
    · subst h
      by_cases hl : ch < o.length
      · rw [getD_set_self_list _ _ _ (by rw [ih.1]; exact hl), ih.2, if_neg (by omega),
          if_pos ⟨by omega, hl⟩]
      · rw [List.set_eq_of_length_le (by rw [ih.1]; omega), ih.2, if_neg (by omega),
          if_neg (fun h => hl h.2)]
    · rw [getD_set_other_list _ _ _ _ h, ih.2]
      by_cases h1 : ch < n ∧ ch < o.length
      · rw [if_pos h1, if_pos ⟨by omega, h1.2⟩]
      · rw [if_neg h1, if_neg (by omega)]

theorem allocate_buffers_alloc (s : ShortenContext) :
    (allocate_buffers s).2.decoded_base.length = s.decoded_base.length ∧
    (allocate_buffers s).2.offset.length = s.offset.length ∧
    (allocate_buffers s).2.nwrap = s.nwrap ∧
    (allocate_buffers s).2.blocksize = s.blocksize ∧
    (allocate_buffers s).2.nmean = s.nmean ∧
    (allocate_buffers s).2.channels = s.channels ∧
    (¬ (allocate_buffers s).1 < 0 → s.channels ≤ s.decoded_base.length →
      s.channels ≤ s.offset.length →
      (allocate_buffers s).2.coeffs.length = s.nwrap ∧
      ∀ ch, ch < s.channels →
        ((allocate_buffers s).2.decoded_base.getD ch []).length = s.blocksize + s.nwrap ∧
        ((allocate_buffers s).2.offset.getD ch []).length = (max 1 s.nmean).toNat) := by
  obtain ⟨a1, a2, a3, a4, a5, _, _, a8⟩ := allocate_buffers_loop_alloc s.channels 0 s
  have hc := allocate_buffers_channels s
  unfold allocate_buffers at hc ⊢
  dsimp only at hc ⊢
  split
  · next hneg => exact ⟨a1, a2, a3, a4, a5, by rw [if_pos hneg] at hc; exact hc,
      fun h => absurd hneg h⟩
  · next hneg =>
    refine ⟨a1, a2, a3, a4, a5, by rw [if_neg hneg] at hc; exact hc, fun _ hd ho => ?_⟩
    dsimp only
    refine ⟨by rw [realloc_length, a3], fun ch hch => ?_⟩
    exact a8 hneg (by omega) (by omega) ch (Nat.zero_le _) (by omega)

theorem init_offset_alloc (s : ShortenContext) :
    (init_offset s).2.decoded_base = s.decoded_base ∧
    (init_offset s).2.offset.length = s.offset.length ∧
    (init_offset s).2.coeffs = s.coeffs ∧
    (init_offset s).2.nwrap = s.nwrap ∧
    (init_offset s).2.blocksize = s.blocksize ∧
    (init_offset s).2.nmean = s.nmean ∧
    (init_offset s).2.channels = s.channels ∧
    (¬ (init_offset s).1 < 0 → ∀ ch, ch < s.channels → ch < s.offset.length →
      (init_offset s).2.offset.getD ch [] =
        fill_first (s.offset.getD ch []) (max 1 s.nmean).toNat 0) := by
  unfold init_offset
  dsimp only
  split
  · dsimp only
    refine ⟨rfl, (foldl_set_map_getD (fun l => fill_first l (max 1 s.nmean).toNat 0) s.channels
      s.offset 0).1, rfl, rfl, rfl, rfl, rfl, fun _ ch h1 h2 => ?_⟩
    rw [(foldl_set_map_getD (fun l => fill_first l (max 1 s.nmean).toNat 0) s.channels
      s.offset ch).2, if_pos ⟨h1, h2⟩]
  · exact ⟨rfl, rfl, rfl, rfl, rfl, rfl, rfl,
      fun h => absurd (by decide : AVERROR_INVALIDDATA < 0) h⟩

theorem read_header_verbatim_alloc (s : ShortenContext) (gb : GetBitContext)
    (r : Int × ShortenContext × GetBitContext) (h : read_header_verbatim s gb = some r) :
    alloc_fields r.2.1 = alloc_fields s := by
  unfold read_header_verbatim at h
  dsimp only at h
  split at h
  · cases h; rfl
  · split at h
    · cases h; rfl
    · split at h
      · cases h
      · split at h
        · cases h; rfl
        · cases h; rfl

/-- The middle of `read_header` keeps the number of channel arrays; when it
succeeds, the arrays of the channels in use have the allocated sizes and the
means are all 0. -/
theorem read_header_buffers_alloc (s : ShortenContext) (gb : GetBitContext) (maxnlpc : Int)
    (r : Int × ShortenContext × GetBitContext) (h : read_header_buffers s gb maxnlpc = some r) :
    r.2.1.decoded_base.length = s.decoded_base.length ∧
    r.2.1.offset.length = s.offset.length ∧
    (¬ r.1 < 0 → s.channels ≤ s.decoded_base.length → s.channels ≤ s.offset.length →
      r.2.1.nwrap = (max NWRAP maxnlpc).toNat ∧ r.2.1.blocksize = s.blocksize ∧
      r.2.1.nmean = s.nmean ∧ r.2.1.channels = s.channels ∧
      r.2.1.coeffs.length = r.2.1.nwrap ∧
      ∀ ch, ch < s.channels →
        (r.2.1.decoded_base.getD ch []).length = s.blocksize + r.2.1.nwrap ∧
        r.2.1.offset.getD ch [] = List.replicate (max 1 s.nmean).toNat 0) := by
  unfold read_header_buffers at h
  dsimp only at h
  obtain ⟨a1, a2, a3, a4, a5, a6, a7⟩ :=
    allocate_buffers_alloc { s with nwrap := (max NWRAP maxnlpc).toNat }
  obtain ⟨o1, o2, o3, o4, o5, o6, o7, o8⟩ :=
    init_offset_alloc (allocate_buffers { s with nwrap := (max NWRAP maxnlpc).toNat }).2
  have key : ∀ (t : ShortenContext),
      alloc_fields t = alloc_fields
        (init_offset (allocate_buffers { s with nwrap := (max NWRAP maxnlpc).toNat }).2).2 →
      ¬ (allocate_buffers { s with nwrap := (max NWRAP maxnlpc).toNat }).1 < 0 →
      ¬ (init_offset (allocate_buffers
        { s with nwrap := (max NWRAP maxnlpc).toNat }).2).1 < 0 →
      t.decoded_base.length = s.decoded_base.length ∧
      t.offset.length = s.offset.length ∧
      (s.channels ≤ s.decoded_base.length → s.channels ≤ s.offset.length →
        t.nwrap = (max NWRAP maxnlpc).toNat ∧ t.blocksize = s.blocksize ∧
        t.nmean = s.nmean ∧ t.channels = s.channels ∧
        t.coeffs.length = t.nwrap ∧
        ∀ ch, ch < s.channels →
          (t.decoded_base.getD ch []).length = s.blocksize + t.nwrap ∧
          t.offset.getD ch [] = List.replicate (max 1 s.nmean).toNat 0) := by
    intro t ht hok1 hok2
    unfold alloc_fields at ht
    simp only [Prod.mk.injEq] at ht
    obtain ⟨t1, t2, t3, t4, t5, t6, t7⟩ := ht
    refine ⟨by rw [t1, o1]; exact a1, by rw [t2, o2]; exact a2, fun hd ho => ?_⟩
    obtain ⟨b1, b2⟩ := a7 hok1 hd ho
    have hnw : t.nwrap = (max NWRAP maxnlpc).toNat := by rw [t4, o4]; exact a3
    refine ⟨hnw, by rw [t5, o5]; exact a4, by rw [t6, o6]; exact a5, by rw [t7, o7]; exact a6,
      by rw [t3, o3, hnw]; exact b1, fun ch hch => ?_⟩
    obtain ⟨c1, c2⟩ := b2 ch hch
    refine ⟨by rw [t1, o1, hnw]; exact c1, ?_⟩
    rw [t2, o8 hok2 ch (by rw [a6]; exact hch) (by rw [a2]; exact Nat.lt_of_lt_of_le hch ho), a5]
    exact fill_first_all _ _ _ (by rw [c2])
  split at h
  · next hneg =>
    cases h
    exact ⟨a1, a2, fun hok => absurd hneg hok⟩
  · next hok1 =>
    split at h
    · next hneg =>
      cases h
      exact ⟨by rw [o1]; exact a1, by rw [o2]; exact a2, fun hok => absurd hneg hok⟩
    · next hok2 =>
      split at h
      · have e := read_header_verbatim_alloc _ _ _ h
        obtain ⟨k1, k2, k3⟩ := key r.2.1 e hok1 hok2
        exact ⟨k1, k2, fun _ => k3⟩
      · have e := read_header_verbatim_alloc _ _ _ h
        obtain ⟨k1, k2, k3⟩ := key r.2.1 e hok1 hok2
        exact ⟨k1, k2, fun _ => k3⟩

theorem read_header_channels_alloc (s : ShortenContext) (gb : GetBitContext) :
    (∀ e, read_header_channels s gb = .error e →
      e.1.decoded_base = s.decoded_base ∧ e.1.offset = s.offset) ∧
    (∀ c, read_header_channels s gb = .ok c →
      c.1.decoded_base = s.decoded_base ∧ c.1.offset = s.offset ∧
      c.1.channels ≤ MAX_CHANNELS) := by
  unfold read_header_channels
  dsimp only
  split
  · constructor
    · intro e h; cases h; exact ⟨rfl, rfl⟩
    · intro c h; cases h
  · split
    · constructor
      · intro e h; cases h; exact ⟨rfl, rfl⟩
      · intro c h; cases h
    · split
      · constructor
        · intro e h; cases h; exact ⟨rfl, rfl⟩
        · intro c h; cases h
      · next hm =>
        constructor
        · intro e h; cases h
        · intro c h; cases h; exact ⟨rfl, rfl, Nat.le_of_not_lt hm⟩

theorem read_header_blocksize_alloc (s : ShortenContext) (gb : GetBitContext)
    (p : ShortenContext × GetBitContext × Int) (h : read_header_blocksize s gb = .ok p) :
    p.1.decoded_base = s.decoded_base ∧ p.1.offset = s.offset ∧ p.1.channels = s.channels := by
  unfold read_header_blocksize at h
  dsimp only at h
  split at h
  · split at h
    · cases h
    · cases h; exact ⟨rfl, rfl, rfl⟩
  · cases h; exact ⟨rfl, rfl, rfl⟩

/-- The function `read_header` keeps the number of channel arrays; when it
succeeds, the buffers are allocated for the block size of the header and all
means are 0. -/
theorem read_header_alloc (s : ShortenContext) (gb : GetBitContext)
    (r : Int × ShortenContext × GetBitContext) (h : read_header s gb = some r)
    (hd : MAX_CHANNELS ≤ s.decoded_base.length) (ho : MAX_CHANNELS ≤ s.offset.length) :
    r.2.1.decoded_base.length = s.decoded_base.length ∧
    r.2.1.offset.length = s.offset.length ∧
    (¬ r.1 < 0 → Allocated r.2.1 r.2.1.blocksize ∧
      ∀ ch, ch < r.2.1.channels →
        r.2.1.offset.getD ch [] = List.replicate (max 1 r.2.1.nmean).toNat 0) := by
  have hspec := (read_header_spec s gb r h).2.2.2
  unfold read_header at h
  split at h
  · next e he =>
    obtain ⟨e1, e2⟩ := (read_header_channels_alloc s gb).1 e he
    cases h
    exact ⟨by rw [e1], by rw [e2], fun h => absurd (by decide : AVERROR_INVALIDDATA < 0) h⟩
  · next c hc =>
    obtain ⟨c1, c2, c3⟩ := (read_header_channels_alloc s gb).2 c hc
    split at h
    · next g hg =>
      cases h
      exact ⟨by rw [c1], by rw [c2], fun h => absurd (by decide : AVERROR_EINVAL < 0) h⟩
    · next p hp =>
      obtain ⟨p1, p2, p3⟩ := read_header_blocksize_alloc _ _ _ hp
      obtain ⟨v1, v2, v3⟩ := read_header_buffers_alloc _ _ _ _ h
      refine ⟨by rw [v1, p1, c1], by rw [v2, p2, c2], fun hok => ?_⟩
      obtain ⟨w1, w2, w3, w4, w5, w6⟩ := v3 hok (by rw [p3, p1, c1]; omega)
        (by rw [p3, p2, c2]; omega)
      obtain ⟨_, _, z1, _, _⟩ := hspec hok
      have hn3 : 3 ≤ r.2.1.nwrap := by
        rw [w1]
        unfold NWRAP
        omega
      refine ⟨⟨hn3, w5, z1, Nat.le_refl _, by rw [w4, v1, p3, p1, c1]; omega, fun ch hch => ?_⟩,
        fun ch hch => ?_⟩
      · rw [w4] at hch
        rw [(w6 ch hch).1, w2]
      · rw [w4] at hch
        rw [(w6 ch hch).2, w3]

/-! ## The buffers in the command loop -/

theorem copy_wrap_length (s : ShortenContext) (d : List Int) :
    (copy_wrap s d).length = d.length := by
  unfold copy_wrap
  exact foldl_set_length _ (fun d i => List.length_set _ _ _) _ _

theorem fix_bitshift_length (s : ShortenContext) (d : List Int) :
    (fix_bitshift s d).length = d.length := by
  unfold fix_bitshift
  split
  · exact foldl_set_length _ (fun d i => List.length_set _ _ _) _ _
  · rfl

/-- The function `decode_subframe_lpc` keeps the lengths of all arrays. -/
theorem decode_subframe_lpc_lengths (s : ShortenContext) (gb : GetBitContext) (command : Int)
    (channel : Nat) (residual_size coffset : Int) :
    (decode_subframe_lpc s gb command channel residual_size coffset).2.1.coeffs.length =
      s.coeffs.length ∧
    ∀ ch, ((decode_subframe_lpc s gb command channel residual_size coffset).2.1.decoded_base.getD
      ch []).length = (s.decoded_base.getD ch []).length := by
  unfold decode_subframe_lpc
  dsimp only
  split
  · split
    · exact ⟨rfl, fun _ => rfl⟩
    · dsimp only
      refine ⟨read_coeffs_length _ _ _ _, fun ch => set_getD_length _ _ _ ?_ ch⟩
      split
      · rw [add_range_length, decode_samples_length, add_range_length]
      · rw [decode_samples_length]
  · dsimp only
    exact ⟨rfl, fun ch => set_getD_length _ _ _ (decode_samples_length _ _ _ _ _ _ _ _ _ _) ch⟩

theorem decode_channel_lengths (s : ShortenContext) (gb : GetBitContext) (cmd : Int)
    (channel : Nat) (residual_size coffset : Int) :
    (decode_channel s gb cmd channel residual_size coffset).2.1.coeffs.length =
      s.coeffs.length ∧
    ∀ ch, ((decode_channel s gb cmd channel residual_size coffset).2.1.decoded_base.getD
      ch []).length = (s.decoded_base.getD ch []).length := by
  unfold decode_channel
  split
  · dsimp only
    exact ⟨rfl, fun ch => set_getD_length _ _ _
      (foldl_set_length _ (fun d i => List.length_set _ _ _) _ _) ch⟩
  · exact decode_subframe_lpc_lengths s gb cmd channel residual_size coffset

theorem update_means_lengths (s : ShortenContext) (channel : Nat) :
    (update_means s channel).coeffs = s.coeffs ∧
    (update_means s channel).offset.length = s.offset.length ∧
    (s.nmean ≤ 0 → (update_means s channel).offset = s.offset) := by
  unfold update_means
  split
  · next h => exact ⟨rfl, List.length_set _ _ _, fun h2 => absurd h (by omega)⟩
  · exact ⟨rfl, rfl, fun _ => rfl⟩

theorem finish_channel_lengths (s : ShortenContext) (channel : Nat) :
    (finish_channel s channel).coeffs = s.coeffs ∧
    (finish_channel s channel).decoded_base.length = s.decoded_base.length ∧
    (finish_channel s channel).offset.length = s.offset.length ∧
    (s.nmean ≤ 0 → (finish_channel s channel).offset = s.offset) ∧
    ∀ ch, ((finish_channel s channel).decoded_base.getD ch []).length =
      (s.decoded_base.getD ch []).length := by
  obtain ⟨m1, _, _, _, _⟩ := update_means_decoded_base s channel
  obtain ⟨u1, u2, u3⟩ := update_means_lengths s channel
  unfold finish_channel
  dsimp only
  refine ⟨u1, by rw [List.length_set, m1], u2, u3, fun ch => ?_⟩
  rw [set_getD_length _ _ _ (by rw [fix_bitshift_length, copy_wrap_length]) ch, m1]

/-- The audio branch keeps the lengths of all arrays, and the means when
`nmean ≤ 0`. -/
theorem audio_command_lengths (s : ShortenContext) (gb : GetBitContext) (cmd : Int) :
    (audio_command s gb cmd).2.1.coeffs.length = s.coeffs.length ∧
    (audio_command s gb cmd).2.1.decoded_base.length = s.decoded_base.length ∧
    (audio_command s gb cmd).2.1.offset.length = s.offset.length ∧
    (s.nmean ≤ 0 → (audio_command s gb cmd).2.1.offset = s.offset) ∧
    ∀ ch, ((audio_command s gb cmd).2.1.decoded_base.getD ch []).length =
      (s.decoded_base.getD ch []).length := by
  obtain ⟨d1, d2⟩ := decode_channel_lengths s (read_residual_size s gb cmd).2 cmd s.cur_chan
    (read_residual_size s gb cmd).1 (sample_offset s s.cur_chan)
  obtain ⟨f1, f2, _, _, _, _, f7⟩ := decode_channel_fields s (read_residual_size s gb cmd).2 cmd
    s.cur_chan (read_residual_size s gb cmd).1 (sample_offset s s.cur_chan)
  obtain ⟨c1, c2, c3, c4, c5⟩ := finish_channel_lengths (decode_channel s
    (read_residual_size s gb cmd).2 cmd s.cur_chan (read_residual_size s gb cmd).1
    (sample_offset s s.cur_chan)).2.1 s.cur_chan
  unfold audio_command
  dsimp only
  split
  · exact ⟨d1, f7, by rw [f1], fun _ => f1, d2⟩
  · dsimp only
    refine ⟨by rw [c1]; exact d1, c2.trans f7, by rw [c3, f1], fun h => ?_, fun ch => ?_⟩
    · rw [c4 (by rw [f2]; exact h)]
      exact f1
    · rw [c5 ch]
      exact d2 ch

theorem same_arrays_refl (s : ShortenContext) : SameArrays s s :=
  ⟨rfl, rfl, rfl, rfl, fun _ => rfl, fun _ => rfl⟩

theorem same_arrays_trans (s t u : ShortenContext) (h1 : SameArrays s t) (h2 : SameArrays t u) :
    SameArrays s u := by
  have hn : t.nmean = s.nmean := h1.2.2.2.1
  exact ⟨h2.1.trans h1.1, h2.2.1.trans h1.2.1, h2.2.2.1.trans h1.2.2.1, h2.2.2.2.1.trans hn,
    fun h => (h2.2.2.2.2.1 (by rw [hn]; exact h)).trans (h1.2.2.2.2.1 h),
    fun ch => (h2.2.2.2.2.2 ch).trans (h1.2.2.2.2.2 ch)⟩

/-- An iteration of the command loop keeps the lengths of all arrays. -/
theorem command_step_arrays (s : ShortenContext) (gb : GetBitContext) :
    SameArrays s (command_step s gb).state := by
  unfold command_step
  dsimp only
  by_cases h1 : s.cur_chan < s.channels
  swap
  · rw [if_neg h1]; exact same_arrays_refl s
  rw [if_pos h1]
  by_cases h2 : get_bits_left gb < 3 + FNSIZE
  · rw [if_pos h2]; exact same_arrays_refl s
  rw [if_neg h2]
  by_cases h3 : to_int (get_ur_golomb_shorten gb FNSIZE).1 > FN_VERBATIM
  · rw [if_pos h3]; exact same_arrays_refl s
  rw [if_neg h3]
  by_cases h4 : is_audio (to_int (get_ur_golomb_shorten gb FNSIZE).1) = 0
  · rw [if_pos h4]
    unfold non_audio_command
    split
    · exact same_arrays_refl s
    · split
      · exact same_arrays_refl s
      · split
        · dsimp only
          split
          · exact same_arrays_refl s
          · split
            · exact same_arrays_refl s
            · exact same_arrays_refl s
        · split
          · exact same_arrays_refl s
          · exact same_arrays_refl s
  · rw [if_neg h4]
    obtain ⟨c1, c2, c3, c4, c5⟩ := audio_command_lengths s (get_ur_golomb_shorten gb FNSIZE).2
      (to_int (get_ur_golomb_shorten gb FNSIZE).1)
    have hf := audio_command_frame s (get_ur_golomb_shorten gb FNSIZE).2
      (to_int (get_ur_golomb_shorten gb FNSIZE).1)
    unfold audio_fields stream_fields at hf
    simp only [Prod.mk.injEq] at hf
    have hn : (audio_command s (get_ur_golomb_shorten gb FNSIZE).2
        (to_int (get_ur_golomb_shorten gb FNSIZE).1)).2.1.nmean = s.nmean := hf.2.1.2.2.2.2.2.1
    have key : SameArrays s (audio_command s (get_ur_golomb_shorten gb FNSIZE).2
        (to_int (get_ur_golomb_shorten gb FNSIZE).1)).2.1 := ⟨c1, c2, c3, hn, c4, c5⟩
    unfold audio_step
    dsimp only
    split
    · exact key
    · split
      · exact key
      · exact key

/-- An iteration of the command loop keeps the buffers allocated. -/
theorem command_step_allocated (s : ShortenContext) (gb : GetBitContext) (b : Nat)
    (h : Allocated s b) : Allocated (command_step s gb).state b := by
  obtain ⟨a1, a2, a3, a4, a5, a6⟩ := h
  obtain ⟨c1, c2, _, _, _, c6⟩ := command_step_arrays s gb
  obtain ⟨_, f2, f3, f4⟩ := command_step_frame s gb
  unfold stream_fields at f2
  simp only [Prod.mk.injEq] at f2
  have hch : (command_step s gb).state.channels = s.channels := f2.2.1
  have hnw : (command_step s gb).state.nwrap = s.nwrap := f2.2.2.2.2.2.2.2.1
  refine ⟨by rw [hnw]; exact a1, by rw [hnw, c1]; exact a2, f4 a3, Nat.le_trans f3 a4,
    by rw [hch, c2]; exact a5, fun ch hc => ?_⟩
  rw [c6 ch, hnw]
  exact a6 ch (by rw [← hch]; exact hc)

/-- The means stay clear through an iteration of the command loop when
`nmean ≤ 0`. -/
theorem command_step_means (s : ShortenContext) (gb : GetBitContext)
    (hn : s.nmean ≤ 0) (h : MeansClear s) : MeansClear (command_step s gb).state := by
  obtain ⟨_, _, _, _, c5, _⟩ := command_step_arrays s gb
  obtain ⟨_, f2, _, _⟩ := command_step_frame s gb
  unfold stream_fields at f2
  simp only [Prod.mk.injEq] at f2
  have hch : (command_step s gb).state.channels = s.channels := f2.2.1
  intro ch hc
  rw [c5 hn]
  exact h ch (by rw [← hch]; exact hc)

theorem command_loop_allocated (fuel : Nat) (s : ShortenContext) (gb : GetBitContext) (b : Nat)
    (r : PassExit × ShortenContext × GetBitContext) (h : command_loop fuel s gb = some r) :
    SameArrays s r.2.1 ∧ (Allocated s b → Allocated r.2.1 b) ∧
    (s.nmean ≤ 0 → MeansClear s → MeansClear r.2.1) := by
  induction fuel generalizing s gb with
  | zero => unfold command_loop at h; cases h
  | succ fuel ih =>
    unfold command_loop at h
    have h1 := command_step_arrays s gb
    have h2 := command_step_allocated s gb b
    have h3 := command_step_means s gb
    split at h
    · next e t g he =>
      rw [he] at h1 h2 h3
      cases h
      exact ⟨h1, h2, h3⟩
    · next t g he =>
      rw [he] at h1 h2 h3
      obtain ⟨i1, i2, i3⟩ := ih t g h
      have hn : t.nmean = s.nmean := h1.2.2.2.1
      exact ⟨same_arrays_trans _ _ _ h1 i1, fun ha => i2 (h2 ha),
        fun hle hm => i3 (by rw [hn]; exact hle) (h3 hle hm)⟩

theorem loop_iter_allocated (n : Nat) (s t : ShortenContext) (gb g : GetBitContext) (b : Nat)
    (h : loop_iter n s gb = some (t, g)) :
    SameArrays s t ∧ (Allocated s b → Allocated t b) ∧
    (s.nmean ≤ 0 → MeansClear s → MeansClear t) := by
  induction n generalizing s gb with
  | zero =>
    unfold loop_iter at h
    injection h with h
    injection h with e1 e2
    rw [← e1]
    exact ⟨same_arrays_refl s, fun ha => ha, fun _ hm => hm⟩
  | succ n ih =>
    unfold loop_iter at h
    have h1 := command_step_arrays s gb
    have h2 := command_step_allocated s gb b
    have h3 := command_step_means s gb
    split at h
    · cases h
    · next u g2 he =>
      rw [he] at h1 h2 h3
      obtain ⟨i1, i2, i3⟩ := ih u g2 h
      have hn : u.nmean = s.nmean := h1.2.2.2.1
      exact ⟨same_arrays_trans _ _ _ h1 i1, fun ha => i2 (h2 ha),
        fun hle hm => i3 (by rw [hn]; exact hle) (h3 hle hm)⟩

theorem replicate_clear (n : Int) (h : n ≤ 0) : List.replicate (max 1 n).toNat (0 : Int) = [0] := by
  have e : (max 1 n).toNat = 1 := by omega
  rw [e]
  rfl

/-- A decode pass keeps the number of channel arrays, and with the header
parsed the buffers are allocated and, for `nmean ≤ 0`, the means are clear. -/
theorem decode_pass_alloc (s : ShortenContext) (gb : GetBitContext) (size : Nat)
    (r : PassExit × ShortenContext × GetBitContext) (h : decode_pass s gb size = some r)
    (hd : MAX_CHANNELS ≤ s.decoded_base.length) (ho : MAX_CHANNELS ≤ s.offset.length)
    (hs : s.got_header = true → (∃ b, Allocated s b) ∧ (s.nmean ≤ 0 → MeansClear s)) :
    r.2.1.decoded_base.length = s.decoded_base.length ∧
    r.2.1.offset.length = s.offset.length ∧
    (r.2.1.got_header = true →
      (∃ b, Allocated r.2.1 b) ∧ (r.2.1.nmean ≤ 0 → MeansClear r.2.1)) := by
  unfold decode_pass at h
  by_cases hh : s.got_header = true
  · rw [if_neg (by rw [hh]; exact fun h => h rfl)] at h
    obtain ⟨⟨b, hb⟩, hm⟩ := hs hh
    split at h
    · cases h
      exact ⟨rfl, rfl, fun _ => ⟨⟨b, hb⟩, hm⟩⟩
    · obtain ⟨i1, i2, i3⟩ := command_loop_allocated _ _ _ b _ h
      have hn : r.2.1.nmean = s.nmean := i1.2.2.2.1
      exact ⟨i1.2.1, i1.2.2.1, fun _ => ⟨⟨b, i2 hb⟩, fun hle =>
        i3 (by rw [← hn]; exact hle) (hm (by rw [← hn]; exact hle))⟩⟩
  · rw [if_pos hh] at h
    split at h
    · cases h
    · next x hx =>
      obtain ⟨_, _, e1, _⟩ := read_header_spec _ _ _ hx
      obtain ⟨a1, a2, a3⟩ := read_header_alloc _ _ _ hx hd ho
      split at h
      · next hneg =>
        cases h
        exact ⟨a1, a2, fun hg => absurd ((e1 hneg).symm.trans hg) hh⟩
      · next hneg =>
        cases h
        obtain ⟨b1, b2⟩ := a3 hneg
        refine ⟨a1, a2, fun _ => ⟨⟨_, b1⟩, fun hle ch hch => ?_⟩⟩
        have e := b2 ch hch
        rw [replicate_clear _ hle] at e
        exact e

theorem decode_call_alloc (s : ShortenContext) (avpkt : AVPacket) (r : DecodeResult)
    (h : shorten_decode_frame s avpkt = some r)
    (hd : MAX_CHANNELS ≤ s.decoded_base.length) (ho : MAX_CHANNELS ≤ s.offset.length)
    (hs : s.got_header = true → (∃ b, Allocated s b) ∧ (s.nmean ≤ 0 → MeansClear s)) :
    MAX_CHANNELS ≤ r.ctx.decoded_base.length ∧ MAX_CHANNELS ≤ r.ctx.offset.length ∧
    (r.ctx.got_header = true →
      (∃ b, Allocated r.ctx b) ∧ (r.ctx.nmean ≤ 0 → MeansClear r.ctx)) := by
  have hA := append_packet_eq s avpkt
  have hd2 : MAX_CHANNELS ≤ (append_packet s avpkt).decoded_base.length := by rw [hA]; exact hd
  have ho2 : MAX_CHANNELS ≤ (append_packet s avpkt).offset.length := by rw [hA]; exact ho
  have hs2 : (append_packet s avpkt).got_header = true →
      (∃ b, Allocated (append_packet s avpkt) b) ∧
      ((append_packet s avpkt).nmean ≤ 0 → MeansClear (append_packet s avpkt)) := by
    rw [hA]; exact hs
  unfold shorten_decode_frame at h
  split at h
  · cases h
    exact ⟨hd2, ho2, hs2⟩
  · unfold run_pass at h
    split at h
    · cases h
    · next code t g hp =>
      cases h
      obtain ⟨p1, p2, p3⟩ := decode_pass_alloc _ _ _ _ hp hd2 ho2 hs2
      exact ⟨by rw [p1]; exact hd2, by rw [p2]; exact ho2, p3⟩
    · next gf fr t g hp =>
      cases h
      obtain ⟨p1, p2, p3⟩ := decode_pass_alloc _ _ _ _ hp hd2 ho2 hs2
      rw [finish_frame_ctx_eq]
      exact ⟨by rw [p1]; exact hd2, by rw [p2]; exact ho2, p3⟩

/-- In every reachable context with the header parsed the channel buffers are
allocated for some block size that the current one does not exceed, and for
`nmean ≤ 0` the means of the channels in use are the single entry 0. -/
theorem reachable_alloc (s : ShortenContext) (hr : Reachable s) :
    MAX_CHANNELS ≤ s.decoded_base.length ∧ MAX_CHANNELS ≤ s.offset.length ∧
    (s.got_header = true → (∃ b, Allocated s b) ∧ (s.nmean ≤ 0 → MeansClear s)) := by
  induction hr with
  | init => exact ⟨by decide, by decide, fun h => absurd h (by decide)⟩
  | call s avpkt r _ hcall ih => exact decode_call_alloc s avpkt r hcall ih.1 ih.2.1 ih.2.2


/-! ## The indices of the buffer accesses -/

theorem int_range_mem (a : Int) (n : Nat) (k : Int) (h : k ∈ int_range a n) :
    a ≤ k ∧ k < a + n := by
  unfold int_range at h
  rw [List.mem_map] at h
  obtain ⟨t, ht, e⟩ := h
  rw [List.mem_range] at ht
  omega

/-- The commands with an entry 1 in `is_audio_command`. -/
theorem is_audio_cases (cmd : Int) (h : is_audio cmd ≠ 0) :
    cmd = FN_DIFF0 ∨ cmd = FN_DIFF1 ∨ cmd = FN_DIFF2 ∨ cmd = FN_DIFF3 ∨ cmd = FN_QLPC ∨
      cmd = FN_ZERO := by
  unfold is_audio at h
  by_cases hc : cmd < 0
  · rw [if_pos hc] at h
    exact absurd rfl h
  · rw [if_neg hc] at h
    obtain ⟨n, hn⟩ : ∃ n : Nat, cmd = n := ⟨cmd.toNat, by omega⟩
    subst hn
    rw [Int.toNat_ofNat] at h
    unfold FN_DIFF0 FN_DIFF1 FN_DIFF2 FN_DIFF3 FN_QLPC FN_ZERO
    by_cases h10 : n < 10
    · interval_cases n
      · omega
      · omega
      · omega
      · omega
      · exact absurd rfl h
      · exact absurd rfl h
      · exact absurd rfl h
      · omega
      · omega
      · exact absurd rfl h
    · have : is_audio_command.getD n 0 = 0 := by
        rw [List.getD_eq_getElem?_getD, List.getElem?_eq_none (by
          have : is_audio_command.length = 10 := rfl
          omega)]
        rfl
      exact absurd this h

/-- The accesses of `decode_subframe_lpc` and of the zero fill stay between
`-nwrap` and the block size. -/
theorem decode_accesses_bounds (s : ShortenContext) (gb : GetBitContext) (cmd : Int)
    (hw : 3 ≤ s.nwrap) (ha : is_audio cmd ≠ 0) (k : Int) (hk : k ∈ decode_accesses s gb cmd) :
    -(s.nwrap : Int) ≤ k ∧ k < s.blocksize := by
  unfold decode_accesses at hk
  split at hk
  · have := int_range_mem _ _ _ hk
    omega
  · next hz =>
    unfold lpc_accesses at hk
    split at hk
    · cases hk
    · next hord =>
      have hp : lpc_pred_order (read_residual_size s gb cmd).2 cmd ≤ s.nwrap := by
        by_cases hq : cmd = FN_QLPC
        · by_contra hgt
          exact hord ⟨hq, by omega⟩
        · unfold lpc_pred_order
          rw [if_neg hq]
          rcases is_audio_cases cmd ha with h | h | h | h | h | h
          · rw [h]; unfold FN_DIFF0; omega
          · rw [h]; unfold FN_DIFF1; omega
          · rw [h]; unfold FN_DIFF2; omega
          · rw [h]; unfold FN_DIFF3; omega
          · exact absurd h hq
          · exact absurd h hz
      generalize lpc_pred_order (read_residual_size s gb cmd).2 cmd = p at hk hp
      rw [List.mem_append, List.mem_append] at hk
      rcases hk with (hk | hk) | hk
      · split at hk
        · have := int_range_mem _ _ _ hk
          omega
        · cases hk
      · rw [List.mem_flatMap] at hk
        obtain ⟨i, hi, hk⟩ := hk
        rw [List.mem_range] at hi
        rw [List.mem_append, List.mem_map, List.mem_singleton] at hk
        rcases hk with ⟨j, hj, e⟩ | e
        · rw [List.mem_range] at hj
          omega
        · omega
      · split at hk
        · have := int_range_mem _ _ _ hk
          omega
        · cases hk

theorem coeff_accesses_bounds (s : ShortenContext) (gb : GetBitContext) (cmd : Int)
    (hw : 3 ≤ s.nwrap) (ha : is_audio cmd ≠ 0) (hz : cmd ≠ FN_ZERO) (j : Int)
    (hj : j ∈ coeff_accesses s gb cmd) :
    0 ≤ j ∧ j < s.nwrap ∧ (cmd ≠ FN_QLPC → j < 3) := by
  unfold coeff_accesses at hj
  split at hj
  · cases hj
  · next hord =>
    have hm := int_range_mem _ _ _ hj
    by_cases hq : cmd = FN_QLPC
    · have hp : lpc_pred_order gb cmd ≤ s.nwrap := by
        by_contra hgt
        exact hord ⟨hq, by omega⟩
      exact ⟨by omega, by omega, fun h => absurd hq h⟩
    · have hp : lpc_pred_order gb cmd ≤ 3 := by
        unfold lpc_pred_order
        rw [if_neg hq]
        rcases is_audio_cases cmd ha with h | h | h | h | h | h
        · rw [h]; unfold FN_DIFF0; omega
        · rw [h]; unfold FN_DIFF1; omega
        · rw [h]; unfold FN_DIFF2; omega
        · rw [h]; unfold FN_DIFF3; omega
        · exact absurd h hq
        · exact absurd h hz
      exact ⟨by omega, by omega, fun _ => by omega⟩

theorem branch_accesses_bounds (s : ShortenContext) (hb : 1 ≤ s.blocksize) (k : Int)
    (hk : k ∈ branch_accesses s) : -(s.nwrap : Int) ≤ k ∧ k < s.blocksize := by
  unfold branch_accesses at hk
  rw [List.mem_append, List.mem_append, List.mem_append] at hk
  rcases hk with ((hk | hk) | hk) | hk
  · split at hk
    · have := int_range_mem _ _ _ hk
      omega
    · cases hk
  · rw [List.mem_flatMap] at hk
    obtain ⟨t, ht, hk⟩ := hk
    rw [List.mem_range] at ht
    rw [List.mem_cons, List.mem_singleton] at hk
    omega
  · split at hk
    · have := int_range_mem _ _ _ hk
      omega
    · cases hk
  · have := int_range_mem _ _ _ hk
    omega

/-! ## The offset without means -/

theorem half_tdiv_self (n : Int) (h : n < 0) : (n.tdiv 2).tdiv n = 0 := by
  obtain ⟨m, hm⟩ : ∃ m : Int, n = -m := ⟨-n, by omega⟩
  subst hm
  rw [Int.neg_tdiv, Int.neg_tdiv, Int.tdiv_neg, Int.neg_neg]
  have h2 : m.tdiv 2 = m / 2 := Int.tdiv_eq_ediv (by omega) (by omega)
  exact Int.tdiv_eq_zero_of_lt (by rw [h2]; omega) (by rw [h2]; omega)

/-- With `nmean ≤ 0` and the single mean 0 the offset is 0, and the division
`sum / s->nmean` is reached with `nmean ≠ 0` only. -/
theorem sample_offset_clear (s : ShortenContext) (ch : Nat) (hn : s.nmean ≤ 0)
    (ho : s.offset.getD ch [] = [0]) :
    sample_offset s ch = 0 ∧ sample_offset_checked s ch = some 0 := by
  unfold sample_offset sample_offset_checked checked_div
  dsimp only
  by_cases h0 : s.nmean = 0
  · rw [if_pos h0, if_pos h0, ho]
    exact ⟨rfl, rfl⟩
  · have e : s.nmean.toNat = 0 := by omega
    have hq : (if s.version < 2 then (0 : Int) else s.nmean.tdiv 2).tdiv s.nmean = 0 := by
      split
      · exact Int.zero_tdiv _
      · exact half_tdiv_self _ (by omega)
    have hw : wrap32 0 = 0 := by decide
    have ha : ∀ k : Nat, asr 0 k = 0 := by
      intro k
      unfold asr
      exact Int.zero_ediv _
    rw [if_neg h0, if_neg h0, e, List.range_zero, List.foldl_nil, if_neg h0]
    dsimp only
    rw [hq, hw, ha]
    exact ⟨by split <;> rfl, by split <;> rfl⟩

theorem update_means_skipped (s : ShortenContext) (ch : Nat) (hn : s.nmean ≤ 0) :
    update_means s ch = s ∧ update_means_checked s ch = some s := by
  unfold update_means update_means_checked
  rw [if_neg (by omega), if_neg (by omega)]
  exact ⟨rfl, rfl⟩

set_option maxRecDepth 1000000 in
/-- C1, counterexample: `ramp_stream` is a valid stream of 1096 bytes.  Given
whole in a single call and followed by a flush call, the decoder takes 1024
bytes and reports one frame; cut at byte 1024 into two chunks, one call each,
and followed by a flush call, it takes 1083 bytes and reports two frames. -/
theorem one_call_per_chunk_differs :
    (ramp_stream.length = 1096 ∧
      ramp_stream.take 1024 ++ ramp_stream.drop 1024 = ramp_stream) ∧
    (decode_calls shorten_decode_init
        [{ data := some ramp_stream }, { data := none }]).map
      (fun rs => (frames_of rs, consumed_of rs)) = some ([[1, 2, 3, 4]], 1024) ∧
    (decode_calls shorten_decode_init
        [{ data := some (ramp_stream.take 1024) }, { data := some (ramp_stream.drop 1024) },
         { data := none }]).map
      (fun rs => (frames_of rs, consumed_of rs)) = some ([[1, 2, 3, 4], [5, 6, 7, 8]], 1083) :=
  ⟨⟨by decide, List.take_append_drop 1024 ramp_stream⟩, by decide, by decide⟩

/-- C1, amended (chunk-split invariance for a caller that consumes its input):
the contexts reachable from `shorten_decode_init` keep the input buffer in
order, and from every context that does, for every list of chunks, the caller's
loop `feed` (every chunk is offered to `shorten_decode_frame` and its
unconsumed rest is offered again until the chunk is used up; the first negative
return value ends the run) ends on the chunks exactly when it ends on their
concatenation given as one chunk, and then with the same outcome.  Without a
failed call the outcome is the frames in order, the number of consumed bytes
and the context left behind (so that every later call, a flush call for
instance, gives the same result).  With a failed call the outcome is the frames
reported before that call in order, the whole result of the failed call (the
error code and the context it leaves) and the number of bytes the decoder has
taken from the input, the bytes that the failed call appended to its buffer
included.  The outcome of a run does not depend on the fuel. -/
theorem chunk_split_invariance :
    (∀ s : ShortenContext, Reachable s → BufferOk s) ∧
    (∀ (s : ShortenContext) (chunks : List (List Nat)) (res : FeedResult), BufferOk s →
      ((∃ fuel, feed fuel s chunks [] 0 = some res) ↔
        (∃ fuel, feed fuel s [chunks.flatten] [] 0 = some res))) ∧
    (∀ (s : ShortenContext) (chunks : List (List Nat)) (fuel1 fuel2 : Nat) (r1 r2 : FeedResult),
      feed fuel1 s chunks [] 0 = some r1 → feed fuel2 s chunks [] 0 = some r2 → r1 = r2) := by
  refine ⟨reachable_buffer_ok, fun s chunks res hs => feed_flatten res chunks s [] 0 hs, ?_⟩
  intro s chunks fuel1 fuel2 r1 r2 h1 h2
  have e1 := feed_mono fuel1 fuel2 s chunks [] 0 r1 h1
  have e2 := feed_mono fuel2 fuel1 s chunks [] 0 r2 h2
  rw [Nat.add_comm, e1] at e2
  exact Option.some.inj e2

set_option maxRecDepth 1000000 in
/-- Witness for C1.  `ramp_stream` cut at byte 500: the run over the two chunks
ends after 12 steps with six frames and all 1096 bytes consumed; the run over
the whole stream ends with the same outcome.  `growing_ramp_stream` cut at byte
1089, inside the bytes of the call that fails: the run over the two chunks ends
with three frames, 1090 bytes taken and `AVERROR_PATCHWELCOME`, and the run over
the whole stream ends with the same outcome, the context of the failed call
included; the values returned before the failure are 1024, 59, 3, 2 for the
whole stream and 1024, 59, 3, 2, 1 for the two chunks. -/
theorem chunk_split_invariance_witness :
    (BufferOk shorten_decode_init ∧
      [ramp_stream.take 500, ramp_stream.drop 500].flatten = ramp_stream) ∧
    (feed_result 12 shorten_decode_init [ramp_stream.take 500, ramp_stream.drop 500]).summary =
      some ([[1, 2, 3, 4], [5, 6, 7, 8], [9, 10, 11, 12], [13, 14, 15, 16], [17, 18, 19, 20],
        [21, 22, 23, 24]], 1096) ∧
    (∃ fuel, feed fuel shorten_decode_init
        [[ramp_stream.take 500, ramp_stream.drop 500].flatten] [] 0 =
      some (feed_result 12 shorten_decode_init [ramp_stream.take 500, ramp_stream.drop 500])) ∧
    (growing_ramp_stream.length = 1096 ∧
      [growing_ramp_stream.take 1089, growing_ramp_stream.drop 1089].flatten =
        growing_ramp_stream) ∧
    (feed_result 12 shorten_decode_init
        [growing_ramp_stream.take 1089, growing_ramp_stream.drop 1089]).failure =
      some ([[1, 2, 3, 4], [5, 6, 7, 8], [9, 10, 11, 12]], 1090, AVERROR_PATCHWELCOME) ∧
    (∃ fuel, feed fuel shorten_decode_init
        [[growing_ramp_stream.take 1089, growing_ramp_stream.drop 1089].flatten] [] 0 =
      some (feed_result 12 shorten_decode_init
        [growing_ramp_stream.take 1089, growing_ramp_stream.drop 1089])) ∧
    (decode_calls shorten_decode_init
        [{ data := some growing_ramp_stream }, { data := some (growing_ramp_stream.drop 1024) },
         { data := some (growing_ramp_stream.drop 1083) },
         { data := some (growing_ramp_stream.drop 1086) },
         { data := some (growing_ramp_stream.drop 1088) }]).map
      (fun rs => rs.map (fun r => r.ret)) = some [1024, 59, 3, 2, AVERROR_PATCHWELCOME] ∧
    (decode_calls shorten_decode_init
        [{ data := some (growing_ramp_stream.take 1089) },
         { data := some ((growing_ramp_stream.take 1089).drop 1024) },
         { data := some ((growing_ramp_stream.take 1089).drop 1083) },
         { data := some ((growing_ramp_stream.take 1089).drop 1086) },
         { data := some ((growing_ramp_stream.take 1089).drop 1088) },
         { data := some (growing_ramp_stream.drop 1089) }]).map
      (fun rs => rs.map (fun r => r.ret)) = some [1024, 59, 3, 2, 1, AVERROR_PATCHWELCOME] :=
  ⟨⟨chunk_split_invariance.1 shorten_decode_init Reachable.init,
    by rw [List.flatten_cons, List.flatten_cons, List.flatten_nil, List.append_nil,
      List.take_append_drop]⟩,
   by decide,
   (chunk_split_invariance.2.1 shorten_decode_init [ramp_stream.take 500, ramp_stream.drop 500]
     (feed_result 12 shorten_decode_init [ramp_stream.take 500, ramp_stream.drop 500])
     (chunk_split_invariance.1 shorten_decode_init Reachable.init)).mp ⟨12, by decide⟩,
   ⟨by decide,
    by rw [List.flatten_cons, List.flatten_cons, List.flatten_nil, List.append_nil,
      List.take_append_drop]⟩,
   by decide,
   (chunk_split_invariance.2.1 shorten_decode_init
     [growing_ramp_stream.take 1089, growing_ramp_stream.drop 1089]
     (feed_result 12 shorten_decode_init
       [growing_ramp_stream.take 1089, growing_ramp_stream.drop 1089])
     (chunk_split_invariance.1 shorten_decode_init Reachable.init)).mp ⟨12, by decide⟩,
   by decide, by decide⟩

/-- C2, counterexample: `stereo_state` is left by a call whose command loop
exited with `cur_chan = 1 < channels = 2` because no bits were left.  The
next pass (the flush call after the packet `stereo_stream_second`, which
holds the command for the second channel) decodes that command into channel
0, not channel 1: it overwrites the block 1, 2, 3, 4 of channel 0 with
5, 6, 7, 8, leaves the block of channel 1 at zero, ends with `cur_chan = 1`
again and produces no frame. -/
theorem stereo_pass_restarts_at_channel_zero :
    (stereo_state.cur_chan, stereo_state.channels, stereo_state.bitstream_size) = (1, 2, 0) ∧
    (decode_calls stereo_state
        [{ data := some stereo_stream_second }, { data := none }]).map
      (fun rs => rs.map (fun r => (r.ret, r.got_frame, r.ctx.cur_chan,
        ((decoded r.ctx).take 2).map (fun d => d.take 4)))) =
      some [(6, false, 1, [[1, 2, 3, 4], [0, 0, 0, 0]]),
            (0, false, 1, [[5, 6, 7, 8], [0, 0, 0, 0]])] := by
  decide

/-- C2, amended (no resumption at the same channel): whenever a decode call
with the header parsed and no QUIT received ends with `cur_chan = c < channels`
(the command loop was left in the middle of a block), it produces no frame;
the next decode pass does not resume at channel `c`: a call that runs a pass
gives the same result whatever the stored `cur_chan` is, namely the result for
`cur_chan = 0`, because the pass resets `cur_chan` to 0 before the command
loop. -/
theorem pass_restarts_at_channel_zero :
    (∀ (s : ShortenContext) (avpkt : AVPacket) (r : DecodeResult), s.got_header = true →
      s.got_quit_command = false → shorten_decode_frame s avpkt = some r →
      r.ctx.cur_chan < r.ctx.channels → r.got_frame = false ∧ r.frame = []) ∧
    (∀ (s : ShortenContext) (avpkt : AVPacket) (c : Nat), s.got_header = true →
      s.got_quit_command = false →
      ¬ ((append_packet s avpkt).bitstream_size < (append_packet s avpkt).max_framesize ∧
          avpkt.data.isSome) →
      shorten_decode_frame { s with cur_chan := c } avpkt =
        shorten_decode_frame { s with cur_chan := 0 } avpkt) := by
  constructor
  · intro s avpkt r hh hq hr hc
    have hA := append_packet_eq s avpkt
    have hh2 : (append_packet s avpkt).got_header = true := by rw [hA]; exact hh
    have hq2 : (append_packet s avpkt).got_quit_command = false := by rw [hA]; exact hq
    unfold shorten_decode_frame at hr
    split at hr
    · cases hr; exact ⟨rfl, rfl⟩
    · unfold run_pass at hr
      rw [decode_pass_loop _ _ _ hh2 hq2] at hr
      split at hr
      · cases hr
      · cases hr; exact ⟨rfl, rfl⟩
      · next g f t gb hloop =>
        cases hr
        obtain ⟨f1, f2, _, _⟩ := finish_frame_spec t gb (append_packet s avpkt).bitstream_size
          (input_buf_size s avpkt) g f
        rw [f1, f2]
        rw [finish_frame_ctx_eq] at hc
        exact command_loop_frame_complete _ _ _ _ _ _ _ hloop hc
  · intro s avpkt c hh hq hpass
    have hA := append_packet_eq s avpkt
    have hh2 : (append_packet s avpkt).got_header = true := by rw [hA]; exact hh
    have hq2 : (append_packet s avpkt).got_quit_command = false := by rw [hA]; exact hq
    have key : ∀ k : Nat, shorten_decode_frame { s with cur_chan := k } avpkt =
        run_pass { append_packet s avpkt with cur_chan := k } avpkt.size
          (input_buf_size s avpkt) := by
      intro k
      have hpass2 : ¬ (({ append_packet s avpkt with cur_chan := k }).bitstream_size <
          ({ append_packet s avpkt with cur_chan := k }).max_framesize ∧
          avpkt.data.isSome) := hpass
      unfold shorten_decode_frame
      rw [append_packet_cur_chan, if_neg hpass2]
      rfl
    have run : ∀ k : Nat,
        run_pass { append_packet s avpkt with cur_chan := k } avpkt.size
          (input_buf_size s avpkt) =
        run_pass { append_packet s avpkt with cur_chan := 0 } avpkt.size
          (input_buf_size s avpkt) := by
      intro k
      unfold run_pass
      rw [decode_pass_loop _ _ _ (show ({ append_packet s avpkt with cur_chan := k }).got_header
            = true from hh2)
          (show ({ append_packet s avpkt with cur_chan := k }).got_quit_command = false from hq2),
        decode_pass_loop _ _ _ (show ({ append_packet s avpkt with cur_chan := 0 }).got_header
            = true from hh2)
          (show ({ append_packet s avpkt with cur_chan := 0 }).got_quit_command = false from hq2)]
      rfl
    rw [key c, key 0, run c]

set_option maxRecDepth 100000 in
/-- Witness for C2: the flush call on `stereo_state_second` (stored
`cur_chan = 1`, the command for the second channel pending) ends with
`cur_chan = 1 < 2` and produces no frame, and it gives the same result for the
stored `cur_chan = 1` as for `cur_chan = 0`. -/
theorem pass_restarts_at_channel_zero_witness :
    stereo_state_second.got_header = true ∧
    stereo_state_second.got_quit_command = false ∧
    stereo_state_second.cur_chan = 1 ∧
    (call_result stereo_state_second { data := none }).ctx.cur_chan <
      (call_result stereo_state_second { data := none }).ctx.channels ∧
    ((call_result stereo_state_second { data := none }).got_frame = false ∧
      (call_result stereo_state_second { data := none }).frame = []) ∧
    shorten_decode_frame { stereo_state_second with cur_chan := 1 } { data := none } =
      shorten_decode_frame { stereo_state_second with cur_chan := 0 } { data := none } :=
  ⟨by decide, by decide, by decide, by decide,
   pass_restarts_at_channel_zero.1 stereo_state_second { data := none }
     (call_result stereo_state_second { data := none }) (by decide) (by decide) (by decide)
     (by decide),
   pass_restarts_at_channel_zero.2 stereo_state_second { data := none } 1
     (by decide) (by decide) (by decide)⟩

/-- C3, counterexample: after the header of `unknown_command_stream` has been
parsed (no QUIT received), the flush call decodes the command id 12 > 9; it
returns 0, not a negative error code. -/
theorem unknown_command_returns_zero :
    (unknown_command_state.got_header,
     unknown_command_state.got_quit_command)
      = (true, false) ∧
    to_int (get_ur_golomb_shorten (pass_reader
      unknown_command_state) FNSIZE).1 = 12 ∧
    (shorten_decode_frame
      unknown_command_state
      { data := none }).map (fun r => (r.ret, r.got_frame)) = some (0, false) := by
  decide

/-- C3, amended (an unknown command ends the pass, it is not an error): an
iteration of the command loop that decodes a command id greater than 9
(`FN_VERBATIM`) leaves the loop at once, without a frame and with the context
unchanged; and for every state with the header parsed and no QUIT received, a
call whose pass starts with such a command produces no frame, leaves the
block size, the stream parameters and the channel buffers as they were, and
returns `AVERROR_INVALIDDATA` when the overread check after `finish_frame`
fires and a non-negative byte count otherwise. -/
theorem unknown_command_no_frame :
    (∀ (s : ShortenContext) (gb : GetBitContext), s.cur_chan < s.channels →
      ¬ get_bits_left gb < 3 + FNSIZE →
      to_int (get_ur_golomb_shorten gb FNSIZE).1 > FN_VERBATIM →
      command_step s gb = .exit (.finish false []) s (get_ur_golomb_shorten gb FNSIZE).2) ∧
    (∀ (s : ShortenContext) (avpkt : AVPacket), s.got_header = true →
      s.got_quit_command = false → 0 < s.channels →
      ¬ ((append_packet s avpkt).bitstream_size < (append_packet s avpkt).max_framesize ∧
          avpkt.data.isSome) →
      ¬ get_bits_left (pass_reader (append_packet s avpkt)) < 3 + FNSIZE →
      to_int (get_ur_golomb_shorten (pass_reader (append_packet s avpkt)) FNSIZE).1
        > FN_VERBATIM →
      ∃ r, shorten_decode_frame s avpkt = some r ∧ r.got_frame = false ∧ r.frame = [] ∧
        r.ctx.blocksize = s.blocksize ∧ stream_fields r.ctx = stream_fields s ∧
        r.ctx.decoded_base = s.decoded_base ∧ r.ctx.offset = s.offset ∧
        r.ctx.got_quit_command = false ∧
        (r.ret = AVERROR_INVALIDDATA ∨ 0 ≤ r.ret) ∧
        (r.ret < 0 →
          (get_ur_golomb_shorten (pass_reader (append_packet s avpkt)) FNSIZE).2.index / 8
            > (append_packet s avpkt).bitstream_size)) := by
  refine ⟨command_step_unknown, ?_⟩
  intro s avpkt hh hq hc hpass hleft hcmd
  have hA := append_packet_eq s avpkt
  have hh2 : (append_packet s avpkt).got_header = true := by rw [hA]; exact hh
  have hq2 : (append_packet s avpkt).got_quit_command = false := by rw [hA]; exact hq
  have hc2 : (append_packet s avpkt).channels = s.channels := by rw [hA]
  have hstep := command_step_unknown { append_packet s avpkt with cur_chan := 0 }
    (pass_reader (append_packet s avpkt)) (by show 0 < (append_packet s avpkt).channels
                                              rw [hc2]; exact hc) hleft hcmd
  have hrun : run_pass (append_packet s avpkt) avpkt.size (input_buf_size s avpkt) =
      some (finish_frame { append_packet s avpkt with cur_chan := 0 }
        (get_ur_golomb_shorten (pass_reader (append_packet s avpkt)) FNSIZE).2
        (append_packet s avpkt).bitstream_size (input_buf_size s avpkt) false []) := by
    apply run_pass_finish
    rw [decode_pass_loop _ _ _ hh2 hq2]
    exact command_loop_exit _ _ _ _ _ _ hstep
  obtain ⟨f1, f2, f3, f4⟩ := finish_frame_spec { append_packet s avpkt with cur_chan := 0 }
    (get_ur_golomb_shorten (pass_reader (append_packet s avpkt)) FNSIZE).2
    (append_packet s avpkt).bitstream_size (input_buf_size s avpkt) false []
  refine ⟨_, ?_, f1, f2, ?_, ?_, ?_, ?_, ?_, ?_, ?_⟩
  · unfold shorten_decode_frame
    rw [if_neg hpass, hrun]
  · unfold finish_frame; dsimp only; split
    · rw [hA]
    · split <;> rw [hA]
  · unfold finish_frame; dsimp only; split
    · rw [hA]; rfl
    · split <;> (rw [hA]; rfl)
  · unfold finish_frame; dsimp only; split
    · rw [hA]
    · split <;> rw [hA]
  · unfold finish_frame; dsimp only; split
    · rw [hA]
    · split <;> rw [hA]
  · unfold finish_frame; dsimp only; split
    · exact hq2
    · split <;> exact hq2
  · by_cases hov : get_bits_count (get_ur_golomb_shorten
        (pass_reader (append_packet s avpkt)) FNSIZE).2 / 8 > (append_packet s avpkt).bitstream_size
    · exact Or.inl (f3 hov).1
    · exact Or.inr (f4 hov)
  · intro hneg
    by_contra hov
    exact absurd (f4 hov) (not_le.mpr hneg)

/-- Witness for C3: the flush call on `unknown_command_state`, whose pass starts
with the command id 12. -/
theorem unknown_command_no_frame_witness :
    unknown_command_state.got_header = true ∧
    unknown_command_state.got_quit_command = false ∧
    to_int (get_ur_golomb_shorten
      (pass_reader (append_packet unknown_command_state { data := none })) FNSIZE).1
        > FN_VERBATIM ∧
    command_step { append_packet unknown_command_state { data := none } with cur_chan := 0 }
      (pass_reader (append_packet unknown_command_state { data := none })) =
      .exit (.finish false [])
        { append_packet unknown_command_state { data := none } with cur_chan := 0 }
        (get_ur_golomb_shorten
          (pass_reader (append_packet unknown_command_state { data := none })) FNSIZE).2 ∧
    ∃ r, shorten_decode_frame unknown_command_state { data := none } = some r ∧
      r.got_frame = false ∧ r.frame = [] ∧ (r.ret = AVERROR_INVALIDDATA ∨ 0 ≤ r.ret) :=
  ⟨by decide, by decide, by decide,
   unknown_command_no_frame.1
     { append_packet unknown_command_state { data := none } with cur_chan := 0 }
     (pass_reader (append_packet unknown_command_state { data := none }))
     (by decide) (by decide) (by decide),
   (unknown_command_no_frame.2 unknown_command_state { data := none }
     (by decide) (by decide) (by decide) (by decide) (by decide) (by decide)).imp
     (fun _ h => ⟨h.1, h.2.1, h.2.2.1, h.2.2.2.2.2.2.2.2.1⟩)⟩

/-- C4 (need more input): for every decoder state and every non-null packet of `n`
bytes such that the pending byte count plus `n` is below the working frame-size
cap (`max_framesize`, 1024 once allocated), `shorten_decode_frame` returns `n`,
reports no frame, leaves the pending buffer equal to the previous pending bytes
followed by the packet bytes, and performs no parsing: apart from the four
buffer fields the context is unchanged. -/
theorem need_more_input (s : ShortenContext) (d : List Nat)
    (h : s.bitstream_size + d.length < frame_cap s) :
    ∃ r, shorten_decode_frame s { data := some d } = some r ∧
      r.ret = d.length ∧ r.got_frame = false ∧ r.frame = [] ∧
      r.ctx.bitstream = s.bitstream ++ d ∧
      r.ctx.max_framesize = frame_cap s ∧
      { r.ctx with max_framesize := s.max_framesize,
                   allocated_bitstream_size := s.allocated_bitstream_size,
                   bitstream_index := s.bitstream_index,
                   bitstream := s.bitstream } = s := by
  have hn := input_buf_size_small s d h
  have hb : (append_packet s { data := some d }).bitstream = s.bitstream ++ d := by
    rw [append_packet_bitstream, hn]
    simp only [Option.getD_some, List.take_length]
  have hm : (append_packet s { data := some d }).max_framesize = frame_cap s := by
    rw [append_packet_eq]
  have hlt : (append_packet s { data := some d }).bitstream_size <
      (append_packet s { data := some d }).max_framesize := by
    unfold ShortenContext.bitstream_size at h ⊢
    rw [hb, hm, List.length_append]
    exact h
  refine ⟨{ ret := d.length, got_frame := false, frame := [],
            ctx := append_packet s { data := some d } }, ?_, rfl, rfl, rfl, hb, hm, ?_⟩
  · unfold shorten_decode_frame
    rw [if_pos ⟨hlt, rfl⟩, hn]
  · dsimp only
    rw [append_packet_eq]

/-- Witness for C4: a first packet of three bytes given to the freshly
initialised decoder. -/
theorem need_more_input_witness :
    shorten_decode_init.bitstream_size + [97, 106, 107].length < frame_cap shorten_decode_init ∧
    ∃ r, shorten_decode_frame shorten_decode_init { data := some [97, 106, 107] } = some r ∧
      r.ret = 3 ∧ r.got_frame = false ∧ r.ctx.bitstream = [97, 106, 107] :=
  ⟨by decide, (need_more_input shorten_decode_init [97, 106, 107] (by decide)).imp
    (fun _ h => ⟨h.1, h.2.1, h.2.2.1, h.2.2.2.2.1⟩)⟩

/-- C5, counterexample: the first call that is given the Scenario A stream (61
bytes, fewer than the cap of 1024) only stores the bytes: it returns 61 and
leaves `got_header` unset and the sample rate at 0. -/
theorem scenario_a_first_call_stores :
    (shorten_decode_frame shorten_decode_init { data := some scenario_a_stream }).map
      (fun r => (r.ret, r.got_frame, r.ctx.got_header, r.ctx.avctx.sample_rate,
        r.ctx.bitstream_size)) = some (61, false, false, 0, 61) := by
  decide

/-- C5, amended (Scenario A): the first call that is given the stream stores its
61 bytes and reports no frame; the flush call that follows parses the header
successfully: it returns no frame and afterwards `got_header` is set, with
version 2, type `TYPE_S16HL`, one channel, block size 256, sample rate 44100
and 16 bits per coded sample. -/
theorem scenario_a_header_parse :
    (decode_calls shorten_decode_init [{ data := some scenario_a_stream }, { data := none }]).map
      (fun rs => rs.map (fun r => (r.ret, r.got_frame, r.ctx.got_header,
        r.ctx.avctx.sample_rate, r.ctx.avctx.bits_per_coded_sample))) =
      some [(61, false, false, 0, 0), (0, false, true, 44100, 16)] ∧
    (decode_calls shorten_decode_init [{ data := some scenario_a_stream }, { data := none }]).map
      (fun rs => rs.map (fun r => (r.ctx.version, r.ctx.internal_ftype, r.ctx.channels,
        r.ctx.blocksize))) = some [(0, 0, 0, 0), (2, TYPE_S16HL, 1, 256)] := by
  decide

/-- C6 (QUIT is terminal): once `got_quit_command` is set (which happens only
with the header parsed), it is never cleared, and every later call of
`shorten_decode_frame`, for every packet, reports no frame and returns the full
size of the supplied packet. -/
theorem quit_is_terminal (s : ShortenContext) (hh : s.got_header = true)
    (hq : s.got_quit_command = true) (pkts : List AVPacket) :
    ∃ rs, decode_calls s pkts = some rs ∧
      rs.map (fun r => r.ret) = pkts.map (fun p => (p.size : Int)) ∧
      ∀ r ∈ rs, r.got_frame = false ∧ r.frame = [] ∧ r.ctx.got_quit_command = true := by
  induction pkts generalizing s with
  | nil => exact ⟨[], rfl, rfl, fun r hr => absurd hr (List.not_mem_nil r)⟩
  | cons p ps ih =>
    obtain ⟨r, h1, h2, h3, h4, h5, h6⟩ := quit_call s p hh hq
    obtain ⟨rs, k1, k2, k3⟩ := ih r.ctx h5 h6
    refine ⟨r :: rs, ?_, ?_, ?_⟩
    · unfold decode_calls
      rw [h1]
      dsimp only
      rw [k1]
      rfl
    · rw [List.map_cons, List.map_cons, h2, k2]
    · intro x hx
      rcases List.mem_cons.mp hx with hx | hx
      · rw [hx]; exact ⟨h3, h4, h6⟩
      · exact k3 x hx

/-- Witness for C6: the decoder that has read `quit_stream` (a call with the
data and two flush calls, the second of which processes `FN_QUIT`) is then
given a packet of three bytes, the flush packet and an empty packet. -/
theorem quit_is_terminal_witness :
    (state_after [{ data := some quit_stream }, { data := none }, { data := none }]).got_header
      = true ∧
    (state_after [{ data := some quit_stream }, { data := none }, { data := none }]).got_quit_command
      = true ∧
    ∃ rs, decode_calls
        (state_after [{ data := some quit_stream }, { data := none }, { data := none }])
        [{ data := some [1, 2, 3] }, { data := none }, { data := some [] }] = some rs ∧
      rs.map (fun r => r.ret) = [3, 0, 0] ∧
      ∀ r ∈ rs, r.got_frame = false ∧ r.frame = [] ∧ r.ctx.got_quit_command = true :=
  ⟨by decide, by decide,
   quit_is_terminal
     (state_after [{ data := some quit_stream }, { data := none }, { data := none }])
     (by decide) (by decide)
     [{ data := some [1, 2, 3] }, { data := none }, { data := some [] }]⟩

/-- C7 (fixed predictors): for the commands DIFF0..DIFF3, every state whose
channel buffer holds the history (`nwrap ≥ 3` samples) and the block, and every
bit stream, `decode_subframe_lpc` returns 0, keeps the carried-over history
`x[j]`, `j < 0`, and sets sample `i` of the block, in 32-bit wrapping
arithmetic, to `r_i + coffset` (DIFF0), `r_i + x[i-1]` (DIFF1),
`r_i + 2·x[i-1] − x[i-2]` (DIFF2) and `r_i + 3·x[i-1] − 3·x[i-2] + x[i-3]`
(DIFF3), where `r` is the sequence of residuals read from the stream and `x`
the decoded channel; with `r_i = 0` this is the order-`k` polynomial
extrapolation of the previous `k` samples. -/
theorem fixed_predictors (s : ShortenContext) (gb : GetBitContext) (channel : Nat)
    (residual_size coffset : Int) (hch : channel < s.decoded_base.length)
    (hlen : s.nwrap + s.blocksize ≤ (s.decoded_base.getD channel []).length)
    (hw : 3 ≤ s.nwrap) :
    (∀ command : Int, command ∈ [FN_DIFF0, FN_DIFF1, FN_DIFF2, FN_DIFF3] →
      (decode_subframe_lpc s gb command channel residual_size coffset).1 = 0 ∧
      ∀ j : Int, -(s.nwrap : Int) ≤ j → j < 0 →
        sample (decode_subframe_lpc s gb command channel residual_size coffset).2.1 channel j =
          sample s channel j) ∧
    ∀ i : Nat, i < s.blocksize →
      sample (decode_subframe_lpc s gb FN_DIFF0 channel residual_size coffset).2.1 channel i =
        wrap32 ((residuals residual_size s.blocksize gb).getD i 0 + coffset) ∧
      sample (decode_subframe_lpc s gb FN_DIFF1 channel residual_size coffset).2.1 channel i =
        wrap32 ((residuals residual_size s.blocksize gb).getD i 0 +
          sample (decode_subframe_lpc s gb FN_DIFF1 channel residual_size coffset).2.1
            channel (i - 1)) ∧
      sample (decode_subframe_lpc s gb FN_DIFF2 channel residual_size coffset).2.1 channel i =
        wrap32 ((residuals residual_size s.blocksize gb).getD i 0 +
          2 * sample (decode_subframe_lpc s gb FN_DIFF2 channel residual_size coffset).2.1
            channel (i - 1) -
          sample (decode_subframe_lpc s gb FN_DIFF2 channel residual_size coffset).2.1
            channel (i - 2)) ∧
      sample (decode_subframe_lpc s gb FN_DIFF3 channel residual_size coffset).2.1 channel i =
        wrap32 ((residuals residual_size s.blocksize gb).getD i 0 +
          3 * sample (decode_subframe_lpc s gb FN_DIFF3 channel residual_size coffset).2.1
            channel (i - 1) -
          3 * sample (decode_subframe_lpc s gb FN_DIFF3 channel residual_size coffset).2.1
            channel (i - 2) +
          sample (decode_subframe_lpc s gb FN_DIFF3 channel residual_size coffset).2.1
            channel (i - 3)) := by
  have hq : ∀ command : Int, command ∈ [FN_DIFF0, FN_DIFF1, FN_DIFF2, FN_DIFF3] →
      command ≠ FN_QLPC := by
    intro command hc
    simp only [List.mem_cons, List.mem_singleton, List.not_mem_nil, or_false] at hc
    rcases hc with h | h | h | h <;> rw [h] <;> decide
  have hpos : ∀ (s2 : ShortenContext) (i m : Nat), s2.nwrap = s.nwrap → m ≤ 3 →
      sample s2 channel ((i : Int) - (m : Int)) =
        (s2.decoded_base.getD channel []).getD (s.nwrap + i - m) 0 := by
    intro s2 i m h2 hm
    unfold sample
    rw [h2, show ((s.nwrap : Int) + ((i : Int) - (m : Int))).toNat = s.nwrap + i - m by omega]
  refine ⟨fun command hc => ?_, fun i hi => ⟨?_, ?_, ?_, ?_⟩⟩
  · exact ⟨(decode_subframe_lpc_fixed s gb command channel residual_size coffset
      (hq command hc) hch).1,
      (fixed_sample s gb command channel residual_size coffset (hq command hc) hch hlen hw).2⟩
  · rw [(fixed_sample s gb FN_DIFF0 channel residual_size coffset (by decide) hch hlen hw).1 i hi]
    rfl
  · have h2 := (decode_subframe_lpc_fixed s gb FN_DIFF1 channel residual_size coffset
      (by decide) hch).2.1
    have h := hpos _ i 1 h2 (by omega)
    rw [(fixed_sample s gb FN_DIFF1 channel residual_size coffset (by decide) hch hlen hw).1 i hi]
    rw [show ((i : Int) - 1) = (i : Int) - ((1 : Nat) : Int) by rfl, h]
    generalize (decode_subframe_lpc s gb FN_DIFF1 channel residual_size coffset).2.1.decoded_base.getD
      channel [] = d
    generalize (residuals residual_size s.blocksize gb).getD i 0 = r
    have hp : predict (fixed_coeffs.getD (FN_DIFF1.toNat - 1) []) d (s.nwrap + i) FN_DIFF1.toNat
        (if FN_DIFF1 ≠ 0 then 0 else coffset) =
        wrap32 (0 + wrap32 (1 * d.getD (s.nwrap + i - 0 - 1) 0)) := rfl
    rw [hp, Nat.sub_zero]
    generalize d.getD (s.nwrap + i - 1) 0 = x1
    unfold wrap32
    omega
  · have h2 := (decode_subframe_lpc_fixed s gb FN_DIFF2 channel residual_size coffset
      (by decide) hch).2.1
    have h := hpos _ i 1 h2 (by omega)
    have h' := hpos _ i 2 h2 (by omega)
    rw [(fixed_sample s gb FN_DIFF2 channel residual_size coffset (by decide) hch hlen hw).1 i hi]
    rw [show ((i : Int) - 1) = (i : Int) - ((1 : Nat) : Int) by rfl, h,
      show ((i : Int) - 2) = (i : Int) - ((2 : Nat) : Int) by rfl, h']
    generalize (decode_subframe_lpc s gb FN_DIFF2 channel residual_size coffset).2.1.decoded_base.getD
      channel [] = d
    generalize (residuals residual_size s.blocksize gb).getD i 0 = r
    have hp : predict (fixed_coeffs.getD (FN_DIFF2.toNat - 1) []) d (s.nwrap + i) FN_DIFF2.toNat
        (if FN_DIFF2 ≠ 0 then 0 else coffset) =
        wrap32 (wrap32 (0 + wrap32 (2 * d.getD (s.nwrap + i - 0 - 1) 0)) +
          wrap32 (-1 * d.getD (s.nwrap + i - 1 - 1) 0)) := rfl
    rw [hp, Nat.sub_zero, show s.nwrap + i - 1 - 1 = s.nwrap + i - 2 by omega]
    generalize d.getD (s.nwrap + i - 1) 0 = x1
    generalize d.getD (s.nwrap + i - 2) 0 = x2
    unfold wrap32
    omega
  · have h2 := (decode_subframe_lpc_fixed s gb FN_DIFF3 channel residual_size coffset
      (by decide) hch).2.1
    have h := hpos _ i 1 h2 (by omega)
    have h' := hpos _ i 2 h2 (by omega)
    have h'' := hpos _ i 3 h2 (by omega)
    rw [(fixed_sample s gb FN_DIFF3 channel residual_size coffset (by decide) hch hlen hw).1 i hi]
    rw [show ((i : Int) - 1) = (i : Int) - ((1 : Nat) : Int) by rfl, h,
      show ((i : Int) - 2) = (i : Int) - ((2 : Nat) : Int) by rfl, h',
      show ((i : Int) - 3) = (i : Int) - ((3 : Nat) : Int) by rfl, h'']
    generalize (decode_subframe_lpc s gb FN_DIFF3 channel residual_size coffset).2.1.decoded_base.getD
      channel [] = d
    generalize (residuals residual_size s.blocksize gb).getD i 0 = r
    have hp : predict (fixed_coeffs.getD (FN_DIFF3.toNat - 1) []) d (s.nwrap + i) FN_DIFF3.toNat
        (if FN_DIFF3 ≠ 0 then 0 else coffset) =
        wrap32 (wrap32 (wrap32 (0 + wrap32 (3 * d.getD (s.nwrap + i - 0 - 1) 0)) +
          wrap32 (-3 * d.getD (s.nwrap + i - 1 - 1) 0)) +
          wrap32 (1 * d.getD (s.nwrap + i - 2 - 1) 0)) := rfl
    rw [hp, Nat.sub_zero, show s.nwrap + i - 1 - 1 = s.nwrap + i - 2 by omega,
      show s.nwrap + i - 2 - 1 = s.nwrap + i - 3 by omega]
    generalize d.getD (s.nwrap + i - 1) 0 = x1
    generalize d.getD (s.nwrap + i - 2) 0 = x2
    generalize d.getD (s.nwrap + i - 3) 0 = x3
    unfold wrap32
    omega

/-- Witness for C7: a history `5, 7, 12`, the residuals `0, -1, 1, 0` and the
order-2 predictor give the block `17, 21, 26, 31`; sample 2 is
`1 + 2·21 − 17 = 26`. -/
theorem fixed_predictors_witness :
    (0 < fixed_state.decoded_base.length ∧
      fixed_state.nwrap + fixed_state.blocksize ≤ (fixed_state.decoded_base.getD 0 []).length ∧
      3 ≤ fixed_state.nwrap ∧ 2 < fixed_state.blocksize) ∧
    residuals 1 4 fixed_reader = [0, -1, 1, 0] ∧
    (decode_subframe_lpc fixed_state fixed_reader FN_DIFF2 0 1 0).2.1.decoded_base =
      [[5, 7, 12, 17, 21, 26, 31]] ∧
    sample (decode_subframe_lpc fixed_state fixed_reader FN_DIFF2 0 1 0).2.1 0 ((2 : Nat) : Int) =
      wrap32 ((residuals 1 fixed_state.blocksize fixed_reader).getD 2 0 +
        2 * sample (decode_subframe_lpc fixed_state fixed_reader FN_DIFF2 0 1 0).2.1 0
          (((2 : Nat) : Int) - 1) -
        sample (decode_subframe_lpc fixed_state fixed_reader FN_DIFF2 0 1 0).2.1 0
          (((2 : Nat) : Int) - 2)) :=
  ⟨by decide, by decide, by decide,
   ((fixed_predictors fixed_state fixed_reader 0 1 0 (by decide) (by decide) (by decide)).2 2
     (by decide)).2.2.1⟩

/-- C8 (interleaving with saturation): for every channel count `n`, block size
`b` and per-channel buffers, `interleave_buffer` writes exactly `n·b` output
samples, and the sample at position `i·n + c` is `buffer[c][i]` clamped to the
signed 16-bit range: values outside it saturate to the nearest bound, values
inside it are kept. -/
theorem interleave_saturates (nchan blocksize : Nat) (buffer : List (List Int)) :
    (interleave_buffer nchan blocksize buffer).length = nchan * blocksize ∧
    ∀ i c : Nat, i < blocksize → c < nchan →
      (interleave_buffer nchan blocksize buffer)[i * nchan + c]? =
        some (max (-32768) (min 32767 ((buffer.getD c []).getD i 0))) ∧
      (interleave_buffer nchan blocksize buffer)[i * nchan + c]? =
        some (av_clip_int16 ((buffer.getD c []).getD i 0)) ∧
      -32768 ≤ av_clip_int16 ((buffer.getD c []).getD i 0) ∧
      av_clip_int16 ((buffer.getD c []).getD i 0) ≤ 32767 := by
  refine ⟨interleave_buffer_length nchan blocksize buffer, fun i c hi hc => ?_⟩
  have hclip : ∀ x : Int, av_clip_int16 x = max (-32768) (min 32767 x) := by
    intro x
    unfold av_clip_int16
    split
    · omega
    · split <;> omega
  have hget := interleave_buffer_get nchan blocksize buffer i c hi hc
  refine ⟨by rw [hget, hclip], hget, ?_, ?_⟩
  · rw [hclip]; omega
  · rw [hclip]; omega

/-- Witness for C8: two channels, block size 2; the samples 40000 and -40000
saturate to 32767 and -32768. -/
theorem interleave_saturates_witness :
    (0 < 2 ∧ 1 < 2) ∧
    interleave_buffer 2 2 [[40000, -5], [-40000, 7]] = [32767, -32768, -5, 7] ∧
    (interleave_buffer 2 2 [[40000, -5], [-40000, 7]])[0 * 2 + 1]? =
      some (max (-32768) (min 32767 (([[40000, -5], [-40000, 7]].getD 1 []).getD 0 0))) :=
  ⟨by decide, by decide,
   ((interleave_saturates 2 2 [[40000, -5], [-40000, 7]]).2 0 1 (by decide) (by decide)).1⟩

/-- C9, counterexample: with the header of `short_bitshift_stream` parsed, the
flush call runs a pass over the two pending bytes (16 bits) that moves the bit
cursor to bit 18, past the end of the buffer; the call does not fail: it
returns 0 and keeps the bit offset 2. -/
theorem overread_below_a_byte_undetected :
    (decode_pass (append_packet short_bitshift_state { data := none })
      (pass_reader (append_packet short_bitshift_state { data := none })) 0).map
      (fun r => (r.1, get_bits_count r.2.2)) = some (.finish false [], 18) ∧
    8 * (append_packet short_bitshift_state { data := none }).bitstream_size = 16 ∧
    (shorten_decode_frame short_bitshift_state { data := none }).map
      (fun r => (r.ret, r.ctx.bitindex)) = some (0, 2) := by
  decide

/-- C9, amended (overread detection counts whole bytes): whenever a decode pass
of `shorten_decode_frame` reaches `finish_frame` with a bit count whose whole
bytes (`get_bits_count / 8`) exceed the number of buffered bytes, the call
fails with `AVERROR_INVALIDDATA` and `bitstream_size` and `bitstream_index`
are both reset to 0; when they do not exceed it, the call returns a
non-negative count. -/
theorem overread_detected (s : ShortenContext) (avpkt : AVPacket) (got_frame : Bool)
    (frame : List Int) (t : ShortenContext) (gb : GetBitContext)
    (hpass : ¬ ((append_packet s avpkt).bitstream_size < (append_packet s avpkt).max_framesize ∧
      avpkt.data.isSome))
    (hd : decode_pass (append_packet s avpkt) (pass_reader (append_packet s avpkt)) avpkt.size =
      some (.finish got_frame frame, t, gb)) :
    ∃ r, shorten_decode_frame s avpkt = some r ∧
      (get_bits_count gb / 8 > (append_packet s avpkt).bitstream_size →
        r.ret = AVERROR_INVALIDDATA ∧ r.ctx.bitstream_size = 0 ∧ r.ctx.bitstream_index = 0) ∧
      (¬ get_bits_count gb / 8 > (append_packet s avpkt).bitstream_size → 0 ≤ r.ret) := by
  obtain ⟨_, _, f3, f4⟩ := finish_frame_spec t gb (append_packet s avpkt).bitstream_size
    (input_buf_size s avpkt) got_frame frame
  refine ⟨_, ?_, f3, f4⟩
  unfold shorten_decode_frame
  rw [if_neg hpass]
  exact run_pass_finish _ _ _ _ _ _ _ hd

set_option maxRecDepth 100000 in
/-- Witness for C9: with the header of `short_verbatim_stream` parsed, the flush
call runs a pass over three pending bytes that ends at bit 42, in the sixth
byte; the call fails and the buffer is reset. -/
theorem overread_detected_witness :
    ¬ ((append_packet short_verbatim_state { data := none }).bitstream_size <
        (append_packet short_verbatim_state { data := none }).max_framesize ∧
      (Option.isSome (none : Option (List Nat))) = true) ∧
    get_bits_count (pass_end (append_packet short_verbatim_state { data := none }) 0).2 / 8 >
      (append_packet short_verbatim_state { data := none }).bitstream_size ∧
    ∃ r, shorten_decode_frame short_verbatim_state { data := none } = some r ∧
      r.ret = AVERROR_INVALIDDATA ∧ r.ctx.bitstream_size = 0 ∧ r.ctx.bitstream_index = 0 :=
  ⟨by decide, by decide,
   (overread_detected short_verbatim_state { data := none } false []
     (pass_end (append_packet short_verbatim_state { data := none }) 0).1
     (pass_end (append_packet short_verbatim_state { data := none }) 0).2
     (by decide) (by decide)).imp (fun _ h => ⟨h.1, h.2.1 (by decide)⟩)⟩

/-- C10 (block size may only shrink): in every decoder context reachable after
a successful header parse, `1 ≤ blocksize ≤ 65535`; a successful `read_header`
leaves the block size 256 for version 0; no call on a context with the header
parsed makes the block size larger; and a `FN_BLOCKSIZE` command with decoded
value `v` sets the block size to `v` exactly when `1 ≤ v ≤ blocksize`, is
rejected with `AVERROR(EINVAL)` for `v = 0` and leaves the block size
unchanged in every other case. -/
theorem block_size_only_shrinks :
    (∀ s : ShortenContext, Reachable s → s.got_header = true →
      1 ≤ s.blocksize ∧ s.blocksize ≤ 65535) ∧
    (∀ (s : ShortenContext) (gb : GetBitContext) (r : Int × ShortenContext × GetBitContext),
      read_header s gb = some r → ¬ r.1 < 0 → r.2.1.version = 0 → r.2.1.blocksize = 256) ∧
    (∀ (s : ShortenContext) (avpkt : AVPacket) (r : DecodeResult), s.got_header = true →
      shorten_decode_frame s avpkt = some r →
      r.ctx.got_header = true ∧ r.ctx.blocksize ≤ s.blocksize) ∧
    (∀ (s : ShortenContext) (gb : GetBitContext), s.cur_chan < s.channels →
      ¬ get_bits_left gb < 3 + FNSIZE →
      to_int (get_ur_golomb_shorten gb FNSIZE).1 = FN_BLOCKSIZE →
      s.blocksize ≤ 65535 →
      (1 ≤ (get_uint s (get_ur_golomb_shorten gb FNSIZE).2 (av_log2 s.blocksize)).1 ∧
        (get_uint s (get_ur_golomb_shorten gb FNSIZE).2 (av_log2 s.blocksize)).1 ≤ s.blocksize →
        command_step s gb = .exit (.finish false [])
          { s with blocksize :=
              (get_uint s (get_ur_golomb_shorten gb FNSIZE).2 (av_log2 s.blocksize)).1 }
          (get_uint s (get_ur_golomb_shorten gb FNSIZE).2 (av_log2 s.blocksize)).2) ∧
      ((get_uint s (get_ur_golomb_shorten gb FNSIZE).2 (av_log2 s.blocksize)).1 = 0 →
        command_step s gb = .exit (.ret AVERROR_EINVAL) s
          (get_uint s (get_ur_golomb_shorten gb FNSIZE).2 (av_log2 s.blocksize)).2) ∧
      (¬ (1 ≤ (get_uint s (get_ur_golomb_shorten gb FNSIZE).2 (av_log2 s.blocksize)).1 ∧
          (get_uint s (get_ur_golomb_shorten gb FNSIZE).2 (av_log2 s.blocksize)).1 ≤ s.blocksize) →
        (command_step s gb).state.blocksize = s.blocksize)) := by
  refine ⟨reachable_blocksize, ?_, ?_, ?_⟩
  · intro s gb r h hn hv
    exact ((read_header_spec s gb r h).2.2.2 hn).2.2.2.2 hv
  · intro s avpkt r hh h
    obtain ⟨c1, c2, _⟩ := (decode_call_blocksize s avpkt r h).1 hh
    exact ⟨c1, c2⟩
  · intro s gb h1 h2 h3 hmax
    rw [command_step_blocksize s gb h1 h2 h3]
    unfold non_audio_command
    rw [if_neg (by decide), if_neg (by decide), if_pos rfl]
    dsimp only
    refine ⟨fun hv => ?_, fun hv => ?_, fun hv => ?_⟩
    · rw [if_neg (by omega), if_neg (by unfold MAX_BLOCKSIZE; omega)]
    · rw [hv, if_neg (by omega), if_pos (Or.inl rfl)]
    · split
      · rfl
      · split
        · rfl
        · next h4 h5 =>
          exfalso
          apply hv
          unfold MAX_BLOCKSIZE at h5
          omega

set_option maxRecDepth 100000 in
/-- Witness for C10: `blocksize_state` is reachable, has the header parsed and
the block size 256; the flush call on it reads `FN_BLOCKSIZE` with the value
4, which is between 1 and 256, and the block size becomes 4. -/
theorem block_size_only_shrinks_witness :
    Reachable blocksize_state ∧ blocksize_state.got_header = true ∧
    (1 ≤ blocksize_state.blocksize ∧ blocksize_state.blocksize ≤ 65535) ∧
    ((call_result blocksize_state { data := none }).ctx.got_header = true ∧
      (call_result blocksize_state { data := none }).ctx.blocksize ≤ blocksize_state.blocksize) ∧
    (get_uint blocksize_state (get_ur_golomb_shorten (pass_reader blocksize_state) FNSIZE).2
      (av_log2 blocksize_state.blocksize)).1 = 4 ∧
    (command_step blocksize_state (pass_reader blocksize_state)).state.blocksize = 4 :=
  have hr : Reachable blocksize_state :=
    Reachable.call _ { data := none } (call_result
      (call_result shorten_decode_init { data := some blocksize_stream }).ctx { data := none })
      (Reachable.call _ { data := some blocksize_stream }
        (call_result shorten_decode_init { data := some blocksize_stream })
        Reachable.init (by decide)) (by decide)
  ⟨hr, by decide, block_size_only_shrinks.1 blocksize_state hr (by decide),
   block_size_only_shrinks.2.2.1 blocksize_state { data := none }
     (call_result blocksize_state { data := none }) (by decide) (by decide),
   by decide,
   congrArg (fun x => x.state.blocksize)
     ((block_size_only_shrinks.2.2.2 blocksize_state (pass_reader blocksize_state)
       (by decide) (by decide) (by decide) (by decide)).1 (by decide))⟩

/-- C11 (growing the block size is unsupported): an iteration of the command
loop that reads `FN_BLOCKSIZE` with a decoded size larger than the current
block size returns `AVERROR_PATCHWELCOME` with the context unchanged; and for
every state with the header parsed (and no QUIT received), a call whose pass
reaches such a command after `n` other commands returns
`AVERROR_PATCHWELCOME`, produces no frame and leaves the block size as it was
before the call. -/
theorem blocksize_growth_unsupported :
    (∀ (s : ShortenContext) (gb : GetBitContext), s.cur_chan < s.channels →
      ¬ get_bits_left gb < 3 + FNSIZE →
      to_int (get_ur_golomb_shorten gb FNSIZE).1 = FN_BLOCKSIZE →
      (get_uint s (get_ur_golomb_shorten gb FNSIZE).2 (av_log2 s.blocksize)).1 > s.blocksize →
      command_step s gb = .exit (.ret AVERROR_PATCHWELCOME) s
        (get_uint s (get_ur_golomb_shorten gb FNSIZE).2 (av_log2 s.blocksize)).2) ∧
    (∀ (s : ShortenContext) (avpkt : AVPacket) (n : Nat) (t : ShortenContext)
      (g : GetBitContext), s.got_header = true → s.got_quit_command = false →
      ¬ ((append_packet s avpkt).bitstream_size < (append_packet s avpkt).max_framesize ∧
          avpkt.data.isSome) →
      loop_iter n { append_packet s avpkt with cur_chan := 0 }
        (pass_reader (append_packet s avpkt)) = some (t, g) →
      t.cur_chan < t.channels → ¬ get_bits_left g < 3 + FNSIZE →
      to_int (get_ur_golomb_shorten g FNSIZE).1 = FN_BLOCKSIZE →
      (get_uint t (get_ur_golomb_shorten g FNSIZE).2 (av_log2 t.blocksize)).1 > t.blocksize →
      ∃ r, shorten_decode_frame s avpkt = some r ∧ r.ret = AVERROR_PATCHWELCOME ∧
        r.got_frame = false ∧ r.frame = [] ∧ r.ctx = t ∧ r.ctx.blocksize = s.blocksize) := by
  have hstep : ∀ (s : ShortenContext) (gb : GetBitContext), s.cur_chan < s.channels →
      ¬ get_bits_left gb < 3 + FNSIZE →
      to_int (get_ur_golomb_shorten gb FNSIZE).1 = FN_BLOCKSIZE →
      (get_uint s (get_ur_golomb_shorten gb FNSIZE).2 (av_log2 s.blocksize)).1 > s.blocksize →
      command_step s gb = .exit (.ret AVERROR_PATCHWELCOME) s
        (get_uint s (get_ur_golomb_shorten gb FNSIZE).2 (av_log2 s.blocksize)).2 := by
    intro s gb h1 h2 h3 h4
    rw [command_step_blocksize s gb h1 h2 h3]
    unfold non_audio_command
    dsimp only
    rw [if_neg (by decide), if_neg (by decide), if_pos rfl, if_pos h4]
  refine ⟨hstep, ?_⟩
  intro s avpkt n t g hh hq hpass hn h1 h2 h3 h4
  have hA := append_packet_eq s avpkt
  have hh2 : (append_packet s avpkt).got_header = true := by rw [hA]; exact hh
  have hq2 : (append_packet s avpkt).got_quit_command = false := by rw [hA]; exact hq
  have hb : (append_packet s avpkt).blocksize = s.blocksize := by rw [hA]
  have hd := decode_pass_iter (append_packet s avpkt) t t (pass_reader (append_packet s avpkt)) g
    _ avpkt.size n _ hh2 hq2 hn (hstep t g h1 h2 h3 h4)
  refine ⟨{ ret := AVERROR_PATCHWELCOME, got_frame := false, frame := [], ctx := t },
    ?_, rfl, rfl, rfl, rfl, ?_⟩
  · unfold shorten_decode_frame
    rw [if_neg hpass]
    exact run_pass_ret _ _ _ _ _ _ hd
  · exact (loop_iter_fields n _ t _ g hn).1.trans hb

set_option maxRecDepth 100000 in
/-- Witness for C11: with the header of `growing_blocksize_stream` parsed (block
size 256), the flush call reads `FN_BITSHIFT` and then `FN_BLOCKSIZE` with the
size 512; it returns `AVERROR_PATCHWELCOME`, no frame, and the block size is
still 256. -/
theorem blocksize_growth_unsupported_witness :
    (growing_blocksize_state.got_header = true ∧
      growing_blocksize_state.got_quit_command = false ∧
      growing_blocksize_state.blocksize = 256) ∧
    (get_uint growing_blocksize_state
      (get_ur_golomb_shorten (pass_end_iter growing_blocksize_state 1).2 FNSIZE).2
      (av_log2 256)).1 = 512 ∧
    ∃ r, shorten_decode_frame growing_blocksize_state { data := none } = some r ∧
      r.ret = AVERROR_PATCHWELCOME ∧ r.got_frame = false ∧ r.frame = [] ∧
      r.ctx = (pass_end_iter growing_blocksize_state 1).1 ∧ r.ctx.blocksize = 256 :=
  ⟨by decide, by decide,
   blocksize_growth_unsupported.2 growing_blocksize_state { data := none } 1
     (pass_end_iter growing_blocksize_state 1).1 (pass_end_iter growing_blocksize_state 1).2
     (by decide) (by decide) (by decide) (by decide) (by decide) (by decide) (by decide)
     (by decide)⟩

/-- C12 (channel-count validation): for every context and every stream with
the correct magic, if the channel count decoded by `read_header` is 0 or
greater than 8, `read_header` returns `AVERROR_INVALIDDATA` with the reader
right behind the channel count (nothing else is read), the channel count of
the context set to 0 and `got_header` as it was; if the count is between 1 and
8, the channel check passes with `channels` and `avctx->channels` set to it,
and whenever `read_header` returns, `channels` is that count. -/
theorem channel_count_validated (s : ShortenContext) (gb : GetBitContext)
    (hm : (get_bits gb 32).1 = 0x616A6B67) :
    ((read_channel_count s gb).1 = 0 ∨ (read_channel_count s gb).1 > 8 →
      ∃ t, read_header s gb = some (AVERROR_INVALIDDATA, t, (read_channel_count s gb).2) ∧
        t.channels = 0 ∧ t.got_header = s.got_header) ∧
    (1 ≤ (read_channel_count s gb).1 ∧ (read_channel_count s gb).1 ≤ 8 →
      (∃ t, read_header_channels s gb = .ok (t, (read_channel_count s gb).2) ∧
        t.channels = (read_channel_count s gb).1 ∧
        t.avctx.channels = (read_channel_count s gb).1) ∧
      ∀ r, read_header s gb = some r → r.2.1.channels = (read_channel_count s gb).1) := by
  obtain ⟨h1, h2⟩ := read_header_channels_count s gb hm
  constructor
  · intro h
    obtain ⟨t, ht, hc, hg⟩ := h1 h
    refine ⟨t, ?_, hc, hg⟩
    unfold read_header
    rw [ht]
  · intro h
    have hn : ¬ ((read_channel_count s gb).1 = 0 ∨ (read_channel_count s gb).1 > MAX_CHANNELS) := by
      unfold MAX_CHANNELS; omega
    obtain ⟨t, ht, hc, ha⟩ := h2 hn
    refine ⟨⟨t, ht, hc, ha⟩, ?_⟩
    intro r hr
    unfold read_header at hr
    rw [ht] at hr
    dsimp only at hr
    split at hr
    · cases hr; exact hc
    · next p hp =>
      exact (read_header_buffers_channels _ _ _ _ hr).trans
        ((read_header_blocksize_channels _ _ _ hp).trans hc)

/-- Witness for C12 (Scenario D): a header that declares nine channels;
`read_header` fails with `AVERROR_INVALIDDATA` at bit 55, right behind the
channel count, and the channel count of the context is 0; so does the flush
call of `shorten_decode_frame` that parses this header. -/
theorem channel_count_validated_witness :
    (decode_calls shorten_decode_init
        [{ data := some nine_channel_stream }, { data := none }]).map
      (fun rs => rs.map (fun r => (r.ret, r.got_frame, r.ctx.channels))) =
      some [(7, false, 0), (AVERROR_INVALIDDATA, false, 0)] ∧
    (get_bits (init_get_bits nine_channel_stream 56) 32).1 = 0x616A6B67 ∧
    (read_channel_count shorten_decode_init (init_get_bits nine_channel_stream 56)).1 = 9 ∧
    (read_channel_count shorten_decode_init (init_get_bits nine_channel_stream 56)).2.index = 55 ∧
    ∃ t, read_header shorten_decode_init (init_get_bits nine_channel_stream 56) =
        some (AVERROR_INVALIDDATA, t,
          (read_channel_count shorten_decode_init (init_get_bits nine_channel_stream 56)).2) ∧
      t.channels = 0 ∧ t.got_header = shorten_decode_init.got_header :=
  ⟨by decide, by decide, by decide, by decide,
   (channel_count_validated shorten_decode_init (init_get_bits nine_channel_stream 56)
     (by decide)).1 (Or.inr (by decide))⟩

/-- C13 (header blob size bounds): when `read_header` has read the stream
parameters and reaches the verbatim check with the context `s` and the reader
`gb`, it succeeds only if the next command is `FN_VERBATIM` (9) and the decoded
byte count `h` satisfies `44 ≤ h < 16384`, and then `header_size = h` with `h`
header bytes stored; for every other command id and for every `h` outside
`[44, 16384)` it returns `AVERROR_INVALIDDATA` and `got_header` stays as it
was. -/
theorem header_blob_size_bounds (s0 s : ShortenContext) (gb0 gb : GetBitContext)
    (he : verbatim_entry s0 gb0 = some (s, gb)) :
    (∀ r, read_header s0 gb0 = some r → ¬ r.1 < 0 →
      verbatim_command gb = 9 ∧ 44 ≤ verbatim_size gb ∧ verbatim_size gb < 16384 ∧
      r.2.1.header_size = verbatim_size gb ∧ r.2.1.header.length = (verbatim_size gb).toNat ∧
      r.2.1.got_header = true) ∧
    (verbatim_command gb ≠ 9 ∨ verbatim_size gb < 44 ∨ 16384 ≤ verbatim_size gb →
      ∃ t g, read_header s0 gb0 = some (AVERROR_INVALIDDATA, t, g) ∧
        t.got_header = s0.got_header) := by
  obtain ⟨h1, h2⟩ := read_header_entry s0 s gb0 gb he
  obtain ⟨c1, c2, c3⟩ := read_header_verbatim_checks s gb
  rw [h1]
  constructor
  · intro r hr hn
    obtain ⟨a1, a2, a3, a4, a5, a6⟩ := c3 r hr hn
    exact ⟨a1, a2, a3, a4, a6, a5⟩
  · intro h
    by_cases hc : verbatim_command gb = 9
    · exact ⟨_, _, c2 hc (h.resolve_left (not_not.mpr hc)), h2⟩
    · exact ⟨_, _, c1 hc, h2⟩

set_option maxRecDepth 100000 in
/-- Witness for C13: the stream parameters of Scenario A followed by
`FN_VERBATIM` with the byte count 43; `read_header` reaches the verbatim check
at bit 78 and fails with `AVERROR_INVALIDDATA`. -/
theorem header_blob_size_bounds_witness :
    (verbatim_entry shorten_decode_init (init_get_bits short_header_stream 96)).map
      (fun e => e.2.index) = some 78 ∧
    verbatim_command (entry_reader short_header_stream) = 9 ∧
    verbatim_size (entry_reader short_header_stream) = 43 ∧
    ∃ t g, read_header shorten_decode_init (init_get_bits short_header_stream 96) =
        some (AVERROR_INVALIDDATA, t, g) ∧
      t.got_header = shorten_decode_init.got_header :=
  ⟨by decide, by decide, by decide,
   (header_blob_size_bounds shorten_decode_init (entry_state short_header_stream)
     (init_get_bits short_header_stream 96) (entry_reader short_header_stream)
     (by decide)).2 (Or.inr (Or.inl (by decide)))⟩

/-- C14, counterexample: `long_fmt_header` has the canonical layout ("RIFF",
"WAVE", "fmt ", format code 1, sample rate 44100, 16 bits per sample) and the
little-endian length `0x80000000` of the `fmt ` sub-chunk, which is at least
16; `decode_wave_header` stores the length in an `int`, where it is negative,
and returns `AVERROR_INVALIDDATA`. -/
theorem long_fmt_length_rejected :
    (le_value long_fmt_header 0 4 = MKTAG 'R' 'I' 'F' 'F' ∧
      le_value long_fmt_header 8 4 = MKTAG 'W' 'A' 'V' 'E' ∧
      le_value long_fmt_header 12 4 = MKTAG 'f' 'm' 't' ' ') ∧
    (long_fmt_header.length = 44 ∧ 16 ≤ le_value long_fmt_header 16 4 ∧
      le_value long_fmt_header 20 2 = 1 ∧ le_value long_fmt_header 24 4 = 44100 ∧
      le_value long_fmt_header 34 2 = 16) ∧
    decode_wave_header avctx_init long_fmt_header 44 = some (AVERROR_INVALIDDATA, avctx_init) := by
  decide

/-- C14, amended (canonical WAV header parse): for every header blob of at
least 44 bytes (36 are enough) whose bytes are "RIFF", 4 arbitrary bytes,
"WAVE", "fmt ", a little-endian length `L` with `16 ≤ L < 2^31`, format code
1, 2 arbitrary bytes, a little-endian 32-bit sample rate `R`, 6 arbitrary bytes
and little-endian bits-per-sample 16, `decode_wave_header` returns 0 and sets
`bits_per_coded_sample = 16` and `sample_rate` to `R` read as a signed 32-bit
number: `R` itself when `R < 2^31`, and `R − 2^32` otherwise. -/
theorem canonical_wave_header (avctx : AVCodecContext) (header : List Nat)
    (header_size : Nat) (hs : 36 ≤ header_size) (hl : header_size ≤ header.length)
    (hriff : le_value header 0 4 = MKTAG 'R' 'I' 'F' 'F')
    (hwave : le_value header 8 4 = MKTAG 'W' 'A' 'V' 'E')
    (hfmt : le_value header 12 4 = MKTAG 'f' 'm' 't' ' ')
    (hlen : 16 ≤ le_value header 16 4) (hlen2 : le_value header 16 4 < 2147483648)
    (hpcm : le_value header 20 2 = 1) (hbits : le_value header 34 2 = 16) :
    decode_wave_header avctx header header_size =
      some (0, { avctx with sample_rate := to_int (le_value header 24 4),
                            bits_per_coded_sample := 16 }) ∧
    (le_value header 24 4 < 2147483648 →
      to_int (le_value header 24 4) = (le_value header 24 4 : Nat)) ∧
    (2147483648 ≤ le_value header 24 4 →
      to_int (le_value header 24 4) = (le_value header 24 4 : Nat) - 4294967296) := by
  have hR : le_value header 24 4 < 4294967296 := by
    unfold le_value le_value le_value le_value le_value
    omega
  refine ⟨?_, fun h => ?_, fun h => ?_⟩
  · rw [decode_wave_header_canonical avctx header header_size hs hl hriff hwave hfmt]
    have h1 : ¬ to_int (le_value header 16 4) < 16 := by
      unfold to_int
      rw [Nat.mod_eq_of_lt (by omega), if_pos hlen2]
      omega
    rw [if_neg h1, hpcm, hbits, if_neg (by decide), if_neg (by decide)]
    rfl
  · unfold to_int
    rw [Nat.mod_eq_of_lt hR, if_pos h]
  · unfold to_int
    rw [Nat.mod_eq_of_lt hR, if_neg (by omega)]

/-- Witness for C14: the canonical 44-byte header of the concrete streams; the
sample rate is 44100. -/
theorem canonical_wave_header_witness :
    (36 ≤ 44 ∧ 44 ≤ canonical_header.length ∧ le_value canonical_header 16 4 = 16 ∧
      le_value canonical_header 24 4 = 44100) ∧
    decode_wave_header avctx_init canonical_header 44 =
      some (0, { avctx_init with sample_rate := to_int (le_value canonical_header 24 4),
                                 bits_per_coded_sample := 16 }) ∧
    decode_wave_header avctx_init canonical_header 44 =
      some (0, { channels := 1, sample_rate := 44100, bits_per_coded_sample := 16 }) :=
  ⟨by decide,
   (canonical_wave_header avctx_init canonical_header 44 (by decide) (by decide) (by decide)
     (by decide) (by decide) (by decide) (by decide) (by decide) (by decide)).1,
   by decide⟩

/-- C15 (WAV header rejection): for every header blob, `decode_wave_header`
returns `AVERROR_INVALIDDATA` when the first four bytes are not "RIFF" and when
the bytes 8 to 11 are not "WAVE" (a blob too short to hold the tag included);
with the `fmt ` sub-chunk found by the scan, it returns an error when the
length of the sub-chunk is below 16 (`AVERROR_INVALIDDATA`), when the format
code is not 1 or when the bits per sample are not 16 (`AVERROR(ENOSYS)`); and
whenever it returns without an error, it returns 0, both tags are there, the
scan has found the sub-chunk, its length is at least 16, its format code is 1
and its bits per sample are 16. -/
theorem wave_header_rejected (avctx : AVCodecContext) (header : List Nat) (header_size : Nat)
    (hl : header_size ≤ header.length) :
    (header_size < 4 ∨ le_value header 0 4 ≠ MKTAG 'R' 'I' 'F' 'F' →
      decode_wave_header avctx header header_size = some (AVERROR_INVALIDDATA, avctx)) ∧
    (header_size < 12 ∨ le_value header 8 4 ≠ MKTAG 'W' 'A' 'V' 'E' →
      decode_wave_header avctx header header_size = some (AVERROR_INVALIDDATA, avctx)) ∧
    (∀ g, fmt_chunk header header_size = some g →
      fmt_length g < 16 ∨ fmt_format g ≠ 1 ∨ fmt_bits g ≠ 16 →
      ∃ r, decode_wave_header avctx header header_size = some r ∧ r.1 < 0 ∧
        (r.1 = AVERROR_INVALIDDATA ∨ r.1 = AVERROR_ENOSYS)) ∧
    (∀ r, decode_wave_header avctx header header_size = some r → ¬ r.1 < 0 →
      r.1 = 0 ∧ 12 ≤ header_size ∧ le_value header 0 4 = MKTAG 'R' 'I' 'F' 'F' ∧
      le_value header 8 4 = MKTAG 'W' 'A' 'V' 'E' ∧
      ∃ g, fmt_chunk header header_size = some g ∧ 16 ≤ fmt_length g ∧ fmt_format g = 1 ∧
        fmt_bits g = 16 ∧ r.2.bits_per_coded_sample = 16) := by
  have hc := decode_wave_header_checks avctx header header_size
  have hr := riff_tag_value header header_size hl
  have hI : AVERROR_INVALIDDATA < 0 := by decide
  have hE : AVERROR_ENOSYS < 0 := by decide
  refine ⟨fun h => ?_, fun h => ?_, fun g hg h => ?_, fun r hret hn => ?_⟩
  · rw [hc, hr, if_pos]
    by_cases h4 : 4 ≤ header_size
    · rw [if_pos h4]; exact h.resolve_left (by omega)
    · rw [if_neg h4]; decide
  · rw [hc]
    split
    · rfl
    · next h1 =>
      have h4 : 4 ≤ header_size := by
        by_contra h4
        rw [hr, if_neg h4] at h1
        exact h1 (by decide)
      rw [wave_tag_value header header_size hl h4, if_pos]
      by_cases h12 : 12 ≤ header_size
      · rw [if_pos h12]; exact h.resolve_left (by omega)
      · rw [if_neg h12]; decide
  · rw [hc]
    split
    · exact ⟨_, rfl, hI, Or.inl rfl⟩
    · split
      · exact ⟨_, rfl, hI, Or.inl rfl⟩
      · rw [hg]
        dsimp only
        split
        · exact ⟨_, rfl, hI, Or.inl rfl⟩
        · next h1 =>
          split
          · exact ⟨_, rfl, hE, Or.inr rfl⟩
          · next h2 =>
            have h3 : ((fmt_bits g : Nat) : Int) ≠ 16 := by
              have := (h.resolve_left h1).resolve_left (by
                unfold WAVE_FORMAT_PCM at h2; exact h2)
              omega
            rw [if_pos h3]
            exact ⟨_, rfl, hE, Or.inr rfl⟩
  · rw [hc] at hret
    split at hret
    · cases hret; exact absurd hI hn
    · next h1 =>
      have h4 : 4 ≤ header_size := by
        by_contra h4
        rw [hr, if_neg h4] at h1
        exact h1 (by decide)
      rw [hr, if_pos h4] at h1
      split at hret
      · cases hret; exact absurd hI hn
      · next h2 =>
        have hw := wave_tag_value header header_size hl h4
        have h12 : 12 ≤ header_size := by
          by_contra h12
          rw [hw, if_neg h12] at h2
          exact h2 (by decide)
        rw [hw, if_pos h12] at h2
        cases hg : fmt_chunk header header_size with
        | none => rw [hg] at hret; exact Option.noConfusion hret
        | some g =>
          rw [hg] at hret
          dsimp only at hret
          split at hret
          · cases hret; exact absurd hI hn
          · next h3 =>
            split at hret
            · cases hret; exact absurd hE hn
            · next h4 =>
              split at hret
              · cases hret; exact absurd hE hn
              · next h5 =>
                cases hret
                refine ⟨rfl, h12, not_not.mp h1, not_not.mp h2, g, rfl, by omega,
                  not_not.mp h4, by omega, ?_⟩
                dsimp only
                omega

/-- Witness for C15: the canonical header with the first tag changed to "RIFX"
is rejected with `AVERROR_INVALIDDATA`; the canonical header with 8 bits per
sample, whose `fmt ` sub-chunk is found at byte 16, is rejected with
`AVERROR(ENOSYS)`. -/
theorem wave_header_rejected_witness :
    (44 ≤ bad_riff_header.length ∧ le_value bad_riff_header 0 4 ≠ MKTAG 'R' 'I' 'F' 'F') ∧
    decode_wave_header avctx_init bad_riff_header 44 = some (AVERROR_INVALIDDATA, avctx_init) ∧
    (fmt_chunk eight_bit_header 44 = some { buffer := eight_bit_header, pos := 16 } ∧
      fmt_bits { buffer := eight_bit_header, pos := 16 } = 8) ∧
    (decode_wave_header avctx_init eight_bit_header 44).map (fun r => r.1) =
      some AVERROR_ENOSYS ∧
    ∃ r, decode_wave_header avctx_init eight_bit_header 44 = some r ∧ r.1 < 0 ∧
      (r.1 = AVERROR_INVALIDDATA ∨ r.1 = AVERROR_ENOSYS) :=
  ⟨by decide,
   (wave_header_rejected avctx_init bad_riff_header 44 (by decide)).1 (Or.inr (by decide)),
   by decide, by decide,
   (wave_header_rejected avctx_init eight_bit_header 44 (by decide)).2.2.1
     { buffer := eight_bit_header, pos := 16 } (by decide) (Or.inr (Or.inr (by decide)))⟩

/-- C16 (QLPC order validation): for every state, channel and bit stream, when
the prediction order decoded for a `FN_QLPC` command exceeds `nwrap`,
`decode_subframe_lpc` returns `AVERROR(EINVAL)` with the reader right behind the
order (no coefficient has been read) and the context unchanged (no decoded
sample, history sample or coefficient is modified); for every order that does
not exceed `nwrap` the check passes: the coefficients are read and the function
returns 0. -/
theorem qlpc_order_validated (s : ShortenContext) (gb : GetBitContext) (channel : Nat)
    (residual_size coffset : Int) :
    (to_int (get_ur_golomb_shorten gb LPCQSIZE).1 > s.nwrap →
      decode_subframe_lpc s gb FN_QLPC channel residual_size coffset =
        (AVERROR_EINVAL, s, (get_ur_golomb_shorten gb LPCQSIZE).2)) ∧
    (to_int (get_ur_golomb_shorten gb LPCQSIZE).1 ≤ s.nwrap →
      (decode_subframe_lpc s gb FN_QLPC channel residual_size coffset).1 = 0 ∧
      (decode_subframe_lpc s gb FN_QLPC channel residual_size coffset).2.1.coeffs =
        (read_coeffs (to_int (get_ur_golomb_shorten gb LPCQSIZE).1).toNat 0 s.coeffs
          (get_ur_golomb_shorten gb LPCQSIZE).2).1) := by
  constructor
  · intro h
    unfold decode_subframe_lpc
    dsimp only
    rw [if_pos rfl, if_pos h]
  · intro h
    unfold decode_subframe_lpc
    dsimp only
    rw [if_pos rfl, if_neg (not_lt.mpr h)]
    exact ⟨rfl, rfl⟩

/-- Witness for C16: the order 5 with `nwrap = 3`; the function returns
`AVERROR(EINVAL)` with the reader at bit 4 and the context as it was. -/
theorem qlpc_order_validated_witness :
    (to_int (get_ur_golomb_shorten order_five_reader LPCQSIZE).1 = 5 ∧ fixed_state.nwrap = 3 ∧
      (get_ur_golomb_shorten order_five_reader LPCQSIZE).2.index = 4) ∧
    decode_subframe_lpc fixed_state order_five_reader FN_QLPC 0 1 0 =
      (AVERROR_EINVAL, fixed_state, (get_ur_golomb_shorten order_five_reader LPCQSIZE).2) :=
  ⟨by decide, (qlpc_order_validated fixed_state order_five_reader 0 1 0).1 (by decide)⟩

/-- C17 (ZERO command): for every state (whatever the bit shift and the mean
history are), the audio branch for `FN_ZERO` reads nothing from the stream (no
Rice parameter, no residual), succeeds, and leaves all `blocksize` samples of
the current channel at 0 after the bit shift correction; when
`blocksize ≥ nwrap` the `nwrap` history samples carried over to the next block
are 0 as well.  With one channel, a call whose pass reaches a `FN_ZERO` command
(after `n` commands that are not audio commands) outputs a frame of
`blocksize` zero samples. -/
theorem zero_command :
    (∀ (s : ShortenContext) (gb : GetBitContext), s.cur_chan < s.decoded_base.length →
      (audio_command s gb FN_ZERO).1 = 0 ∧ (audio_command s gb FN_ZERO).2.2 = gb ∧
      (audio_command s gb FN_ZERO).2.1.cur_chan = s.cur_chan + 1 ∧
      (∀ i : Nat, i < s.blocksize →
        sample (audio_command s gb FN_ZERO).2.1 s.cur_chan i = 0) ∧
      (s.nwrap ≤ s.blocksize → ∀ j : Int, -(s.nwrap : Int) ≤ j → j < 0 →
        sample (audio_command s gb FN_ZERO).2.1 s.cur_chan j = 0)) ∧
    (∀ (s : ShortenContext) (avpkt : AVPacket) (n : Nat) (t : ShortenContext)
      (g : GetBitContext), s.got_header = true → s.got_quit_command = false →
      ¬ ((append_packet s avpkt).bitstream_size < (append_packet s avpkt).max_framesize ∧
          avpkt.data.isSome) →
      loop_iter n { append_packet s avpkt with cur_chan := 0 }
        (pass_reader (append_packet s avpkt)) = some (t, g) →
      t.channels = 1 → t.cur_chan < t.channels → t.cur_chan < t.decoded_base.length →
      ¬ get_bits_left g < 3 + FNSIZE →
      to_int (get_ur_golomb_shorten g FNSIZE).1 = FN_ZERO →
      ∃ r, shorten_decode_frame s avpkt = some r ∧ r.got_frame = true ∧
        r.frame = List.replicate s.blocksize 0) := by
  constructor
  · intro s gb hch
    obtain ⟨a1, a2, a3, a4, a5, a6, a7, a8⟩ := audio_command_zero s gb hch
    refine ⟨a1, a2, a3, fun i hi => ?_, fun hw j hj1 hj2 => ?_⟩
    · unfold sample
      rw [a4]
      exact a7 _ (by omega) (by omega)
    · unfold sample
      rw [a4]
      exact a8 hw _ (by omega)
  · intro s avpkt n t g hh hq hpass hn hc1 hcur hbase hleft hcmd
    have hA := append_packet_eq s avpkt
    have hh2 : (append_packet s avpkt).got_header = true := by rw [hA]; exact hh
    have hq2 : (append_packet s avpkt).got_quit_command = false := by rw [hA]; exact hq
    have hb : (append_packet s avpkt).blocksize = s.blocksize := by rw [hA]
    have hbt : t.blocksize = s.blocksize := (loop_iter_fields n _ t _ g hn).1.trans hb
    obtain ⟨a1, a2, a3, a4, a5, a6, a7, a8⟩ :=
      audio_command_zero t (get_ur_golomb_shorten g FNSIZE).2 hbase
    have h0 : t.cur_chan = 0 := by omega
    have hstep : command_step t g = .exit (.finish true (List.replicate s.blocksize 0))
        (audio_command t (get_ur_golomb_shorten g FNSIZE).2 FN_ZERO).2.1
        (audio_command t (get_ur_golomb_shorten g FNSIZE).2 FN_ZERO).2.2 := by
      rw [command_step_zero t g hcur hleft hcmd]
      unfold audio_step
      dsimp only
      rw [if_neg (by rw [a1]; exact lt_irrefl _), if_pos (by rw [a3, a6]; omega), a6, a5, hc1,
        interleave_zero, hbt]
      intro i hi
      rw [decoded_getD, a4, ← h0]
      exact a7 _ (by omega) (by omega)
    have hd := decode_pass_iter (append_packet s avpkt) t _ (pass_reader (append_packet s avpkt))
      g _ avpkt.size n _ hh2 hq2 hn hstep
    refine ⟨finish_frame (audio_command t (get_ur_golomb_shorten g FNSIZE).2 FN_ZERO).2.1
      (audio_command t (get_ur_golomb_shorten g FNSIZE).2 FN_ZERO).2.2
      (append_packet s avpkt).bitstream_size (input_buf_size s avpkt) true
      (List.replicate s.blocksize 0), ?_, ?_, ?_⟩
    · unfold shorten_decode_frame
      rw [if_neg hpass]
      exact run_pass_finish _ _ _ _ _ _ _ hd
    · exact (finish_frame_spec _ _ _ _ _ _).1
    · exact (finish_frame_spec _ _ _ _ _ _).2.1

set_option maxRecDepth 100000 in
/-- Witness for C17 (Scenario B): one channel, block size 4, one `FN_ZERO`
command; the flush call on the context with the header parsed outputs a frame
of 4 zero samples, and the audio branch leaves the reader where it was. -/
theorem zero_command_witness :
    (scenario_b_state.got_header = true ∧ scenario_b_state.channels = 1 ∧
      scenario_b_state.blocksize = 4) ∧
    (shorten_decode_frame scenario_b_state { data := none }).map
      (fun r => (r.got_frame, r.frame)) = some (true, [0, 0, 0, 0]) ∧
    (∃ r, shorten_decode_frame scenario_b_state { data := none } = some r ∧
      r.got_frame = true ∧ r.frame = List.replicate scenario_b_state.blocksize 0) ∧
    (audio_command scenario_b_state (pass_reader scenario_b_state) FN_ZERO).2.2 =
      pass_reader scenario_b_state :=
  ⟨by decide, by decide,
   zero_command.2 scenario_b_state { data := none } 0
     (pass_end_iter scenario_b_state 0).1 (pass_end_iter scenario_b_state 0).2
     (by decide) (by decide) (by decide) (by decide) (by decide) (by decide) (by decide)
     (by decide) (by decide),
   (zero_command.1 scenario_b_state (pass_reader scenario_b_state) (by decide)).2.1⟩

/-- C18 (frame production): a call of `shorten_decode_frame` that returns
reports a frame if and only if it ran a decode pass over a parsed header, with
no QUIT received, whose command loop ended with `cur_chan = channels` (an audio
command was decoded for every channel); the frame then is the interleaving of
the channel blocks, exactly `blocksize × channels` samples, each in the signed
16-bit range, and without a frame no samples are output.  A call on a context
with the header parsed always returns.  A call whose pass, after `n` commands,
finds fewer than 5 bits before the next command, or reads `FN_BLOCKSIZE` or
`FN_QUIT`, produces no frame. -/
theorem frame_production :
    (∀ (s : ShortenContext) (avpkt : AVPacket) (r : DecodeResult),
      shorten_decode_frame s avpkt = some r →
      (r.got_frame = true ↔
        (s.got_header = true ∧ s.got_quit_command = false ∧
          ¬ ((append_packet s avpkt).bitstream_size < (append_packet s avpkt).max_framesize ∧
              avpkt.data.isSome) ∧
          r.ctx.cur_chan = r.ctx.channels ∧ 0 < r.ctx.channels)) ∧
      (r.got_frame = true →
        r.frame = interleave_buffer r.ctx.channels r.ctx.blocksize (decoded r.ctx) ∧
        r.frame.length = r.ctx.blocksize * r.ctx.channels ∧
        ∀ x ∈ r.frame, -32768 ≤ x ∧ x ≤ 32767) ∧
      (r.got_frame = false → r.frame = [])) ∧
    (∀ (s : ShortenContext) (avpkt : AVPacket), s.got_header = true →
      ∃ r, shorten_decode_frame s avpkt = some r) ∧
    (∀ (s : ShortenContext) (avpkt : AVPacket) (n : Nat) (t : ShortenContext)
      (g : GetBitContext), s.got_header = true → s.got_quit_command = false →
      ¬ ((append_packet s avpkt).bitstream_size < (append_packet s avpkt).max_framesize ∧
          avpkt.data.isSome) →
      loop_iter n { append_packet s avpkt with cur_chan := 0 }
        (pass_reader (append_packet s avpkt)) = some (t, g) →
      t.cur_chan < t.channels →
      (get_bits_left g < 3 + FNSIZE ∨
        to_int (get_ur_golomb_shorten g FNSIZE).1 = FN_BLOCKSIZE ∨
        to_int (get_ur_golomb_shorten g FNSIZE).1 = FN_QUIT) →
      ∃ r, shorten_decode_frame s avpkt = some r ∧ r.got_frame = false ∧ r.frame = []) := by
  refine ⟨fun s avpkt r hr => ?_, decode_frame_total, ?_⟩
  · rcases decode_frame_cases s avpkt r hr with ⟨h1, h2, h3, h4, h5, h6, h7⟩ | ⟨h1, h2, h3⟩
    · refine ⟨⟨fun _ => ⟨h2, h3, h4, h5, h6⟩, fun _ => h1⟩, fun _ => ⟨h7, ?_, ?_⟩,
        fun h => absurd h1 (by rw [h]; exact Bool.false_ne_true)⟩
      · rw [h7, interleave_buffer_length, Nat.mul_comm]
      · intro x hx
        rw [h7] at hx
        exact interleave_buffer_range _ _ _ x hx
    · refine ⟨⟨fun h => absurd h (by rw [h1]; exact Bool.false_ne_true),
        fun h => absurd h.2.2.2 (h3 h.1 h.2.1 h.2.2.1)⟩,
        fun h => absurd h (by rw [h1]; exact Bool.false_ne_true), fun _ => h2⟩
  · intro s avpkt n t g hh hq hpass hn hc hcmd
    have hA := append_packet_eq s avpkt
    have hh2 : (append_packet s avpkt).got_header = true := by rw [hA]; exact hh
    have hq2 : (append_packet s avpkt).got_quit_command = false := by rw [hA]; exact hq
    obtain ⟨e, u, g2, hstep, he⟩ := command_step_suspends t g hc hcmd
    have hd := decode_pass_iter (append_packet s avpkt) t u (pass_reader (append_packet s avpkt))
      g g2 avpkt.size n e hh2 hq2 hn hstep
    rcases he with he | ⟨code, he⟩
    · rw [he] at hd
      refine ⟨finish_frame u g2 (append_packet s avpkt).bitstream_size (input_buf_size s avpkt)
        false [], ?_, (finish_frame_spec _ _ _ _ _ _).1, (finish_frame_spec _ _ _ _ _ _).2.1⟩
      unfold shorten_decode_frame
      rw [if_neg hpass]
      exact run_pass_finish _ _ _ _ _ _ _ hd
    · rw [he] at hd
      refine ⟨{ ret := code, got_frame := false, frame := [], ctx := u }, ?_, rfl, rfl⟩
      unfold shorten_decode_frame
      rw [if_neg hpass]
      exact run_pass_ret _ _ _ _ _ _ hd

set_option maxRecDepth 100000 in
/-- Witness for C18: the flush call on `scenario_b_state` (one channel, one
`FN_ZERO` command pending) reports a frame of `4 × 1` samples and ends with
`cur_chan = channels = 1`; the flush call on `blocksize_state`, whose pass
reads `FN_BLOCKSIZE`, reports no frame. -/
theorem frame_production_witness :
    ((call_result scenario_b_state { data := none }).got_frame = true ∧
      (call_result scenario_b_state { data := none }).ctx.cur_chan = 1 ∧
      (call_result scenario_b_state { data := none }).ctx.channels = 1 ∧
      (call_result scenario_b_state { data := none }).frame = [0, 0, 0, 0]) ∧
    ((call_result scenario_b_state { data := none }).got_frame = true ↔
      (scenario_b_state.got_header = true ∧ scenario_b_state.got_quit_command = false ∧
        ¬ ((append_packet scenario_b_state { data := none }).bitstream_size <
            (append_packet scenario_b_state { data := none }).max_framesize ∧
          (Option.isSome (none : Option (List Nat))) = true) ∧
        (call_result scenario_b_state { data := none }).ctx.cur_chan =
          (call_result scenario_b_state { data := none }).ctx.channels ∧
        0 < (call_result scenario_b_state { data := none }).ctx.channels)) ∧
    (to_int (get_ur_golomb_shorten (pass_end_iter blocksize_state 0).2 FNSIZE).1 = FN_BLOCKSIZE ∧
      ∃ r, shorten_decode_frame blocksize_state { data := none } = some r ∧
        r.got_frame = false ∧ r.frame = []) :=
  ⟨by decide,
   (frame_production.1 scenario_b_state { data := none }
     (call_result scenario_b_state { data := none }) (by decide)).1,
   by decide,
   frame_production.2.2 blocksize_state { data := none } 0
     (pass_end_iter blocksize_state 0).1 (pass_end_iter blocksize_state 0).2
     (by decide) (by decide) (by decide) (by decide) (by decide) (Or.inr (Or.inl (by decide)))⟩

/-- C19 (signed Rice decode): for every parameter `k` and every bit stream,
`get_sr_golomb_shorten` returns `fold(u)` for the unsigned value `u` read with
the parameter `k`, and leaves the reader where the unsigned read leaves it;
`u = q·2^k + r`, where the `q` bits from the read position on are zero, the bit
after them is a one bit (when it lies inside the buffer) and `r < 2^k` is the
value of the next `k` bits, after which the reader stands; `fold(u) = u/2` for
even `u` and `−(u+1)/2` for odd `u`, and `fold` is a bijection from the
non-negative integers onto the integers. -/
theorem signed_rice_decode :
    (∀ (gb : GetBitContext) (k : Int),
      get_sr_golomb_shorten gb k =
        (fold_signed (get_ur_golomb_shorten gb k.toNat).1, (get_ur_golomb_shorten gb k.toNat).2)) ∧
    (∀ (gb : GetBitContext) (k : Nat), ∃ q r,
      (get_ur_golomb_shorten gb k).1 = q * 2 ^ k + r ∧
      (∀ j, j < q → bit_at gb.buffer (gb.index + j) = 0) ∧
      (gb.index + q < gb.size_in_bits → bit_at gb.buffer (gb.index + q) = 1) ∧
      r = bits_value gb.buffer (gb.index + q + 1) k ∧ r < 2 ^ k ∧
      (get_ur_golomb_shorten gb k).2 = { gb with index := gb.index + q + 1 + k }) ∧
    (∀ u : Nat, (u % 2 = 0 → fold_signed u = ((u / 2 : Nat) : Int)) ∧
      (u % 2 = 1 → fold_signed u = -(((u + 1) / 2 : Nat) : Int))) ∧
    Function.Bijective fold_signed := by
  refine ⟨fun gb k => rfl, fun gb k => ?_, fun u => ⟨fun h => ?_, fun h => ?_⟩,
    fold_signed_injective, fold_signed_surjective⟩
  · obtain ⟨h1, h2, h3⟩ := count_zeros_spec gb.buffer gb.index (gb.size_in_bits - gb.index)
    exact ⟨count_zeros gb.buffer gb.index (gb.size_in_bits - gb.index),
      bits_value gb.buffer
        (gb.index + count_zeros gb.buffer gb.index (gb.size_in_bits - gb.index) + 1) k,
      rfl, h2, fun h => h3 (by omega), rfl, bits_value_lt _ _ _, rfl⟩
  · unfold fold_signed
    rw [if_pos h]
  · unfold fold_signed
    rw [if_neg (by omega)]

/-- C24 (QLPC decode formula): for the command `FN_QLPC` with a prediction order
`p` read from the stream, `1 ≤ p ≤ nwrap`, and `coffset = 0`,
`decode_subframe_lpc` returns 0, stores the `p` coefficients read with
parameter `LPCQUANT`, keeps the carried-over history `x[j]`, `j < 0`, and sets
sample `i` of the block to `r_i + ((lpcqoffset + Σ_{j<p} c_j · x[i−j−1]) >> 5)`
in 32-bit wrapping arithmetic with an arithmetic (floor) right shift, where `r`
is the sequence of residuals that follows the coefficients; and in every
reachable context with the header parsed `lpcqoffset` is 32 when the version
is above 1 and 0 otherwise. -/
theorem qlpc_formula (s : ShortenContext) (gb : GetBitContext) (channel : Nat)
    (residual_size : Int) (hch : channel < s.decoded_base.length)
    (hlen : s.nwrap + s.blocksize ≤ (s.decoded_base.getD channel []).length)
    (hco : s.nwrap ≤ s.coeffs.length)
    (hp1 : 1 ≤ qlpc_order gb) (hp2 : qlpc_order gb ≤ s.nwrap) :
    (decode_subframe_lpc s gb FN_QLPC channel residual_size 0).1 = 0 ∧
    (∀ j : Nat, j < (qlpc_order gb).toNat →
      (decode_subframe_lpc s gb FN_QLPC channel residual_size 0).2.1.coeffs.getD j 0 =
        wrap32 ((residuals (LPCQUANT : Nat) (qlpc_order gb).toNat
          (qlpc_coeff_reader gb)).getD j 0)) ∧
    (∀ j : Int, -(s.nwrap : Int) ≤ j → j < 0 →
      sample (decode_subframe_lpc s gb FN_QLPC channel residual_size 0).2.1 channel j =
        sample s channel j) ∧
    (∀ i : Nat, i < s.blocksize →
      sample (decode_subframe_lpc s gb FN_QLPC channel residual_size 0).2.1 channel i =
        wrap32 ((residuals residual_size s.blocksize (qlpc_sample_reader s gb)).getD i 0 +
          asr (wrap32 (s.lpcqoffset +
            lpc_sum (decode_subframe_lpc s gb FN_QLPC channel residual_size 0).2.1 channel
              (qlpc_order gb).toNat i)) 5)) ∧
    (∀ r : ShortenContext, Reachable r → r.got_header = true →
      r.lpcqoffset = if r.version > 1 then 32 else 0) := by
  obtain ⟨e1, e2, e3, e4, _⟩ :=
    decode_subframe_lpc_qlpc s gb channel residual_size 0 (by omega) hch
  rw [if_neg (fun h => h rfl)] at e4
  refine ⟨e1, fun j hj => ?_, fun j h1 h2 => ?_, fun i hi => ?_,
    fun r hr hg => reachable_lpcqoffset r hr hg⟩
  · rw [e3]
    have h := read_coeffs_value (qlpc_order gb).toNat 0 s.coeffs (qlpc_coeff_reader gb) j hj
      (by omega)
    rw [Nat.zero_add] at h
    exact h
  · unfold sample
    rw [e2, e4]
    unfold qlpc_block
    rw [decode_samples_below _ _ _ _ _ _ _ _ _ _ _ (by omega)]
    unfold qlpc_history
    rw [if_neg (fun h => h rfl)]
  · unfold lpc_sum sample
    rw [e2, e3, e4, show ((s.nwrap : Int) + (i : Int)).toNat = s.nwrap + i by omega]
    exact qlpc_sample s gb channel residual_size 0 hlen hp1 hp2 i hi

/-- Witness for C24: a history `5, 7, 12`, the order 2 with the coefficients
`64, -32` and the residuals `0, -1, 1, 0` give the block `18, 24, 32, 41`;
sample 2 is `1 + ((32 + 64·24 − 32·18) >> 5) = 32`. -/
theorem qlpc_formula_witness :
    (0 < qlpc_state.decoded_base.length ∧
      qlpc_state.nwrap + qlpc_state.blocksize ≤ (qlpc_state.decoded_base.getD 0 []).length ∧
      qlpc_state.nwrap ≤ qlpc_state.coeffs.length ∧
      qlpc_order qlpc_reader = 2 ∧ 2 < qlpc_state.blocksize) ∧
    (decode_subframe_lpc qlpc_state qlpc_reader FN_QLPC 0 1 0).2.1.coeffs = [64, -32, 0] ∧
    residuals 1 4 (qlpc_sample_reader qlpc_state qlpc_reader) = [0, -1, 1, 0] ∧
    (decode_subframe_lpc qlpc_state qlpc_reader FN_QLPC 0 1 0).2.1.decoded_base =
      [[5, 7, 12, 18, 24, 32, 41]] ∧
    sample (decode_subframe_lpc qlpc_state qlpc_reader FN_QLPC 0 1 0).2.1 0 ((2 : Nat) : Int) =
      wrap32 ((residuals 1 qlpc_state.blocksize
          (qlpc_sample_reader qlpc_state qlpc_reader)).getD 2 0 +
        asr (wrap32 (qlpc_state.lpcqoffset +
          lpc_sum (decode_subframe_lpc qlpc_state qlpc_reader FN_QLPC 0 1 0).2.1 0
            (qlpc_order qlpc_reader).toNat ((2 : Nat) : Int))) 5) :=
  ⟨by decide, by decide, by decide, by decide,
   (qlpc_formula qlpc_state qlpc_reader 0 1 (by decide) (by decide) (by decide) (by decide)
     (by decide)).2.2.2.1 2 (by decide)⟩

/-- Counterexample for C25: with the order 0, the offset 32 and residuals 0,
the history of the statement is the history itself (no sample is changed), the
block decoded with offset 32 holds `33 = 0 + (32 >> 5) + 32` in sample 0, and
32 plus sample 0 of the block decoded with offset 0 is 32. -/
theorem qlpc_order_zero_offset :
    qlpc_order order_zero_reader = 0 ∧ offset_history qlpc_state 0 0 32 = qlpc_state ∧
    sample (decode_subframe_lpc qlpc_state order_zero_reader FN_QLPC 0 1 32).2.1 0 0 = 33 ∧
    wrap32 (32 + sample (decode_subframe_lpc (offset_history qlpc_state 0 0 32)
      order_zero_reader FN_QLPC 0 1 0).2.1 0 0) = 32 ∧
    sample (decode_subframe_lpc qlpc_state order_zero_reader FN_QLPC 0 1 32).2.1 0 0 ≠
      wrap32 (32 + sample (decode_subframe_lpc (offset_history qlpc_state 0 0 32)
        order_zero_reader FN_QLPC 0 1 0).2.1 0 0) := by
  decide

/-- C25 (QLPC offset removal is undone, amended): for the command `FN_QLPC` with
a prediction order `p` read from the stream, `1 ≤ p ≤ nwrap`, and an offset
`c ≠ 0`, both decodes return 0 and every sample of the block decoded by
`decode_subframe_lpc` with offset `c` is `c` plus the same sample of the block
decoded with offset 0 from the history in which `c` is subtracted from the `p`
samples before the block (32-bit wrapping arithmetic); with the order `p = 0`
every sample of the block decoded with offset `c` is `c + (c >> 5)` plus the
same sample of the block decoded with offset 0. -/
theorem qlpc_offset_undone (s : ShortenContext) (gb : GetBitContext) (channel : Nat)
    (residual_size c : Int) (hc : c ≠ 0) (hch : channel < s.decoded_base.length)
    (hlen : s.nwrap + s.blocksize ≤ (s.decoded_base.getD channel []).length)
    (hw : 0 < s.nwrap) (hp0 : 0 ≤ qlpc_order gb) (hp : qlpc_order gb ≤ s.nwrap) :
    (decode_subframe_lpc s gb FN_QLPC channel residual_size c).1 = 0 ∧
    (decode_subframe_lpc (offset_history s channel (qlpc_order gb).toNat c) gb FN_QLPC channel
      residual_size 0).1 = 0 ∧
    (1 ≤ qlpc_order gb → ∀ i : Nat, i < s.blocksize →
      sample (decode_subframe_lpc s gb FN_QLPC channel residual_size c).2.1 channel i =
        wrap32 (c + sample (decode_subframe_lpc
          (offset_history s channel (qlpc_order gb).toNat c) gb FN_QLPC channel
          residual_size 0).2.1 channel i)) ∧
    (qlpc_order gb = 0 → ∀ i : Nat, i < s.blocksize →
      sample (decode_subframe_lpc s gb FN_QLPC channel residual_size c).2.1 channel i =
        wrap32 (c + asr c 5 + sample (decode_subframe_lpc s gb FN_QLPC channel
          residual_size 0).2.1 channel i)) := by
  have _ := hp0
  have hch2 : channel < (offset_history s channel (qlpc_order gb).toNat c).decoded_base.length := by
    unfold offset_history
    dsimp only
    rw [List.length_set]
    exact hch
  obtain ⟨a1, a2, _, a4, _⟩ := decode_subframe_lpc_qlpc s gb channel residual_size c (by omega) hch
  obtain ⟨b1, b2, _, b4, _⟩ := decode_subframe_lpc_qlpc
    (offset_history s channel (qlpc_order gb).toNat c) gb channel residual_size 0
    (by unfold offset_history; dsimp only; omega) hch2
  obtain ⟨_, z2, _, z4, _⟩ := decode_subframe_lpc_qlpc s gb channel residual_size 0 (by omega) hch
  rw [if_pos hc] at a4
  rw [if_neg (fun h => h rfl)] at b4 z4
  have hsample : ∀ i : Nat, i < s.blocksize →
      sample (decode_subframe_lpc s gb FN_QLPC channel residual_size c).2.1 channel i =
        wrap32 ((qlpc_block s gb channel residual_size c).1.getD (s.nwrap + i) 0 + c) := by
    intro i hi
    unfold sample
    rw [a2, a4, show ((s.nwrap : Int) + (i : Int)).toNat = s.nwrap + i by omega, add_range_getD,
      if_pos ⟨by omega, by omega, by rw [qlpc_block_length]; omega⟩]
  refine ⟨a1, b1, fun h1 i hi => ?_, fun h0 i hi => ?_⟩
  · rw [hsample i hi]
    unfold sample
    rw [b2, b4]
    have hb : qlpc_block (offset_history s channel (qlpc_order gb).toNat c) gb channel
        residual_size 0 = qlpc_block s gb channel residual_size c := by
      unfold qlpc_block
      rw [qlpc_history_eq s gb channel c hc hch hp, if_pos (by omega),
        if_pos (by omega)]
      unfold qlpc_history
      rw [if_neg (fun h => h rfl)]
      rfl
    rw [hb]
    have e : ((offset_history s channel (qlpc_order gb).toNat c).nwrap : Int) = (s.nwrap : Int) :=
      rfl
    rw [e, show ((s.nwrap : Int) + (i : Int)).toNat = s.nwrap + i by omega, Int.add_comm]
  · rw [hsample i hi]
    unfold sample
    rw [z2, z4, show ((s.nwrap : Int) + (i : Int)).toNat = s.nwrap + i by omega]
    have hv := fun coffset => decode_samples_value
      (read_coeffs (qlpc_order gb).toNat 0 s.coeffs (qlpc_coeff_reader gb)).1
      (qlpc_order gb).toNat (if qlpc_order gb ≠ 0 then s.lpcqoffset else coffset) LPCQUANT
      residual_size s.nwrap s.blocksize 0 (qlpc_history s gb channel coffset)
      (qlpc_sample_reader s gb) i hi
    have hl : ∀ coffset, s.nwrap + 0 + s.blocksize ≤ (qlpc_history s gb channel coffset).length := by
      intro coffset
      unfold qlpc_history
      split
      · rw [add_range_length]; omega
      · omega
    have v1 := hv c (hl c) hw
    have v2 := hv 0 (hl 0) hw
    rw [Nat.add_zero s.nwrap] at v1 v2
    unfold qlpc_block
    rw [v1, v2, h0]
    unfold predict
    simp only [Int.toNat_zero, List.range_zero, List.foldl_nil, ne_eq, not_true_eq_false,
      if_false]
    have hz : asr 0 LPCQUANT = 0 := by decide
    have h5 : LPCQUANT = 5 := rfl
    rw [hz, h5]
    generalize (residuals residual_size s.blocksize (qlpc_sample_reader s gb)).getD i 0 = r
    generalize asr c 5 = a
    unfold wrap32
    omega

/-- Witness for C25: the order 2 with the coefficients `64, -32`, the residuals
`0, -1, 1, 0` and the offset 100 on the history `5, 7, 12`: the block is
`18, 24, 32, 41`, which is 100 plus the block `-82, -76, -68, -59` decoded
with offset 0 from the history `5, -93, -88`. -/
theorem qlpc_offset_undone_witness :
    ((100 : Int) ≠ 0 ∧ 0 < qlpc_state.decoded_base.length ∧
      qlpc_state.nwrap + qlpc_state.blocksize ≤ (qlpc_state.decoded_base.getD 0 []).length ∧
      0 < qlpc_state.nwrap ∧ qlpc_order qlpc_reader = 2 ∧ 2 < qlpc_state.blocksize) ∧
    (decode_subframe_lpc qlpc_state qlpc_reader FN_QLPC 0 1 100).2.1.decoded_base =
      [[5, -93, -88, 18, 24, 32, 41]] ∧
    (decode_subframe_lpc (offset_history qlpc_state 0 2 100) qlpc_reader FN_QLPC 0 1
      0).2.1.decoded_base = [[5, -93, -88, -82, -76, -68, -59]] ∧
    sample (decode_subframe_lpc qlpc_state qlpc_reader FN_QLPC 0 1 100).2.1 0 ((2 : Nat) : Int) =
      wrap32 (100 + sample (decode_subframe_lpc
        (offset_history qlpc_state 0 (qlpc_order qlpc_reader).toNat 100) qlpc_reader FN_QLPC 0 1
        0).2.1 0 ((2 : Nat) : Int)) :=
  ⟨by decide, by decide, by decide,
   (qlpc_offset_undone qlpc_state qlpc_reader 0 1 100 (by decide) (by decide) (by decide)
     (by decide) (by decide) (by decide)).2.2.1 (by decide) 2 (by decide)⟩

/-- Counterexample for C26: in a version-2 stream, on a reader over the bits
`1001 0000`, the audio branch reads the residual parameter 1 (`read_unsigned`
with parameter 3: no zeros, then `001`), while `get_uint` with hint 3 yields 0
(`read_unsigned(2)` gives the parameter 0, with which the next bit `1` is the
value 0). -/
theorem residual_size_read_directly :
    version_two_state.version = 2 ∧
    read_residual_size version_two_state energy_reader FN_DIFF1 = (1, skip_bits energy_reader 4) ∧
    get_uint version_two_state energy_reader ENERGYSIZE = (0, skip_bits energy_reader 4) ∧
    (read_residual_size version_two_state energy_reader FN_DIFF1).1 ≠
      to_int (get_uint version_two_state energy_reader ENERGYSIZE).1 := by
  decide

/-- C26 (Rice parameter for residuals, amended): for every audio command other
than `FN_ZERO` the audio branch reads `residual_size` with `read_unsigned` of
parameter 3 (`get_ur_golomb_shorten` with `ENERGYSIZE`), for every stream
version and without decoding a parameter first, and hands
`decode_channel` that value minus one if and only if the stream version is 0;
for version 0 this is the value that `get_uint` with hint 3 reads; for
`FN_ZERO` nothing is read and the value is 0. -/
theorem residual_size_read (s : ShortenContext) (gb : GetBitContext) (cmd : Int) :
    ENERGYSIZE = 3 ∧
    (cmd ≠ FN_ZERO →
      (read_residual_size s gb cmd).2 = (get_ur_golomb_shorten gb 3).2 ∧
      (s.version = 0 → (read_residual_size s gb cmd).1 =
        wrap32 (to_int (get_ur_golomb_shorten gb 3).1 - 1) ∧
        (get_uint s gb 3).2 = (get_ur_golomb_shorten gb 3).2 ∧
        to_int (get_uint s gb 3).1 = to_int (get_ur_golomb_shorten gb 3).1) ∧
      (s.version ≠ 0 → (read_residual_size s gb cmd).1 =
        to_int (get_ur_golomb_shorten gb 3).1)) ∧
    (cmd = FN_ZERO → read_residual_size s gb cmd = (0, gb)) ∧
    audio_command s gb cmd =
      (if (decode_channel s (read_residual_size s gb cmd).2 cmd s.cur_chan
            (read_residual_size s gb cmd).1 (sample_offset s s.cur_chan)).1 < 0
       then decode_channel s (read_residual_size s gb cmd).2 cmd s.cur_chan
            (read_residual_size s gb cmd).1 (sample_offset s s.cur_chan)
       else (0, finish_channel (decode_channel s (read_residual_size s gb cmd).2 cmd s.cur_chan
            (read_residual_size s gb cmd).1 (sample_offset s s.cur_chan)).2.1 s.cur_chan,
          (decode_channel s (read_residual_size s gb cmd).2 cmd s.cur_chan
            (read_residual_size s gb cmd).1 (sample_offset s s.cur_chan)).2.2)) := by
  refine ⟨rfl, fun hc => ?_, fun hc => ?_, rfl⟩
  · have e : read_residual_size s gb cmd =
        (if s.version = 0 then wrap32 (to_int (get_ur_golomb_shorten gb 3).1 - 1)
          else to_int (get_ur_golomb_shorten gb 3).1, (get_ur_golomb_shorten gb 3).2) := by
      unfold read_residual_size
      rw [if_pos hc]
      rfl
    rw [e]
    refine ⟨rfl, fun hv => ?_, fun hv => ?_⟩
    · have g : get_uint s gb 3 =
          ((get_ur_golomb_shorten gb 3).1 % 4294967296, (get_ur_golomb_shorten gb 3).2) := by
        unfold get_uint
        rw [if_neg (fun h => h hv)]
      rw [g]
      refine ⟨by rw [if_pos hv], rfl, ?_⟩
      unfold to_int
      dsimp only
      rw [Nat.mod_mod]
    · dsimp only
      rw [if_neg hv]
  · unfold read_residual_size
    rw [if_neg (fun h => h hc)]

/-- Witness for C26: in a version-2 stream, on the bits `1001 0000`, the
parameter handed on for `FN_DIFF1` is the value 1 read with parameter 3, and
the reader has moved on by four bits. -/
theorem residual_size_read_witness :
    (FN_DIFF1 ≠ FN_ZERO ∧ version_two_state.version ≠ 0) ∧
    get_ur_golomb_shorten energy_reader 3 = (1, skip_bits energy_reader 4) ∧
    (read_residual_size version_two_state energy_reader FN_DIFF1).1 =
      to_int (get_ur_golomb_shorten energy_reader 3).1 :=
  ⟨by decide, by decide,
   ((residual_size_read version_two_state energy_reader FN_DIFF1).2.1 (by decide)).2.2
     (by decide)⟩

/-- C27 (offset correction formula): for a context with `nmean ≠ 0` (a 32-bit
value), the offset `coffset` that the audio branch computes for a channel is
`(bias + Σ_{i<nmean} offset[channel][i]) / nmean` with `bias = 0` if the version
is below 2 and `bias = nmean/2` otherwise (32-bit wrapping arithmetic, the
divisions truncating toward zero), shifted right arithmetically by
`min(1, bitshift)` for a version of 2 or more and left as it is for a version
below 2; this is the offset handed to `decode_channel` by `audio_command`. -/
theorem offset_correction (s : ShortenContext) (channel : Nat) (hn : s.nmean ≠ 0)
    (h1 : -2147483648 ≤ s.nmean) (h2 : s.nmean < 2147483648) :
    sample_offset s channel =
      (if s.version ≥ 2 then
        asr (wrap32 (Int.tdiv (wrap32 (s.nmean.tdiv 2 +
          ((List.range s.nmean.toNat).map
            (fun i => (s.offset.getD channel []).getD i 0)).sum)) s.nmean))
          (min 1 s.bitshift).toNat
       else wrap32 (Int.tdiv (wrap32 (0 +
          ((List.range s.nmean.toNat).map
            (fun i => (s.offset.getD channel []).getD i 0)).sum)) s.nmean)) ∧
    ∀ (gb : GetBitContext) (cmd : Int), audio_command s gb cmd =
      (if (decode_channel s (read_residual_size s gb cmd).2 cmd s.cur_chan
            (read_residual_size s gb cmd).1 (sample_offset s s.cur_chan)).1 < 0
       then decode_channel s (read_residual_size s gb cmd).2 cmd s.cur_chan
            (read_residual_size s gb cmd).1 (sample_offset s s.cur_chan)
       else (0, finish_channel (decode_channel s (read_residual_size s gb cmd).2 cmd s.cur_chan
            (read_residual_size s gb cmd).1 (sample_offset s s.cur_chan)).2.1 s.cur_chan,
          (decode_channel s (read_residual_size s gb cmd).2 cmd s.cur_chan
            (read_residual_size s gb cmd).1 (sample_offset s s.cur_chan)).2.2)) := by
  refine ⟨?_, fun gb cmd => rfl⟩
  unfold sample_offset
  dsimp only
  rw [if_neg hn]
  by_cases hv : s.version < 2
  · rw [if_pos hv, if_neg (by omega), if_neg (by omega),
      foldl_wrap_eq _ _ 0 (by decide) (by decide)]
  · obtain ⟨b1, b2⟩ := tdiv_two_range s.nmean h1 h2
    rw [if_neg hv, if_pos (by omega), if_pos (by omega), foldl_wrap_eq _ _ _ b1 b2]

/-- Witness for C27: a version-2 context with `nmean = 4`, the means
`10, 20, 30, 41` and `bitshift = 2`: the offset is
`((4/2 + 101) / 4) >> min(1, 2) = 25 >> 1 = 12`. -/
theorem offset_correction_witness :
    (means_state.nmean ≠ 0 ∧ -2147483648 ≤ means_state.nmean ∧
      means_state.nmean < 2147483648) ∧
    sample_offset means_state 0 = 12 ∧
    sample_offset means_state 0 =
      (if means_state.version ≥ 2 then
        asr (wrap32 (Int.tdiv (wrap32 (means_state.nmean.tdiv 2 +
          ((List.range means_state.nmean.toNat).map
            (fun i => (means_state.offset.getD 0 []).getD i 0)).sum)) means_state.nmean))
          (min 1 means_state.bitshift).toNat
       else wrap32 (Int.tdiv (wrap32 (0 +
          ((List.range means_state.nmean.toNat).map
            (fun i => (means_state.offset.getD 0 []).getD i 0)).sum)) means_state.nmean)) :=
  ⟨by decide, by decide,
   (offset_correction means_state 0 (by decide) (by decide) (by decide)).1⟩

/-- C28 (running-mean update): after an audio command on the channel
`c = cur_chan` that does not fail, with `nmean > 0` the mean history of the
channel satisfies `new offset[c][i] = old offset[c][i+1]` for `0 ≤ i < nmean−1`
and `new offset[c][nmean−1] = (bias + Σ_{i<blocksize} sample_i) / blocksize`
(bias 0 if the version is below 2, else `blocksize/2`; 32-bit wrapping
arithmetic, the division truncating toward zero), shifted left by `bitshift`
when the version is 2 or more, where the samples are those of the block before
the bitshift correction (the block after it holds each of them shifted left by
`bitshift`); with `nmean ≤ 0` the mean history is unchanged; the mean
histories of all other channels are unchanged in every case. -/
theorem running_mean_update (s : ShortenContext) (gb : GetBitContext) (cmd : Int)
    (hok : ¬ (audio_command s gb cmd).1 < 0) (hch : s.cur_chan < s.offset.length)
    (hd : s.cur_chan < s.decoded_base.length)
    (hlen : s.nmean.toNat ≤ (s.offset.getD s.cur_chan []).length) (hb : 0 < s.blocksize) :
    (s.nmean > 0 →
      (∀ i : Nat, i + 1 < s.nmean.toNat →
        ((audio_command s gb cmd).2.1.offset.getD s.cur_chan []).getD i 0 =
          (s.offset.getD s.cur_chan []).getD (i + 1) 0) ∧
      ((audio_command s gb cmd).2.1.offset.getD s.cur_chan []).getD (s.nmean.toNat - 1) 0 =
        (if s.version < 2 then
          wrap32 (Int.tdiv (wrap32 (0 + ((List.range s.blocksize).map
            (fun i : Nat => sample (decoded_state s gb cmd) s.cur_chan (i : Int))).sum))
            s.blocksize)
         else shl32 (wrap32 (Int.tdiv (wrap32 (((s.blocksize / 2 : Nat) : Int) +
            ((List.range s.blocksize).map
              (fun i : Nat => sample (decoded_state s gb cmd) s.cur_chan (i : Int))).sum))
            s.blocksize)) s.bitshift.toNat)) ∧
    (s.nmean ≤ 0 → (audio_command s gb cmd).2.1.offset = s.offset) ∧
    (∀ ch : Nat, ch ≠ s.cur_chan →
      (audio_command s gb cmd).2.1.offset.getD ch [] = s.offset.getD ch []) ∧
    (∀ i : Nat, i < s.blocksize →
      sample (audio_command s gb cmd).2.1 s.cur_chan (i : Int) =
        if s.bitshift ≠ 0
        then shl32 (sample (decoded_state s gb cmd) s.cur_chan (i : Int)) s.bitshift.toNat
        else sample (decoded_state s gb cmd) s.cur_chan (i : Int)) := by
  obtain ⟨f1, f2, f3, f4, f5, f6, f7⟩ := decode_channel_fields s (read_residual_size s gb cmd).2
    cmd s.cur_chan (read_residual_size s gb cmd).1 (sample_offset s s.cur_chan)
  have g1 : (decoded_state s gb cmd).offset = s.offset := f1
  have g2 : (decoded_state s gb cmd).nmean = s.nmean := f2
  have g3 : (decoded_state s gb cmd).version = s.version := f3
  have g4 : (decoded_state s gb cmd).blocksize = s.blocksize := f4
  have g5 : (decoded_state s gb cmd).bitshift = s.bitshift := f5
  have g6 : (decoded_state s gb cmd).nwrap = s.nwrap := f6
  have g7 : (decoded_state s gb cmd).decoded_base.length = s.decoded_base.length := f7
  obtain ⟨u1, u2, u3⟩ := update_means_offset (decoded_state s gb cmd) s.cur_chan
    (by rw [g1]; exact hch) (by rw [g1, g2]; exact hlen) (by rw [g4]; exact hb)
  rw [g1, g2, g3, g4, g5] at u1
  rw [g1, g2] at u2
  rw [audio_command_ok s gb cmd hok, finish_channel_offset]
  refine ⟨u1, u2, fun ch hne => ?_, fun i hi => ?_⟩
  · rw [u3 ch hne, g1]
  · obtain ⟨n1, n2⟩ := finish_channel_getD (decoded_state s gb cmd) s.cur_chan
      (by rw [g7]; exact hd) (s.nwrap + i)
    unfold sample
    rw [n1, g6, show ((s.nwrap : Int) + (i : Int)).toNat = s.nwrap + i by omega, n2, g6, g4, g5,
      if_neg (by omega)]
    by_cases h0 : s.bitshift ≠ 0
    · rw [if_pos ⟨h0, by omega⟩, if_pos h0]
    · rw [if_neg (fun h => h0 h.1), if_neg h0]

/-- Witness for C28: a version-2 context with the means `10, 20, 30, 41`,
`bitshift = 2` and the history `5, 7, 12`; `FN_DIFF1` with the residuals
`0, -1, 1, 0` gives the block `12, 11, 12, 12`, whose mean `(2 + 47) / 4 = 12`
is stored as `12 << 2 = 48` behind the means `20, 30, 41`. -/
theorem running_mean_update_witness :
    (¬ (audio_command means_state means_reader FN_DIFF1).1 < 0 ∧
      means_state.cur_chan < means_state.offset.length ∧
      means_state.cur_chan < means_state.decoded_base.length ∧
      means_state.nmean.toNat ≤ (means_state.offset.getD means_state.cur_chan []).length ∧
      0 < means_state.blocksize ∧ means_state.nmean > 0) ∧
    (decoded_state means_state means_reader FN_DIFF1).decoded_base =
      [[5, 7, 12, 12, 11, 12, 12]] ∧
    (audio_command means_state means_reader FN_DIFF1).2.1.offset = [[20, 30, 41, 48]] ∧
    ((audio_command means_state means_reader FN_DIFF1).2.1.offset.getD
        means_state.cur_chan []).getD (means_state.nmean.toNat - 1) 0 =
      (if means_state.version < 2 then
        wrap32 (Int.tdiv (wrap32 (0 + ((List.range means_state.blocksize).map
          (fun i : Nat => sample (decoded_state means_state means_reader FN_DIFF1)
            means_state.cur_chan (i : Int))).sum)) means_state.blocksize)
       else shl32 (wrap32 (Int.tdiv (wrap32 (((means_state.blocksize / 2 : Nat) : Int) +
          ((List.range means_state.blocksize).map
            (fun i : Nat => sample (decoded_state means_state means_reader FN_DIFF1)
              means_state.cur_chan (i : Int))).sum)) means_state.blocksize))
          means_state.bitshift.toNat) :=
  ⟨by decide, by decide, by decide,
   ((running_mean_update means_state means_reader FN_DIFF1 (by decide) (by decide) (by decide)
     (by decide) (by decide)).1 (by decide)).2⟩

set_option maxRecDepth 1000000 in
/-- Counterexample for C29: the stream `wrap_stream` has the block size 1 and
`nwrap = 3`; after its first block the history of the channel is `0, 0, 64`
and the mean is 64.  The second block is an `FN_QLPC` command of order 1, for
which the offset 64 is subtracted from the last sample of the history before
the block is decoded to `65`: the history after the command is `0, 0, 65`,
whose middle sample is the changed one and not the last sample `64` of the old
history. -/
theorem wrap_keeps_offset_removal :
    Reachable wrap_decoded ∧
    command_step wrap_state (pass_reader (append_packet wrap_decoded { data := none })) =
      audio_step wrap_state wrap_reader FN_QLPC ∧
    (wrap_state.blocksize = 1 ∧ wrap_state.nwrap = 3 ∧ sample_offset wrap_state 0 = 64) ∧
    wrap_state.decoded_base.getD 0 [] = [0, 0, 64, 64] ∧
    (audio_command wrap_state wrap_reader FN_QLPC).2.1.decoded_base.getD 0 [] = [0, 0, 65, 65] ∧
    (call_result wrap_decoded { data := none }).ctx.decoded_base.getD 0 [] = [0, 0, 65, 65] ∧
    sample (audio_command wrap_state wrap_reader FN_QLPC).2.1 0 (-2) ≠
      sample wrap_state 0 (-1) := by
  refine ⟨?_, by decide, by decide, by decide, by decide, by decide, by decide⟩
  exact Reachable.call _ { data := none } (call_result
      (state_after [{ data := some wrap_stream }, { data := none }]) { data := none })
    (Reachable.call _ { data := none } (call_result
        (state_after [{ data := some wrap_stream }]) { data := none })
      (Reachable.call _ { data := some wrap_stream }
        (call_result shorten_decode_init { data := some wrap_stream })
        Reachable.init (by decide)) (by decide)) (by decide)

/-- C29 (wrap history, amended): after an audio command on the channel
`c = cur_chan` that does not fail, the carried-over history satisfies
`history[−k] = u[blocksize − k]` for every `1 ≤ k ≤ nwrap`, where `u` is the
channel buffer as the decode of the block left it, before the bitshift
correction: for `blocksize ≥ nwrap` the history holds the last `nwrap` samples
of the block, unshifted; for `blocksize < nwrap` it holds the last `nwrap`
elements of the history in `u` followed by the decoded block.  The history in
`u` is the history before the command whenever the command is not `FN_QLPC` or
the offset `coffset` is zero. -/
theorem wrap_history (s : ShortenContext) (gb : GetBitContext) (cmd : Int)
    (hok : ¬ (audio_command s gb cmd).1 < 0) (hd : s.cur_chan < s.decoded_base.length) :
    (∀ k : Nat, 1 ≤ k → k ≤ s.nwrap →
      sample (audio_command s gb cmd).2.1 s.cur_chan (-(k : Int)) =
        sample (decoded_state s gb cmd) s.cur_chan ((s.blocksize : Int) - (k : Int))) ∧
    (cmd ≠ FN_QLPC ∨ sample_offset s s.cur_chan = 0 →
      ∀ j : Int, -(s.nwrap : Int) ≤ j → j < 0 →
        sample (decoded_state s gb cmd) s.cur_chan j = sample s s.cur_chan j) := by
  obtain ⟨_, _, _, f4, _, f6, f7⟩ := decode_channel_fields s (read_residual_size s gb cmd).2
    cmd s.cur_chan (read_residual_size s gb cmd).1 (sample_offset s s.cur_chan)
  have g4 : (decoded_state s gb cmd).blocksize = s.blocksize := f4
  have g6 : (decoded_state s gb cmd).nwrap = s.nwrap := f6
  have g7 : (decoded_state s gb cmd).decoded_base.length = s.decoded_base.length := f7
  refine ⟨fun k h1 h2 => ?_, fun hq j h1 h2 => ?_⟩
  · obtain ⟨n1, n2⟩ := finish_channel_getD (decoded_state s gb cmd) s.cur_chan
      (by rw [g7]; exact hd) (s.nwrap - k)
    rw [audio_command_ok s gb cmd hok]
    unfold sample
    rw [n1, g6, show ((s.nwrap : Int) + -(k : Int)).toNat = s.nwrap - k by omega, n2, g6, g4,
      if_pos (by omega),
      show ((s.nwrap : Int) + ((s.blocksize : Int) - (k : Int))).toNat
        = s.nwrap - k + s.blocksize by omega]
  · unfold sample
    rw [g6]
    exact decode_channel_history s (read_residual_size s gb cmd).2 cmd s.cur_chan
      (read_residual_size s gb cmd).1 (sample_offset s s.cur_chan) hd hq _ (by omega)

/-- Witness for C29: the `FN_DIFF1` block `12, 11, 12, 12` with `bitshift = 2`:
the history after the command is `11, 12, 12`, the unshifted last three
samples, while the block holds `48, 44, 48, 48`. -/
theorem wrap_history_witness :
    (¬ (audio_command means_state means_reader FN_DIFF1).1 < 0 ∧
      means_state.cur_chan < means_state.decoded_base.length ∧
      1 ≤ 2 ∧ 2 ≤ means_state.nwrap ∧ means_state.nwrap ≤ means_state.blocksize) ∧
    (audio_command means_state means_reader FN_DIFF1).2.1.decoded_base =
      [[11, 12, 12, 48, 44, 48, 48]] ∧
    sample (audio_command means_state means_reader FN_DIFF1).2.1 means_state.cur_chan
        (-((2 : Nat) : Int)) =
      sample (decoded_state means_state means_reader FN_DIFF1) means_state.cur_chan
        ((means_state.blocksize : Int) - ((2 : Nat) : Int)) :=
  ⟨by decide, by decide,
   (wrap_history means_state means_reader FN_DIFF1 (by decide) (by decide)).1 2 (by decide)
     (by decide)⟩

/-- C30 (resume-offset bookkeeping): for a call on a reachable context that
runs a decode pass and does not return an error, where the cursor of the pass
stands at bit `n` of the pending buffer when the pass ends (the skip of the
previous resume offset included), the new resume offset `bitindex` is
`n mod 8`, the pending buffer of the context is the old one without its first
`⌊n/8⌋` bytes, in order, and the reader of the next pass, over these bytes
followed by those taken from the next packet, starts at bit `n mod 8`, which is
bit `n` of the old buffer: every bit from there on is the bit of the old
buffer (followed by the new bytes) at the same distance from `n`. -/
theorem resume_offset_bookkeeping (s0 : ShortenContext) (avpkt : AVPacket) (r : DecodeResult)
    (e : PassExit) (t : ShortenContext) (g : GetBitContext) (hs : Reachable s0)
    (hrun : ¬ ((append_packet s0 avpkt).bitstream_size < (append_packet s0 avpkt).max_framesize ∧
      avpkt.data.isSome))
    (hpass : decode_pass (append_packet s0 avpkt) (pass_reader (append_packet s0 avpkt))
      avpkt.size = some (e, t, g))
    (hr : shorten_decode_frame s0 avpkt = some r) (hok : 0 ≤ r.ret) :
    r.ctx.bitindex = get_bits_count g % 8 ∧
    get_bits_count g / 8 ≤ (append_packet s0 avpkt).bitstream.length ∧
    r.ctx.bitstream = (append_packet s0 avpkt).bitstream.drop (get_bits_count g / 8) ∧
    ∀ pkt : AVPacket,
      get_bits_count (pass_reader (append_packet r.ctx pkt)) = get_bits_count g % 8 ∧
      (pass_reader (append_packet r.ctx pkt)).buffer =
        (append_packet s0 avpkt).bitstream.drop (get_bits_count g / 8) ++
          (pkt.data.getD []).take (input_buf_size r.ctx pkt) ∧
      ∀ k : Nat,
        bit_at (pass_reader (append_packet r.ctx pkt)).buffer (get_bits_count g % 8 + k) =
          bit_at ((append_packet s0 avpkt).bitstream ++
            (pkt.data.getD []).take (input_buf_size r.ctx pkt)) (get_bits_count g + k) := by
  have hfacts : r.ctx.bitindex = get_bits_count g % 8 ∧
      get_bits_count g / 8 ≤ (append_packet s0 avpkt).bitstream.length ∧
      r.ctx.bitstream = (append_packet s0 avpkt).bitstream.drop (get_bits_count g / 8) := by
    unfold shorten_decode_frame at hr
    rw [if_neg hrun] at hr
    unfold run_pass at hr
    rw [hpass] at hr
    cases e with
    | ret code =>
      dsimp only at hr
      cases hr
      have hcode : 0 ≤ code := hok
      by_cases hq : (append_packet s0 avpkt).got_header = true ∧
          (append_packet s0 avpkt).got_quit_command = true
      · have hp2 : decode_pass (append_packet s0 avpkt) (pass_reader (append_packet s0 avpkt))
            avpkt.size = some (.ret avpkt.size, append_packet s0 avpkt,
              pass_reader (append_packet s0 avpkt)) := by
          unfold decode_pass
          rw [if_neg (by rw [hq.1]; exact fun h => h rfl), if_pos hq.2]
        rw [hp2] at hpass
        cases hpass
        have hb : (append_packet s0 avpkt).bitindex = s0.bitindex := by
          rw [append_packet_eq s0 avpkt]
        have h8 := reachable_bitindex s0 hs
        have hc : get_bits_count (pass_reader (append_packet s0 avpkt)) =
            (append_packet s0 avpkt).bitindex := by
          unfold get_bits_count pass_reader skip_bits init_get_bits
          exact Nat.zero_add _
        rw [hc, hb]
        refine ⟨by omega, by omega, ?_⟩
        rw [show s0.bitindex / 8 = 0 by omega]
        rfl
      · exact absurd ((decode_pass_size _ _ _ hq).2 code t g hpass) (by omega)
    | finish gf fr =>
      dsimp only at hr
      cases hr
      have hf := decode_pass_buffer _ _ _ _ _ _ hpass
      unfold buffer_fields at hf
      simp only [Prod.mk.injEq] at hf
      have hbs : t.bitstream = (append_packet s0 avpkt).bitstream := hf.2.1
      have hsz : t.bitstream_size = (append_packet s0 avpkt).bitstream_size := by
        unfold ShortenContext.bitstream_size
        rw [hbs]
      have hle : ¬ get_bits_count g / 8 > (append_packet s0 avpkt).bitstream_size := by
        intro hgt
        have := (finish_frame_ret t g (append_packet s0 avpkt).bitstream_size
          (input_buf_size s0 avpkt) gf fr).1 hgt
        rw [this] at hok
        exact absurd hok (by decide)
      obtain ⟨b1, b2⟩ := finish_frame_bitindex t g (append_packet s0 avpkt).bitstream_size
        (input_buf_size s0 avpkt) gf fr
      refine ⟨b1, ?_, ?_⟩
      · unfold ShortenContext.bitstream_size at hle
        omega
      · rw [b2 hle hsz, hbs]
  obtain ⟨a1, a2, a3⟩ := hfacts
  refine ⟨a1, a2, a3, fun pkt => ?_⟩
  have hi : (append_packet r.ctx pkt).bitindex = r.ctx.bitindex := by
    rw [append_packet_eq r.ctx pkt]
  have hc : get_bits_count (pass_reader (append_packet r.ctx pkt)) = get_bits_count g % 8 := by
    unfold get_bits_count pass_reader skip_bits init_get_bits
    dsimp only
    rw [Nat.zero_add, hi, a1]
    rfl
  have hbuf : (pass_reader (append_packet r.ctx pkt)).buffer =
      (append_packet s0 avpkt).bitstream.drop (get_bits_count g / 8) ++
        (pkt.data.getD []).take (input_buf_size r.ctx pkt) := by
    unfold pass_reader skip_bits init_get_bits
    dsimp only
    rw [append_packet_bitstream, a3]
  refine ⟨hc, hbuf, fun k => ?_⟩
  rw [hbuf, bit_at_drop _ _ _ _ a2]
  congr 1
  omega

set_option maxRecDepth 1000000 in
/-- Witness for C30: the flush call that decodes the first block of
`wrap_stream`: the pass starts at bit 6 of the eight pending bytes and ends at
bit 26; the new resume offset is `26 mod 8 = 2` and the first three bytes are
dropped. -/
theorem resume_offset_bookkeeping_witness :
    (Reachable wrap_parsed ∧ wrap_parsed.bitindex = 6 ∧
      (append_packet wrap_parsed { data := none }).bitstream = [2, 96, 4, 30, 105, 4, 0, 0] ∧
      get_bits_count (pass_end (append_packet wrap_parsed { data := none }) 0).2 = 26 ∧
      0 ≤ (call_result wrap_parsed { data := none }).ret) ∧
    (call_result wrap_parsed { data := none }).ctx.bitindex = 2 ∧
    (call_result wrap_parsed { data := none }).ctx.bitstream = [30, 105, 4, 0, 0] ∧
    (call_result wrap_parsed { data := none }).ctx.bitindex =
      get_bits_count (pass_end (append_packet wrap_parsed { data := none }) 0).2 % 8 ∧
    (call_result wrap_parsed { data := none }).ctx.bitstream =
      (append_packet wrap_parsed { data := none }).bitstream.drop
        (get_bits_count (pass_end (append_packet wrap_parsed { data := none }) 0).2 / 8) := by
  have hr : Reachable wrap_parsed :=
    Reachable.call _ { data := none } (call_result
        (state_after [{ data := some wrap_stream }]) { data := none })
      (Reachable.call _ { data := some wrap_stream }
        (call_result shorten_decode_init { data := some wrap_stream })
        Reachable.init (by decide)) (by decide)
  have h := resume_offset_bookkeeping wrap_parsed { data := none }
    (call_result wrap_parsed { data := none })
    (pass_exit (append_packet wrap_parsed { data := none }) 0)
    (pass_end (append_packet wrap_parsed { data := none }) 0).1
    (pass_end (append_packet wrap_parsed { data := none }) 0).2 hr (by decide) (by decide)
    (by decide) (by decide)
  exact ⟨⟨hr, by decide, by decide, by decide, by decide⟩, by decide, by decide, h.1, h.2.2.1⟩

/-- C31 (non-audio commands): in an iteration of the command loop that reads a
command (`cur_chan < channels`, enough bits left), the command `FN_VERBATIM`
reads a byte count and discards that many codes of parameter 8 and leaves the
context as it is, only the reader moves; `FN_BITSHIFT` changes only `bitshift`,
to the value decoded with parameter 2; `FN_QUIT` changes only the quit flag
and leaves the loop without a frame.  None of them changes the channel
buffers (decoded samples and wrap history), the mean history, the block size
or `cur_chan`. -/
theorem non_audio_commands (s : ShortenContext) (gb : GetBitContext)
    (h1 : s.cur_chan < s.channels) (h2 : ¬ get_bits_left gb < 3 + FNSIZE) :
    (to_int (get_ur_golomb_shorten gb FNSIZE).1 = FN_VERBATIM →
      command_step s gb = .next s
        (skip_verbatim
          ((get_ur_golomb_shorten (get_ur_golomb_shorten gb FNSIZE).2 5).1 % 4294967296)
          (get_ur_golomb_shorten (get_ur_golomb_shorten gb FNSIZE).2 5).2)) ∧
    (to_int (get_ur_golomb_shorten gb FNSIZE).1 = FN_BITSHIFT →
      command_step s gb = .next
        { s with bitshift :=
            to_int (get_ur_golomb_shorten (get_ur_golomb_shorten gb FNSIZE).2 2).1 }
        (get_ur_golomb_shorten (get_ur_golomb_shorten gb FNSIZE).2 2).2) ∧
    (to_int (get_ur_golomb_shorten gb FNSIZE).1 = FN_QUIT →
      command_step s gb = .exit (.finish false []) { s with got_quit_command := true }
        (get_ur_golomb_shorten gb FNSIZE).2) ∧
    (to_int (get_ur_golomb_shorten gb FNSIZE).1 ∈ [FN_VERBATIM, FN_BITSHIFT, FN_QUIT] →
      (command_step s gb).state.decoded_base = s.decoded_base ∧
      (command_step s gb).state.offset = s.offset ∧
      (command_step s gb).state.blocksize = s.blocksize ∧
      (command_step s gb).state.cur_chan = s.cur_chan ∧
      (command_step s gb).state.nwrap = s.nwrap) := by
  have hv : to_int (get_ur_golomb_shorten gb FNSIZE).1 = FN_VERBATIM →
      command_step s gb = .next s
        (skip_verbatim
          ((get_ur_golomb_shorten (get_ur_golomb_shorten gb FNSIZE).2 5).1 % 4294967296)
          (get_ur_golomb_shorten (get_ur_golomb_shorten gb FNSIZE).2 5).2) := by
    intro h3
    unfold command_step
    dsimp only
    rw [if_pos h1, if_neg h2, h3, if_neg (by decide), if_pos (by decide)]
    unfold non_audio_command
    rw [if_pos rfl]
    rfl
  have hb : to_int (get_ur_golomb_shorten gb FNSIZE).1 = FN_BITSHIFT →
      command_step s gb = .next
        { s with bitshift :=
            to_int (get_ur_golomb_shorten (get_ur_golomb_shorten gb FNSIZE).2 2).1 }
        (get_ur_golomb_shorten (get_ur_golomb_shorten gb FNSIZE).2 2).2 := by
    intro h3
    unfold command_step
    dsimp only
    rw [if_pos h1, if_neg h2, h3, if_neg (by decide), if_pos (by decide)]
    unfold non_audio_command
    rw [if_neg (show ¬ FN_BITSHIFT = FN_VERBATIM by decide), if_pos rfl]
    rfl
  have hq : to_int (get_ur_golomb_shorten gb FNSIZE).1 = FN_QUIT →
      command_step s gb = .exit (.finish false []) { s with got_quit_command := true }
        (get_ur_golomb_shorten gb FNSIZE).2 := by
    intro h3
    unfold command_step
    dsimp only
    rw [if_pos h1, if_neg h2, h3, if_neg (by decide), if_pos (by decide)]
    unfold non_audio_command
    rw [if_neg (show ¬ FN_QUIT = FN_VERBATIM by decide),
      if_neg (show ¬ FN_QUIT = FN_BITSHIFT by decide),
      if_neg (show ¬ FN_QUIT = FN_BLOCKSIZE by decide), if_pos rfl]
  refine ⟨hv, hb, hq, fun hm => ?_⟩
  simp only [List.mem_cons, List.mem_singleton, List.not_mem_nil, or_false] at hm
  rcases hm with h | h | h
  · rw [hv h]; exact ⟨rfl, rfl, rfl, rfl, rfl⟩
  · rw [hb h]
    unfold LoopStep.state
    dsimp only
    exact ⟨rfl, rfl, rfl, rfl, rfl⟩
  · rw [hq h]; exact ⟨rfl, rfl, rfl, rfl, rfl⟩

/-- Witness for C31: the command `FN_BITSHIFT` with the value 3 on a context
with `bitshift = 2`: the context after the iteration differs in `bitshift`
only, and the reader has moved on by seven bits. -/
theorem non_audio_commands_witness :
    (means_state.cur_chan < means_state.channels ∧
      ¬ get_bits_left bitshift_reader < 3 + FNSIZE ∧
      to_int (get_ur_golomb_shorten bitshift_reader FNSIZE).1 = FN_BITSHIFT) ∧
    command_step means_state bitshift_reader =
      .next { means_state with bitshift := 3 } (skip_bits bitshift_reader 7) ∧
    ((command_step means_state bitshift_reader).state.decoded_base = means_state.decoded_base ∧
      (command_step means_state bitshift_reader).state.offset = means_state.offset ∧
      (command_step means_state bitshift_reader).state.blocksize = means_state.blocksize ∧
      (command_step means_state bitshift_reader).state.cur_chan = means_state.cur_chan ∧
      (command_step means_state bitshift_reader).state.nwrap = means_state.nwrap) :=
  ⟨by decide, by decide,
   (non_audio_commands means_state bitshift_reader (by decide) (by decide)).2.2.2 (by decide)⟩

/-- C32 (history accesses stay in bounds): let `s` be a reachable context with
the header parsed and `t` the context after `n` commands of the decode pass of
a call on `s`.  Then there is a block size `b`, the one the buffers were
allocated for, such that `nwrap ≥ 3`, `coeffs` holds `nwrap` entries, the
block size of `t` is between 1 and `b`, the channel in turn has an array, and
the `decoded_base` array of every channel in use holds `b + nwrap` entries;
for every audio command run in `t`, every index `k` of an access
`decoded[channel][k]` of `decode_subframe_lpc`, of the zero fill, of the mean
update, of the wrap copy, of `fix_bitshift` and of `interleave_buffer`
satisfies `-nwrap ≤ k < b`, every index `j` of an access to `coeffs` satisfies
`0 ≤ j < nwrap` (and `j < 3` in the table of a fixed predictor), and the
buffers are allocated in the same way after the command. -/
theorem history_accesses_in_bounds (s : ShortenContext) (avpkt : AVPacket) (n : Nat)
    (t : ShortenContext) (g : GetBitContext)
    (hs : Reachable s) (hh : s.got_header = true)
    (hl : loop_iter n { append_packet s avpkt with cur_chan := 0 }
      (pass_reader (append_packet s avpkt)) = some (t, g)) :
    ∃ b, Allocated t b ∧
      (t.cur_chan < t.channels → t.cur_chan < t.decoded_base.length ∧
        (t.decoded_base.getD t.cur_chan []).length = b + t.nwrap) ∧
      ∀ gb cmd, is_audio cmd ≠ 0 →
        (∀ k, k ∈ decode_accesses t gb cmd ++ branch_accesses t →
          -(t.nwrap : Int) ≤ k ∧ k < b) ∧
        (cmd ≠ FN_ZERO → ∀ j, j ∈ coeff_accesses t (read_residual_size t gb cmd).2 cmd →
          0 ≤ j ∧ j < t.nwrap ∧ (cmd ≠ FN_QLPC → j < 3)) ∧
        Allocated (audio_command t gb cmd).2.1 b ∧
        (audio_command t gb cmd).2.1.nwrap = t.nwrap ∧
        (audio_command t gb cmd).2.1.blocksize = t.blocksize := by
  obtain ⟨⟨b, hb⟩, _⟩ := (reachable_alloc s hs).2.2 hh
  have hA := append_packet_eq s avpkt
  have hu : Allocated { append_packet s avpkt with cur_chan := 0 } b := by
    rw [hA]
    exact hb
  have ht : Allocated t b := (loop_iter_allocated n _ t _ g b hl).2.1 hu
  obtain ⟨a1, a2, a3, a4, a5, a6⟩ := ht
  refine ⟨b, ⟨a1, a2, a3, a4, a5, a6⟩, fun hc => ⟨by omega, a6 _ hc⟩, fun gb cmd ha => ?_⟩
  obtain ⟨c1, c2, _, _, c6⟩ := audio_command_lengths t gb cmd
  have hf := audio_command_frame t gb cmd
  unfold audio_fields stream_fields at hf
  simp only [Prod.mk.injEq] at hf
  have hch : (audio_command t gb cmd).2.1.channels = t.channels := hf.2.1.2.1
  have hnw : (audio_command t gb cmd).2.1.nwrap = t.nwrap := hf.2.1.2.2.2.2.2.2.2.1
  have hbs : (audio_command t gb cmd).2.1.blocksize = t.blocksize := hf.2.2.1
  refine ⟨fun k hk => ?_, fun hz j hj => coeff_accesses_bounds t _ cmd a1 ha hz j hj,
    ⟨by rw [hnw]; exact a1, by rw [hnw, c1]; exact a2, by rw [hbs]; exact a3,
      by rw [hbs]; exact a4, by rw [hch, c2]; exact a5, fun ch hc => ?_⟩, hnw, hbs⟩
  · rw [List.mem_append] at hk
    rcases hk with hk | hk
    · have := decode_accesses_bounds t gb cmd a1 ha k hk
      omega
    · have := branch_accesses_bounds t a3 k hk
      omega
  · rw [c6 ch, hnw]
    exact a6 ch (by rw [← hch]; exact hc)

set_option maxRecDepth 1000000 in
/-- Witness for C32: the flush pass on `wrap_decoded` (block size 1, `nwrap = 3`),
where `FN_QLPC` of order 1 with the offset 64 touches the indices -1 and 0 and
the wrap copy the indices -3 to 0. -/
theorem history_accesses_in_bounds_witness :
    Reachable wrap_decoded ∧ wrap_decoded.got_header = true ∧
    wrap_state.nwrap = 3 ∧ wrap_state.blocksize = 1 ∧
    decode_accesses wrap_state wrap_reader FN_QLPC ++ branch_accesses wrap_state =
      [-1, -1, 0, 0, 0, -3, -2, -2, -1, -1, 0, 0] ∧
    coeff_accesses wrap_state (read_residual_size wrap_state wrap_reader FN_QLPC).2 FN_QLPC =
      [0] ∧
    ∃ b, Allocated wrap_state b ∧
      (wrap_state.cur_chan < wrap_state.channels →
        wrap_state.cur_chan < wrap_state.decoded_base.length ∧
        (wrap_state.decoded_base.getD wrap_state.cur_chan []).length = b + wrap_state.nwrap) ∧
      ∀ gb cmd, is_audio cmd ≠ 0 →
        (∀ k, k ∈ decode_accesses wrap_state gb cmd ++ branch_accesses wrap_state →
          -(wrap_state.nwrap : Int) ≤ k ∧ k < b) ∧
        (cmd ≠ FN_ZERO →
          ∀ j, j ∈ coeff_accesses wrap_state (read_residual_size wrap_state gb cmd).2 cmd →
            0 ≤ j ∧ j < wrap_state.nwrap ∧ (cmd ≠ FN_QLPC → j < 3)) ∧
        Allocated (audio_command wrap_state gb cmd).2.1 b ∧
        (audio_command wrap_state gb cmd).2.1.nwrap = wrap_state.nwrap ∧
        (audio_command wrap_state gb cmd).2.1.blocksize = wrap_state.blocksize := by
  have hr : Reachable wrap_decoded :=
    Reachable.call _ { data := none } (call_result
        (state_after [{ data := some wrap_stream }, { data := none }]) { data := none })
      (Reachable.call _ { data := none } (call_result
          (state_after [{ data := some wrap_stream }]) { data := none })
        (Reachable.call _ { data := some wrap_stream }
          (call_result shorten_decode_init { data := some wrap_stream })
          Reachable.init (by decide)) (by decide)) (by decide)
  exact ⟨hr, by decide, by decide, by decide, by decide, by decide,
    history_accesses_in_bounds wrap_decoded { data := none } 0 wrap_state
      (pass_reader (append_packet wrap_decoded { data := none })) hr (by decide) rfl⟩

/-- C33 (pending-buffer invariant): after every call of `shorten_decode_frame`
on a reachable context that returns, whatever the packet,
`bitstream_size ≤ max_framesize = 1024`, `bitindex < 8` and
`bitstream_index + bitstream_size ≤ allocated_bitstream_size` (the three
counters are never negative); and the copy of the packet bytes made by the
call, `input_buf_size` bytes behind the pending ones, ends inside the
allocation. -/
theorem pending_buffer_invariant (s : ShortenContext) (avpkt : AVPacket) (r : DecodeResult)
    (hs : Reachable s) (h : shorten_decode_frame s avpkt = some r) :
    r.ctx.bitstream_size ≤ r.ctx.max_framesize ∧ r.ctx.max_framesize = 1024 ∧
    r.ctx.bitindex < 8 ∧
    r.ctx.bitstream_index + r.ctx.bitstream_size ≤ r.ctx.allocated_bitstream_size ∧
    (append_packet s avpkt).bitstream_index + s.bitstream_size + input_buf_size s avpkt ≤
      (append_packet s avpkt).allocated_bitstream_size ∧
    input_buf_size s avpkt ≤ avpkt.size := by
  have hp := reachable_pending s hs
  obtain ⟨⟨⟨b1, _⟩, p2, p3, p4⟩, hm⟩ := decode_call_pending s avpkt r h hp
  obtain ⟨_, _, hcopy⟩ := append_packet_pending s avpkt hp
  refine ⟨?_, hm, p4, p2, hcopy, ?_⟩
  · rw [frame_cap_value _ p3] at b1
    rw [hm]
    exact b1
  · unfold input_buf_size
    exact Nat.min_le_left _ _

set_option maxRecDepth 1000000 in
/-- Witness for C33: the flush call that decodes the first block of
`wrap_stream`: afterwards five bytes are pending at index 62 of an allocation
of 1120 bytes and the resume offset is 2. -/
theorem pending_buffer_invariant_witness :
    (Reachable wrap_parsed ∧
      shorten_decode_frame wrap_parsed { data := none } =
        some (call_result wrap_parsed { data := none })) ∧
    ((call_result wrap_parsed { data := none }).ctx.bitstream_size = 5 ∧
      (call_result wrap_parsed { data := none }).ctx.bitstream_index = 62 ∧
      (call_result wrap_parsed { data := none }).ctx.allocated_bitstream_size = 1120 ∧
      (call_result wrap_parsed { data := none }).ctx.bitindex = 2) ∧
    (call_result wrap_parsed { data := none }).ctx.bitstream_index +
      (call_result wrap_parsed { data := none }).ctx.bitstream_size ≤
        (call_result wrap_parsed { data := none }).ctx.allocated_bitstream_size := by
  have hr : Reachable wrap_parsed :=
    Reachable.call _ { data := none } (call_result
        (state_after [{ data := some wrap_stream }]) { data := none })
      (Reachable.call _ { data := some wrap_stream }
        (call_result shorten_decode_init { data := some wrap_stream })
        Reachable.init (by decide)) (by decide)
  exact ⟨⟨hr, by decide⟩, by decide,
    (pending_buffer_invariant wrap_parsed { data := none }
      (call_result wrap_parsed { data := none }) hr (by decide)).2.2.2.1⟩

/-- C34 (shift amounts): the value read by `FN_BITSHIFT` is stored without a
range check, so a context with `bitshift = 32` is reachable after a successful
header parse: the stream `wide_shift_stream` carries the shift 32, the flush
call that runs the command leaves `bitshift = 32`, and the same call decodes a
block with the samples `-1, 1, 1, 1`, on which `fix_bitshift` shifts by 32
(the frame holds zeros under the wrap-around reading of `<<=`).  The header
parse itself leaves 0, and in every reachable context with the header parsed
the value lies between 0 and 32771. -/
theorem bitshift_unchecked :
    Reachable wide_shift_decoded ∧
    (wide_shift_parsed.got_header = true ∧ wide_shift_parsed.bitshift = 0 ∧
      wide_shift_parsed.version = 2) ∧
    (pass_end_iter wide_shift_parsed 1).1.bitshift = 32 ∧
    (decoded_state (pass_end_iter wide_shift_parsed 1).1
      (get_ur_golomb_shorten (pass_end_iter wide_shift_parsed 1).2 FNSIZE).2
      FN_DIFF0).decoded_base.getD 0 [] = [0, 0, 0, -1, 1, 1, 1] ∧
    (call_result wide_shift_parsed { data := none }).got_frame = true ∧
    (call_result wide_shift_parsed { data := none }).frame = [0, 0, 0, 0] ∧
    (wide_shift_decoded.got_header = true ∧ wide_shift_decoded.bitshift = 32) ∧
    ¬ (wide_shift_decoded.bitshift < 32) ∧
    ∀ s, Reachable s → s.got_header = true → 0 ≤ s.bitshift ∧ s.bitshift ≤ 32771 := by
  refine ⟨?_, by decide, by decide, by decide, by decide, by decide, by decide, by decide,
    reachable_bitshift⟩
  exact Reachable.call _ { data := none } (call_result
      (state_after [{ data := some wide_shift_stream }, { data := none }]) { data := none })
    (Reachable.call _ { data := none } (call_result
        (state_after [{ data := some wide_shift_stream }]) { data := none })
      (Reachable.call _ { data := some wide_shift_stream }
        (call_result shorten_decode_init { data := some wide_shift_stream })
        Reachable.init (by decide)) (by decide)) (by decide)

set_option maxRecDepth 1000000 in
/-- C35 (termination of `decode_wave_header`): on the 44-byte header blob with
the tags "RIFF" and "WAVE" followed by zero bytes, the sub-chunk scan reads the
tag 0 and the length 0 until fewer than four bytes are left, from where on
every read yields the tag 0 without moving the reader: no number of iterations
finds the tag `fmt `, `decode_wave_header` does not return, and neither does the
call of `shorten_decode_frame` that parses the header of a stream holding this
blob.  For every blob, the function fails to return only in this way. -/
theorem wave_header_scan_never_ends :
    no_fmt_header.length = 44 ∧
    (bytestream2_get_le32 (bytestream2_init no_fmt_header 44)).1 = MKTAG 'R' 'I' 'F' 'F' ∧
    (bytestream2_get_le32 (bytestream2_skip
      (bytestream2_get_le32 (bytestream2_init no_fmt_header 44)).2 4)).1 =
        MKTAG 'W' 'A' 'V' 'E' ∧
    (∀ fuel, find_fmt fuel (scan_start no_fmt_header 44) = none) ∧
    decode_wave_header avctx_init no_fmt_header 44 = none ∧
    (state_after [{ data := some no_fmt_stream }]).bitstream = no_fmt_stream ∧
    shorten_decode_frame (state_after [{ data := some no_fmt_stream }]) { data := none } =
      none ∧
    ∀ (avctx : AVCodecContext) (header : List Nat) (header_size : Nat),
      decode_wave_header avctx header header_size = none →
        ∀ fuel, find_fmt fuel (scan_start header header_size) = none := by
  refine ⟨by decide, by decide, by decide, (fmt_chunk_none no_fmt_header 44).mp (by decide),
    by decide, by decide, by decide, fun avctx header header_size h => ?_⟩
  apply (fmt_chunk_none header header_size).mp
  unfold decode_wave_header at h
  dsimp only at h
  split at h
  · cases h
  · split at h
    · cases h
    · split at h
      · next hnone => exact hnone
      · split at h
        · cases h
        · split at h
          · cases h
          · split at h
            · cases h
            · cases h

/-- Counterexample for C36: in a version-2 stream with `nmean = 2`, both means
equal to `-1` and `bitshift = 0`, the offset is `(2/2 + (-2)) / 2 = (-1) / 2`,
which the truncating division makes `0`, not `-1`. -/
theorem negative_mean_rounds_up :
    negative_means_state.version = 2 ∧ negative_means_state.nmean = 2 ∧
    negative_means_state.bitshift = 0 ∧
    (∀ i, i < 2 → (negative_means_state.offset.getD 0 []).getD i 0 = -1) ∧
    sample_offset negative_means_state 0 = 0 ∧
    sample_offset negative_means_state 0 ≠ -1 := by
  decide

/-- C36 (mean of a constant history, amended): for `nmean ≥ 1`, when all
`nmean` means of a channel equal the same value `m` and `bitshift = 0`, the
offset `coffset` computed for the channel is `m` for a stream version below 2
(with `nmean · m` within 32-bit range), and for a version of 2 or more (with
`nmean · m` and `nmean · m + nmean/2` within 32-bit range) it is `m` when
`m ≥ 0` or `nmean = 1`, and `m + 1` when `m < 0` and `nmean ≥ 2`, since the
division truncates toward zero. -/
theorem constant_means_offset (s : ShortenContext) (channel : Nat) (m : Int)
    (hn : 1 ≤ s.nmean) (hn2 : s.nmean < 2147483648)
    (hm : ∀ i, i < s.nmean.toNat → (s.offset.getD channel []).getD i 0 = m)
    (hb : s.bitshift = 0) :
    (s.version < 2 → -2147483648 ≤ s.nmean * m → s.nmean * m < 2147483648 →
      sample_offset s channel = m) ∧
    (s.version ≥ 2 → -2147483648 ≤ s.nmean * m → s.nmean * m + s.nmean / 2 < 2147483648 →
      sample_offset s channel = if 0 ≤ m ∨ s.nmean = 1 then m else m + 1) := by
  have hsum := sum_map_const (fun i => (s.offset.getD channel []).getD i 0) s.nmean.toNat m hm
  rw [Int.toNat_of_nonneg (by omega)] at hsum
  have hf := sample_offset_eq s channel (by omega) (by omega) hn2
  rw [hsum] at hf
  have hmlo : ∀ lo : Int, lo ≤ 0 → lo ≤ s.nmean * m → lo ≤ m := by
    intro lo h0 h
    by_cases hm0 : 0 ≤ m
    · omega
    · nlinarith
  have hmhi : ∀ hi : Int, 0 ≤ hi → s.nmean * m < hi → m < hi := by
    intro hi h0 h
    by_cases hm0 : 0 ≤ m
    · nlinarith
    · omega
  refine ⟨fun hv h1 h2 => ?_, fun hv h1 h2 => ?_⟩
  · rw [if_neg (by omega)] at hf
    rw [hf, Int.zero_add, wrap32_of_range (s.nmean * m) h1 h2]
    have hq : (s.nmean * m).tdiv s.nmean = m := by
      by_cases hm0 : 0 ≤ m
      · exact tdiv_eq_of _ _ m 0 (by omega) (by ring)
          (Or.inl ⟨Int.mul_nonneg (by omega) hm0, le_refl _, by omega⟩)
      · exact tdiv_eq_of _ _ m 0 (by omega) (by ring)
          (Or.inr ⟨by nlinarith, by omega, le_refl _⟩)
    rw [hq]
    exact wrap32_of_range _ (hmlo _ (by decide) h1) (hmhi _ (by decide) h2)
  · have h2' : s.nmean * m < 2147483648 := by omega
    have ht : s.nmean.tdiv 2 = s.nmean / 2 := Int.tdiv_eq_ediv (by omega) (by decide)
    rw [if_pos hv, hb, ht] at hf
    have hz : (min (1 : Int) 0).toNat = 0 := by decide
    rw [hf, hz, asr_zero, wrap32_of_range (s.nmean / 2 + s.nmean * m) (by omega) (by omega)]
    by_cases hm0 : 0 ≤ m
    · rw [if_pos (Or.inl hm0)]
      have hq : (s.nmean / 2 + s.nmean * m).tdiv s.nmean = m :=
        tdiv_eq_of _ _ m (s.nmean / 2) (by omega) (by ring)
          (Or.inl ⟨by have := Int.mul_nonneg (show (0 : Int) ≤ s.nmean by omega) hm0; omega,
            by omega, by omega⟩)
      rw [hq]
      exact wrap32_of_range _ (hmlo _ (by decide) h1) (hmhi _ (by decide) h2')
    · by_cases h1n : s.nmean = 1
      · rw [if_pos (Or.inr h1n)]
        have hq : (s.nmean / 2 + s.nmean * m).tdiv s.nmean = m :=
          tdiv_eq_of _ _ m 0 (by omega) (by rw [h1n]; ring)
            (Or.inr ⟨by rw [h1n]; omega, by omega, le_refl _⟩)
        rw [hq]
        exact wrap32_of_range _ (hmlo _ (by decide) h1) (hmhi _ (by decide) h2')
      · rw [if_neg (fun h => h.elim hm0 h1n)]
        have hle : s.nmean * m ≤ -s.nmean := by nlinarith
        have hq : (s.nmean / 2 + s.nmean * m).tdiv s.nmean = m + 1 :=
          tdiv_eq_of _ _ (m + 1) (s.nmean / 2 - s.nmean) (by omega) (by ring)
            (Or.inr ⟨by omega, by omega, by omega⟩)
        rw [hq]
        exact wrap32_of_range _ (by have := hmlo _ (by decide) h1; omega) (by omega)

/-- Witness for C36: a version-2 context with `nmean = 3`, the means
`7, 7, 7` and `bitshift = 0`: the offset is `(3/2 + 21) / 3 = 7`. -/
theorem constant_means_offset_witness :
    (1 ≤ constant_means_state.nmean ∧ constant_means_state.nmean < 2147483648 ∧
      (∀ i, i < constant_means_state.nmean.toNat →
        (constant_means_state.offset.getD 0 []).getD i 0 = 7) ∧
      constant_means_state.bitshift = 0 ∧ constant_means_state.version ≥ 2 ∧
      -2147483648 ≤ constant_means_state.nmean * 7 ∧
      constant_means_state.nmean * 7 + constant_means_state.nmean / 2 < 2147483648) ∧
    sample_offset constant_means_state 0 = 7 ∧
    sample_offset constant_means_state 0 =
      (if (0 : Int) ≤ 7 ∨ constant_means_state.nmean = 1 then 7 else 7 + 1) :=
  ⟨by decide, by decide,
   (constant_means_offset constant_means_state 0 7 (by decide) (by decide) (by decide)
     (by decide)).2 (by decide) (by decide) (by decide)⟩

/-- C37 (no offset correction without means): let `s` be a reachable context
with the header parsed and `nmean ≤ 0`, and `t` the context after `n` commands
of the decode pass of a call on `s`.  Then the means of every channel in use
are the single entry 0, in `s` and in `t`; the offset `coffset` of an audio
command on any channel is 0 and its division, checked, divides by `nmean ≠ 0`
only; the update of the means is skipped, so no division by the block size
takes place; and every audio command leaves the means as they are. -/
theorem no_offset_without_means (s : ShortenContext) (avpkt : AVPacket) (n : Nat)
    (t : ShortenContext) (g : GetBitContext)
    (hs : Reachable s) (hh : s.got_header = true) (hn : s.nmean ≤ 0)
    (hl : loop_iter n { append_packet s avpkt with cur_chan := 0 }
      (pass_reader (append_packet s avpkt)) = some (t, g)) :
    (∀ ch, ch < s.channels → s.offset.getD ch [] = [0]) ∧
    t.nmean = s.nmean ∧
    (∀ ch, ch < t.channels → t.offset.getD ch [] = [0] ∧
      sample_offset t ch = 0 ∧ sample_offset_checked t ch = some 0) ∧
    ∀ gb cmd,
      update_means (decoded_state t gb cmd) t.cur_chan = decoded_state t gb cmd ∧
      update_means_checked (decoded_state t gb cmd) t.cur_chan =
        some (decoded_state t gb cmd) ∧
      (audio_command t gb cmd).2.1.offset = t.offset := by
  obtain ⟨_, hm⟩ := (reachable_alloc s hs).2.2 hh
  have hms : MeansClear s := hm hn
  have hA := append_packet_eq s avpkt
  have hu : MeansClear { append_packet s avpkt with cur_chan := 0 } := by
    rw [hA]
    exact hms
  have hun : ({ append_packet s avpkt with cur_chan := 0 } : ShortenContext).nmean = s.nmean := by
    rw [hA]
  obtain ⟨i1, _, i3⟩ := loop_iter_allocated n _ t _ g 0 hl
  have htn : t.nmean = s.nmean := i1.2.2.2.1.trans hun
  have hmt : MeansClear t := i3 (by rw [hun]; exact hn) hu
  have htn0 : t.nmean ≤ 0 := by rw [htn]; exact hn
  refine ⟨hms, htn, fun ch hch => ⟨hmt ch hch, sample_offset_clear t ch htn0 (hmt ch hch)⟩,
    fun gb cmd => ?_⟩
  have hdn : (decoded_state t gb cmd).nmean = t.nmean :=
    (decode_channel_fields t (read_residual_size t gb cmd).2 cmd t.cur_chan
      (read_residual_size t gb cmd).1 (sample_offset t t.cur_chan)).2.1
  obtain ⟨u1, u2⟩ := update_means_skipped (decoded_state t gb cmd) t.cur_chan
    (by rw [hdn]; exact htn0)
  exact ⟨u1, u2, (audio_command_lengths t gb cmd).2.2.2.1 htn0⟩

set_option maxRecDepth 1000000 in
/-- Witness for C37: the stream of version 0, whose header leaves `nmean = -1`:
at the start of the flush pass the offset of channel 0 is 0, and the frame of
`FN_ZERO` leaves the mean 0. -/
theorem no_offset_without_means_witness :
    Reachable version_zero_parsed ∧ version_zero_parsed.got_header = true ∧
    version_zero_parsed.nmean = -1 ∧ version_zero_parsed.version = 0 ∧
    version_zero_parsed.channels = 1 ∧
    sample_offset { append_packet version_zero_parsed { data := none } with cur_chan := 0 } 0 =
      0 ∧
    sample_offset_checked
      { append_packet version_zero_parsed { data := none } with cur_chan := 0 } 0 = some 0 ∧
    (call_result version_zero_parsed { data := none }).got_frame = true ∧
    (call_result version_zero_parsed { data := none }).ctx.offset.getD 0 [] = [0] := by
  have hr : Reachable version_zero_parsed :=
    Reachable.call _ { data := none } (call_result
        (state_after [{ data := some version_zero_stream }]) { data := none })
      (Reachable.call _ { data := some version_zero_stream }
        (call_result shorten_decode_init { data := some version_zero_stream })
        Reachable.init (by decide)) (by decide)
  have h := no_offset_without_means version_zero_parsed { data := none } 0
    { append_packet version_zero_parsed { data := none } with cur_chan := 0 }
    (pass_reader (append_packet version_zero_parsed { data := none }))
    hr (by decide) (by decide) rfl
  exact ⟨hr, by decide, by decide, by decide, by decide, (h.2.2.1 0 (by decide)).2.1,
    (h.2.2.1 0 (by decide)).2.2, by decide, by decide⟩

/-- C38 (closed form of fixed prediction): when all residuals of the block are
zero, every sample of a `FN_DIFF1` block is the last history sample `x[−1]`
(a 32-bit value; in general its reduction to 32 bits), and sample `i` of a
`FN_DIFF2` block is `x[−1] + (i+1)·(x[−1] − x[−2])` in 32-bit wrapping
arithmetic, for every `0 ≤ i < blocksize`, where `x[−1]`, `x[−2]` are the
carried-over history samples. -/
theorem fixed_closed_form (s : ShortenContext) (gb : GetBitContext) (channel : Nat)
    (residual_size coffset : Int) (hch : channel < s.decoded_base.length)
    (hlen : s.nwrap + s.blocksize ≤ (s.decoded_base.getD channel []).length)
    (hw : 3 ≤ s.nwrap)
    (hres : ∀ i, i < s.blocksize → (residuals residual_size s.blocksize gb).getD i 0 = 0) :
    ∀ i : Nat, i < s.blocksize →
      sample (decode_subframe_lpc s gb FN_DIFF1 channel residual_size coffset).2.1 channel i =
        wrap32 (sample s channel (-1)) ∧
      (-2147483648 ≤ sample s channel (-1) → sample s channel (-1) < 2147483648 →
        sample (decode_subframe_lpc s gb FN_DIFF1 channel residual_size coffset).2.1 channel i =
          sample s channel (-1)) ∧
      sample (decode_subframe_lpc s gb FN_DIFF2 channel residual_size coffset).2.1 channel i =
        wrap32 (sample s channel (-1) +
          ((i : Int) + 1) * (sample s channel (-1) - sample s channel (-2))) := by
  intro i hi
  have n1 := (decode_subframe_lpc_fixed s gb FN_DIFF1 channel residual_size coffset
    (by decide) hch).2.1
  have n2 := (decode_subframe_lpc_fixed s gb FN_DIFF2 channel residual_size coffset
    (by decide) hch).2.1
  have k1 := (fixed_sample s gb FN_DIFF1 channel residual_size coffset (by decide) hch hlen
    hw).2
  have k2 := (fixed_sample s gb FN_DIFF2 channel residual_size coffset (by decide) hch hlen
    hw).2
  have hd1 : sample (decode_subframe_lpc s gb FN_DIFF1 channel residual_size coffset).2.1
      channel i = wrap32 (sample s channel (-1)) := by
    have hrun := constant_run
      (fun t => ((decode_subframe_lpc s gb FN_DIFF1 channel residual_size
        coffset).2.1.decoded_base.getD channel []).getD (s.nwrap - 1 + t) 0) s.blocksize
      (fun t ht => by
        have h := (fixed_recurrence s gb channel residual_size coffset hch hlen hw t ht).1
        rw [hres t ht] at h
        dsimp only
        rw [show s.nwrap - 1 + (t + 1) = s.nwrap + t by omega,
          show s.nwrap - 1 + t = s.nwrap + t - 1 by omega]
        exact h) i hi
    dsimp only at hrun
    have h0 := k1 (-1) (by omega) (by decide)
    unfold sample at h0 ⊢
    rw [n1] at h0 ⊢
    rw [show ((s.nwrap : Int) + (i : Int)).toNat = s.nwrap - 1 + (i + 1) by omega, hrun,
      Nat.add_zero, ← h0, show ((s.nwrap : Int) + -1).toNat = s.nwrap - 1 by omega]
  refine ⟨hd1, fun h1 h2 => by rw [hd1]; exact wrap32_of_range _ h1 h2, ?_⟩
  have hrun := linear_run
    (fun t => ((decode_subframe_lpc s gb FN_DIFF2 channel residual_size
      coffset).2.1.decoded_base.getD channel []).getD (s.nwrap - 2 + t) 0) s.blocksize
    (fun t ht => by
      have h := (fixed_recurrence s gb channel residual_size coffset hch hlen hw t ht).2
      rw [hres t ht] at h
      dsimp only
      rw [show s.nwrap - 2 + (t + 2) = s.nwrap + t by omega,
        show s.nwrap - 2 + (t + 1) = s.nwrap + t - 1 by omega,
        show s.nwrap - 2 + t = s.nwrap + t - 2 by omega]
      exact h) (i + 2) (by omega)
  dsimp only at hrun
  have hrec := (fixed_recurrence s gb channel residual_size coffset hch hlen hw i hi).2
  have hw2 : wrap32 (((decode_subframe_lpc s gb FN_DIFF2 channel residual_size
      coffset).2.1.decoded_base.getD channel []).getD (s.nwrap + i) 0) =
      ((decode_subframe_lpc s gb FN_DIFF2 channel residual_size
      coffset).2.1.decoded_base.getD channel []).getD (s.nwrap + i) 0 := by
    rw [hrec, wrap32_idem]
  have h1 := k2 (-1) (by omega) (by decide)
  have h2 := k2 (-2) (by omega) (by decide)
  unfold sample at h1 h2 ⊢
  rw [n2] at h1 h2 ⊢
  rw [show ((s.nwrap : Int) + -1).toNat = s.nwrap - 2 + 1 by omega] at h1
  rw [show ((s.nwrap : Int) + -2).toNat = s.nwrap - 2 + 0 by omega] at h2
  rw [show ((s.nwrap : Int) + (i : Int)).toNat = s.nwrap + i by omega, ← hw2,
    show s.nwrap + i = s.nwrap - 2 + (i + 2) by omega, hrun, h1, h2,
    show ((s.nwrap : Int) + -1).toNat = s.nwrap - 2 + 1 by omega,
    show ((s.nwrap : Int) + -2).toNat = s.nwrap - 2 + 0 by omega]
  congr 1
  push_cast
  ring

/-- Witness for C38: the history `5, 7, 12` and four residuals `0`: the
`FN_DIFF1` block is `12, 12, 12, 12` and the `FN_DIFF2` block is
`17, 22, 27, 32`; sample 2 is `12 + 3·(12 − 7) = 27`. -/
theorem fixed_closed_form_witness :
    (0 < fixed_state.decoded_base.length ∧
      fixed_state.nwrap + fixed_state.blocksize ≤ (fixed_state.decoded_base.getD 0 []).length ∧
      3 ≤ fixed_state.nwrap ∧
      (∀ i, i < fixed_state.blocksize →
        (residuals 1 fixed_state.blocksize zero_residuals_reader).getD i 0 = 0) ∧
      2 < fixed_state.blocksize) ∧
    (decode_subframe_lpc fixed_state zero_residuals_reader FN_DIFF1 0 1 0).2.1.decoded_base =
      [[5, 7, 12, 12, 12, 12, 12]] ∧
    (decode_subframe_lpc fixed_state zero_residuals_reader FN_DIFF2 0 1 0).2.1.decoded_base =
      [[5, 7, 12, 17, 22, 27, 32]] ∧
    sample (decode_subframe_lpc fixed_state zero_residuals_reader FN_DIFF2 0 1 0).2.1 0
        ((2 : Nat) : Int) =
      wrap32 (sample fixed_state 0 (-1) +
        (((2 : Nat) : Int) + 1) * (sample fixed_state 0 (-1) - sample fixed_state 0 (-2))) :=
  ⟨by decide, by decide, by decide,
   (fixed_closed_form fixed_state zero_residuals_reader 0 1 0 (by decide) (by decide)
     (by decide) (by decide) 2 (by decide)).2.2⟩

end Shorten

namespace ChannelLayout

/-! ## Set bits of a mask -/

theorem count_bits_none (a i : Nat) : count_bits a i 0 = 0 := by
  unfold count_bits
  rfl

theorem count_bits_succ (a i n : Nat) :
    count_bits a i (n + 1) = (if a.testBit i then 1 else 0) + count_bits a (i + 1) n := by
  conv => lhs; unfold count_bits

theorem count_bits_congr (a b : Nat) (i n : Nat)
    (h : ∀ j, i ≤ j → j < i + n → a.testBit j = b.testBit j) :
    count_bits a i n = count_bits b i n := by
  induction n generalizing i with
  | zero => rfl
  | succ n ih =>
    unfold count_bits
    rw [h i (Nat.le_refl _) (by omega), ih (i + 1) (fun j h1 h2 => h j (by omega) (by omega))]

theorem count_bits_zero (a : Nat) (i n : Nat)
    (h : ∀ j, i ≤ j → j < i + n → a.testBit j = false) : count_bits a i n = 0 := by
  induction n generalizing i with
  | zero => rfl
  | succ n ih =>
    unfold count_bits
    rw [h i (Nat.le_refl _) (by omega), ih (i + 1) (fun j h1 h2 => h j (by omega) (by omega))]
    rfl

theorem count_bits_add (a : Nat) (i n1 n2 : Nat) :
    count_bits a i (n1 + n2) = count_bits a i n1 + count_bits a (i + n1) n2 := by
  induction n1 generalizing i with
  | zero => rw [Nat.zero_add, count_bits_none, Nat.zero_add, Nat.add_zero]
  | succ n1 ih =>
    rw [show n1 + 1 + n2 = (n1 + n2) + 1 by omega, count_bits_succ, count_bits_succ, ih (i + 1),
      show i + 1 + n1 = i + (n1 + 1) by omega]
    omega

/-- The scan of `av_channel_layout_get_channel` for the native order: with
more than `idx` set bits among the positions scanned, it returns the position
of a set bit with exactly `idx` set bits before it. -/
theorem native_channel_spec (m fuel i idx : Nat) (h : idx < count_bits m i fuel) :
    ∃ c : Nat, native_channel m fuel i (idx : Int) = (c : Int) ∧ i ≤ c ∧ c < i + fuel ∧
      m.testBit c = true ∧ count_bits m i (c - i) = idx := by
  induction fuel generalizing i idx with
  | zero => rw [count_bits_none] at h; omega
  | succ fuel ih =>
    rw [count_bits_succ] at h
    unfold native_channel
    by_cases hb : m.testBit i = true
    · rw [if_pos hb] at h ⊢
      cases idx with
      | zero =>
        refine ⟨i, ?_, Nat.le_refl _, by omega, hb, ?_⟩
        · rw [if_pos (by rfl)]
        · rw [Nat.sub_self, count_bits_none]
      | succ k =>
        obtain ⟨c, h1, h2, h3, h4, h5⟩ := ih (i + 1) k (by omega)
        refine ⟨c, ?_, by omega, by omega, h4, ?_⟩
        · rw [if_neg (by omega), show ((k + 1 : Nat) : Int) - 1 = (k : Int) by omega]
          exact h1
        · rw [show c - i = (c - (i + 1)) + 1 by omega, count_bits_succ, if_pos hb, h5]
          omega
    · rw [if_neg hb] at h ⊢
      obtain ⟨c, h1, h2, h3, h4, h5⟩ := ih (i + 1) idx (by omega)
      refine ⟨c, h1, by omega, by omega, h4, ?_⟩
      rw [show c - i = (c - (i + 1)) + 1 by omega, count_bits_succ, if_neg hb, h5]
      omega

/-- The set bits of `m` below bit `c`: the popcount of `m & ((1 << c) - 1)`. -/
theorem popcount_below (m c : Nat) (hc : c ≤ 64) :
    av_popcount64 (m &&& (2 ^ c - 1)) = count_bits m 0 c := by
  unfold av_popcount64
  rw [show 64 = c + (64 - c) by omega, count_bits_add,
    count_bits_congr (m &&& (2 ^ c - 1)) m 0 c, count_bits_zero _ (0 + c) (64 - c)]
  · rfl
  · intro j h1 h2
    rw [Nat.testBit_and, Nat.testBit_two_pow_sub_one]
    simp
    intro _
    omega
  · intro j h1 h2
    rw [Nat.testBit_and, Nat.testBit_two_pow_sub_one]
    simp
    intro _
    omega

theorem and_two_pow_ne_zero (m c : Nat) (h : m.testBit c = true) : m &&& 2 ^ c ≠ 0 := by
  intro h0
  have : (m &&& 2 ^ c).testBit c = false := by rw [h0]; exact Nat.zero_testBit c
  rw [Nat.testBit_and, h, Nat.testBit_two_pow_self] at this
  exact Bool.noConfusion this
theorem native_channel_zero (m i idx : Nat) : native_channel m 0 i (idx : Int) = AVERROR_EINVAL := by
  unfold native_channel
  rfl

theorem native_channel_succ (m fuel i : Nat) (idx : Int) :
    native_channel m (fuel + 1) i idx =
      if m.testBit i then
        if idx = 0 then (i : Int) else native_channel m fuel (i + 1) (idx - 1)
      else native_channel m fuel (i + 1) idx := by
  conv => lhs; unfold native_channel

/-- The scan finds a set bit `c` when asked for the number of set bits below it. -/
theorem native_channel_of_bit (m fuel i c : Nat) (h1 : i ≤ c) (h2 : c < i + fuel)
    (hc : m.testBit c = true) :
    native_channel m fuel i ((count_bits m i (c - i) : Nat) : Int) = (c : Int) := by
  induction fuel generalizing i with
  | zero => omega
  | succ fuel ih =>
    rw [native_channel_succ]
    by_cases hi : c = i
    · subst hi
      rw [Nat.sub_self, count_bits_none, if_pos hc]
      rfl
    · have hs : c - i = (c - (i + 1)) + 1 := by omega
      rw [hs, count_bits_succ]
      by_cases hb : m.testBit i = true
      · rw [if_pos hb, if_pos hb, if_neg (by omega)]
        have e : (((1 + count_bits m (i + 1) (c - (i + 1)) : Nat) : Int) - 1) =
            ((count_bits m (i + 1) (c - (i + 1)) : Nat) : Int) := by omega
        rw [e]
        exact ih (i + 1) (by omega) (by omega)
      · rw [if_neg hb, if_neg hb, Nat.zero_add]
        exact ih (i + 1) (by omega) (by omega)

theorem count_bits_pos (m i n c : Nat) (h1 : i ≤ c) (h2 : c < i + n) (hc : m.testBit c = true) :
    0 < count_bits m i n := by
  induction n generalizing i with
  | zero => omega
  | succ n ih =>
    rw [count_bits_succ]
    by_cases hi : c = i
    · subst hi
      rw [if_pos hc]
      omega
    · have := ih (i + 1) (by omega) (by omega)
      omega

/-- A bit set in `m` is set in `m2` when the two masks yield the same channel
at every index below the number of set bits, which they share. -/
theorem native_bit_transfer (m m2 c : Nat) (hp : count_bits m 0 64 = count_bits m2 0 64)
    (h : ∀ k : Nat, k < count_bits m 0 64 →
      native_channel m 64 0 (k : Int) = native_channel m2 64 0 (k : Int))
    (hc64 : c < 64) (hc : m.testBit c = true) : m2.testBit c = true := by
  have hlt : count_bits m 0 c < count_bits m 0 64 := by
    have e := count_bits_add m 0 c (64 - c)
    rw [show c + (64 - c) = 64 by omega] at e
    have := count_bits_pos m (0 + c) (64 - c) c (by omega) (by omega) hc
    omega
  have e1 := native_channel_of_bit m 64 0 c (Nat.zero_le _) (by omega) hc
  rw [Nat.sub_zero] at e1
  have e2 := h _ hlt
  obtain ⟨c2, d1, _, _, d4, _⟩ := native_channel_spec m2 64 0 (count_bits m 0 c) (by omega)
  rw [e1] at e2
  rw [← e2] at d1
  have : c = c2 := by omega
  rw [this]
  exact d4

theorem native_masks_eq (m m2 : Nat) (hm : m < 18446744073709551616)
    (hm2 : m2 < 18446744073709551616) (hp : count_bits m 0 64 = count_bits m2 0 64)
    (h : ∀ k : Nat, k < count_bits m 0 64 →
      native_channel m 64 0 (k : Int) = native_channel m2 64 0 (k : Int)) : m = m2 := by
  apply Nat.eq_of_testBit_eq
  intro c
  by_cases hc64 : c < 64
  · cases h1 : m.testBit c with
    | true => exact (native_bit_transfer m m2 c hp h hc64 h1).symm
    | false =>
      cases h2 : m2.testBit c with
      | false => rfl
      | true =>
        have := native_bit_transfer m2 m c hp.symm (fun k hk => (h k (by omega)).symm) hc64 h2
        rw [h1] at this
        exact Bool.noConfusion this
  · have p : (18446744073709551616 : Nat) ≤ 2 ^ c := by
      have : (2 : Nat) ^ 64 ≤ 2 ^ c := Nat.pow_le_pow_right (by decide) (by omega)
      exact this
    rw [Nat.testBit_lt_two_pow (Nat.lt_of_lt_of_le hm p),
      Nat.testBit_lt_two_pow (Nat.lt_of_lt_of_le hm2 p)]

theorem compare_channels_range (a b : AVChannelLayout) (n i : Nat) :
    (compare_channels a b n i = 0 ∨ compare_channels a b n i = 1) ∧
    (compare_channels a b n i = 0 ↔ ∀ k : Nat, i ≤ k → k < i + n →
      av_channel_layout_get_channel a (k : Int) = av_channel_layout_get_channel b (k : Int)) := by
  induction n generalizing i with
  | zero =>
    unfold compare_channels
    exact ⟨Or.inl rfl, ⟨fun _ k h1 h2 => by omega, fun _ => rfl⟩⟩
  | succ n ih =>
    unfold compare_channels
    by_cases he : av_channel_layout_get_channel a (i : Int) = av_channel_layout_get_channel b (i : Int)
    · rw [if_neg (not_not.mpr he)]
      refine ⟨(ih (i + 1)).1, ?_⟩
      rw [(ih (i + 1)).2]
      constructor
      · intro h k h1 h2
        by_cases hk : k = i
        · rw [hk]; exact he
        · exact h k (by omega) (by omega)
      · intro h k h1 h2
        exact h k (by omega) (by omega)
    · rw [if_pos he]
      refine ⟨Or.inr rfl, ?_⟩
      constructor
      · intro h; exact absurd h (by decide)
      · intro h; exact absurd (h i (Nat.le_refl _) (by omega)) he
theorem subset_loop_or (l : AVChannelLayout) (mask n i ret : Nat) :
    subset_loop l mask n i ret = ret ||| subset_loop l mask n i 0 := by
  induction n generalizing i ret with
  | zero =>
    unfold subset_loop
    exact (Nat.or_zero ret).symm
  | succ n ih =>
    unfold subset_loop
    by_cases h : mask &&& 2 ^ i ≠ 0 ∧ av_channel_layout_channel_index l (i : Int) ≥ 0
    · rw [if_pos h, if_pos h, ih (i + 1) (ret ||| 2 ^ i), ih (i + 1) (0 ||| 2 ^ i), Nat.zero_or,
        Nat.or_assoc]
    · rw [if_neg h, if_neg h]
      exact ih (i + 1) ret
theorem from_string_found (str : String) (l l0 : AVChannelLayout)
    (h : from_string_loop str channel_layout_map = some (some l)) :
    av_channel_layout_from_string l0 str = some (0, l) := by
  unfold av_channel_layout_from_string
  rw [h]

set_option maxRecDepth 100000 in
theorem round_trip_table : ∀ i, i < 29 →
    (∀ j, j < i → (map_entry j).1 ≠ (map_entry i).1 ∧
      (map_entry j).2.mask ≠ (map_entry i).2.mask) →
    av_channel_layout_describe (map_entry i).2 = some (map_entry i).1 ∧
    from_string_loop ((map_entry i).1.getD "") channel_layout_map = some (some (map_entry i).2) ∧
    av_channel_layout_compare (map_entry i).2 (map_entry i).2 = 0 := by
  decide

/-- C20 (native layout index round trip): for every 64-bit mask `m`, the layout
built by `av_channel_layout_from_mask` has the native order, `popcount(m)`
channels and the mask `m`; for every `idx` with `0 ≤ idx < popcount(m)`,
`av_channel_layout_get_channel` returns the bit position `c` of the `idx`-th
lowest set bit of `m` (bit `c` is set and exactly `idx` bits below it are set),
and `av_channel_layout_channel_index` maps this channel back to `idx`; for
`idx < 0` or `idx ≥ nb_channels`, `av_channel_layout_get_channel` returns the
negative error `AVERROR(EINVAL)`. -/
theorem native_index_round_trip (m : Nat) (hm : m < 18446744073709551616) :
    (av_channel_layout_from_mask m).order = AV_CHANNEL_ORDER_NATIVE ∧
    (av_channel_layout_from_mask m).nb_channels = (av_popcount64 m : Nat) ∧
    (av_channel_layout_from_mask m).mask = m ∧
    (∀ idx : Int, 0 ≤ idx → idx < (av_popcount64 m : Nat) →
      ∃ c : Nat, av_channel_layout_get_channel (av_channel_layout_from_mask m) idx = (c : Int) ∧
        c < 64 ∧ m.testBit c = true ∧ ((count_bits m 0 c : Nat) : Int) = idx ∧
        av_channel_layout_channel_index (av_channel_layout_from_mask m)
          (av_channel_layout_get_channel (av_channel_layout_from_mask m) idx) = idx) ∧
    (∀ idx : Int, idx < 0 ∨ idx ≥ (av_channel_layout_from_mask m).nb_channels →
      av_channel_layout_get_channel (av_channel_layout_from_mask m) idx = AVERROR_EINVAL ∧
      av_channel_layout_get_channel (av_channel_layout_from_mask m) idx < 0) := by
  have _ := hm
  refine ⟨rfl, rfl, rfl, fun idx h0 h1 => ?_, fun idx h => ?_⟩
  · obtain ⟨k, rfl⟩ : ∃ k : Nat, idx = (k : Int) := ⟨idx.toNat, by omega⟩
    have hk : k < count_bits m 0 64 := by
      unfold av_popcount64 at h1
      omega
    obtain ⟨c, c1, _, c3, c4, c5⟩ := native_channel_spec m 64 0 k hk
    have hget : av_channel_layout_get_channel (av_channel_layout_from_mask m) (k : Int) =
        (c : Int) := by
      unfold av_channel_layout_get_channel av_channel_layout_from_mask
      dsimp only
      rw [if_neg (by omega), if_neg (by decide), if_pos rfl]
      exact c1
    refine ⟨c, hget, by omega, c4, by rw [← c5, Nat.sub_zero], ?_⟩
    rw [hget]
    have hbit : channel_bit (c : Int) = 2 ^ c := by
      unfold channel_bit
      rw [if_pos (by omega), Int.toNat_ofNat]
    unfold av_channel_layout_channel_index av_channel_layout_from_mask
    dsimp only
    rw [if_neg (by decide), if_pos rfl, hbit, if_neg (and_two_pow_ne_zero m c c4),
      popcount_below m c (by omega), ← c5, Nat.sub_zero]
  · have he : av_channel_layout_get_channel (av_channel_layout_from_mask m) idx =
        AVERROR_EINVAL := by
      unfold av_channel_layout_get_channel
      rw [if_pos h]
    rw [he]
    exact ⟨rfl, by decide⟩

/-- Witness for C20: the mask `0x60F` (front left, front right, front center,
low frequency, side left, side right); the channel with index 4 is channel 9
(side left), whose index is 4 again. -/
theorem native_index_round_trip_witness :
    (0x60F < 18446744073709551616 ∧ av_popcount64 0x60F = 6) ∧
    av_channel_layout_get_channel (av_channel_layout_from_mask 0x60F) 4 = 9 ∧
    av_channel_layout_channel_index (av_channel_layout_from_mask 0x60F) 9 = 4 ∧
    ∃ c : Nat, av_channel_layout_get_channel (av_channel_layout_from_mask 0x60F) 4 = (c : Int) ∧
      c < 64 ∧ Nat.testBit 0x60F c = true ∧ ((count_bits 0x60F 0 c : Nat) : Int) = 4 ∧
      av_channel_layout_channel_index (av_channel_layout_from_mask 0x60F)
        (av_channel_layout_get_channel (av_channel_layout_from_mask 0x60F) 4) = 4 :=
  ⟨by decide, by decide, by decide,
   (native_index_round_trip 0x60F (by decide)).2.2.2.1 4 (by decide) (by decide)⟩

/-- C21 (subset of a custom layout): for the custom-order layout holding front
left and front right and the mask `3` of these two channels,
`av_channel_layout_subset` returns the channels of the mask that are present
(`3`) ORed with whatever the uninitialised local `ret` held on entry: with `4`
there the result is `7`, whose bit 2 is set although bit 2 of the mask is
clear; only with `0` there is the result the bitfield `3`. -/
theorem subset_keeps_initial_bits (ret : Nat) :
    av_channel_layout_subset custom_stereo 3 ret = ret ||| 3 ∧
    av_channel_layout_subset custom_stereo 3 0 = 3 ∧
    av_channel_layout_subset custom_stereo 3 4 = 7 ∧
    Nat.testBit (av_channel_layout_subset custom_stereo 3 4) 2 = true ∧
    Nat.testBit 3 2 = false := by
  have h0 : av_channel_layout_subset custom_stereo 3 0 = 3 := by decide
  refine ⟨?_, h0, by decide, by decide, by decide⟩
  unfold av_channel_layout_subset at h0 ⊢
  rw [if_neg (by decide)] at h0 ⊢
  rw [subset_loop_or, h0]

/-- C22 (layout comparison decides semantic equality): for every pair of layouts
`a` and `b` that `av_channel_layout_check` accepts (their masks being 64-bit
values), `av_channel_layout_compare` returns `0` if and only if both have the
same channel count and either both are `AV_CHANNEL_ORDER_UNSPEC`, or neither is
and `av_channel_layout_get_channel` yields the same channel at every index
`0 ≤ i < nb_channels` (whatever the two orders, native or custom); it returns
`1` otherwise. -/
theorem compare_decides_equality (a b : AVChannelLayout)
    (ha : av_channel_layout_check (some a) = 1) (hb : av_channel_layout_check (some b) = 1)
    (hma : a.mask < 18446744073709551616) (hmb : b.mask < 18446744073709551616) :
    (av_channel_layout_compare a b = 0 ↔
      a.nb_channels = b.nb_channels ∧
      ((a.order = AV_CHANNEL_ORDER_UNSPEC ∧ b.order = AV_CHANNEL_ORDER_UNSPEC) ∨
       (a.order ≠ AV_CHANNEL_ORDER_UNSPEC ∧ b.order ≠ AV_CHANNEL_ORDER_UNSPEC ∧
        ∀ i : Int, 0 ≤ i → i < a.nb_channels →
          av_channel_layout_get_channel a i = av_channel_layout_get_channel b i))) ∧
    (av_channel_layout_compare a b = 0 ∨ av_channel_layout_compare a b = 1) := by
  unfold av_channel_layout_check at ha hb
  dsimp only at ha hb
  unfold av_channel_layout_compare
  by_cases hn : a.nb_channels = b.nb_channels
  swap
  · rw [if_pos hn]
    exact ⟨⟨fun h => absurd h (by decide), fun h => absurd h.1 hn⟩, Or.inr rfl⟩
  rw [if_neg (not_not.mpr hn)]
  have hpa : 0 < a.nb_channels := by
    by_cases h : a.nb_channels ≤ 0
    · rw [if_pos h] at ha; exact absurd ha (by decide)
    · omega
  have hpb : 0 < b.nb_channels := by omega
  rw [if_neg (by omega)] at ha hb
  by_cases hua : a.order = AV_CHANNEL_ORDER_UNSPEC
  · by_cases hub : b.order = AV_CHANNEL_ORDER_UNSPEC
    · rw [if_neg (by rw [decide_eq_true hua, decide_eq_true hub]; exact fun h => h rfl),
        if_pos hua]
      exact ⟨⟨fun _ => ⟨hn, Or.inl ⟨hua, hub⟩⟩, fun _ => rfl⟩, Or.inl rfl⟩
    · rw [if_pos (by rw [decide_eq_true hua, decide_eq_false hub]; exact Bool.noConfusion)]
      refine ⟨⟨fun h => absurd h (by decide), fun h => ?_⟩, Or.inr rfl⟩
      rcases h.2 with h1 | h1
      · exact absurd h1.2 hub
      · exact absurd hua h1.1
  by_cases hub : b.order = AV_CHANNEL_ORDER_UNSPEC
  · rw [if_pos (by rw [decide_eq_false hua, decide_eq_true hub]; exact Bool.noConfusion)]
    refine ⟨⟨fun h => absurd h (by decide), fun h => ?_⟩, Or.inr rfl⟩
    rcases h.2 with h1 | h1
    · exact absurd h1.1 hua
    · exact absurd hub h1.2.1
  rw [if_neg (by rw [decide_eq_false hua, decide_eq_false hub]; exact fun h => h rfl),
    if_neg hua]
  have hrange := compare_channels_range a b a.nb_channels.toNat 0
  have hall : (∀ i : Int, 0 ≤ i → i < a.nb_channels →
      av_channel_layout_get_channel a i = av_channel_layout_get_channel b i) ↔
      (∀ k : Nat, 0 ≤ k → k < 0 + a.nb_channels.toNat →
        av_channel_layout_get_channel a (k : Int) = av_channel_layout_get_channel b (k : Int)) := by
    constructor
    · intro h k _ h2
      exact h (k : Int) (by omega) (by omega)
    · intro h i h1 h2
      have := h i.toNat (Nat.zero_le _) (by omega)
      rw [Int.toNat_of_nonneg h1] at this
      exact this
  by_cases hsame : a.order ≠ AV_CHANNEL_ORDER_CUSTOM ∧ a.order = b.order
  swap
  · rw [if_neg hsame]
    refine ⟨?_, hrange.1⟩
    rw [hrange.2, ← hall]
    exact ⟨fun h => ⟨hn, Or.inr ⟨hua, hub, h⟩⟩,
      fun h => h.2.elim (fun h1 => absurd h1.1 hua) (fun h1 => h1.2.2)⟩
  rw [if_pos hsame]
  have hna : a.order = AV_CHANNEL_ORDER_NATIVE := by
    by_cases h : a.order = AV_CHANNEL_ORDER_NATIVE
    · exact h
    · rw [if_neg h, if_neg hsame.1, if_neg hua] at ha
      exact absurd ha (by decide)
  have hnb : b.order = AV_CHANNEL_ORDER_NATIVE := by rw [← hsame.2]; exact hna
  rw [if_pos hna] at ha
  rw [if_pos hnb] at hb
  have hca : ((av_popcount64 a.mask : Nat) : Int) = a.nb_channels := by
    by_cases h : ((av_popcount64 a.mask : Nat) : Int) = a.nb_channels
    · exact h
    · rw [if_neg h] at ha; exact absurd ha (by decide)
  have hcb : ((av_popcount64 b.mask : Nat) : Int) = b.nb_channels := by
    by_cases h : ((av_popcount64 b.mask : Nat) : Int) = b.nb_channels
    · exact h
    · rw [if_neg h] at hb; exact absurd hb (by decide)
  unfold av_popcount64 at hca hcb
  have hget : ∀ (l : AVChannelLayout) (i : Int), l.order = AV_CHANNEL_ORDER_NATIVE →
      0 ≤ i → i < l.nb_channels →
      av_channel_layout_get_channel l i = native_channel l.mask 64 0 i := by
    intro l i hl h1 h2
    unfold av_channel_layout_get_channel
    rw [if_neg (by omega), if_neg (by rw [hl]; decide), if_pos hl]
  by_cases hmask : a.mask = b.mask
  · rw [if_neg (not_not.mpr hmask)]
    refine ⟨⟨fun _ => ⟨hn, Or.inr ⟨hua, hub, fun i h1 h2 => ?_⟩⟩, fun _ => rfl⟩, Or.inl rfl⟩
    rw [hget a i hna h1 h2, hget b i hnb h1 (by omega), hmask]
  · rw [if_pos hmask]
    refine ⟨⟨fun h => absurd h (by decide), fun h => ?_⟩, Or.inr rfl⟩
    rcases h.2 with h1 | h1
    · exact absurd h1.1 hua
    · refine absurd (native_masks_eq a.mask b.mask hma hmb (by omega) (fun k hk => ?_)) hmask
      have := h1.2.2 (k : Int) (by omega) (by omega)
      rw [hget a _ hna (by omega) (by omega), hget b _ hnb (by omega) (by omega)] at this
      exact this

/-- Witness for C22: the native stereo layout and the custom layout holding
front left and front right are both valid and compare equal. -/
theorem compare_decides_equality_witness :
    av_channel_layout_check (some AV_CHANNEL_LAYOUT_STEREO) = 1 ∧
    av_channel_layout_check (some custom_stereo) = 1 ∧
    av_channel_layout_compare AV_CHANNEL_LAYOUT_STEREO custom_stereo = 0 ∧
    (av_channel_layout_compare AV_CHANNEL_LAYOUT_STEREO custom_stereo = 0 ↔
      AV_CHANNEL_LAYOUT_STEREO.nb_channels = custom_stereo.nb_channels ∧
      ((AV_CHANNEL_LAYOUT_STEREO.order = AV_CHANNEL_ORDER_UNSPEC ∧
          custom_stereo.order = AV_CHANNEL_ORDER_UNSPEC) ∨
       (AV_CHANNEL_LAYOUT_STEREO.order ≠ AV_CHANNEL_ORDER_UNSPEC ∧
        custom_stereo.order ≠ AV_CHANNEL_ORDER_UNSPEC ∧
        ∀ i : Int, 0 ≤ i → i < AV_CHANNEL_LAYOUT_STEREO.nb_channels →
          av_channel_layout_get_channel AV_CHANNEL_LAYOUT_STEREO i =
            av_channel_layout_get_channel custom_stereo i))) :=
  ⟨by decide, by decide, by decide,
   (compare_decides_equality AV_CHANNEL_LAYOUT_STEREO custom_stereo (by decide) (by decide)
      (by decide) (by decide)).1⟩

/-- Counterexample for C23: `AV_CHANNEL_LAYOUT_STEREO_DOWNMIX` is the third entry
of `channel_layout_map` and a valid layout; `av_channel_layout_describe` returns
"stereo" for it, which `av_channel_layout_from_string` parses to
`AV_CHANNEL_LAYOUT_STEREO`, the first entry of that name, and
`av_channel_layout_compare` returns `1` for the two. -/
theorem downmix_parses_back_as_stereo :
    map_entry 2 = (some "stereo", AV_CHANNEL_LAYOUT_STEREO_DOWNMIX) ∧
    av_channel_layout_check (some AV_CHANNEL_LAYOUT_STEREO_DOWNMIX) = 1 ∧
    av_channel_layout_describe AV_CHANNEL_LAYOUT_STEREO_DOWNMIX = some (some "stereo") ∧
    av_channel_layout_from_string cleared_layout "stereo" = some (0, AV_CHANNEL_LAYOUT_STEREO) ∧
    av_channel_layout_compare AV_CHANNEL_LAYOUT_STEREO_DOWNMIX AV_CHANNEL_LAYOUT_STEREO = 1 ∧
    ¬ (∃ r, parsed_layout "stereo" = some r ∧
        av_channel_layout_compare AV_CHANNEL_LAYOUT_STEREO_DOWNMIX r = 0) := by
  refine ⟨by decide, by decide, by decide, by decide, by decide, ?_⟩
  rintro ⟨r, h1, h2⟩
  have e : parsed_layout "stereo" = some AV_CHANNEL_LAYOUT_STEREO := by decide
  rw [e] at h1
  cases h1
  exact absurd h2 (by decide)

/-- C23 (describe/parse round trip, amended): for every entry `i` of
`channel_layout_map` before the terminator whose name and whose mask both occur
in no earlier entry, `av_channel_layout_describe` applied to the entry's layout
returns the entry's name, `av_channel_layout_from_string` applied to this name
returns `0` and stores the entry's layout, whatever the destination held
before, and `av_channel_layout_compare` returns `0` for the layout and the
parsed one. -/
theorem describe_parse_round_trip (i : Nat) (name : String) (l0 : AVChannelLayout)
    (hi : i < 29) (hname : (map_entry i).1 = some name)
    (hfirst : ∀ j, j < i → (map_entry j).1 ≠ some name ∧
      (map_entry j).2.mask ≠ (map_entry i).2.mask) :
    av_channel_layout_describe (map_entry i).2 = some (some name) ∧
    ∃ r, av_channel_layout_from_string l0 name = some (0, r) ∧ r = (map_entry i).2 ∧
      av_channel_layout_compare (map_entry i).2 r = 0 := by
  have h := round_trip_table i hi (fun j hj => by rw [hname]; exact hfirst j hj)
  rw [hname] at h
  exact ⟨h.1, (map_entry i).2, from_string_found name _ l0 h.2.1, rfl, h.2.2⟩

/-- Witness for C23: the entry 17, "hexagonal", whose name and mask occur in no
earlier entry. -/
theorem describe_parse_round_trip_witness :
    (map_entry 17).1 = some "hexagonal" ∧
    (∀ j, j < 17 → (map_entry j).1 ≠ some "hexagonal" ∧
      (map_entry j).2.mask ≠ (map_entry 17).2.mask) ∧
    av_channel_layout_describe (map_entry 17).2 = some (some "hexagonal") ∧
    ∃ r, av_channel_layout_from_string custom_stereo "hexagonal" = some (0, r) ∧
      r = (map_entry 17).2 ∧ av_channel_layout_compare (map_entry 17).2 r = 0 :=
  ⟨by decide, by decide,
   describe_parse_round_trip 17 "hexagonal" custom_stereo (by decide) (by decide) (by decide)⟩

/-- C39 (predefined layouts): the entry "hexadecagonal" of `channel_layout_map`
is `AV_CHANNEL_LAYOUT_HEXADECAGONAL`, whose initialiser gives 16 channels and
the mask `AV_CH_LAYOUT_HEXAGONAL` with 6 set bits (the mask
`AV_CH_LAYOUT_HEXADECAGONAL` has 16), so `av_channel_layout_check` returns 0
for it; every other entry before the terminator has the native order and as
many channels as its mask has set bits, and `av_channel_layout_check` returns
1 for it. -/
theorem hexadecagonal_entry_invalid :
    map_entry 27 = (some "hexadecagonal", AV_CHANNEL_LAYOUT_HEXADECAGONAL) ∧
    AV_CHANNEL_LAYOUT_HEXADECAGONAL.order = AV_CHANNEL_ORDER_NATIVE ∧
    AV_CHANNEL_LAYOUT_HEXADECAGONAL.nb_channels = 16 ∧
    AV_CHANNEL_LAYOUT_HEXADECAGONAL.mask = AV_CH_LAYOUT_HEXAGONAL ∧
    av_popcount64 AV_CHANNEL_LAYOUT_HEXADECAGONAL.mask = 6 ∧
    av_popcount64 AV_CH_LAYOUT_HEXADECAGONAL = 16 ∧
    av_channel_layout_check (some AV_CHANNEL_LAYOUT_HEXADECAGONAL) = 0 ∧
    ∀ i, i < 29 → i ≠ 27 →
      (map_entry i).2.order = AV_CHANNEL_ORDER_NATIVE ∧
      (map_entry i).2.nb_channels = (av_popcount64 (map_entry i).2.mask : Nat) ∧
      av_channel_layout_check (some (map_entry i).2) = 1 := by
  decide

end ChannelLayout
